import Mathlib

/-!
# gendry `builder`: a shallow embedding of the query builder

The Go package `builder` (files `builder.go`, `dao.go`) compiles a predicate
map into a parameterised query text plus a list of bound values.  This file
embeds the package as Lean functions and proves properties of it.

Modelling conventions.

* A Go `string` is a Lean `String`.  Go strings are byte sequences; the model
  covers the well-formed UTF-8 ones.  `strings.IndexByte s ' '` and slicing at
  the index it returns act on whole characters there, and the byte order used
  by `sort.Strings` is the code-point order.
* A Go `map[string]T` is an association list `List (String × T)`.  The order
  of the list is the order in which `range` enumerates the map, which Go leaves
  unspecified; a Go map has pairwise distinct keys, and statements that need it
  say so with `keys.Nodup`.
* A nil slice and an empty slice are both `[]`.
* `interface{}` values are the closed type `Any`.
* Go `uint` is a 64-bit word, held in a `Nat`; the conversion `int(u)` is
  `uintToInt`.
* `strings.ToLower` shifts the upper-case ASCII letters; outside ASCII it
  follows the Unicode case table, the parameter `U` of `ToLower`,
  `getWhereConditions` and `BuildSelect`.  The statements hold for every `U`.
* A function that returns `(result, error)` with a nil result on error is an
  `Except Err`; `BuildSelect`, whose three results the properties speak about,
  returns the triple of text, values and optional error.
* A loop is a recursive function named `f.loop` after the function `f` it
  belongs to; `getWhereConditions` recurses through the value of `_or`, which
  gives the mutual functions `loop`, `orWheres` and `orLoop`.
-/

namespace Builder

/-! ## Values -/

/-- A Go `float64`: not-a-number, an infinity, or the finite number
`(-1)^neg * m * 2^e`. -/
inductive F64 where
  | nan
  | inf (neg : Bool)
  | fin (neg : Bool) (m : Nat) (e : Int)

/-- The Go type `Interval` of `builder.go`. -/
structure Interval where
  /-- magnitude (`uint`) -/
  Value : Nat
  /-- unit (`IntervalUnitType`, a string type) -/
  Unit : String

/-- The values a caller can store under `interface{}`.  Every slice type other
than `[]uint` and `[]map[string]interface{}` is `slice`, with its elements
boxed as `reflect.Value.Interface` boxes them.  The package inspects a value
only through the type assertions and the `reflect` kind test modelled below,
so the values of all remaining types are `other`. -/
inductive Any where
  /-- the nil interface value -/
  | nil
  | int (n : Int)
  | uint (n : Nat)
  | float64 (f : F64)
  | str (s : String)
  | bool (b : Bool)
  /-- a `NullType` byte; `IsNull` is 1 and `IsNotNull` is 2 -/
  | nullType (b : Nat)
  /-- a `*Interval`, `none` for the nil pointer -/
  | interval (i : Option Interval)
  /-- a `FillType` string -/
  | fillType (s : String)
  /-- a `[]uint` -/
  | uintSlice (xs : List Nat)
  /-- any other slice -/
  | slice (xs : List Any)
  /-- a `[]map[string]interface{}`; `none` is a nil map -/
  | mapSlice (ms : List (Option (List (String × Any))))
  /-- a `map[string]interface{}`; `none` is the nil map -/
  | map (m : Option (List (String × Any)))
  /-- a value of any other type, none of them a slice; `id` tells such values
  apart -/
  | other (id : Nat)

/-- A predicate map `map[string]interface{}` in enumeration order. -/
abbrev WhereMap := List (String × Any)

/-- The package's error values (`errors.New` variables and the two formatted
errors of `convertWhereMapToWhereMapSlice`). -/
inductive Err where
  | errSplitEmptyKey
  | ErrUnsupportedOperator
  | errOrValueType
  | errOrderByValueType
  | errGroupByValueType
  | errLimitValueType
  | errLimitValueLength
  | errSLimitValueType
  | errSLimitValueLength
  | errIntervalValueType
  | errIntervalValueError
  | errNeedFillType
  | errFillValue
  | errFillMissValue
  | errFillValueTypeError
  /-- The Go `fmt.Errorf(errWhereInterfaceSliceType, op)` -/
  | errWhereInterfaceSliceType (op : String)
  /-- The Go `fmt.Errorf(errEmptySliceCondition, op)` -/
  | errEmptySliceCondition (op : String)
  | errInsertNullData
  /-- The Go `fmt.Errorf("%s not found", paramName)` of `NamedQuery` -/
  | errNotFound (paramName : String)
deriving DecidableEq

/-- The message of an error value. -/
def Err.Error : Err → String
  | .errSplitEmptyKey => "[builder] couldn't split a empty string"
  | .ErrUnsupportedOperator => "[builder] unsupported operator"
  | .errOrValueType =>
    "[builder] the value of \"_or\" must be of slice of map[string]interface\x7b\x7d type"
  | .errOrderByValueType => "[builder] the value of \"_orderby\" must be of string type"
  | .errGroupByValueType => "[builder] the value of \"_groupby\" must be of string type"
  | .errLimitValueType => "[builder] the value of \"_limit\" must be of []uint type"
  | .errLimitValueLength =>
    "[builder] the value of \"_limit\" must contain one or two uint elements"
  | .errSLimitValueType => "[builder] the value of \"_slimit\" must be of []uint type"
  | .errSLimitValueLength =>
    "[builder] the value of \"_slimit\" must contain one or two uint elements"
  | .errIntervalValueType => "[builder] the value of \"_interval\" must be of *Interval type"
  | .errIntervalValueError => "[builder] the value of \"_interval\" error"
  | .errNeedFillType => "[builder] the value of \"_fill\" must be of FillType"
  | .errFillValue =>
    "[builder] the value of \"_fill\" must be in \"NONE\" \"VALUE\" \"PREV\" \"NULL\" \"LINEAR\" \"NEXT\""
  | .errFillMissValue => "[builder] the value of \"_fill\" is \"VALUE\" miss \"_fillvalue\""
  | .errFillValueTypeError => "[builder] the value of \"_fillvalue\" must be of Float64 type"
  | .errWhereInterfaceSliceType op =>
    "[builder] the value of \"xxx " ++ op ++ "\" must be of []interface\x7b\x7d type"
  | .errEmptySliceCondition op =>
    "[builder] the value of \"" ++ op ++ "\" must contain at least one element"
  | .errInsertNullData => "insert null data"
  | .errNotFound paramName => paramName ++ " not found"

/-! ## Library functions used by the package -/

/-- Go `m[k]`: the entry of the map with key `k`, if any. -/
def lookup {α : Type} (k : String) : List (String × α) → Option α
  | [] => none
  | (k', v) :: rest => if k' = k then some v else lookup k rest

/-- Go `m[k] = v`: replaces the entry with key `k`, or adds one. -/
def insert {α : Type} (k : String) (v : α) : List (String × α) → List (String × α)
  | [] => [(k, v)]
  | (k', v') :: rest => if k' = k then (k, v) :: rest else (k', v') :: insert k v rest

/-- The keys of a map in enumeration order. -/
def keys {α : Type} (m : List (String × α)) : List String := m.map Prod.fst

/-- Byte-wise `a <= b` on strings, as Go compares them. -/
def leChars : List Char → List Char → Bool
  | [], _ => true
  | _ :: _, [] => false
  | a :: as, b :: bs =>
    if a.toNat < b.toNat then true
    else if b.toNat < a.toNat then false
    else leChars as bs

/-- The order of `sort.Strings`. -/
def StrLE (a b : String) : Prop := leChars a.data b.data = true

instance : DecidableRel StrLE := fun a b => inferInstanceAs (Decidable (leChars a.data b.data = true))

/-- Go `sort.Strings` (`defaultSortAlgorithm`): the ascending rearrangement. -/
def defaultSortAlgorithm (l : List String) : List String := List.insertionSort StrLE l

/-- Go `strings.Join`. -/
def Join : List String → String → String
  | [], _ => ""
  | [a], _ => a
  | a :: b :: rest, sep => a ++ sep ++ Join (b :: rest) sep

/-- Go `strings.Trim(s, " ")`, the cutset being the single space. -/
def Trim (s : String) : String :=
  String.mk ((s.data.dropWhile (· == ' ')).reverse.dropWhile (· == ' ')).reverse

/-- Go `unicode.IsSpace`. -/
def isSpace (c : Char) : Bool :=
  let n := c.toNat
  (9 ≤ n && n ≤ 13) || n == 32 || n == 0x85 || n == 0xA0 || n == 0x1680 ||
  (0x2000 ≤ n && n ≤ 0x200a) || n == 0x2028 || n == 0x2029 || n == 0x202f ||
  n == 0x205f || n == 0x3000

/-- Go `strings.TrimSpace`. -/
def TrimSpace (s : String) : String :=
  String.mk ((s.data.dropWhile isSpace).reverse.dropWhile isSpace).reverse

/-- Go `strings.IndexByte(s, ' ')`, `none` for `-1`. -/
def IndexByte : List Char → Option Nat
  | [] => none
  | c :: cs => if c = ' ' then some 0 else (IndexByte cs).map (· + 1)

/-- Go `unicode.ToLower` on one character.  The upper-case ASCII letters are
shifted by 32; the mapping of the characters outside ASCII is the Unicode case
table `U`, which the package does not define. -/
def toLowerRune (U : Char → Char) (c : Char) : Char :=
  if c.toNat < 128 then c.toLower else U c

/-- Go `strings.ToLower`. -/
def ToLower (U : Char → Char) (s : String) : String :=
  String.mk (s.data.map (toLowerRune U))

/-- Go `int(u)` for a `uint` `u`: the same 64-bit word read as signed. -/
def uintToInt (u : Nat) : Int :=
  if u % 2 ^ 64 < 2 ^ 63 then Int.ofNat (u % 2 ^ 64) else Int.ofNat (u % 2 ^ 64) - 2 ^ 64

/-- The quotient `num / den` rounded to the nearest integer, ties to even. -/
def roundHalfEven (num den : Nat) : Nat :=
  let q := num / den
  let r := num % den
  if den < 2 * r ∨ (2 * r = den ∧ q % 2 = 1) then q + 1 else q

/-- The number `m * 2^e * 10^6` rounded to an integer. -/
def scaled6 (m : Nat) : Int → Nat
  | .ofNat k => m * 2 ^ k * 1000000
  | .negSucc k => roundHalfEven (m * 1000000) (2 ^ (k + 1))

/-- Six decimal digits of `n`, zero-padded on the left. -/
def pad6 (n : Nat) : String :=
  let d := Nat.repr n
  String.mk (List.replicate (6 - d.length) '0') ++ d

/-- Go `fmt.Sprintf("%f", v)`: six digits after the point. -/
def sprintf_f : F64 → String
  | .nan => "NaN"
  | .inf false => "+Inf"
  | .inf true => "-Inf"
  | .fin neg m e =>
    let n := scaled6 m e
    (if neg then "-" else "") ++ Nat.repr (n / 1000000) ++ "." ++ pad6 (n % 1000000)

/-! ## `dao.go`: fragments and their rendering -/

/-- The Go `NullType.String`. -/
def NullType.String (nt : Nat) : String :=
  if nt = 1 then "is null" else "is not null"

/-- The implementations of the interface `Comparable`. -/
inductive Comparable where
  | nullCompareble (n : List (String × Any))
  | Like (l : List (String × Any))
  | NotLike (l : List (String × Any))
  | Eq (e : List (String × Any))
  | Ne (n : List (String × Any))
  | Lt (l : List (String × Any))
  | Lte (l : List (String × Any))
  | Gt (g : List (String × Any))
  | Gte (g : List (String × Any))
  | In (i : List (String × List Any))
  | NotIn (i : List (String × List Any))
  | Between (bt : List (String × List Any))
  | NotBetween (nbt : List (String × List Any))
  | NestWhere (nw : List Comparable)
  | OrWhere (ow : List Comparable)

/-- The Go `assembleExpression`. -/
def assembleExpression (field op : String) : String :=
  field ++ op ++ "?"

/-- The Go `build`: the keys sorted, one `field<op>?` and one value per key. -/
def build (m : List (String × Any)) (op : String) : List String × List Any :=
  if m.length = 0 then ([], [])
  else
    let cond := defaultSortAlgorithm (keys m)
    (cond.map (fun k => assembleExpression k op), cond.map (fun k => (lookup k m).getD Any.nil))

/-- The Go `nullCompareble.Build`: the entries that are not of `NullType` are skipped. -/
def nullCompareble.Build (n : List (String × Any)) : List String × List Any :=
  if n.length = 0 then ([], [])
  else
    let sortedKey := defaultSortAlgorithm (keys n)
    (sortedKey.filterMap (fun field =>
        match lookup field n with
        | some (Any.nullType rv) => some (field ++ " " ++ NullType.String rv)
        | _ => none),
     [])

/-- The Go `Like.Build`. -/
def Like.Build (l : List (String × Any)) : List String × List Any :=
  if l.length = 0 then ([], [])
  else
    let cond := defaultSortAlgorithm (keys l)
    (cond.map (fun k => k ++ " like ?"), cond.map (fun k => (lookup k l).getD Any.nil))

/-- The Go `NotLike.Build`. -/
def NotLike.Build (l : List (String × Any)) : List String × List Any :=
  if l.length = 0 then ([], [])
  else
    let cond := defaultSortAlgorithm (keys l)
    (cond.map (fun k => k ++ " not like ?"), cond.map (fun k => (lookup k l).getD Any.nil))

/-- The loop of `buildIn` and `buildNotIn`: `n` marks separated by commas. -/
def writePlaceholders : Nat → String
  | 0 => ""
  | 1 => "?"
  | n + 2 => "?," ++ writePlaceholders (n + 1)

/-- The Go `buildIn`. -/
def buildIn (field : String) (vals : List Any) : String :=
  field ++ " in (" ++ writePlaceholders vals.length ++ ")"

/-- The Go `buildNotIn`. -/
def buildNotIn (field : String) (vals : List Any) : String :=
  field ++ " not in (" ++ writePlaceholders vals.length ++ ")"

/-- The Go `In.Build`. -/
def In.Build (i : List (String × List Any)) : List String × List Any :=
  if i.length = 0 then ([], [])
  else
    let cond := defaultSortAlgorithm (keys i)
    (cond.map (fun k => buildIn k ((lookup k i).getD [])),
     (cond.map (fun k => (lookup k i).getD [])).flatten)

/-- The Go `NotIn.Build`. -/
def NotIn.Build (i : List (String × List Any)) : List String × List Any :=
  if i.length = 0 then ([], [])
  else
    let cond := defaultSortAlgorithm (keys i)
    (cond.map (fun k => buildNotIn k ((lookup k i).getD [])),
     (cond.map (fun k => (lookup k i).getD [])).flatten)

/-- The Go `buildBetween`; `none` is the error return. -/
def buildBetween (notBetween : Bool) (key : String) (vals : List Any) : Option String :=
  if vals.length ≠ 2 then none
  else
    let operator := if notBetween then "not between" else "between"
    some ("(" ++ key ++ " " ++ operator ++ " ? and ?)")

/-- The second loop of `betweenBuilder`: on an error of `buildBetween` the
slot `cond[j]` keeps the key and no value is added. -/
def betweenBuilder.loop (bt : List (String × List Any)) (notBetween : Bool) :
    List String → List String × List Any
  | [] => ([], [])
  | k :: rest =>
    let val := (lookup k bt).getD []
    let r := betweenBuilder.loop bt notBetween rest
    match buildBetween notBetween k val with
    | none => (k :: r.1, r.2)
    | some cond_j => (cond_j :: r.1, val ++ r.2)

/-- The Go `betweenBuilder`. -/
def betweenBuilder (bt : List (String × List Any)) (notBetween : Bool) :
    List String × List Any :=
  if bt.length = 0 then ([], [])
  else betweenBuilder.loop bt notBetween (defaultSortAlgorithm (keys bt))

/-- The tail of `whereConnector`, from the texts and values its loop collected. -/
def whereConnector.finish (andOr : String) (r : List String × List Any) : String × List Any :=
  if r.1.length = 0 then ("", [])
  else ("(" ++ Join r.1 (" " ++ andOr ++ " ") ++ ")", r.2)

mutual
/-- The method `Build` of each implementation of `Comparable`.  `NestWhere` and
`OrWhere` call `whereConnector`, written here as its loop followed by its tail;
`whereConnector_eq` shows that this is `whereConnector`. -/
def Comparable.Build : Comparable → List String × List Any
  | .nullCompareble n => nullCompareble.Build n
  | .Like l => Like.Build l
  | .NotLike l => NotLike.Build l
  | .Eq e => build e "="
  | .Ne n => build n "!="
  | .Lt l => build l "<"
  | .Lte l => build l "<="
  | .Gt g => build g ">"
  | .Gte g => build g ">="
  | .In i => In.Build i
  | .NotIn i => NotIn.Build i
  | .Between bt => betweenBuilder bt false
  | .NotBetween nbt => betweenBuilder nbt true
  | .NestWhere nw =>
    let r := whereConnector.finish "and" (whereConnector.loop nw)
    ([r.1], r.2)
  | .OrWhere ow =>
    let r := whereConnector.finish "or" (whereConnector.loop ow)
    ([r.1], r.2)
/-- The loop of `whereConnector`: the texts and the values of the conditions,
concatenated in order.  Go skips a condition whose texts are the nil slice;
every `Build` that returns nil texts returns nil values, so appending both
empty lists is the same. -/
def whereConnector.loop : List Comparable → List String × List Any
  | [] => ([], [])
  | cond :: rest =>
    let b := cond.Build
    let r := whereConnector.loop rest
    (b.1 ++ r.1, b.2 ++ r.2)
end

/-- The Go `whereConnector`. -/
def whereConnector (andOr : String) (conditions : List Comparable) : String × List Any :=
  if conditions.length = 0 then ("", [])
  else whereConnector.finish andOr (whereConnector.loop conditions)

/-- The Go `eleLimit`. -/
structure eleLimit where
  begin : Nat
  step : Nat

/-- The Go `buildSelect`. -/
def buildSelect (table : String) (uFields : List String) (groupBy orderBy : String)
    (sLimit limit : Option eleLimit) (interval fill : String)
    (conditions : List Comparable) : String × List Any × Option Err :=
  let fields := if 0 < uFields.length then Join uFields "," else "*"
  let bd := "select " ++ fields ++ " from " ++ table
  let w := whereConnector "and" conditions
  let bd := if w.1 ≠ "" then bd ++ " where " ++ w.1 else bd
  let vals := w.2
  let bd := if interval ≠ "" then bd ++ " interval(" ++ interval ++ ")" else bd
  let bd := if fill ≠ "" then bd ++ " fill " ++ fill else bd
  let bd := if groupBy ≠ "" then bd ++ " group by " ++ groupBy else bd
  let bd := if orderBy ≠ "" then bd ++ " order by " ++ orderBy else bd
  let (bd, vals) := match sLimit with
    | some l => (bd ++ " slimit ?,?", vals ++ [Any.int (uintToInt l.begin), Any.int (uintToInt l.step)])
    | none => (bd, vals)
  let (bd, vals) := match limit with
    | some l => (bd ++ " limit ?,?", vals ++ [Any.int (uintToInt l.begin), Any.int (uintToInt l.step)])
    | none => (bd, vals)
  (bd, vals, none)

/-! ## `builder.go`: from the predicate map to the fragments -/

/-- The Go `defaultIgnoreKeys`. -/
def defaultIgnoreKeys : List String :=
  ["_orderby", "_groupby", "_limit", "_slimit", "_interval", "_fill", "_fillvalue"]

/-- The Go `whereMapSet`: operator, then field, then value. -/
structure whereMapSet where
  set : List (String × List (String × Any))

/-- The Go `whereMapSet.add`. -/
def whereMapSet.add (w : whereMapSet) (op field : String) (val : Any) : whereMapSet :=
  let s := (lookup op w.set).getD []
  whereMapSet.mk (insert op (insert field val s) w.set)

/-- The Go `isStringInSlice`. -/
def isStringInSlice (str : String) : List String → Bool
  | [] => false
  | s :: arr => if s = str then true else isStringInSlice str arr

def opEq : String := "="
def opNe1 : String := "!="
def opNe2 : String := "<>"
def opIn : String := "in"
def opNotIn : String := "not in"
def opGt : String := ">"
def opGte : String := ">="
def opLt : String := "<"
def opLte : String := "<="
def opLike : String := "like"
def opNotLike : String := "not like"
def opBetween : String := "between"
def opNotBetween : String := "not between"
def opNull : String := "null"

/-- The Go `opOrder`. -/
def opOrder : List String :=
  [opEq, opIn, opNe1, opNe2, opNotIn, opGt, opGte, opLt, opLte, opLike, opNotLike,
   opBetween, opNotBetween, opNull]

/-- The Go `reflect.ValueOf(val).Kind() == reflect.Slice`. -/
def isSlice : Any → Bool
  | .uintSlice _ => true
  | .slice _ => true
  | .mapSlice _ => true
  | _ => false

/-- The type assertion `val.(NullType)`. -/
def isNullType : Any → Bool
  | .nullType _ => true
  | _ => false

/-- The Go `convertInterfaceToMap`; `none` is the `false` return. -/
def convertInterfaceToMap : Any → Option (List Any)
  | .uintSlice xs => some (xs.map Any.uint)
  | .slice xs => some xs
  | .mapSlice ms => some (ms.map Any.map)
  | _ => none

/-- The loop of `convertWhereMapToWhereMapSlice`. -/
def convertWhereMapToWhereMapSlice.loop (op : String) :
    List (String × Any) → List (String × List Any) → Except Err (List (String × List Any))
  | [], result => .ok result
  | (key, val) :: rest, result =>
    match convertInterfaceToMap val with
    | none => .error (.errWhereInterfaceSliceType op)
    | some vals =>
      if vals.length = 0 then .error (.errEmptySliceCondition op)
      else convertWhereMapToWhereMapSlice.loop op rest (insert key vals result)

/-- The Go `convertWhereMapToWhereMapSlice`. -/
def convertWhereMapToWhereMapSlice (wh : List (String × Any)) (op : String) :
    Except Err (List (String × List Any)) :=
  convertWhereMapToWhereMapSlice.loop op wh []

/-- The Go `op2Comparable`: the producer registered for an operator, if any. -/
def op2Comparable (operator : String) :
    Option (List (String × Any) → Except Err Comparable) :=
  if operator = opEq then some (fun m => .ok (.Eq m))
  else if operator = opNe1 then some (fun m => .ok (.Ne m))
  else if operator = opNe2 then some (fun m => .ok (.Ne m))
  else if operator = opIn then
    some (fun m => (convertWhereMapToWhereMapSlice m opIn).map Comparable.In)
  else if operator = opNotIn then
    some (fun m => (convertWhereMapToWhereMapSlice m opNotIn).map Comparable.NotIn)
  else if operator = opBetween then
    some (fun m => (convertWhereMapToWhereMapSlice m opBetween).map Comparable.Between)
  else if operator = opNotBetween then
    some (fun m => (convertWhereMapToWhereMapSlice m opNotBetween).map Comparable.NotBetween)
  else if operator = opGt then some (fun m => .ok (.Gt m))
  else if operator = opGte then some (fun m => .ok (.Gte m))
  else if operator = opLt then some (fun m => .ok (.Lt m))
  else if operator = opLte then some (fun m => .ok (.Lte m))
  else if operator = opLike then some (fun m => .ok (.Like m))
  else if operator = opNotLike then some (fun m => .ok (.NotLike m))
  else if operator = opNull then some (fun m => .ok (.nullCompareble m))
  else none

/-- The loop of `buildWhereCondition` over the operators still to visit. -/
def buildWhereCondition.loop (mapSet : whereMapSet) :
    List String → List Comparable → Except Err (List Comparable)
  | [], cpArr => .ok cpArr
  | operator :: rest, cpArr =>
    match lookup operator mapSet.set with
    | none => buildWhereCondition.loop mapSet rest cpArr
    | some whereMap =>
      match op2Comparable operator with
      | none => .error .ErrUnsupportedOperator
      | some f =>
        match f whereMap with
        | .error err => .error err
        | .ok cp => buildWhereCondition.loop mapSet rest (cpArr ++ [cp])

/-- The Go `buildWhereCondition`. -/
def buildWhereCondition (mapSet : whereMapSet) : Except Err (List Comparable) :=
  buildWhereCondition.loop mapSet opOrder []

/-- The loop of `removeInnerSpace`: `rest` is `operator[i:]`; the result is the
index of the last space of the run of spaces that starts at `firstSpace`. -/
def removeInnerSpace.loop : List Char → Nat → Nat → Nat
  | [], _, lastSpace => lastSpace
  | c :: rest, i, lastSpace =>
    if c = ' ' then removeInnerSpace.loop rest (i + 1) i else lastSpace

/-- The Go `removeInnerSpace`. -/
def removeInnerSpace (operator : String) : String :=
  match IndexByte operator.data with
  | none => operator
  | some firstSpace =>
    let lastSpace :=
      removeInnerSpace.loop (operator.data.drop (firstSpace + 1)) (firstSpace + 1) firstSpace
    String.mk (operator.data.take firstSpace ++ operator.data.drop lastSpace)

/-- The Go `splitKey`: the field and the operator of a key. -/
def splitKey (key : String) (val : Any) : Except Err (String × String) :=
  let key := Trim key
  if key = "" then .error .errSplitEmptyKey
  else
    match IndexByte key.data with
    | none => .ok (key, if isSlice val then "in" else "=")
    | some idx =>
      .ok (String.mk (key.data.take idx),
           removeInnerSpace (Trim (String.mk (key.data.drop (idx + 1)))))

/-- The tail of `getWhereConditions`, after its loop over the entries. -/
def getWhereConditions.finish (r : Except Err (whereMapSet × List Comparable)) :
    Except Err (List Comparable) :=
  match r with
  | .error err => .error err
  | .ok (wms, comparables) =>
    match buildWhereCondition wms with
    | .error err => .error err
    | .ok whereComparables => .ok (comparables ++ whereComparables)

mutual
/-- The loop `for key, val := range where` of `getWhereConditions`, with the
bucket set and the fragments collected so far. -/
def getWhereConditions.loop (U : Char → Char) (ignoreKeys : List String) :
    List (String × Any) → whereMapSet → List Comparable →
    Except Err (whereMapSet × List Comparable)
  | [], wms, comparables => .ok (wms, comparables)
  | (key, val) :: rest, wms, comparables =>
    if key ∈ ignoreKeys then getWhereConditions.loop U ignoreKeys rest wms comparables
    else if key = "_or" then
      match getWhereConditions.orWheres U ignoreKeys val with
      | .error err => .error err
      | .ok orWhereComparable =>
        getWhereConditions.loop U ignoreKeys rest wms
          (comparables ++ [Comparable.OrWhere orWhereComparable])
    else
      match splitKey key val with
      | .error err => .error err
      | .ok (field, operator) =>
        let operator := ToLower U operator
        if !isStringInSlice operator opOrder then .error .ErrUnsupportedOperator
        else
          let operator := if isNullType val then opNull else operator
          getWhereConditions.loop U ignoreKeys rest (wms.add operator field val) comparables
/-- The value of `_or`: the type assertion `val.([]map[string]interface{})`
and the fragments of the nested maps. -/
def getWhereConditions.orWheres (U : Char → Char) (ignoreKeys : List String) :
    Any → Except Err (List Comparable)
  | .mapSlice orWheres => getWhereConditions.orLoop U ignoreKeys orWheres []
  | _ => .error .errOrValueType
/-- The loop `for _, orWhere := range orWheres`; the recursive call of
`getWhereConditions` on a nested map is written out. -/
def getWhereConditions.orLoop (U : Char → Char) (ignoreKeys : List String) :
    List (Option (List (String × Any))) → List Comparable → Except Err (List Comparable)
  | [], orWhereComparable => .ok orWhereComparable
  | none :: rest, orWhereComparable =>
    getWhereConditions.orLoop U ignoreKeys rest orWhereComparable
  | some orWhere :: rest, orWhereComparable =>
    match (if orWhere.length = 0 then .ok []
           else getWhereConditions.finish
             (getWhereConditions.loop U ignoreKeys orWhere (whereMapSet.mk []) [])) with
    | .error err => .error err
    | .ok orNestWhere =>
      getWhereConditions.orLoop U ignoreKeys rest
        (orWhereComparable ++ [Comparable.NestWhere orNestWhere])
end

/-- The Go `getWhereConditions`. -/
def getWhereConditions (U : Char → Char) (wh : List (String × Any))
    (ignoreKeys : List String) : Except Err (List Comparable) :=
  if wh.length = 0 then .ok []
  else getWhereConditions.finish (getWhereConditions.loop U ignoreKeys wh (whereMapSet.mk []) [])

/-- The Go `Interval.String` on a non-nil receiver: `fmt.Sprintf("%d%s", i.Value, i.Unit)`. -/
def Interval.String (i : Interval) : String :=
  Nat.repr i.Value ++ i.Unit

def FillNone : String := "NONE"
def FillValue : String := "VALUE"
def FillPrev : String := "PREV"
def FillNull : String := "NULL"
def FillLinear : String := "LINEAR"
def FillNext : String := "NEXT"

/-- The Go `FillTypeMap`, as the list of its keys. -/
def FillTypeMap : List String :=
  [FillNone, FillValue, FillPrev, FillNull, FillLinear, FillNext]

/-- The `_orderby` block of `BuildSelect`. -/
def BuildSelect.orderBy (wh : WhereMap) : Except Err String :=
  match lookup "_orderby" wh with
  | none => .ok ""
  | some (.str s) => .ok (TrimSpace s)
  | some _ => .error .errOrderByValueType

/-- The `_groupby` block of `BuildSelect`. -/
def BuildSelect.groupBy (wh : WhereMap) : Except Err String :=
  match lookup "_groupby" wh with
  | none => .ok ""
  | some (.str s) => .ok (TrimSpace s)
  | some _ => .error .errGroupByValueType

/-- The `_limit` block of `BuildSelect`. -/
def BuildSelect.limit (wh : WhereMap) : Except Err (Option eleLimit) :=
  match lookup "_limit" wh with
  | none => .ok none
  | some (.uintSlice arr) =>
    match arr with
    | [begin, step] => .ok (some (eleLimit.mk begin step))
    | [a] => .ok (some (eleLimit.mk 0 a))
    | _ => .error .errLimitValueLength
  | some _ => .error .errLimitValueType

/-- The `_slimit` block of `BuildSelect`. -/
def BuildSelect.sLimit (wh : WhereMap) : Except Err (Option eleLimit) :=
  match lookup "_slimit" wh with
  | none => .ok none
  | some (.uintSlice arr) =>
    match arr with
    | [begin, step] => .ok (some (eleLimit.mk begin step))
    | [a] => .ok (some (eleLimit.mk 0 a))
    | _ => .error .errSLimitValueLength
  | some _ => .error .errSLimitValueType

/-- The `_interval` block of `BuildSelect`. -/
def BuildSelect.interval (wh : WhereMap) : Except Err String :=
  match lookup "_interval" wh with
  | none => .ok ""
  | some (.interval value) =>
    match value with
    | none => .error .errIntervalValueError
    | some v =>
      if v.Value = 0 ∨ v.Unit = "" then .error .errIntervalValueError
      else .ok v.String
  | some _ => .error .errIntervalValueType

/-- The `_fill` block of `BuildSelect`. -/
def BuildSelect.fill (wh : WhereMap) : Except Err String :=
  match lookup "_fill" wh with
  | none => .ok ""
  | some (.fillType value) =>
    if value ∉ FillTypeMap then .error .errFillValue
    else if value = FillValue then
      match lookup "_fillvalue" wh with
      | none => .error .errFillMissValue
      | some (.float64 v) => .ok ("(VALUE," ++ sprintf_f v ++ ")")
      | some _ => .error .errFillValueTypeError
    else .ok value
  | some _ => .error .errNeedFillType

/-- The Go `BuildSelect`: the text, the values and the error.  `U` is the Unicode
lower-case table of `strings.ToLower` outside ASCII. -/
def BuildSelect (U : Char → Char) (table : String) (wh : WhereMap)
    (selectField : List String) : String × List Any × Option Err :=
  match BuildSelect.orderBy wh with
  | .error err => ("", [], some err)
  | .ok orderBy =>
  match BuildSelect.groupBy wh with
  | .error err => ("", [], some err)
  | .ok groupBy =>
  match BuildSelect.limit wh with
  | .error err => ("", [], some err)
  | .ok limit =>
  match BuildSelect.sLimit wh with
  | .error err => ("", [], some err)
  | .ok sLimit =>
  match BuildSelect.interval wh with
  | .error err => ("", [], some err)
  | .ok interval =>
  match BuildSelect.fill wh with
  | .error err => ("", [], some err)
  | .ok fill =>
  match getWhereConditions U wh defaultIgnoreKeys with
  | .error err => ("", [], some err)
  | .ok conditions =>
    buildSelect table selectField groupBy orderBy sLimit limit interval fill conditions

end Builder

namespace Builder

/-! ## `builder.go` and `dao.go`: `NamedQuery` and the insert statements -/

/-- Go `strings.Repeat`. -/
def Repeat (s : String) : Nat → String
  | 0 => ""
  | n + 1 => s ++ Repeat s n

/-- Go `strings.TrimLeft(s, cutset)` for a cutset of one character. -/
def TrimLeft (s : String) (c : Char) : String :=
  String.mk (s.data.dropWhile (· == c))

/-- Go `strings.TrimRight(s, cutset)` for a cutset of one character. -/
def TrimRight (s : String) (c : Char) : String :=
  String.mk (s.data.reverse.dropWhile (· == c)).reverse

/-- The Go `createMultiPlaceholders`: nothing for `0`, else a buffer of
`2 * num + 1` bytes with the brackets at both ends, `?` at the odd indices and
`,` at the even ones. -/
def createMultiPlaceholders (num : Nat) : String :=
  if 0 = num then ""
  else
    let length := 2 * num + 1
    String.mk ((List.range length).map (fun i =>
      if i = 0 then '(' else if i = length - 1 then ')' else if i % 2 = 1 then '?' else ','))

/-- The class `\s` of the regular expressions of Go: tab, line feed, form feed,
carriage return and space. -/
def isReSpace (c : Char) : Bool :=
  c == '\t' || c == '\n' || c == '\x0c' || c == '\r' || c == ' '

/-- The characters the lazy `\S+?` of `searchHandle` takes after its first one:
it stops at the first `}}`, and there is no match when white space or the end of
the text comes before. -/
def searchHandle.close : List Char → Option (List Char)
  | [] => none
  | c :: rest =>
    if c = '}' ∧ rest.head? = some '}' then some []
    else if isReSpace c then none
    else (searchHandle.close rest).map (c :: ·)

/-- The match of `searchHandle`, the regular expression `{{\S+?}}`, that starts
at the head of the text, if there is one. -/
def searchHandle.matchAt (s : List Char) : Option (List Char) :=
  match s with
  | a :: b :: c :: rest =>
    if a = '{' ∧ b = '{' ∧ isReSpace c = false then
      (searchHandle.close rest).map (fun mid => a :: b :: c :: (mid ++ ['}', '}']))
    else none
  | _ => none

/-- The function `NamedQuery` passes to `ReplaceAllStringFunc`, with the
variables `vals` and `err` it captures: the replacement text and their new
values.  `none` is the panic of `reflect.Value.Type` on a nil value. -/
def NamedQuery.repl (data : List (String × Any)) (paramName : String) (vals : List Any)
    (err : Option Err) : Option (String × List Any × Option Err) :=
  let paramName := TrimRight (TrimLeft paramName '{') '}'
  match lookup paramName data with
  | none => some ("", vals, some (.errNotFound paramName))
  | some val =>
    match val with
    | .nil => none
    | _ =>
      match convertInterfaceToMap val with
      | none => some ("?", vals ++ [val], err)
      | some elems => some (createMultiPlaceholders elems.length, vals ++ elems, err)

/-- Go `searchHandle.ReplaceAllStringFunc(sql, repl)`: the matches are taken
from left to right without overlap.  `skip` is the number of characters of the
last match that are still to be passed, `out` the text written so far. -/
def NamedQuery.replaceAll (data : List (String × Any)) :
    List Char → Nat → String → List Any → Option Err → Option (String × List Any × Option Err)
  | [], _, out, vals, err => some (out, vals, err)
  | _ :: rest, skip + 1, out, vals, err => NamedQuery.replaceAll data rest skip out vals err
  | c :: rest, 0, out, vals, err =>
    match searchHandle.matchAt (c :: rest) with
    | none => NamedQuery.replaceAll data rest 0 (out.push c) vals err
    | some m =>
      match NamedQuery.repl data (String.mk m) vals err with
      | none => none
      | some (r, vals, err) =>
        NamedQuery.replaceAll data rest (m.length - 1) (out ++ r) vals err

/-- The Go `NamedQuery`; `none` when it panics. -/
def NamedQuery (sql : String) (data : List (String × Any)) :
    Option (String × List Any × Option Err) :=
  if data.length = 0 then some (sql, [], none)
  else
    match NamedQuery.replaceAll data sql.data 0 "" [] none with
    | none => none
    | some (cond, vals, err) =>
      match err with
      | some e => some ("", [], some e)
      | none => some (cond, vals, none)

/-- The Go constant `commonInsert`. -/
def commonInsert : String := "insert into"

/-- The loop of `buildInsert` over the rows: one placeholder group per row,
a comma after each but the last, and the values of the row. -/
def buildInsert.loop (placeholder : String) :
    List (List Any) → String → List Any → String × List Any
  | [], b, vals => (b, vals)
  | [row], b, vals => (b ++ placeholder, vals ++ row)
  | row :: next :: rest, b, vals =>
    buildInsert.loop placeholder (next :: rest) (b ++ placeholder ++ ",") (vals ++ row)

/-- The Go `buildInsert`. -/
def buildInsert (table sTable : String) (tags : List Any) (setList : List (List Any))
    (insertType : String) : String × List Any × Option Err :=
  if setList.length < 1 then ("", [], some .errInsertNullData)
  else
    let b := insertType ++ " " ++ table
    let (b, vals) :=
      if sTable ≠ "" then
        (b ++ " using " ++ sTable ++ " tags(" ++ TrimRight (Repeat "?," tags.length) ',' ++ ")",
          tags)
      else (b, [])
    let b := b ++ " values "
    let placeholder := "(" ++ TrimRight (Repeat "?," (setList.headD []).length) ',' ++ ")"
    let r := buildInsert.loop placeholder setList b vals
    (r.1, r.2, none)

/-- The Go `BuildInsert`. -/
def BuildInsert (table : String) (data : List (List Any)) : String × List Any × Option Err :=
  buildInsert table "" [] data commonInsert

/-- The Go `BuildInsertStable`. -/
def BuildInsertStable (table sTable : String) (tags : List Any) (data : List (List Any)) :
    String × List Any × Option Err :=
  buildInsert table sTable tags data commonInsert

end Builder

namespace Builder

/-! ## Predicates used in the statements -/

/-- The number of placeholder marks `?` in a text. -/
def countQ (s : String) : Nat := s.data.count '?'

/-- The number of placeholder marks in a list of texts. -/
def sumQ (l : List String) : Nat := (l.map countQ).sum

/-- No text of the list contains a placeholder mark. -/
def NoQ (l : List String) : Prop := ∀ k ∈ l, countQ k = 0

mutual
/-- No field name of the fragment contains a placeholder mark. -/
def Comparable.FieldsNoQ : Comparable → Prop
  | .nullCompareble n => NoQ (keys n)
  | .Like l => NoQ (keys l)
  | .NotLike l => NoQ (keys l)
  | .Eq e => NoQ (keys e)
  | .Ne n => NoQ (keys n)
  | .Lt l => NoQ (keys l)
  | .Lte l => NoQ (keys l)
  | .Gt g => NoQ (keys g)
  | .Gte g => NoQ (keys g)
  | .In i => NoQ (keys i)
  | .NotIn i => NoQ (keys i)
  | .Between bt => NoQ (keys bt)
  | .NotBetween nbt => NoQ (keys nbt)
  | .NestWhere nw => Comparable.AllFieldsNoQ nw
  | .OrWhere ow => Comparable.AllFieldsNoQ ow
/-- No field name of the fragments contains a placeholder mark. -/
def Comparable.AllFieldsNoQ : List Comparable → Prop
  | [] => True
  | c :: cs => c.FieldsNoQ ∧ Comparable.AllFieldsNoQ cs
end

mutual
/-- No field name of the predicate map contains a placeholder mark, at any
depth of `_or`; the keys in `ignoreKeys` are not field names. -/
def fieldsNoQ (ignoreKeys : List String) : List (String × Any) → Bool
  | [] => true
  | (key, val) :: rest =>
    (if key ∈ ignoreKeys then true
     else if key = "_or" then orFieldsNoQ ignoreKeys val
     else
       match splitKey key val with
       | .ok (field, _) => countQ field == 0
       | .error _ => true) && fieldsNoQ ignoreKeys rest
/-- The same for the value of `_or`. -/
def orFieldsNoQ (ignoreKeys : List String) : Any → Bool
  | .mapSlice ms => orListFieldsNoQ ignoreKeys ms
  | _ => true
/-- The same for the nested maps of `_or`. -/
def orListFieldsNoQ (ignoreKeys : List String) : List (Option (List (String × Any))) → Bool
  | [] => true
  | none :: rest => orListFieldsNoQ ignoreKeys rest
  | some m :: rest => fieldsNoQ ignoreKeys m && orListFieldsNoQ ignoreKeys rest
end

end Builder

namespace Builder

/-- The texts of the directives `_orderby` and `_groupby` and the unit of
`_interval` contain no placeholder mark. -/
def directivesNoQ (wh : WhereMap) : Bool :=
  (match lookup "_orderby" wh with
   | some (.str s) => countQ s == 0
   | _ => true) &&
  (match lookup "_groupby" wh with
   | some (.str s) => countQ s == 0
   | _ => true) &&
  (match lookup "_interval" wh with
   | some (.interval (some i)) => countQ i.Unit == 0
   | _ => true)

end Builder

namespace Builder

/-- The part ` <pre><body><post>` of a statement, absent when `body` is empty. -/
def clause (pre body post : String) : String :=
  if body = "" then "" else pre ++ body ++ post

/-- The two values bound for a limit: begin and step, as Go `int`s. -/
def limitVals : Option eleLimit → List Any
  | some l => [Any.int (uintToInt l.begin), Any.int (uintToInt l.step)]
  | none => []

/-- The single-valued operator fragments with the text each one puts after
the field. -/
def singleValued : List ((List (String × Any) → Comparable) × String) :=
  [(Comparable.Eq, "=?"), (Comparable.Ne, "!=?"), (Comparable.Lt, "<?"),
   (Comparable.Lte, "<=?"), (Comparable.Gt, ">?"), (Comparable.Gte, ">=?"),
   (Comparable.Like, " like ?"), (Comparable.NotLike, " not like ?")]

end Builder

namespace Builder

/-- The operator group an entry of the predicate map is filed under: `null`
for a `NullType` value, else the operator of its key in lower case; `none`
when the key cannot be split. -/
def entryOp (U : Char → Char) (key : String) (val : Any) : Option String :=
  match splitKey key val with
  | .ok (_, operator) => some (if isNullType val then opNull else ToLower U operator)
  | .error _ => none

/-- Some entry of the map, other than the ignored keys and `_or`, is filed
under the operator `op`. -/
def usesOp (U : Char → Char) (ignoreKeys : List String) (wh : List (String × Any))
    (op : String) : Bool :=
  wh.any (fun e => decide (e.1 ∉ ignoreKeys) && decide (e.1 ≠ "_or")
    && decide (entryOp U e.1 e.2 = some op))

/-- The operators whose group a fragment can be. -/
def Comparable.operators : Comparable → List String
  | .Eq _ => [opEq]
  | .Ne _ => [opNe1, opNe2]
  | .In _ => [opIn]
  | .NotIn _ => [opNotIn]
  | .Gt _ => [opGt]
  | .Gte _ => [opGte]
  | .Lt _ => [opLt]
  | .Lte _ => [opLte]
  | .Like _ => [opLike]
  | .NotLike _ => [opNotLike]
  | .Between _ => [opBetween]
  | .NotBetween _ => [opNotBetween]
  | .nullCompareble _ => [opNull]
  | .NestWhere _ => []
  | .OrWhere _ => []

/-- The fragment is an `OrWhere` group. -/
def Comparable.isOrWhere : Comparable → Bool
  | .OrWhere _ => true
  | _ => false

end Builder

namespace Builder

/-- The thirteen operator tokens the spec lists as supported. -/
def supportedOperators : List String :=
  ["=", "in", "!=", "<>", "not in", ">", ">=", "<", "<=", "like", "not like", "between",
   "not between"]

/-- A run of `n` spaces. -/
def spaces (n : Nat) : String := String.mk (List.replicate n ' ')

/-- A list of characters that starts with a character other than the space. -/
def HeadOk (l : List Char) : Prop := ∃ c t, l = c :: t ∧ c ≠ ' '

/-- The supported operators of one word. -/
def oneWordOperators : List String :=
  ["=", "in", "!=", "<>", ">", ">=", "<", "<=", "like", "between"]

/-- The second words of the supported operators `not in`, `not like` and
`not between`. -/
def secondWords : List String := ["in", "like", "between"]

end Builder

namespace Builder

/-- The shape of a value: a null marker, a collection of some length, or a
scalar. -/
inductive Shape where
  | scalar
  | null (b : Nat)
  | coll (n : Nat)
deriving DecidableEq

/-- The shape of a value. -/
def Any.shape : Any → Shape
  | .nullType b => .null b
  | .uintSlice xs => .coll xs.length
  | .slice xs => .coll xs.length
  | .mapSlice ms => .coll ms.length
  | _ => .scalar

/-- The value is a `[]map[string]interface{}`. -/
def isMapSlice : Any → Bool
  | .mapSlice _ => true
  | _ => false

mutual
/-- Two predicate maps, enumerated in the same order, have the same keys,
identical directive entries and field values of the same shape, recursively
inside `_or`. -/
def SameShape : List (String × Any) → List (String × Any) → Prop
  | [], [] => True
  | (k, v) :: r, (k', v') :: r' =>
    k = k'
    ∧ (if k ∈ defaultIgnoreKeys then v = v'
       else if k = "_or" then OrSameShape v v'
       else v.shape = v'.shape)
    ∧ SameShape r r'
  | _, _ => False
/-- The values of two `_or` entries agree: lists of nested maps that agree
pairwise, or two values that are both not lists of maps. -/
def OrSameShape : Any → Any → Prop
  | .mapSlice ms, .mapSlice ms' => ListSameShape ms ms'
  | v, v' => isMapSlice v = false ∧ isMapSlice v' = false
/-- The nested maps of two `_or` entries agree pairwise. -/
def ListSameShape :
    List (Option (List (String × Any))) → List (Option (List (String × Any))) → Prop
  | [], [] => True
  | none :: r, none :: r' => ListSameShape r r'
  | some m :: r, some m' :: r' => SameShape m m' ∧ ListSameShape r r'
  | _, _ => False
end

/-- Two maps with the same keys in the same order and related values. -/
def ARel {α β : Type} (R : α → β → Prop) (m : List (String × α)) (m' : List (String × β)) :
    Prop :=
  List.Forall₂ (fun e e' => e.1 = e'.1 ∧ R e.2 e'.2) m m'

/-- Two buckets with the same fields and values of the same shape. -/
def BRel (m m' : List (String × Any)) : Prop :=
  ARel (fun v v' => v.shape = v'.shape) m m'

/-- Two bucket sets with the same operators and buckets related by `BRel`. -/
def WRel (w w' : whereMapSet) : Prop := ARel BRel w.set w'.set

/-- Two lists of fragments that render the same texts, pairwise. -/
def TRel (cs cs' : List Comparable) : Prop :=
  List.Forall₂ (fun c c' => c.Build.1 = c'.Build.1) cs cs'

/-- Two results that are the same error, or two successes related by `R`. -/
def ERel {α β : Type} (R : α → β → Prop) : Except Err α → Except Err β → Prop
  | .error e, .error e' => e = e'
  | .ok a, .ok b => R a b
  | _, _ => False

end Builder

namespace Builder

/-- The statement proved by induction for C2: on two maps of the same shape
the loop of `getWhereConditions` ends in related states. -/
def LoopRel (U : Char → Char) (wh : List (String × Any)) : Prop :=
  ∀ wh', SameShape wh wh' → ∀ wms wms' cs cs', WRel wms wms' → TRel cs cs' →
    ERel (fun p p' => WRel p.1 p'.1 ∧ TRel p.2 p'.2)
      (getWhereConditions.loop U defaultIgnoreKeys wh wms cs)
      (getWhereConditions.loop U defaultIgnoreKeys wh' wms' cs')

end Builder

namespace Builder

/-- The entry makes the loop of `getWhereConditions` return an error. -/
def entryFails (U : Char → Char) (e : String × Any) : Bool :=
  if e.1 ∈ defaultIgnoreKeys then false
  else if e.1 = "_or" then
    match getWhereConditions.orWheres U defaultIgnoreKeys e.2 with
    | .error _ => true
    | .ok _ => false
  else
    match splitKey e.1 e.2 with
    | .error _ => true
    | .ok (_, operator) => !isStringInSlice (ToLower U operator) opOrder

/-- The operator group, the field and the value an entry is filed under;
`none` for the ignored keys, `_or` and the keys that cannot be split. -/
def slotOf (U : Char → Char) (e : String × Any) : Option (String × String × Any) :=
  if e.1 ∈ defaultIgnoreKeys then none
  else if e.1 = "_or" then none
  else
    match splitKey e.1 e.2 with
    | .ok (field, operator) =>
      some (if isNullType e.2 then opNull else ToLower U operator, field, e.2)
    | .error _ => none

/-- The `OrWhere` fragment an `_or` entry produces. -/
def orGroupOf (U : Char → Char) (e : String × Any) : Option Comparable :=
  if e.1 ∈ defaultIgnoreKeys then none
  else if e.1 = "_or" then
    match getWhereConditions.orWheres U defaultIgnoreKeys e.2 with
    | .ok orWhereComparable => some (Comparable.OrWhere orWhereComparable)
    | .error _ => none
  else none

/-- The bucket set after filing a list of slots. -/
def addAll (slots : List (String × String × Any)) (w : whereMapSet) : whereMapSet :=
  slots.foldl (fun w s => w.add s.1 s.2.1 s.2.2) w

/-- The operator group and the field of each entry of the map that is filed
under one. -/
def slotKeys (U : Char → Char) (wh : List (String × Any)) : List (String × String) :=
  (wh.filterMap (slotOf U)).map (fun s => (s.1, s.2.1))

/-- The value the bucket set holds for a field under an operator. -/
def lookupVal (w : whereMapSet) (op field : String) : Option Any :=
  (lookup op w.set).bind (lookup field)

/-- Every bucket of the set is non-empty and has pairwise distinct fields. -/
def WInv (w : whereMapSet) : Prop :=
  ∀ op b, lookup op w.set = some b → b ≠ [] ∧ (keys b).Nodup

/-- Two buckets with the same entries, in some order, and distinct fields. -/
def BSame {α : Type} (b b' : List (String × α)) : Prop :=
  b.Perm b' ∧ (keys b).Nodup

/-- Two bucket sets that hold the same buckets up to the order of the
entries. -/
def WEq (w w' : whereMapSet) : Prop :=
  ∀ op, Option.Rel BSame (lookup op w.set) (lookup op w'.set)

/-- Two results that both fail, or both succeed with related values. -/
def SRel {α β : Type} (R : α → β → Prop) : Except Err α → Except Err β → Prop
  | .error _, .error _ => True
  | .ok a, .ok b => R a b
  | _, _ => False

/-- Two lists of fragments that render the same texts and values, pairwise. -/
def FRel (cs cs' : List Comparable) : Prop :=
  cs.map Comparable.Build = cs'.map Comparable.Build

end Builder

namespace Builder

/-- The value is a non-empty slice: `convertWhereMapToWhereMapSlice` accepts
it. -/
def convertible (v : Any) : Bool :=
  match convertInterfaceToMap v with
  | some vals => vals.length != 0
  | none => false

/-- The entry of a bucket with its value as a list of elements. -/
def convEntry (e : String × Any) : String × List Any :=
  (e.1, (convertInterfaceToMap e.2).getD [])

end Builder

namespace Builder

/-- No field name stored in the bucket set contains a placeholder mark. -/
def WmsNoQ (wms : whereMapSet) : Prop :=
  ∀ op b, lookup op wms.set = some b → NoQ (keys b)

/-- The statement proved by induction for the loop of `getWhereConditions`. -/
def LoopNoQ (U : Char → Char) (ign : List String) (wh : List (String × Any)) : Prop :=
  fieldsNoQ ign wh = true → ∀ wms cs wms' cs', WmsNoQ wms → Comparable.AllFieldsNoQ cs →
    getWhereConditions.loop U ign wh wms cs = .ok (wms', cs') →
    WmsNoQ wms' ∧ Comparable.AllFieldsNoQ cs'

end Builder

namespace Builder

/-! ## Predicates on errors and directives -/

/-- The step of a computation returned a result, not an error. -/
def passes {α : Type} (r : Except Err α) : Bool :=
  match r with
  | .ok _ => true
  | .error _ => false

/-- Every directive block of `BuildSelect` accepts its entry of the map: the
directives are well-formed. -/
def directivesOk (wh : WhereMap) : Bool :=
  passes (BuildSelect.orderBy wh) && passes (BuildSelect.groupBy wh)
    && passes (BuildSelect.limit wh) && passes (BuildSelect.sLimit wh)
    && passes (BuildSelect.interval wh) && passes (BuildSelect.fill wh)

/-- The errors that come from the predicate entries of a map, not from its
directives. -/
def Err.ofWhere : Err → Bool
  | .errSplitEmptyKey => true
  | .ErrUnsupportedOperator => true
  | .errOrValueType => true
  | .errWhereInterfaceSliceType _ => true
  | .errEmptySliceCondition _ => true
  | _ => false

/-- The fragment is the group of the null checks. -/
def Comparable.isNull : Comparable → Bool
  | .nullCompareble _ => true
  | _ => false

/-- The field and the marker of a field of the null bucket; nothing for a value
that is not a null marker. -/
def nullEntry (n : List (String × Any)) (field : String) : Option (String × Nat) :=
  match lookup field n with
  | some (Any.nullType rv) => some (field, rv)
  | _ => none

/-- The text of a null check. -/
def nullText (p : String × Nat) : String := p.1 ++ " " ++ NullType.String p.2

/-- The group of the null checks of a bucket set, if it has one. -/
def nullGroup (w : whereMapSet) : List Comparable :=
  match lookup opNull w.set with
  | none => []
  | some n => [Comparable.nullCompareble n]

/-- The operators of `opOrder` before the internal one of the null checks. -/
def valueOperators : List String :=
  [opEq, opIn, opNe1, opNe2, opNotIn, opGt, opGte, opLt, opLte, opLike, opNotLike,
   opBetween, opNotBetween]

/-- The operators whose value is a collection. -/
def setOperators : List String := [opIn, opNotIn, opBetween, opNotBetween]

end Builder

namespace Builder

/-! ## Insert statements and templates: the words of the specification -/

/-- The text `(?,...,?)`: `n` placeholders joined by commas, in brackets. -/
def placeholderGroup (n : Nat) : String := "(" ++ Join (List.replicate n "?") "," ++ ")"

/-- The fill policies other than `VALUE`. -/
def plainFillPolicies : List String := [FillNone, FillPrev, FillNull, FillLinear, FillNext]

/-- A piece of a template: a character of plain text, or a marker, which is a
match of `searchHandle`. -/
inductive Piece where
  | text (c : Char)
  | marker (m : String)

/-- The pieces of a template from left to right; `skip` is the number of
characters that still belong to the last marker. -/
def pieces : List Char → Nat → List Piece
  | [], _ => []
  | _ :: rest, skip + 1 => pieces rest skip
  | c :: rest, 0 =>
    match searchHandle.matchAt (c :: rest) with
    | none => Piece.text c :: pieces rest 0
    | some m => Piece.marker (String.mk m) :: pieces rest (m.length - 1)

/-- The name a marker refers to: the marker without its braces. -/
def markerName (m : String) : String := TrimRight (TrimLeft m '{') '}'

/-- The names of the markers of a template, from left to right. -/
def markerNames (sql : String) : List String :=
  (pieces sql.data 0).filterMap (fun p =>
    match p with
    | .marker m => some (markerName m)
    | .text _ => none)

/-- The value is the untyped nil. -/
def isNil : Any → Bool
  | .nil => true
  | _ => false

/-- The values bound for a value of the map: the elements of a collection, or
the value itself. -/
def boundOf (v : Any) : List Any :=
  match convertInterfaceToMap v with
  | some elems => elems
  | none => [v]

/-- The text that replaces a marker with a given value: a group of placeholders
for a collection, one placeholder otherwise. -/
def textOf (v : Any) : String :=
  match convertInterfaceToMap v with
  | some elems => placeholderGroup elems.length
  | none => "?"

/-- The text a piece of a template is expanded to. -/
def Piece.expand (data : List (String × Any)) : Piece → String
  | .text c => String.singleton c
  | .marker m =>
    match lookup (markerName m) data with
    | some v => textOf v
    | none => ""

/-- The values a piece of a template binds. -/
def Piece.bound (data : List (String × Any)) : Piece → List Any
  | .text _ => []
  | .marker m =>
    match lookup (markerName m) data with
    | some v => boundOf v
    | none => []

/-- The text of a list of texts put one after the other. -/
def concatTexts : List String → String
  | [] => ""
  | a :: l => a ++ concatTexts l

/-- The text of the template a piece stands for. -/
def Piece.source : Piece → String
  | .text c => String.singleton c
  | .marker m => m

/-- The text `NamedQuery` puts for a marker with a given value. -/
def replText (v : Any) : String :=
  match convertInterfaceToMap v with
  | some elems => createMultiPlaceholders elems.length
  | none => "?"

/-- The text `NamedQuery` puts for a piece of a template. -/
def Piece.render (data : List (String × Any)) : Piece → String
  | .text c => String.singleton c
  | .marker m =>
    match lookup (markerName m) data with
    | some v => replText v
    | none => ""

/-- The error of `NamedQuery` after a piece of a template. -/
def errStep (data : List (String × Any)) (e : Option Err) : Piece → Option Err
  | .text _ => e
  | .marker m =>
    match lookup (markerName m) data with
    | some _ => e
    | none => some (.errNotFound (markerName m))

/-- The values the map binds for a name: those of its value, nothing for a name
without an entry. -/
def boundFor (data : List (String × Any)) (n : String) : List Any :=
  match lookup n data with
  | some v => boundOf v
  | none => []

/-- The names of the markers of a template that have no entry in the map, from
left to right. -/
def absentNames (sql : String) (data : List (String × Any)) : List String :=
  (markerNames sql).filter (fun n => (lookup n data).isNone)

/-- No marker of the template refers to a name that the map binds to nil. -/
def noNilBound (sql : String) (data : List (String × Any)) : Prop :=
  ∀ n ∈ markerNames sql, ∀ v, lookup n data = some v → isNil v = false

end Builder

namespace Builder

/-! ## Groups of fragments, nesting -/

/-- The fragment is a `Between` group. -/
def Comparable.isBetween : Comparable → Bool
  | .Between _ => true
  | _ => false

/-- The fragment is a `NotBetween` group. -/
def Comparable.isNotBetween : Comparable → Bool
  | .NotBetween _ => true
  | _ => false

/-- The operators that come before `between` in `opOrder`. -/
def operatorsBeforeBetween : List String :=
  [opEq, opIn, opNe1, opNe2, opNotIn, opGt, opGte, opLt, opLte, opLike, opNotLike]

/-- The map `m` put `depth` times inside an `_or` list of one map. -/
def nestOr : Nat → WhereMap → WhereMap
  | 0, m => m
  | depth + 1, m => [("_or", Any.mapSlice [some (nestOr depth m)])]

/-- The where-expression of `nestOr depth` of the map with the one key `a`: each
level of `_or` adds the brackets of its `NestWhere` and of its `OrWhere`. -/
def nestedText : Nat → String
  | 0 => "(a=?)"
  | depth + 1 => "((" ++ nestedText depth ++ "))"

/-- The second map is the first without one entry whose key is a directive
key, the entry being taken from a map inside an `_or` list, at any depth. -/
inductive NestedRemoval : WhereMap → WhereMap → Prop
  | here (pre post : WhereMap) (before after : List (Option WhereMap)) (p q : WhereMap)
      (k : String) (v : Any) (hk : k ∈ defaultIgnoreKeys) :
      NestedRemoval
        (pre ++ ("_or", Any.mapSlice (before ++ some (p ++ (k, v) :: q) :: after)) :: post)
        (pre ++ ("_or", Any.mapSlice (before ++ some (p ++ q) :: after)) :: post)
  | deeper (pre post : WhereMap) (before after : List (Option WhereMap)) (m m' : WhereMap)
      (h : NestedRemoval m m') :
      NestedRemoval
        (pre ++ ("_or", Any.mapSlice (before ++ some m :: after)) :: post)
        (pre ++ ("_or", Any.mapSlice (before ++ some m' :: after)) :: post)

end Builder

namespace Builder

/-! ## Enumeration orders of a map and of the maps nested in it -/

/-- The second map is the first one enumerated in another order: the entries of
the map itself (`top`) or of a map nested in one of its `_or` lists (`inside`,
at any depth) are permuted, any number of times (`trans`).  The lists of `_or` are
slices and keep their order. -/
inductive Reordered : WhereMap → WhereMap → Prop
  | top (wh wh' : WhereMap) (h : wh.Perm wh') : Reordered wh wh'
  | inside (pre post : WhereMap) (before after : List (Option WhereMap)) (m m' : WhereMap)
      (h : Reordered m m') :
      Reordered
        (pre ++ ("_or", Any.mapSlice (before ++ some m :: after)) :: post)
        (pre ++ ("_or", Any.mapSlice (before ++ some m' :: after)) :: post)
  | trans (a b c : WhereMap) (h₁ : Reordered a b) (h₂ : Reordered b c) : Reordered a c

mutual
/-- In every map nested in an `_or` list of the map, at any depth, the keys are
pairwise distinct and no two keys are filed under the same operator group and
field. -/
def nestedDistinct (U : Char → Char) : List (String × Any) → Bool
  | [] => true
  | (k, v) :: rest => (if k = "_or" then orDistinct U v else true) && nestedDistinct U rest
/-- The condition of `nestedDistinct` on the value of an `_or` entry. -/
def orDistinct (U : Char → Char) : Any → Bool
  | .mapSlice ms => listDistinct U ms
  | _ => true
/-- The condition of `nestedDistinct` on the maps of an `_or` list. -/
def listDistinct (U : Char → Char) : List (Option (List (String × Any))) → Bool
  | [] => true
  | none :: rest => listDistinct U rest
  | some m :: rest =>
    (decide (keys m).Nodup && decide (slotKeys U m).Nodup && nestedDistinct U m)
      && listDistinct U rest
end

/-- In the map and in every map nested in its `_or` lists, at any depth, the keys
are pairwise distinct (as in every Go map) and no two keys are filed under the
same operator group and field. -/
def noCollision (U : Char → Char) (wh : WhereMap) : Bool :=
  decide (keys wh).Nodup && decide (slotKeys U wh).Nodup && nestedDistinct U wh

end Builder

/-! # Properties -/

namespace Builder

theorem countQ_append (a b : String) : countQ (a ++ b) = countQ a + countQ b := by
  simp [countQ, String.data_append, List.count_append]

theorem sumQ_nil : sumQ [] = 0 := rfl

theorem sumQ_cons (a : String) (l : List String) : sumQ (a :: l) = countQ a + sumQ l := by
  simp [sumQ]

theorem sumQ_append (l₁ l₂ : List String) : sumQ (l₁ ++ l₂) = sumQ l₁ + sumQ l₂ := by
  simp [sumQ]

theorem countQ_Join (sep : String) (hsep : countQ sep = 0) :
    ∀ l : List String, countQ (Join l sep) = sumQ l
  | [] => rfl
  | [a] => by simp [Join, sumQ]
  | a :: b :: rest => by
    have ih := countQ_Join sep hsep (b :: rest)
    simp only [Join, countQ_append, hsep, ih, sumQ_cons]
    omega

theorem digitChar_ne_q (d : Nat) : Nat.digitChar d ≠ '?' := by
  rcases Nat.lt_or_ge d 16 with h | h
  · interval_cases d <;> decide
  · have h16 : Nat.digitChar d = '*' := by
      unfold Nat.digitChar
      repeat rw [if_neg (by omega)]
    rw [h16]
    decide

theorem toDigitsCore_noQ : ∀ (fuel n : Nat) (ds : List Char),
    ds.count '?' = 0 → (Nat.toDigitsCore 10 fuel n ds).count '?' = 0
  | 0, _, ds, h => by simpa [Nat.toDigitsCore] using h
  | fuel + 1, n, ds, h => by
    have hd : (Nat.digitChar (n % 10) :: ds).count '?' = 0 := by
      rw [List.count_cons_of_ne (Ne.symm (digitChar_ne_q _))]
      exact h
    unfold Nat.toDigitsCore
    simp only
    split
    · exact hd
    · exact toDigitsCore_noQ fuel _ _ hd

theorem countQ_repr (n : Nat) : countQ (Nat.repr n) = 0 := by
  simp only [countQ, Nat.repr, Nat.toDigits, List.asString]
  exact toDigitsCore_noQ _ _ _ rfl

end Builder

namespace Builder

theorem sumQ_map (l : List String) (f : String → String) (g : String → Nat)
    (h : ∀ k ∈ l, countQ (f k) = g k) : sumQ (l.map f) = (l.map g).sum := by
  induction l with
  | nil => rfl
  | cons a l ih =>
    simp only [List.map_cons, sumQ_cons, List.sum_cons]
    rw [h a (List.mem_cons_self _ _), ih (fun k hk => h k (List.mem_cons_of_mem _ hk))]

theorem sum_map_one (l : List String) : (l.map (fun _ => 1)).sum = l.length := by
  induction l with
  | nil => rfl
  | cons a l ih => simp only [List.map_cons, List.sum_cons, ih, List.length_cons]; omega

theorem NoQ_sort {l : List String} (h : NoQ l) : NoQ (defaultSortAlgorithm l) :=
  fun k hk => h k ((List.perm_insertionSort StrLE l).mem_iff.mp hk)

theorem countQ_lit_zero {s : String} (h : s.data.count '?' = 0) : countQ s = 0 := h

theorem build_aligned (m : List (String × Any)) (op : String) (hop : countQ op = 0)
    (h : NoQ (keys m)) : sumQ (build m op).1 = (build m op).2.length := by
  unfold build
  split
  · rfl
  · simp only [List.length_map]
    rw [sumQ_map _ _ (fun _ => 1), sum_map_one]
    intro k hk
    have hk0 := NoQ_sort h k hk
    simp only [assembleExpression, countQ_append, hk0, hop]
    rfl

theorem Like_aligned (m : List (String × Any)) (h : NoQ (keys m)) :
    sumQ (Like.Build m).1 = (Like.Build m).2.length := by
  unfold Like.Build
  split
  · rfl
  · simp only [List.length_map]
    rw [sumQ_map _ _ (fun _ => 1), sum_map_one]
    intro k hk
    have hk0 := NoQ_sort h k hk
    simp only [countQ_append, hk0]
    rfl

theorem NotLike_aligned (m : List (String × Any)) (h : NoQ (keys m)) :
    sumQ (NotLike.Build m).1 = (NotLike.Build m).2.length := by
  unfold NotLike.Build
  split
  · rfl
  · simp only [List.length_map]
    rw [sumQ_map _ _ (fun _ => 1), sum_map_one]
    intro k hk
    have hk0 := NoQ_sort h k hk
    simp only [countQ_append, hk0]
    rfl

theorem countQ_writePlaceholders : ∀ n, countQ (writePlaceholders n) = n
  | 0 => rfl
  | 1 => rfl
  | n + 2 => by
    rw [writePlaceholders, countQ_append, countQ_writePlaceholders (n + 1)]
    have : countQ "?," = 1 := rfl
    omega

theorem length_flatten_map (l : List String) (f : String → List Any) :
    ((l.map f).flatten).length = (l.map (fun k => (f k).length)).sum := by
  induction l with
  | nil => rfl
  | cons a l ih => simp [ih]

theorem In_aligned (m : List (String × List Any)) (h : NoQ (keys m)) :
    sumQ (In.Build m).1 = (In.Build m).2.length := by
  unfold In.Build
  split
  · rfl
  · simp only []
    rw [length_flatten_map, sumQ_map]
    intro k hk
    have hk0 := NoQ_sort h k hk
    simp only [buildIn, countQ_append, hk0, countQ_writePlaceholders]
    have h1 : countQ " in (" = 0 := rfl
    have h2 : countQ ")" = 0 := rfl
    omega

theorem NotIn_aligned (m : List (String × List Any)) (h : NoQ (keys m)) :
    sumQ (NotIn.Build m).1 = (NotIn.Build m).2.length := by
  unfold NotIn.Build
  split
  · rfl
  · simp only []
    rw [length_flatten_map, sumQ_map]
    intro k hk
    have hk0 := NoQ_sort h k hk
    simp only [buildNotIn, countQ_append, hk0, countQ_writePlaceholders]
    have h1 : countQ " not in (" = 0 := rfl
    have h2 : countQ ")" = 0 := rfl
    omega

theorem betweenLoop_aligned (bt : List (String × List Any)) (nb : Bool) :
    ∀ l : List String, NoQ l →
      sumQ (betweenBuilder.loop bt nb l).1 = (betweenBuilder.loop bt nb l).2.length
  | [], _ => rfl
  | k :: rest, h => by
    have ih := betweenLoop_aligned bt nb rest (fun a ha => h a (List.mem_cons_of_mem _ ha))
    have hk := h k (List.mem_cons_self _ _)
    unfold betweenBuilder.loop
    simp only [buildBetween]
    split
    · rename_i heq
      simp only [sumQ_cons, hk, ih]
      omega
    · rename_i cond_j heq
      split at heq
      · cases heq
      · rename_i hlen
        cases heq
        simp only [sumQ_cons, countQ_append, hk, ih, List.length_append]
        have h1 : countQ "(" = 0 := rfl
        have h2 : countQ " " = 0 := rfl
        have h3 : countQ " ? and ?)" = 2 := rfl
        have h4 : countQ (if nb = true then "not between" else "between") = 0 := by
          cases nb <;> rfl
        simp only [h1, h2, h3, h4]
        simp only [ne_eq, Decidable.not_not] at hlen
        omega

theorem between_aligned (bt : List (String × List Any)) (nb : Bool) (h : NoQ (keys bt)) :
    sumQ (betweenBuilder bt nb).1 = (betweenBuilder bt nb).2.length := by
  unfold betweenBuilder
  split
  · rfl
  · exact betweenLoop_aligned bt nb _ (NoQ_sort h)

theorem null_aligned (n : List (String × Any)) (h : NoQ (keys n)) :
    sumQ (nullCompareble.Build n).1 = (nullCompareble.Build n).2.length := by
  unfold nullCompareble.Build
  split
  · rfl
  · simp only [List.length_nil]
    have hs := NoQ_sort h
    generalize defaultSortAlgorithm (keys n) = l at hs
    induction l with
    | nil => rfl
    | cons a l ih =>
      have ih' := ih (fun k hk => hs k (List.mem_cons_of_mem _ hk))
      have ha := hs a (List.mem_cons_self _ _)
      simp only [List.filterMap_cons]
      split
      · exact ih'
      · rename_i b hb
        rw [sumQ_cons, ih']
        split at hb
        · cases hb
          simp only [countQ_append, ha, NullType.String]
          have h2 : countQ " " = 0 := rfl
          split <;> simp [h2] <;> rfl
        · cases hb

end Builder

namespace Builder

theorem AllFieldsNoQ_iff (cs : List Comparable) :
    Comparable.AllFieldsNoQ cs ↔ ∀ c ∈ cs, c.FieldsNoQ := by
  induction cs with
  | nil => simp [Comparable.AllFieldsNoQ]
  | cons c cs ih => simp [Comparable.AllFieldsNoQ, ih]

theorem AllFieldsNoQ_append {cs ds : List Comparable} (h₁ : Comparable.AllFieldsNoQ cs)
    (h₂ : Comparable.AllFieldsNoQ ds) : Comparable.AllFieldsNoQ (cs ++ ds) := by
  rw [AllFieldsNoQ_iff] at *
  intro c hc
  rcases List.mem_append.mp hc with h | h
  · exact h₁ c h
  · exact h₂ c h

theorem finish_aligned (andOr : String) (hsep : countQ andOr = 0) (r : List String × List Any)
    (h : sumQ r.1 = r.2.length) :
    countQ (whereConnector.finish andOr r).1 = (whereConnector.finish andOr r).2.length := by
  unfold whereConnector.finish
  split
  · rfl
  · have hs : countQ (" " ++ andOr ++ " ") = 0 := by
      simp only [countQ_append, hsep]; rfl
    simp only [countQ_append, countQ_Join _ hs, h]
    have h1 : countQ "(" = 0 := rfl
    have h2 : countQ ")" = 0 := rfl
    omega

mutual
theorem Build_aligned : (c : Comparable) → c.FieldsNoQ →
    sumQ c.Build.1 = c.Build.2.length
  | .nullCompareble n, h => by
    rw [Comparable.Build]; exact null_aligned n (by simpa [Comparable.FieldsNoQ] using h)
  | .Like l, h => by
    rw [Comparable.Build]; exact Like_aligned l (by simpa [Comparable.FieldsNoQ] using h)
  | .NotLike l, h => by
    rw [Comparable.Build]; exact NotLike_aligned l (by simpa [Comparable.FieldsNoQ] using h)
  | .Eq e, h => by
    rw [Comparable.Build]; exact build_aligned e _ rfl (by simpa [Comparable.FieldsNoQ] using h)
  | .Ne e, h => by
    rw [Comparable.Build]; exact build_aligned e _ rfl (by simpa [Comparable.FieldsNoQ] using h)
  | .Lt e, h => by
    rw [Comparable.Build]; exact build_aligned e _ rfl (by simpa [Comparable.FieldsNoQ] using h)
  | .Lte e, h => by
    rw [Comparable.Build]; exact build_aligned e _ rfl (by simpa [Comparable.FieldsNoQ] using h)
  | .Gt e, h => by
    rw [Comparable.Build]; exact build_aligned e _ rfl (by simpa [Comparable.FieldsNoQ] using h)
  | .Gte e, h => by
    rw [Comparable.Build]; exact build_aligned e _ rfl (by simpa [Comparable.FieldsNoQ] using h)
  | .In i, h => by
    rw [Comparable.Build]; exact In_aligned i (by simpa [Comparable.FieldsNoQ] using h)
  | .NotIn i, h => by
    rw [Comparable.Build]; exact NotIn_aligned i (by simpa [Comparable.FieldsNoQ] using h)
  | .Between bt, h => by
    rw [Comparable.Build]; exact between_aligned bt _ (by simpa [Comparable.FieldsNoQ] using h)
  | .NotBetween bt, h => by
    rw [Comparable.Build]; exact between_aligned bt _ (by simpa [Comparable.FieldsNoQ] using h)
  | .NestWhere nw, h => by
    rw [Comparable.Build]
    have ih := loop_aligned nw (by simpa [Comparable.FieldsNoQ] using h)
    have := finish_aligned "and" rfl _ ih
    simpa [sumQ] using this
  | .OrWhere ow, h => by
    rw [Comparable.Build]
    have ih := loop_aligned ow (by simpa [Comparable.FieldsNoQ] using h)
    have := finish_aligned "or" rfl _ ih
    simpa [sumQ] using this
theorem loop_aligned : (cs : List Comparable) → Comparable.AllFieldsNoQ cs →
    sumQ (whereConnector.loop cs).1 = (whereConnector.loop cs).2.length
  | [], _ => rfl
  | c :: cs, h => by
    rw [whereConnector.loop]
    have h' : c.FieldsNoQ ∧ Comparable.AllFieldsNoQ cs := by
      simpa [Comparable.AllFieldsNoQ] using h
    have h1 := Build_aligned c h'.1
    have h2 := loop_aligned cs h'.2
    simp only [sumQ_append, List.length_append, h1, h2]
end

theorem whereConnector_aligned (andOr : String) (hsep : countQ andOr = 0)
    (cs : List Comparable) (h : Comparable.AllFieldsNoQ cs) :
    countQ (whereConnector andOr cs).1 = (whereConnector andOr cs).2.length := by
  unfold whereConnector
  split
  · rfl
  · exact finish_aligned andOr hsep _ (loop_aligned cs h)

end Builder

namespace Builder

/-! ### Association lists -/

theorem lookup_insert {α : Type} (k k' : String) (v : α) (m : List (String × α)) :
    lookup k' (insert k v m) = if k = k' then some v else lookup k' m := by
  induction m with
  | nil => simp [insert, lookup]
  | cons p m ih =>
    obtain ⟨a, b⟩ := p
    by_cases hak : a = k
    · subst hak
      by_cases hak' : a = k' <;> simp [insert, lookup, hak']
    · by_cases hak' : a = k'
      · subst hak'
        simp [insert, lookup, hak, Ne.symm hak]
      · simp [insert, lookup, hak, hak', ih]

theorem mem_keys_insert {α : Type} (k a : String) (v : α) (m : List (String × α)) :
    a ∈ keys (insert k v m) ↔ a = k ∨ a ∈ keys m := by
  induction m with
  | nil => simp [insert, keys]
  | cons p m ih =>
    obtain ⟨b, w⟩ := p
    by_cases hbk : b = k
    · subst hbk
      simp [insert, keys]
    · simp only [insert, hbk, if_false, keys, List.map_cons, List.mem_cons] at ih ⊢
      rw [ih]
      tauto

mutual
theorem WhereMap.induct_map {P : List (String × Any) → Prop} (hnil : P [])
    (hcons : ∀ k v rest, (∀ ms, v = Any.mapSlice ms → ∀ m, some m ∈ ms → P m) → P rest →
      P ((k, v) :: rest)) : (wh : List (String × Any)) → P wh
  | [] => hnil
  | (k, v) :: rest =>
    hcons k v rest (WhereMap.induct_any hnil hcons v) (WhereMap.induct_map hnil hcons rest)
theorem WhereMap.induct_any {P : List (String × Any) → Prop} (hnil : P [])
    (hcons : ∀ k v rest, (∀ ms, v = Any.mapSlice ms → ∀ m, some m ∈ ms → P m) → P rest →
      P ((k, v) :: rest)) : (v : Any) → ∀ ms, v = Any.mapSlice ms → ∀ m, some m ∈ ms → P m
  | .mapSlice ms0 => fun ms h m hm => by
    cases h
    exact WhereMap.induct_list hnil hcons ms0 m hm
  | .nil => fun _ h => by cases h
  | .int _ => fun _ h => by cases h
  | .uint _ => fun _ h => by cases h
  | .float64 _ => fun _ h => by cases h
  | .str _ => fun _ h => by cases h
  | .bool _ => fun _ h => by cases h
  | .nullType _ => fun _ h => by cases h
  | .interval _ => fun _ h => by cases h
  | .fillType _ => fun _ h => by cases h
  | .uintSlice _ => fun _ h => by cases h
  | .slice _ => fun _ h => by cases h
  | .map _ => fun _ h => by cases h
  | .other _ => fun _ h => by cases h
theorem WhereMap.induct_list {P : List (String × Any) → Prop} (hnil : P [])
    (hcons : ∀ k v rest, (∀ ms, v = Any.mapSlice ms → ∀ m, some m ∈ ms → P m) → P rest →
      P ((k, v) :: rest)) : (ms : List (Option (List (String × Any)))) →
      ∀ m, some m ∈ ms → P m
  | [] => fun _ hm => by cases hm
  | none :: rest => fun m hm => by
    rcases List.mem_cons.mp hm with h | h
    · cases h
    · exact WhereMap.induct_list hnil hcons rest m h
  | some m0 :: rest => fun m hm => by
    rcases List.mem_cons.mp hm with h | h
    · cases h
      exact WhereMap.induct_map hnil hcons m0
    · exact WhereMap.induct_list hnil hcons rest m h
end

end Builder

namespace Builder

/-! ### Unfolding the loops of `getWhereConditions` -/

theorem loop_nil (U : Char → Char) (ign : List String) (wms : whereMapSet)
    (cs : List Comparable) : getWhereConditions.loop U ign [] wms cs = .ok (wms, cs) := by
  rw [getWhereConditions.loop]

theorem loop_cons_ignored (U : Char → Char) (ign : List String) (key : String) (val : Any)
    (rest : List (String × Any)) (wms : whereMapSet) (cs : List Comparable)
    (h : key ∈ ign) :
    getWhereConditions.loop U ign ((key, val) :: rest) wms cs
      = getWhereConditions.loop U ign rest wms cs := by
  rw [getWhereConditions.loop, if_pos h]

theorem loop_cons_or (U : Char → Char) (ign : List String) (val : Any)
    (rest : List (String × Any)) (wms : whereMapSet) (cs : List Comparable)
    (h : "_or" ∉ ign) :
    getWhereConditions.loop U ign (("_or", val) :: rest) wms cs
      = match getWhereConditions.orWheres U ign val with
        | .error err => .error err
        | .ok orWhereComparable =>
          getWhereConditions.loop U ign rest wms
            (cs ++ [Comparable.OrWhere orWhereComparable]) := by
  rw [getWhereConditions.loop, if_neg h, if_pos rfl]

theorem loop_cons_field (U : Char → Char) (ign : List String) (key : String) (val : Any)
    (rest : List (String × Any)) (wms : whereMapSet) (cs : List Comparable)
    (h : key ∉ ign) (h' : key ≠ "_or") :
    getWhereConditions.loop U ign ((key, val) :: rest) wms cs
      = match splitKey key val with
        | .error err => .error err
        | .ok (field, operator) =>
          if !isStringInSlice (ToLower U operator) opOrder then .error .ErrUnsupportedOperator
          else
            getWhereConditions.loop U ign rest
              (wms.add (if isNullType val then opNull else ToLower U operator) field val) cs := by
  rw [getWhereConditions.loop, if_neg h, if_neg h']

theorem orWheres_mapSlice (U : Char → Char) (ign : List String)
    (ms : List (Option (List (String × Any)))) :
    getWhereConditions.orWheres U ign (.mapSlice ms) = getWhereConditions.orLoop U ign ms [] := by
  rw [getWhereConditions.orWheres]

theorem orWheres_other (U : Char → Char) (ign : List String) (v : Any)
    (h : ∀ ms, v ≠ .mapSlice ms) :
    getWhereConditions.orWheres U ign v = .error .errOrValueType := by
  cases v <;> first | rfl | exact absurd rfl (h _)

theorem orLoop_nil (U : Char → Char) (ign : List String) (acc : List Comparable) :
    getWhereConditions.orLoop U ign [] acc = .ok acc := by
  rw [getWhereConditions.orLoop]

theorem orLoop_none (U : Char → Char) (ign : List String)
    (rest : List (Option (List (String × Any)))) (acc : List Comparable) :
    getWhereConditions.orLoop U ign (none :: rest) acc
      = getWhereConditions.orLoop U ign rest acc := by
  rw [getWhereConditions.orLoop]

theorem orLoop_some (U : Char → Char) (ign : List String) (m : List (String × Any))
    (rest : List (Option (List (String × Any)))) (acc : List Comparable) :
    getWhereConditions.orLoop U ign (some m :: rest) acc
      = match getWhereConditions U m ign with
        | .error err => .error err
        | .ok orNestWhere =>
          getWhereConditions.orLoop U ign rest (acc ++ [Comparable.NestWhere orNestWhere]) := by
  rw [getWhereConditions.orLoop, getWhereConditions]

end Builder

namespace Builder

/-! ### The producers of `op2Comparable` -/

/-- The producer `op2Comparable` registers for each operator. -/
theorem op2Comparable_cases {op : String} {f : List (String × Any) → Except Err Comparable}
    (hf : op2Comparable op = some f) :
    (op = opEq ∧ f = fun m => .ok (.Eq m)) ∨ (op = opNe1 ∧ f = fun m => .ok (.Ne m))
    ∨ (op = opNe2 ∧ f = fun m => .ok (.Ne m))
    ∨ (op = opIn ∧ f = fun m => (convertWhereMapToWhereMapSlice m opIn).map Comparable.In)
    ∨ (op = opNotIn
        ∧ f = fun m => (convertWhereMapToWhereMapSlice m opNotIn).map Comparable.NotIn)
    ∨ (op = opBetween
        ∧ f = fun m => (convertWhereMapToWhereMapSlice m opBetween).map Comparable.Between)
    ∨ (op = opNotBetween
        ∧ f = fun m => (convertWhereMapToWhereMapSlice m opNotBetween).map Comparable.NotBetween)
    ∨ (op = opGt ∧ f = fun m => .ok (.Gt m)) ∨ (op = opGte ∧ f = fun m => .ok (.Gte m))
    ∨ (op = opLt ∧ f = fun m => .ok (.Lt m)) ∨ (op = opLte ∧ f = fun m => .ok (.Lte m))
    ∨ (op = opLike ∧ f = fun m => .ok (.Like m))
    ∨ (op = opNotLike ∧ f = fun m => .ok (.NotLike m))
    ∨ (op = opNull ∧ f = fun m => .ok (.nullCompareble m)) := by
  unfold op2Comparable at hf
  by_cases h1 : op = opEq
  · rw [if_pos h1] at hf; exact Or.inl ⟨h1, (Option.some.inj hf).symm⟩
  rw [if_neg h1] at hf
  by_cases h2 : op = opNe1
  · rw [if_pos h2] at hf; exact Or.inr (Or.inl ⟨h2, (Option.some.inj hf).symm⟩)
  rw [if_neg h2] at hf
  by_cases h3 : op = opNe2
  · rw [if_pos h3] at hf; exact Or.inr (Or.inr (Or.inl ⟨h3, (Option.some.inj hf).symm⟩))
  rw [if_neg h3] at hf
  by_cases h4 : op = opIn
  · rw [if_pos h4] at hf
    exact Or.inr (Or.inr (Or.inr (Or.inl ⟨h4, (Option.some.inj hf).symm⟩)))
  rw [if_neg h4] at hf
  by_cases h5 : op = opNotIn
  · rw [if_pos h5] at hf
    exact Or.inr (Or.inr (Or.inr (Or.inr (Or.inl ⟨h5, (Option.some.inj hf).symm⟩))))
  rw [if_neg h5] at hf
  by_cases h6 : op = opBetween
  · rw [if_pos h6] at hf
    exact Or.inr (Or.inr (Or.inr (Or.inr (Or.inr (Or.inl ⟨h6, (Option.some.inj hf).symm⟩)))))
  rw [if_neg h6] at hf
  by_cases h7 : op = opNotBetween
  · rw [if_pos h7] at hf
    exact Or.inr (Or.inr (Or.inr (Or.inr (Or.inr (Or.inr
      (Or.inl ⟨h7, (Option.some.inj hf).symm⟩))))))
  rw [if_neg h7] at hf
  by_cases h8 : op = opGt
  · rw [if_pos h8] at hf
    exact Or.inr (Or.inr (Or.inr (Or.inr (Or.inr (Or.inr (Or.inr
      (Or.inl ⟨h8, (Option.some.inj hf).symm⟩)))))))
  rw [if_neg h8] at hf
  by_cases h9 : op = opGte
  · rw [if_pos h9] at hf
    exact Or.inr (Or.inr (Or.inr (Or.inr (Or.inr (Or.inr (Or.inr (Or.inr
      (Or.inl ⟨h9, (Option.some.inj hf).symm⟩))))))))
  rw [if_neg h9] at hf
  by_cases h10 : op = opLt
  · rw [if_pos h10] at hf
    exact Or.inr (Or.inr (Or.inr (Or.inr (Or.inr (Or.inr (Or.inr (Or.inr (Or.inr
      (Or.inl ⟨h10, (Option.some.inj hf).symm⟩)))))))))
  rw [if_neg h10] at hf
  by_cases h11 : op = opLte
  · rw [if_pos h11] at hf
    exact Or.inr (Or.inr (Or.inr (Or.inr (Or.inr (Or.inr (Or.inr (Or.inr (Or.inr (Or.inr
      (Or.inl ⟨h11, (Option.some.inj hf).symm⟩))))))))))
  rw [if_neg h11] at hf
  by_cases h12 : op = opLike
  · rw [if_pos h12] at hf
    exact Or.inr (Or.inr (Or.inr (Or.inr (Or.inr (Or.inr (Or.inr (Or.inr (Or.inr (Or.inr
      (Or.inr (Or.inl ⟨h12, (Option.some.inj hf).symm⟩)))))))))))
  rw [if_neg h12] at hf
  by_cases h13 : op = opNotLike
  · rw [if_pos h13] at hf
    exact Or.inr (Or.inr (Or.inr (Or.inr (Or.inr (Or.inr (Or.inr (Or.inr (Or.inr (Or.inr
      (Or.inr (Or.inr (Or.inl ⟨h13, (Option.some.inj hf).symm⟩))))))))))))
  rw [if_neg h13] at hf
  by_cases h14 : op = opNull
  · rw [if_pos h14] at hf
    exact Or.inr (Or.inr (Or.inr (Or.inr (Or.inr (Or.inr (Or.inr (Or.inr (Or.inr (Or.inr
      (Or.inr (Or.inr (Or.inr ⟨h14, (Option.some.inj hf).symm⟩))))))))))))
  rw [if_neg h14] at hf
  cases hf

theorem map_eq_ok {α β : Type} {x : Except Err α} {g : α → β} {c : β}
    (h : x.map g = .ok c) : ∃ r, x = .ok r ∧ c = g r := by
  cases x with
  | error e => cases h
  | ok r => cases h; exact ⟨r, rfl, rfl⟩

/-- What a producer of `op2Comparable` returns, operator by operator. -/
theorem op2Comparable_ok {op : String} {f : List (String × Any) → Except Err Comparable}
    (hf : op2Comparable op = some f) {m : List (String × Any)} {c : Comparable}
    (hc : f m = .ok c) :
    (op = opEq ∧ c = .Eq m) ∨ (op = opNe1 ∧ c = .Ne m) ∨ (op = opNe2 ∧ c = .Ne m)
    ∨ (op = opIn ∧ ∃ r, convertWhereMapToWhereMapSlice m opIn = .ok r ∧ c = .In r)
    ∨ (op = opNotIn ∧ ∃ r, convertWhereMapToWhereMapSlice m opNotIn = .ok r ∧ c = .NotIn r)
    ∨ (op = opBetween ∧ ∃ r, convertWhereMapToWhereMapSlice m opBetween = .ok r ∧ c = .Between r)
    ∨ (op = opNotBetween
        ∧ ∃ r, convertWhereMapToWhereMapSlice m opNotBetween = .ok r ∧ c = .NotBetween r)
    ∨ (op = opGt ∧ c = .Gt m) ∨ (op = opGte ∧ c = .Gte m) ∨ (op = opLt ∧ c = .Lt m)
    ∨ (op = opLte ∧ c = .Lte m) ∨ (op = opLike ∧ c = .Like m)
    ∨ (op = opNotLike ∧ c = .NotLike m) ∨ (op = opNull ∧ c = .nullCompareble m) := by
  rcases op2Comparable_cases hf with
    ⟨h, e⟩ | ⟨h, e⟩ | ⟨h, e⟩ | ⟨h, e⟩ | ⟨h, e⟩ | ⟨h, e⟩ | ⟨h, e⟩ | ⟨h, e⟩ | ⟨h, e⟩ | ⟨h, e⟩
    | ⟨h, e⟩ | ⟨h, e⟩ | ⟨h, e⟩ | ⟨h, e⟩ <;> subst e
  · exact Or.inl ⟨h, by cases hc; rfl⟩
  · exact Or.inr (Or.inl ⟨h, by cases hc; rfl⟩)
  · exact Or.inr (Or.inr (Or.inl ⟨h, by cases hc; rfl⟩))
  · exact Or.inr (Or.inr (Or.inr (Or.inl ⟨h, map_eq_ok hc⟩)))
  · exact Or.inr (Or.inr (Or.inr (Or.inr (Or.inl ⟨h, map_eq_ok hc⟩))))
  · exact Or.inr (Or.inr (Or.inr (Or.inr (Or.inr (Or.inl ⟨h, map_eq_ok hc⟩)))))
  · exact Or.inr (Or.inr (Or.inr (Or.inr (Or.inr (Or.inr (Or.inl ⟨h, map_eq_ok hc⟩))))))
  · exact Or.inr (Or.inr (Or.inr (Or.inr (Or.inr (Or.inr (Or.inr
      (Or.inl ⟨h, by cases hc; rfl⟩)))))))
  · exact Or.inr (Or.inr (Or.inr (Or.inr (Or.inr (Or.inr (Or.inr (Or.inr
      (Or.inl ⟨h, by cases hc; rfl⟩))))))))
  · exact Or.inr (Or.inr (Or.inr (Or.inr (Or.inr (Or.inr (Or.inr (Or.inr (Or.inr
      (Or.inl ⟨h, by cases hc; rfl⟩)))))))))
  · exact Or.inr (Or.inr (Or.inr (Or.inr (Or.inr (Or.inr (Or.inr (Or.inr (Or.inr (Or.inr
      (Or.inl ⟨h, by cases hc; rfl⟩))))))))))
  · exact Or.inr (Or.inr (Or.inr (Or.inr (Or.inr (Or.inr (Or.inr (Or.inr (Or.inr (Or.inr
      (Or.inr (Or.inl ⟨h, by cases hc; rfl⟩)))))))))))
  · exact Or.inr (Or.inr (Or.inr (Or.inr (Or.inr (Or.inr (Or.inr (Or.inr (Or.inr (Or.inr
      (Or.inr (Or.inr (Or.inl ⟨h, by cases hc; rfl⟩))))))))))))
  · exact Or.inr (Or.inr (Or.inr (Or.inr (Or.inr (Or.inr (Or.inr (Or.inr (Or.inr (Or.inr
      (Or.inr (Or.inr (Or.inr ⟨h, by cases hc; rfl⟩))))))))))))

theorem op2Comparable_operators {op : String}
    {f : List (String × Any) → Except Err Comparable}
    (hf : op2Comparable op = some f) {m : List (String × Any)} {c : Comparable}
    (hc : f m = .ok c) : op ∈ c.operators := by
  rcases op2Comparable_ok hf hc with h | h | h | h | h | h | h | h | h | h | h | h | h | h
  all_goals first
    | (obtain ⟨h1, h2⟩ := h; subst h1; subst h2; simp [Comparable.operators])
    | (obtain ⟨h1, r, _, h2⟩ := h; subst h1; subst h2; simp [Comparable.operators])

end Builder

namespace Builder

/-! ### No placeholder mark in the field names of the fragments -/

theorem WmsNoQ_empty : WmsNoQ (whereMapSet.mk []) := by
  intro op b h
  simp [lookup] at h

theorem WmsNoQ_add {wms : whereMapSet} (h : WmsNoQ wms) (op field : String) (val : Any)
    (hf : countQ field = 0) : WmsNoQ (wms.add op field val) := by
  intro op' b hb
  simp only [whereMapSet.add, lookup_insert] at hb
  split at hb
  · cases hb
    intro k hk
    rcases (mem_keys_insert _ _ _ _).mp hk with h1 | h1
    · rw [h1]; exact hf
    · cases hs : lookup op wms.set with
      | none => rw [hs] at h1; simp [keys] at h1
      | some s => rw [hs] at h1; exact h op s hs k h1
  · exact h op' b hb

theorem convert_loop_keys (op : String) :
    ∀ (wh : List (String × Any)) (acc r : List (String × List Any)),
      convertWhereMapToWhereMapSlice.loop op wh acc = .ok r →
      ∀ k ∈ keys r, k ∈ keys acc ∨ k ∈ keys wh
  | [], acc, r, h, k, hk => by
    simp only [convertWhereMapToWhereMapSlice.loop] at h
    cases h
    exact Or.inl hk
  | (key, val) :: rest, acc, r, h, k, hk => by
    simp only [convertWhereMapToWhereMapSlice.loop] at h
    split at h
    · cases h
    · split at h
      · cases h
      · rcases convert_loop_keys op rest _ r h k hk with h1 | h1
        · rcases (mem_keys_insert _ _ _ _).mp h1 with h2 | h2
          · right; rw [h2]; simp [keys]
          · exact Or.inl h2
        · right
          simp only [keys, List.map_cons, List.mem_cons]
          exact Or.inr h1

theorem convert_noQ {m : List (String × Any)} {op : String} {r : List (String × List Any)}
    (h : convertWhereMapToWhereMapSlice m op = .ok r) (hm : NoQ (keys m)) : NoQ (keys r) := by
  intro k hk
  rcases convert_loop_keys op m [] r h k hk with h1 | h1
  · simp [keys] at h1
  · exact hm k h1

theorem op2Comparable_noQ {op : String} {f : List (String × Any) → Except Err Comparable}
    (hf : op2Comparable op = some f) {m : List (String × Any)} {c : Comparable}
    (hc : f m = .ok c) (hm : NoQ (keys m)) : c.FieldsNoQ := by
  rcases op2Comparable_ok hf hc with h | h | h | h | h | h | h | h | h | h | h | h | h | h
  all_goals first
    | (obtain ⟨_, h2⟩ := h; subst h2; simpa [Comparable.FieldsNoQ] using hm)
    | (obtain ⟨_, r, hr, h2⟩ := h; subst h2
       simpa [Comparable.FieldsNoQ] using convert_noQ hr hm)

theorem bwc_loop_noQ {wms : whereMapSet} (hw : WmsNoQ wms) :
    ∀ (ops : List String) (acc r : List Comparable), Comparable.AllFieldsNoQ acc →
      buildWhereCondition.loop wms ops acc = .ok r → Comparable.AllFieldsNoQ r
  | [], acc, r, ha, h => by
    simp only [buildWhereCondition.loop] at h
    cases h
    exact ha
  | op :: ops, acc, r, ha, h => by
    simp only [buildWhereCondition.loop] at h
    split at h
    · exact bwc_loop_noQ hw ops acc r ha h
    · rename_i whereMap hl
      split at h
      · cases h
      · rename_i f hf
        split at h
        · cases h
        · rename_i cp hcp
          refine bwc_loop_noQ hw ops _ r (AllFieldsNoQ_append ha ?_) h
          simp only [Comparable.AllFieldsNoQ, and_true]
          exact op2Comparable_noQ hf hcp (hw op whereMap hl)

theorem gwc_finish_noQ {r : Except Err (whereMapSet × List Comparable)}
    {cs : List Comparable} (h : getWhereConditions.finish r = .ok cs)
    (hr : ∀ wms acc, r = .ok (wms, acc) → WmsNoQ wms ∧ Comparable.AllFieldsNoQ acc) :
    Comparable.AllFieldsNoQ cs := by
  unfold getWhereConditions.finish at h
  split at h
  · cases h
  · rename_i wms acc
    obtain ⟨hw, ha⟩ := hr wms acc rfl
    split at h
    · cases h
    · rename_i wc hwc
      cases h
      exact AllFieldsNoQ_append ha
        (bwc_loop_noQ hw opOrder [] wc (by simp [Comparable.AllFieldsNoQ]) hwc)

theorem gwc_noQ_of_loop {U : Char → Char} {ign : List String} {m : List (String × Any)}
    (hP : LoopNoQ U ign m) (hm : fieldsNoQ ign m = true) {cs : List Comparable}
    (h : getWhereConditions U m ign = .ok cs) : Comparable.AllFieldsNoQ cs := by
  unfold getWhereConditions at h
  split at h
  · cases h
    simp [Comparable.AllFieldsNoQ]
  · refine gwc_finish_noQ h ?_
    intro wms acc hr
    exact hP hm _ _ _ _ WmsNoQ_empty (by simp [Comparable.AllFieldsNoQ]) hr

theorem orLoop_noQ (U : Char → Char) (ign : List String) :
    ∀ (ms : List (Option (List (String × Any)))) (acc r : List Comparable),
      (∀ m, some m ∈ ms → LoopNoQ U ign m) → orListFieldsNoQ ign ms = true →
      Comparable.AllFieldsNoQ acc → getWhereConditions.orLoop U ign ms acc = .ok r →
      Comparable.AllFieldsNoQ r
  | [], acc, r, _, _, ha, h => by
    rw [orLoop_nil] at h
    cases h
    exact ha
  | none :: rest, acc, r, hP, hq, ha, h => by
    rw [orLoop_none] at h
    rw [orListFieldsNoQ] at hq
    exact orLoop_noQ U ign rest acc r (fun m hm => hP m (List.mem_cons_of_mem _ hm)) hq ha h
  | some m :: rest, acc, r, hP, hq, ha, h => by
    rw [orLoop_some] at h
    rw [orListFieldsNoQ, Bool.and_eq_true] at hq
    split at h
    · cases h
    · rename_i nest hn
      refine orLoop_noQ U ign rest _ r (fun m hm => hP m (List.mem_cons_of_mem _ hm)) hq.2
        (AllFieldsNoQ_append ha ?_) h
      simp only [Comparable.AllFieldsNoQ, and_true, Comparable.FieldsNoQ]
      exact gwc_noQ_of_loop (hP m (List.mem_cons_self _ _)) hq.1 hn

theorem loop_noQ (U : Char → Char) (ign : List String) (hor : "_or" ∉ ign) :
    ∀ wh, LoopNoQ U ign wh := by
  apply WhereMap.induct_map
  · intro _ wms cs wms' cs' hw hc h
    rw [loop_nil] at h
    cases h
    exact ⟨hw, hc⟩
  · intro key val rest ihv ihr hq wms cs wms' cs' hw hc h
    rw [fieldsNoQ, Bool.and_eq_true] at hq
    obtain ⟨hq1, hq2⟩ := hq
    by_cases hk : key ∈ ign
    · rw [loop_cons_ignored _ _ _ _ _ _ _ hk] at h
      exact ihr hq2 _ _ _ _ hw hc h
    · by_cases hk' : key = "_or"
      · subst hk'
        rw [loop_cons_or _ _ _ _ _ _ hor] at h
        simp only [if_neg hk, if_true] at hq1
        split at h
        · cases h
        · rename_i owc ho
          refine ihr hq2 _ _ _ _ hw (AllFieldsNoQ_append hc ?_) h
          simp only [Comparable.AllFieldsNoQ, and_true, Comparable.FieldsNoQ]
          cases val with
          | mapSlice ms =>
            rw [orWheres_mapSlice] at ho
            rw [orFieldsNoQ] at hq1
            exact orLoop_noQ U ign ms [] owc (ihv ms rfl) hq1
              (by simp [Comparable.AllFieldsNoQ]) ho
          | _ => rw [orWheres_other _ _ _ (by intro ms hms; cases hms)] at ho; cases ho
      · rw [loop_cons_field _ _ _ _ _ _ _ hk hk'] at h
        simp only [if_neg hk, if_neg hk'] at hq1
        split at h
        · cases h
        · rename_i field operator hs
          rw [hs] at hq1
          split at h
          · cases h
          · exact ihr hq2 _ _ _ _ (WmsNoQ_add hw _ _ _ (by simpa using hq1)) hc h

theorem getWhereConditions_noQ (U : Char → Char) (ign : List String) (hor : "_or" ∉ ign)
    (wh : List (String × Any)) (hq : fieldsNoQ ign wh = true) {cs : List Comparable}
    (h : getWhereConditions U wh ign = .ok cs) : Comparable.AllFieldsNoQ cs :=
  gwc_noQ_of_loop (loop_noQ U ign hor wh) hq h

end Builder

namespace Builder

theorem countQ_TrimSpace_le (s : String) : countQ (TrimSpace s) ≤ countQ s := by
  simp only [countQ, TrimSpace, List.count_reverse]
  refine le_trans (List.Sublist.count_le (List.dropWhile_sublist _) _) ?_
  rw [List.count_reverse]
  exact List.Sublist.count_le (List.dropWhile_sublist _) _

theorem countQ_TrimSpace {s : String} (h : countQ s = 0) : countQ (TrimSpace s) = 0 :=
  Nat.le_zero.mp (h ▸ countQ_TrimSpace_le s)

theorem countQ_replicate_zero (n : Nat) : countQ (String.mk (List.replicate n '0')) = 0 := by
  simp only [countQ]
  rw [List.count_replicate]
  simp

theorem countQ_sprintf_f (f : F64) : countQ (sprintf_f f) = 0 := by
  cases f with
  | nan => rfl
  | inf neg => cases neg <;> rfl
  | fin neg m e =>
    simp only [sprintf_f, pad6, countQ_append, countQ_repr, countQ_replicate_zero]
    cases neg <;> rfl

theorem buildSelect_aligned (table : String) (uFields : List String)
    (groupBy orderBy : String) (sLimit limit : Option eleLimit) (interval fill : String)
    (conditions : List Comparable) (hT : countQ table = 0) (hF : NoQ uFields)
    (hG : countQ groupBy = 0) (hO : countQ orderBy = 0) (hI : countQ interval = 0)
    (hFill : countQ fill = 0) (hC : Comparable.AllFieldsNoQ conditions) :
    countQ (buildSelect table uFields groupBy orderBy sLimit limit interval fill conditions).1
      = (buildSelect table uFields groupBy orderBy sLimit limit interval fill
          conditions).2.1.length := by
  have hw := whereConnector_aligned "and" rfl conditions hC
  have hfields : countQ (if 0 < uFields.length then Join uFields "," else "*") = 0 := by
    split
    · rw [countQ_Join "," rfl]
      unfold sumQ
      apply List.sum_eq_zero
      intro n hn
      obtain ⟨k, hk, rfl⟩ := List.mem_map.mp hn
      exact hF k hk
    · rfl
  have e1 : countQ "select " = 0 := rfl
  have e2 : countQ " from " = 0 := rfl
  have e3 : countQ " where " = 0 := rfl
  have e4 : countQ " interval(" = 0 := rfl
  have e5 : countQ ")" = 0 := rfl
  have e6 : countQ " fill " = 0 := rfl
  have e7 : countQ " group by " = 0 := rfl
  have e8 : countQ " order by " = 0 := rfl
  have e9 : countQ " slimit ?,?" = 2 := rfl
  have e10 : countQ " limit ?,?" = 2 := rfl
  have e0 : countQ "" = 0 := rfl
  unfold buildSelect
  simp only
  by_cases c1 : (whereConnector "and" conditions).1 = ""
  · rw [c1] at hw
    cases sLimit <;> cases limit <;>
      by_cases c2 : interval = "" <;> by_cases c3 : fill = "" <;>
      by_cases c4 : groupBy = "" <;> by_cases c5 : orderBy = "" <;>
      simp only [c1, c2, c3, c4, c5, ne_eq, not_true_eq_false, not_false_eq_true, if_true,
        if_false, countQ_append, hfields, hT, hG, hO, hI, hFill, e1, e2, e3, e4, e5, e6, e7, e8,
        e9, e10, List.length_append, List.length_cons, List.length_nil] <;>
      omega
  · cases sLimit <;> cases limit <;>
      by_cases c2 : interval = "" <;> by_cases c3 : fill = "" <;>
      by_cases c4 : groupBy = "" <;> by_cases c5 : orderBy = "" <;>
      simp only [c1, c2, c3, c4, c5, ne_eq, not_true_eq_false, not_false_eq_true, if_true,
        if_false, countQ_append, hfields, hT, hG, hO, hI, hFill, e1, e2, e3, e4, e5, e6, e7, e8,
        e9, e10, List.length_append, List.length_cons, List.length_nil] <;>
      omega

end Builder

namespace Builder

theorem orderBy_noQ {wh : WhereMap} (hd : directivesNoQ wh = true) {s : String}
    (h : BuildSelect.orderBy wh = .ok s) : countQ s = 0 := by
  simp only [directivesNoQ, Bool.and_eq_true] at hd
  obtain ⟨⟨h1, _⟩, _⟩ := hd
  unfold BuildSelect.orderBy at h
  split at h
  · cases h; rfl
  · rename_i t ht
    rw [ht] at h1
    cases h
    exact countQ_TrimSpace (by simpa using h1)
  · cases h

theorem groupBy_noQ {wh : WhereMap} (hd : directivesNoQ wh = true) {s : String}
    (h : BuildSelect.groupBy wh = .ok s) : countQ s = 0 := by
  simp only [directivesNoQ, Bool.and_eq_true] at hd
  obtain ⟨⟨_, h1⟩, _⟩ := hd
  unfold BuildSelect.groupBy at h
  split at h
  · cases h; rfl
  · rename_i t ht
    rw [ht] at h1
    cases h
    exact countQ_TrimSpace (by simpa using h1)
  · cases h

theorem interval_noQ {wh : WhereMap} (hd : directivesNoQ wh = true) {s : String}
    (h : BuildSelect.interval wh = .ok s) : countQ s = 0 := by
  simp only [directivesNoQ, Bool.and_eq_true] at hd
  obtain ⟨_, h1⟩ := hd
  unfold BuildSelect.interval at h
  split at h
  · cases h; rfl
  · rename_i value hv
    split at h
    · cases h
    · rename_i v
      rw [hv] at h1
      split at h
      · cases h
      · cases h
        simp only [Interval.String, countQ_append, countQ_repr]
        simpa using h1
  · cases h

theorem fill_noQ {wh : WhereMap} {s : String} (h : BuildSelect.fill wh = .ok s) :
    countQ s = 0 := by
  unfold BuildSelect.fill at h
  split at h
  · cases h; rfl
  · rename_i value hv
    split at h
    · cases h
    · rename_i hmem
      split at h
      · split at h
        · cases h
        · cases h
          simp only [countQ_append, countQ_sprintf_f]
          rfl
        · cases h
      · cases h
        simp only [Decidable.not_not] at hmem
        simp only [FillTypeMap, List.mem_cons, List.mem_singleton, List.not_mem_nil,
          or_false] at hmem
        rcases hmem with h | h | h | h | h | h <;> rw [h] <;> rfl
  · cases h

/-- C1: placeholder/value alignment of `BuildSelect`.  Whenever `BuildSelect`
returns no error and neither the table, the selected fields, the field names
of the predicate map (at any depth of `_or`), the `_orderby` and `_groupby`
texts nor the interval unit contain the character `?`, the number of `?` in
the returned text equals the length of the returned values list. -/
theorem BuildSelect_placeholders_aligned (U : Char → Char) (table : String) (wh : WhereMap)
    (selectField : List String) (hT : countQ table = 0)
    (hF : ∀ f ∈ selectField, countQ f = 0)
    (hW : fieldsNoQ defaultIgnoreKeys wh = true) (hD : directivesNoQ wh = true)
    (hOk : (BuildSelect U table wh selectField).2.2 = none) :
    countQ (BuildSelect U table wh selectField).1
      = (BuildSelect U table wh selectField).2.1.length := by
  unfold BuildSelect at hOk ⊢
  cases ho : BuildSelect.orderBy wh with
  | error e => rw [ho] at hOk; cases hOk
  | ok orderBy =>
  cases hg : BuildSelect.groupBy wh with
  | error e => rw [ho, hg] at hOk; cases hOk
  | ok groupBy =>
  cases hl : BuildSelect.limit wh with
  | error e => rw [ho, hg, hl] at hOk; cases hOk
  | ok limit =>
  cases hs : BuildSelect.sLimit wh with
  | error e => rw [ho, hg, hl, hs] at hOk; cases hOk
  | ok sLimit =>
  cases hi : BuildSelect.interval wh with
  | error e => rw [ho, hg, hl, hs, hi] at hOk; cases hOk
  | ok interval =>
  cases hf : BuildSelect.fill wh with
  | error e => rw [ho, hg, hl, hs, hi, hf] at hOk; cases hOk
  | ok fill =>
  cases hc : getWhereConditions U wh defaultIgnoreKeys with
  | error e => rw [ho, hg, hl, hs, hi, hf, hc] at hOk; cases hOk
  | ok conditions =>
    exact buildSelect_aligned table selectField groupBy orderBy sLimit limit interval fill
      conditions hT hF (groupBy_noQ hD hg) (orderBy_noQ hD ho) (interval_noQ hD hi)
      (fill_noQ hf) (getWhereConditions_noQ U defaultIgnoreKeys (by decide) wh hW hc)

/-- C1, at a predicate map with a nested `_or`, a malformed `between`, a null
check and both limits. -/
theorem BuildSelect_placeholders_aligned_witness :
    countQ (BuildSelect id "tb"
        [("foo", .str "bar"), ("age in", .slice [.int 1, .int 3]),
         ("_or", .mapSlice [some [("aa", .int 11)], some [("bb between", .slice [.int 1])]]),
         ("cc", .nullType 1), ("_orderby", .str "age desc"), ("_limit", .uintSlice [5]),
         ("_slimit", .uintSlice [1, 2])] ["id", "name"]).1 = 8
    ∧ countQ (BuildSelect id "tb"
        [("foo", .str "bar"), ("age in", .slice [.int 1, .int 3]),
         ("_or", .mapSlice [some [("aa", .int 11)], some [("bb between", .slice [.int 1])]]),
         ("cc", .nullType 1), ("_orderby", .str "age desc"), ("_limit", .uintSlice [5]),
         ("_slimit", .uintSlice [1, 2])] ["id", "name"]).1
      = (BuildSelect id "tb"
        [("foo", .str "bar"), ("age in", .slice [.int 1, .int 3]),
         ("_or", .mapSlice [some [("aa", .int 11)], some [("bb between", .slice [.int 1])]]),
         ("cc", .nullType 1), ("_orderby", .str "age desc"), ("_limit", .uintSlice [5]),
         ("_slimit", .uintSlice [1, 2])] ["id", "name"]).2.1.length :=
  ⟨by decide, BuildSelect_placeholders_aligned id "tb" _ _ (by decide) (by decide) (by rfl)
    (by rfl) (by rfl)⟩

end Builder

namespace Builder

/-! ### C4: the worked example -/

/-- C4 as the spec words it fails: on table `t`, fields `["id"]` and the map
`{"name": "x", "age in": [1,3,5]}`, in either enumeration order, `BuildSelect`
does not return the text `select id from t where (age in (?,?,?) and name=?)`. -/
theorem BuildSelect_example_not_in_first :
    (BuildSelect id "t" [("name", .str "x"), ("age in", .slice [.int 1, .int 3, .int 5])]
        ["id"]).1 ≠ "select id from t where (age in (?,?,?) and name=?)"
    ∧ (BuildSelect id "t" [("age in", .slice [.int 1, .int 3, .int 5]), ("name", .str "x")]
        ["id"]).1 ≠ "select id from t where (age in (?,?,?) and name=?)" := by
  constructor <;> decide

/-- C4, amended: on table `t`, fields `["id"]` and the map
`{"name": "x", "age in": [1,3,5]}`, in either enumeration order, `BuildSelect`
returns the text `select id from t where (name=? and age in (?,?,?))` and the
values `["x",1,3,5]` without error: the `=` group precedes the `in` group. -/
theorem BuildSelect_example_eq_first (U : Char → Char) :
    BuildSelect U "t" [("name", .str "x"), ("age in", .slice [.int 1, .int 3, .int 5])] ["id"]
      = ("select id from t where (name=? and age in (?,?,?))",
         [.str "x", .int 1, .int 3, .int 5], none)
    ∧ BuildSelect U "t" [("age in", .slice [.int 1, .int 3, .int 5]), ("name", .str "x")] ["id"]
      = ("select id from t where (name=? and age in (?,?,?))",
         [.str "x", .int 1, .int 3, .int 5], none) :=
  ⟨rfl, rfl⟩

/-! ### C7: the order of the clauses -/

theorem append_clause (bd pre body post : String) :
    (if body ≠ "" then bd ++ pre ++ body ++ post else bd) = bd ++ clause pre body post := by
  unfold clause
  by_cases h : body = ""
  · simp [h]
  · simp [h, String.append_assoc]

theorem append_clause' (bd pre body : String) :
    (if body ≠ "" then bd ++ pre ++ body else bd) = bd ++ clause pre body "" := by
  rw [← append_clause]
  by_cases h : body = "" <;> simp [h]

/-- The order of the clauses of `buildSelect`.  The text is
`select <fields> from <table>` followed, each only when present and in this
order, by ` where <expr>`, ` interval(<interval>)`, ` fill <fill>`,
` group by <text>`, ` order by <text>`, ` slimit ?,?`, ` limit ?,?`; the values
are those of the where-expression, then `int(begin)` and `int(step)` of the
slimit, then `int(begin)` and `int(step)` of the limit, which are begin and step
only below `2^63`; no error is returned. -/
theorem buildSelect_clause_order (table : String) (uFields : List String)
    (groupBy orderBy : String) (sLimit limit : Option eleLimit) (interval fill : String)
    (conditions : List Comparable) :
    buildSelect table uFields groupBy orderBy sLimit limit interval fill conditions
      = ("select " ++ (if 0 < uFields.length then Join uFields "," else "*") ++ " from " ++ table
          ++ clause " where " (whereConnector "and" conditions).1 ""
          ++ clause " interval(" interval ")"
          ++ clause " fill " fill ""
          ++ clause " group by " groupBy ""
          ++ clause " order by " orderBy ""
          ++ (if sLimit.isSome then " slimit ?,?" else "")
          ++ (if limit.isSome then " limit ?,?" else ""),
         (whereConnector "and" conditions).2 ++ limitVals sLimit ++ limitVals limit,
         none) := by
  unfold buildSelect
  simp only [append_clause, append_clause']
  cases sLimit <;> cases limit <;> simp [limitVals]

end Builder

namespace Builder

/-! ### C8: the defaults of `splitKey` -/

theorem IndexByte_eq_none {l : List Char} (h : ' ' ∉ l) : IndexByte l = none := by
  induction l with
  | nil => rfl
  | cons c cs ih =>
    have hc : c ≠ ' ' := fun e => h (e ▸ List.mem_cons_self _ _)
    have hcs : ' ' ∉ cs := fun e => h (List.mem_cons_of_mem _ e)
    simp [IndexByte, hc, ih hcs]

theorem IndexByte_append (pre post : List Char) (h : ' ' ∉ pre) :
    IndexByte (pre ++ ' ' :: post) = some pre.length := by
  induction pre with
  | nil => simp [IndexByte]
  | cons c cs ih =>
    have hc : c ≠ ' ' := fun e => h (e ▸ List.mem_cons_self _ _)
    have hcs : ' ' ∉ cs := fun e => h (List.mem_cons_of_mem _ e)
    simp [IndexByte, hc, ih hcs]

theorem exists_split_at_space {l : List Char} (h : ' ' ∈ l) :
    ∃ pre post, l = pre ++ ' ' :: post ∧ ' ' ∉ pre := by
  induction l with
  | nil => cases h
  | cons c cs ih =>
    by_cases hc : c = ' '
    · exact ⟨[], cs, by simp [hc], by simp⟩
    · have hcs : ' ' ∈ cs := by
        rcases List.mem_cons.mp h with e | e
        · exact absurd e.symm hc
        · exact e
      obtain ⟨pre, post, e, hp⟩ := ih hcs
      refine ⟨c :: pre, post, by simp [e], ?_⟩
      intro hm
      rcases List.mem_cons.mp hm with e' | e'
      · exact hc e'.symm
      · exact hp e'

theorem takeWhile_ne_space (pre post : List Char) (h : ' ' ∉ pre) :
    (pre ++ ' ' :: post).takeWhile (· != ' ') = pre := by
  induction pre with
  | nil => simp
  | cons c cs ih =>
    have hc : c ≠ ' ' := fun e => h (e ▸ List.mem_cons_self _ _)
    have hcs : ' ' ∉ cs := fun e => h (List.mem_cons_of_mem _ e)
    simp [List.takeWhile_cons, hc, ih hcs]

/-- C8 as the spec words it fails at the empty key: the key `""` contains no
space after trimming, and `splitKey` returns the empty-key error for it, not
the field `""` with the operator `=`. -/
theorem splitKey_empty_key_not_default :
    ' ' ∉ (Trim "").data
    ∧ splitKey "" (Any.int 1) = .error .errSplitEmptyKey
    ∧ splitKey "" (Any.int 1) ≠ .ok (Trim "", "=") := by
  refine ⟨by decide, rfl, ?_⟩
  intro h
  cases h

/-- C8, amended: for every key that after trimming the surrounding spaces is
not empty and contains no space, `splitKey` returns the trimmed key as the
field, with the operator `in` when the value is a slice and `=` otherwise; for
every key that after trimming contains a space, `splitKey` returns as the field
the text of the trimmed key before its first space, letter case unchanged. -/
theorem splitKey_defaults (key : String) (val : Any) :
    (Trim key ≠ "" → ' ' ∉ (Trim key).data →
      splitKey key val = .ok (Trim key, if isSlice val then "in" else "="))
    ∧ (' ' ∈ (Trim key).data →
      ∃ operator, splitKey key val
        = .ok (String.mk ((Trim key).data.takeWhile (· != ' ')), operator)) := by
  constructor
  · intro hne hsp
    unfold splitKey
    simp only [hne, if_false]
    rw [IndexByte_eq_none hsp]
  · intro hsp
    obtain ⟨pre, post, e, hp⟩ := exists_split_at_space hsp
    have hne : Trim key ≠ "" := by
      intro h0
      rw [h0] at hsp
      cases hsp
    unfold splitKey
    simp only [hne, if_false]
    rw [e, IndexByte_append pre post hp, takeWhile_ne_space pre post hp]
    simp only [List.take_left']
    exact ⟨_, rfl⟩

/-- C8 amended, at the keys `  name  ` with a slice, `age` with a scalar and
`Age  NOT  in`. -/
theorem splitKey_defaults_witness :
    splitKey "  name  " (Any.slice [Any.int 1]) = .ok ("name", "in")
    ∧ splitKey "age" (Any.int 1) = .ok ("age", "=")
    ∧ ∃ operator, splitKey "Age  NOT  in" (Any.int 1) = .ok ("Age", operator) :=
  ⟨(splitKey_defaults "  name  " (Any.slice [Any.int 1])).1 (by decide) (by decide),
   (splitKey_defaults "age" (Any.int 1)).1 (by decide) (by decide),
   (splitKey_defaults "Age  NOT  in" (Any.int 1)).2 (by decide)⟩

end Builder

namespace Builder

/-! ### The order of `sort.Strings` -/

theorem leChars_total : ∀ a b : List Char, leChars a b = true ∨ leChars b a = true
  | [], _ => Or.inl rfl
  | _ :: _, [] => Or.inr rfl
  | a :: as, b :: bs => by
    simp only [leChars]
    by_cases h1 : a.toNat < b.toNat
    · simp [h1]
    · by_cases h2 : b.toNat < a.toNat
      · simp [h1, h2]
      · simp only [h1, h2, if_false]
        exact leChars_total as bs

theorem leChars_trans : ∀ a b c : List Char,
    leChars a b = true → leChars b c = true → leChars a c = true
  | [], _, _, _, _ => rfl
  | _ :: _, [], _, h, _ => by simp [leChars] at h
  | _ :: _, _ :: _, [], _, h => by simp [leChars] at h
  | a :: as, b :: bs, c :: cs, h1, h2 => by
    simp only [leChars] at h1 h2 ⊢
    by_cases hab : a.toNat < b.toNat
    · by_cases hbc : b.toNat < c.toNat
      · have : a.toNat < c.toNat := by omega
        simp [this]
      · by_cases hcb : c.toNat < b.toNat
        · simp [hbc, hcb] at h2
        · have : a.toNat < c.toNat := by omega
          simp [this]
    · by_cases hba : b.toNat < a.toNat
      · simp [hab, hba] at h1
      · simp only [hab, hba, if_false] at h1
        by_cases hbc : b.toNat < c.toNat
        · have : a.toNat < c.toNat := by omega
          simp [this]
        · by_cases hcb : c.toNat < b.toNat
          · simp [hbc, hcb] at h2
          · simp only [hbc, hcb, if_false] at h2
            have e1 : ¬ a.toNat < c.toNat := by omega
            have e2 : ¬ c.toNat < a.toNat := by omega
            simp only [e1, e2, if_false]
            exact leChars_trans as bs cs h1 h2

theorem leChars_antisymm : ∀ a b : List Char,
    leChars a b = true → leChars b a = true → a = b
  | [], [], _, _ => rfl
  | [], _ :: _, _, h => by simp [leChars] at h
  | _ :: _, [], h, _ => by simp [leChars] at h
  | a :: as, b :: bs, h1, h2 => by
    simp only [leChars] at h1 h2
    by_cases hab : a.toNat < b.toNat
    · have : ¬ b.toNat < a.toNat := by omega
      simp [hab, this] at h2
    · by_cases hba : b.toNat < a.toNat
      · simp [hab, hba] at h1
      · simp only [hab, hba, if_false] at h1 h2
        have e : a = b := by
          apply Char.ext
          apply UInt32.ext
          have : a.toNat = b.toNat := by omega
          exact this
        rw [e, leChars_antisymm as bs h1 h2]

theorem sort_perm (l : List String) : (defaultSortAlgorithm l).Perm l :=
  List.perm_insertionSort StrLE l

theorem sort_sorted (l : List String) : (defaultSortAlgorithm l).Sorted StrLE := by
  haveI : IsTotal String StrLE := ⟨fun a b => leChars_total a.data b.data⟩
  haveI : IsTrans String StrLE := ⟨fun a b c => leChars_trans a.data b.data c.data⟩
  exact List.sorted_insertionSort StrLE l

theorem sort_eq_of_perm {l₁ l₂ : List String} (h : l₁.Perm l₂) :
    defaultSortAlgorithm l₁ = defaultSortAlgorithm l₂ := by
  haveI : IsAntisymm String StrLE :=
    ⟨fun a b h1 h2 => String.ext (leChars_antisymm a.data b.data h1 h2)⟩
  exact List.eq_of_perm_of_sorted ((sort_perm l₁).trans (h.trans (sort_perm l₂).symm))
    (sort_sorted l₁) (sort_sorted l₂)

theorem lookup_mem {α : Type} {k : String} {v : α} :
    ∀ {m : List (String × α)}, lookup k m = some v → (k, v) ∈ m
  | [], h => by simp [lookup] at h
  | (a, b) :: rest, h => by
    simp only [lookup] at h
    split at h
    · rename_i e
      cases h
      rw [e]
      exact List.mem_cons_self _ _
    · exact List.mem_cons_of_mem _ (lookup_mem h)

theorem lookup_isSome_of_mem_keys {α : Type} {k : String} :
    ∀ {m : List (String × α)}, k ∈ keys m → ∃ v, lookup k m = some v
  | [], h => by simp [keys] at h
  | (a, b) :: rest, h => by
    simp only [lookup]
    by_cases e : a = k
    · exact ⟨b, by simp [e]⟩
    · simp only [e, if_false]
      apply lookup_isSome_of_mem_keys
      simp only [keys, List.map_cons, List.mem_cons] at h
      rcases h with h | h
      · exact absurd h.symm e
      · exact h

theorem lookup_eq_none_of_not_mem_keys {α : Type} {k : String} :
    ∀ {m : List (String × α)}, k ∉ keys m → lookup k m = none
  | [], _ => rfl
  | (a, b) :: rest, h => by
    simp only [keys, List.map_cons, List.mem_cons, not_or] at h
    simp only [lookup, Ne.symm h.1, if_false]
    exact lookup_eq_none_of_not_mem_keys h.2

/-! ### C6: the single-valued operator fragments -/

theorem single_valued_shape (m : List (String × Any)) (sfx : String)
    (r : List String × List Any)
    (hr : r = if m.length = 0 then ([], [])
      else ((defaultSortAlgorithm (keys m)).map (fun k => k ++ sfx),
            (defaultSortAlgorithm (keys m)).map (fun k => (lookup k m).getD Any.nil))) :
    ∃ fs : List String, fs.Perm (keys m) ∧ fs.Sorted StrLE
      ∧ r.1 = fs.map (fun field => field ++ sfx)
      ∧ r.2.length = fs.length
      ∧ (∀ i (h₁ : i < fs.length) (h₂ : i < r.2.length),
          (fs.get ⟨i, h₁⟩, r.2.get ⟨i, h₂⟩) ∈ m)
      ∧ (m = [] → r = ([], [])) := by
  refine ⟨defaultSortAlgorithm (keys m), sort_perm _, sort_sorted _, ?_, ?_, ?_, ?_⟩
  · rw [hr]
    split
    · rename_i h0
      have : m = [] := List.length_eq_zero.mp h0
      subst this
      rfl
    · rfl
  · rw [hr]
    split
    · rename_i h0
      have : m = [] := List.length_eq_zero.mp h0
      subst this
      rfl
    · simp
  · intro i h₁ h₂
    have hmem : (defaultSortAlgorithm (keys m)).get ⟨i, h₁⟩ ∈ keys m :=
      (sort_perm _).mem_iff.mp (List.get_mem _ _ _)
    obtain ⟨v, hv⟩ := lookup_isSome_of_mem_keys hmem
    have hne : ¬ m.length = 0 := by
      intro h0
      have : m = [] := List.length_eq_zero.mp h0
      subst this
      simp [keys] at hmem
    have e : r.2.get ⟨i, h₂⟩ = v := by
      subst hr
      simp only [hne, if_false, List.get_eq_getElem, List.getElem_map]
      simp only [List.get_eq_getElem] at hv
      rw [hv]
      rfl
    rw [e]
    exact lookup_mem hv
  · intro h0
    subst h0
    rw [hr]
    rfl

/-- C6: the single-valued operator fragments.  For each of `Eq`, `Ne`, `Lt`,
`Lte`, `Gt`, `Gte`, `Like`, `NotLike` and every map, `Build` returns one text
per field, the fields in ascending order, of the form `field=?`, `field!=?`,
`field<?`, `field<=?`, `field>?`, `field>=?`, `field like ?`,
`field not like ?`, and as many values, the i-th value being the value the map
holds for the i-th field; for the empty map both lists are empty. -/
theorem single_valued_Build (m : List (String × Any)) :
    ∀ p ∈ singleValued, ∃ fs : List String, fs.Perm (keys m) ∧ fs.Sorted StrLE
      ∧ (p.1 m).Build.1 = fs.map (fun field => field ++ p.2)
      ∧ (p.1 m).Build.2.length = fs.length
      ∧ (∀ i (h₁ : i < fs.length) (h₂ : i < (p.1 m).Build.2.length),
          (fs.get ⟨i, h₁⟩, (p.1 m).Build.2.get ⟨i, h₂⟩) ∈ m)
      ∧ (m = [] → (p.1 m).Build = ([], [])) := by
  intro p hp
  simp only [singleValued, List.mem_cons, List.mem_singleton, List.not_mem_nil, or_false] at hp
  rcases hp with h | h | h | h | h | h | h | h <;> subst h <;>
    refine single_valued_shape m _ _ ?_ <;>
    simp only [Comparable.Build, build, assembleExpression, Like.Build, NotLike.Build,
      String.append_assoc] <;> rfl

end Builder

namespace Builder

/-- C6, at the map `{"b": 1, "a": 2}` for `Eq` and for `NotLike`. -/
theorem single_valued_Build_witness :
    (Comparable.Eq [("b", .int 1), ("a", .int 2)]).Build
      = (["a=?", "b=?"], [.int 2, .int 1])
    ∧ (Comparable.NotLike [("b", .int 1), ("a", .int 2)]).Build
      = (["a not like ?", "b not like ?"], [.int 2, .int 1])
    ∧ ∃ fs : List String, fs.Perm (keys [("b", Any.int 1), ("a", Any.int 2)])
      ∧ fs.Sorted StrLE
      ∧ (Comparable.Eq [("b", .int 1), ("a", .int 2)]).Build.1
          = fs.map (fun field => field ++ "=?")
      ∧ (Comparable.Eq [("b", .int 1), ("a", .int 2)]).Build.2.length = fs.length
      ∧ (∀ i (h₁ : i < fs.length)
          (h₂ : i < (Comparable.Eq [("b", .int 1), ("a", .int 2)]).Build.2.length),
          (fs.get ⟨i, h₁⟩, (Comparable.Eq [("b", .int 1), ("a", .int 2)]).Build.2.get ⟨i, h₂⟩)
            ∈ [("b", Any.int 1), ("a", Any.int 2)])
      ∧ (([("b", Any.int 1), ("a", Any.int 2)] : List (String × Any)) = [] →
          (Comparable.Eq [("b", .int 1), ("a", .int 2)]).Build = ([], [])) :=
  ⟨rfl, rfl, single_valued_Build [("b", .int 1), ("a", .int 2)] (Comparable.Eq, "=?")
    (List.mem_cons_self _ _)⟩

end Builder

namespace Builder

/-! ### C3: the order of the top-level fragments -/

theorem whereConnector_loop_eq (cs : List Comparable) :
    whereConnector.loop cs
      = ((cs.map (fun c => c.Build.1)).flatten, (cs.map (fun c => c.Build.2)).flatten) := by
  induction cs with
  | nil => rw [whereConnector.loop]; rfl
  | cons c cs ih => rw [whereConnector.loop, ih]; simp

theorem whereConnector_eq (andOr : String) (cs : List Comparable) :
    whereConnector andOr cs = whereConnector.finish andOr (whereConnector.loop cs) := by
  unfold whereConnector
  split
  · rename_i h
    have : cs = [] := List.length_eq_zero.mp h
    subst this
    rw [whereConnector.loop]
    rfl
  · rfl

theorem lookup_add (wms : whereMapSet) (op field : String) (val : Any) (op' : String) :
    (lookup op' (wms.add op field val).set).isSome
      = (decide (op = op') || (lookup op' wms.set).isSome) := by
  simp only [whereMapSet.add, lookup_insert]
  by_cases h : op = op' <;> simp [h]

theorem loop_shape (U : Char → Char) (ign : List String) (hor : "_or" ∉ ign) :
    ∀ (wh : List (String × Any)) (wms wms' : whereMapSet) (cs cs' : List Comparable),
      getWhereConditions.loop U ign wh wms cs = .ok (wms', cs') →
      (∃ ors, cs' = cs ++ ors ∧ (∀ c ∈ ors, c.isOrWhere = true)
        ∧ ors.length = (wh.filter (fun e => e.1 = "_or")).length)
      ∧ ∀ op, (lookup op wms'.set).isSome
          = ((lookup op wms.set).isSome || usesOp U ign wh op)
  | [], wms, wms', cs, cs', h => by
    rw [loop_nil] at h
    cases h
    exact ⟨⟨[], by simp, by simp, rfl⟩, fun op => by simp [usesOp]⟩
  | (key, val) :: rest, wms, wms', cs, cs', h => by
    by_cases hk : key ∈ ign
    · rw [loop_cons_ignored _ _ _ _ _ _ _ hk] at h
      obtain ⟨⟨ors, h1, h2, h3⟩, h4⟩ := loop_shape U ign hor rest _ _ _ _ h
      have hne : key ≠ "_or" := fun e => hor (e ▸ hk)
      refine ⟨⟨ors, h1, h2, ?_⟩, fun op => ?_⟩
      · simp [List.filter_cons, hne, h3]
      · rw [h4 op]
        simp [usesOp, hk]
    · by_cases hk' : key = "_or"
      · subst hk'
        rw [loop_cons_or _ _ _ _ _ _ hor] at h
        split at h
        · cases h
        · rename_i owc ho
          obtain ⟨⟨ors, h1, h2, h3⟩, h4⟩ := loop_shape U ign hor rest _ _ _ _ h
          refine ⟨⟨Comparable.OrWhere owc :: ors, by simp [h1], ?_, ?_⟩, fun op => ?_⟩
          · intro c hc
            rcases List.mem_cons.mp hc with e | e
            · rw [e]; rfl
            · exact h2 c e
          · simp [List.filter_cons, h3]
          · rw [h4 op]
            simp [usesOp]
      · rw [loop_cons_field _ _ _ _ _ _ _ hk hk'] at h
        split at h
        · cases h
        · rename_i field operator hs
          split at h
          · cases h
          · obtain ⟨⟨ors, h1, h2, h3⟩, h4⟩ := loop_shape U ign hor rest _ _ _ _ h
            refine ⟨⟨ors, h1, h2, ?_⟩, fun op => ?_⟩
            · simp [List.filter_cons, hk', h3]
            · rw [h4 op, lookup_add]
              simp only [usesOp, List.any_cons, entryOp, hs, hk, hk', ne_eq, not_false_eq_true,
                decide_True, Bool.true_and]
              by_cases e : (if isNullType val = true then opNull else ToLower U operator) = op
              · simp [e]
              · simp [e]

theorem bwc_loop_shape (wms : whereMapSet) :
    ∀ (ops : List String) (acc r : List Comparable),
      buildWhereCondition.loop wms ops acc = .ok r →
      ∃ groups, r = acc ++ groups
        ∧ List.Forall₂ (fun op c => op ∈ c.operators)
            (ops.filter (fun op => (lookup op wms.set).isSome)) groups
  | [], acc, r, h => by
    simp only [buildWhereCondition.loop] at h
    cases h
    exact ⟨[], by simp, by simp⟩
  | op :: ops, acc, r, h => by
    simp only [buildWhereCondition.loop] at h
    split at h
    · rename_i hl
      obtain ⟨groups, h1, h2⟩ := bwc_loop_shape wms ops acc r h
      exact ⟨groups, h1, by simpa [List.filter_cons, hl] using h2⟩
    · rename_i whereMap hl
      split at h
      · cases h
      · rename_i f hf
        split at h
        · cases h
        · rename_i cp hcp
          obtain ⟨groups, h1, h2⟩ := bwc_loop_shape wms ops _ r h
          refine ⟨cp :: groups, by simp [h1], ?_⟩
          simp only [List.filter_cons, hl, Option.isSome_some, if_true]
          exact List.Forall₂.cons (op2Comparable_operators hf hcp) h2

theorem BuildSelect_eq_of_ok {U : Char → Char} {table : String} {wh : WhereMap}
    {selectField : List String} {orderBy groupBy interval fill : String}
    {limit sLimit : Option eleLimit} {cs : List Comparable}
    (ho : BuildSelect.orderBy wh = .ok orderBy) (hg : BuildSelect.groupBy wh = .ok groupBy)
    (hl : BuildSelect.limit wh = .ok limit) (hs : BuildSelect.sLimit wh = .ok sLimit)
    (hi : BuildSelect.interval wh = .ok interval) (hf : BuildSelect.fill wh = .ok fill)
    (hc : getWhereConditions U wh defaultIgnoreKeys = .ok cs) :
    BuildSelect U table wh selectField
      = buildSelect table selectField groupBy orderBy sLimit limit interval fill cs := by
  unfold BuildSelect
  rw [ho, hg, hl, hs, hi, hf, hc]

theorem BuildSelect_ok_inv {U : Char → Char} {table : String} {wh : WhereMap}
    {selectField : List String} (h : (BuildSelect U table wh selectField).2.2 = none) :
    ∃ orderBy groupBy limit sLimit interval fill cs,
      BuildSelect.orderBy wh = .ok orderBy ∧ BuildSelect.groupBy wh = .ok groupBy
      ∧ BuildSelect.limit wh = .ok limit ∧ BuildSelect.sLimit wh = .ok sLimit
      ∧ BuildSelect.interval wh = .ok interval ∧ BuildSelect.fill wh = .ok fill
      ∧ getWhereConditions U wh defaultIgnoreKeys = .ok cs := by
  unfold BuildSelect at h
  cases ho : BuildSelect.orderBy wh with
  | error e => rw [ho] at h; cases h
  | ok orderBy =>
  cases hg : BuildSelect.groupBy wh with
  | error e => rw [ho, hg] at h; cases h
  | ok groupBy =>
  cases hl : BuildSelect.limit wh with
  | error e => rw [ho, hg, hl] at h; cases h
  | ok limit =>
  cases hs : BuildSelect.sLimit wh with
  | error e => rw [ho, hg, hl, hs] at h; cases h
  | ok sLimit =>
  cases hi : BuildSelect.interval wh with
  | error e => rw [ho, hg, hl, hs, hi] at h; cases h
  | ok interval =>
  cases hf : BuildSelect.fill wh with
  | error e => rw [ho, hg, hl, hs, hi, hf] at h; cases h
  | ok fill =>
  cases hc : getWhereConditions U wh defaultIgnoreKeys with
  | error e => rw [ho, hg, hl, hs, hi, hf, hc] at h; cases h
  | ok cs => exact ⟨orderBy, groupBy, limit, sLimit, interval, fill, cs, rfl, rfl, rfl, rfl, rfl,
      rfl, rfl⟩

theorem getWhereConditions_shape (U : Char → Char) (wh : WhereMap) (cs : List Comparable)
    (h : getWhereConditions U wh defaultIgnoreKeys = .ok cs) :
    ∃ ors groups, cs = ors ++ groups
      ∧ (∀ c ∈ ors, c.isOrWhere = true)
      ∧ ors.length = (wh.filter (fun e => e.1 = "_or")).length
      ∧ List.Forall₂ (fun op c => op ∈ c.operators)
          (opOrder.filter (usesOp U defaultIgnoreKeys wh)) groups := by
  unfold getWhereConditions at h
  split at h
  · rename_i h0
    have : wh = [] := List.length_eq_zero.mp h0
    subst this
    cases h
    exact ⟨[], [], rfl, by simp, rfl, by simp [usesOp]⟩
  · unfold getWhereConditions.finish at h
    split at h
    · cases h
    · rename_i wms acc hl
      split at h
      · cases h
      · rename_i wc hwc
        cases h
        obtain ⟨⟨ors, h1, h2, h3⟩, h4⟩ :=
          loop_shape U defaultIgnoreKeys (by decide) wh _ _ _ _ hl
        obtain ⟨groups, h5, h6⟩ := bwc_loop_shape wms opOrder [] wc hwc
        refine ⟨ors, groups, by simp [h1, h5], h2, h3, ?_⟩
        have e : (fun op => (lookup op wms.set).isSome) = usesOp U defaultIgnoreKeys wh := by
          funext op
          rw [h4 op]
          simp [lookup]
        rw [← e]
        exact h6

/-- C3: the order of the top-level fragments.  In whatever order the entries of
the predicate map are enumerated, when `BuildSelect` returns no error its
result is `buildSelect` applied to these fragments: the `_or` groups, one per
`_or` entry, followed by one group for each operator of `opOrder` under which
an entry is filed, in the order of `opOrder`: `=`, `in`, `!=`, `<>`, `not in`,
`>`, `>=`, `<`, `<=`, `like`, `not like`, `between`, `not between`, null checks.
The where-expression joins the texts of the fragments in that order and its
values are the values of the fragments in the same order. -/
theorem BuildSelect_fragment_order (U : Char → Char) (table : String) (wh : WhereMap)
    (selectField : List String) (h : (BuildSelect U table wh selectField).2.2 = none) :
    ∃ ors groups groupBy orderBy sLimit limit interval fill,
      BuildSelect U table wh selectField
        = buildSelect table selectField groupBy orderBy sLimit limit interval fill
            (ors ++ groups)
      ∧ (∀ c ∈ ors, c.isOrWhere = true)
      ∧ ors.length = (wh.filter (fun e => e.1 = "_or")).length
      ∧ List.Forall₂ (fun op c => op ∈ c.operators)
          (opOrder.filter (usesOp U defaultIgnoreKeys wh)) groups
      ∧ whereConnector "and" (ors ++ groups)
          = whereConnector.finish "and"
              (((ors ++ groups).map (fun c => c.Build.1)).flatten,
               ((ors ++ groups).map (fun c => c.Build.2)).flatten) := by
  obtain ⟨orderBy, groupBy, limit, sLimit, interval, fill, cs, ho, hg, hl, hs, hi, hf, hc⟩ :=
    BuildSelect_ok_inv h
  obtain ⟨ors, groups, e, h1, h2, h3⟩ := getWhereConditions_shape U wh cs hc
  subst e
  exact ⟨ors, groups, groupBy, orderBy, sLimit, limit, interval, fill,
    BuildSelect_eq_of_ok ho hg hl hs hi hf hc, h1, h2, h3,
    by rw [whereConnector_eq, whereConnector_loop_eq]⟩

/-- C3, at a map whose entries are enumerated in the reverse of the emitted
order: a null check, `between`, `like`, `in`, `=` and `_or`. -/
theorem BuildSelect_fragment_order_witness :
    BuildSelect id "tb"
        [("n", .nullType 1), ("a between", .slice [.int 1, .int 3]), ("c like", .str "x"),
         ("d in", .slice [.int 4]), ("e", .int 5), ("_or", .mapSlice [some [("b", .int 2)]])] []
      = ("select * from tb where (((b=?)) and e=? and d in (?) and c like ? and "
          ++ "(a between ? and ?) and n is null)",
         [.int 2, .int 5, .int 4, .str "x", .int 1, .int 3], none)
    ∧ ∃ ors groups groupBy orderBy sLimit limit interval fill,
      BuildSelect id "tb"
          [("n", .nullType 1), ("a between", .slice [.int 1, .int 3]), ("c like", .str "x"),
           ("d in", .slice [.int 4]), ("e", .int 5), ("_or", .mapSlice [some [("b", .int 2)]])]
          []
        = buildSelect "tb" [] groupBy orderBy sLimit limit interval fill (ors ++ groups)
      ∧ (∀ c ∈ ors, c.isOrWhere = true)
      ∧ ors.length = 1
      ∧ List.Forall₂ (fun op c => op ∈ c.operators)
          [opEq, opIn, opLike, opBetween, opNull] groups
      ∧ whereConnector "and" (ors ++ groups)
          = whereConnector.finish "and"
              (((ors ++ groups).map (fun c => c.Build.1)).flatten,
               ((ors ++ groups).map (fun c => c.Build.2)).flatten) :=
  ⟨rfl, BuildSelect_fragment_order id "tb" _ [] rfl⟩

end Builder

namespace Builder

/-! ### C10: the operator token `null` -/

/-- C10, the code at the failing input: the token `null` is not one of the
thirteen supported operators, yet `BuildSelect` on `{"a null": 1}` returns no
error; it returns `select * from tb` without a where-clause and without values,
whereas the unsupported token `nul` is rejected with `ErrUnsupportedOperator`. -/
theorem BuildSelect_null_token_accepted (U : Char → Char) :
    "null" ∉ supportedOperators
    ∧ BuildSelect U "tb" [("a null", Any.int 1)] [] = ("select * from tb", [], none)
    ∧ BuildSelect U "tb" [("a nul", Any.int 1)] [] = ("", [], some Err.ErrUnsupportedOperator) :=
  ⟨by decide, rfl, rfl⟩

end Builder

namespace Builder

/-! ### C9: letter case and spaces in a key -/

theorem HeadOk_of_noSpace {w : List Char} (h1 : w ≠ []) (h2 : ' ' ∉ w) : HeadOk w := by
  cases w with
  | nil => exact absurd rfl h1
  | cons c t => exact ⟨c, t, rfl, fun e => h2 (e ▸ List.mem_cons_self _ _)⟩

theorem HeadOk_append {l : List Char} (h : HeadOk l) (m : List Char) : HeadOk (l ++ m) := by
  obtain ⟨c, t, e, hc⟩ := h
  exact ⟨c, t ++ m, by simp [e], hc⟩

theorem HeadOk_reverse_of_noSpace {w : List Char} (h1 : w ≠ []) (h2 : ' ' ∉ w) :
    HeadOk w.reverse :=
  HeadOk_of_noSpace (by simpa using h1) (by simpa using h2)

theorem dropWhile_spaces (n : Nat) (l : List Char) :
    (List.replicate n ' ' ++ l).dropWhile (· == ' ') = l.dropWhile (· == ' ') := by
  induction n with
  | zero => rfl
  | succ n ih => simp [List.replicate_succ, List.dropWhile_cons, ih]

theorem dropWhile_HeadOk {l : List Char} (h : HeadOk l) : l.dropWhile (· == ' ') = l := by
  obtain ⟨c, t, e, hc⟩ := h
  subst e
  simp [List.dropWhile_cons, hc]

theorem Trim_pad (a d : Nat) (body : List Char) (h1 : HeadOk body) (h2 : HeadOk body.reverse) :
    Trim (String.mk (List.replicate a ' ' ++ body ++ List.replicate d ' ')) = String.mk body := by
  unfold Trim
  simp only [List.append_assoc, dropWhile_spaces]
  rw [dropWhile_HeadOk (HeadOk_append h1 _)]
  simp only [List.reverse_append, List.reverse_replicate, dropWhile_spaces]
  rw [dropWhile_HeadOk h2, List.reverse_reverse]

theorem Trim_ne_empty {body : List Char} (h : HeadOk body) : String.mk body ≠ "" := by
  obtain ⟨c, t, e, _⟩ := h
  subst e
  intro h0
  have := congrArg String.data h0
  simp at this

theorem removeInnerSpace_loop_run (c : Nat) (x : Char) (t : List Char) (hx : x ≠ ' ') :
    ∀ last, removeInnerSpace.loop (List.replicate c ' ' ++ x :: t) (last + 1) last = last + c := by
  induction c with
  | zero =>
    intro last
    simp [removeInnerSpace.loop, hx]
  | succ c ih =>
    intro last
    have e : List.replicate (c + 1) ' ' ++ x :: t = ' ' :: (List.replicate c ' ' ++ x :: t) := by
      simp [List.replicate_succ]
    rw [e, removeInnerSpace.loop, if_pos rfl, ih (last + 1)]
    omega

theorem removeInnerSpace_word {w : List Char} (h : ' ' ∉ w) :
    removeInnerSpace (String.mk w) = String.mk w := by
  unfold removeInnerSpace
  rw [IndexByte_eq_none h]

theorem removeInnerSpace_two (w₁ w₂ : List Char) (c : Nat) (h1 : ' ' ∉ w₁) (h2 : HeadOk w₂) :
    removeInnerSpace (String.mk (w₁ ++ List.replicate (c + 1) ' ' ++ w₂))
      = String.mk (w₁ ++ ' ' :: w₂) := by
  obtain ⟨x, t, e, hx⟩ := h2
  subst e
  unfold removeInnerSpace
  have e1 : w₁ ++ List.replicate (c + 1) ' ' ++ x :: t
      = w₁ ++ ' ' :: (List.replicate c ' ' ++ x :: t) := by
    simp [List.replicate_succ]
  simp only [e1, IndexByte_append w₁ _ h1]
  have e2 : (w₁ ++ ' ' :: (List.replicate c ' ' ++ x :: t)).drop (w₁.length + 1)
      = List.replicate c ' ' ++ x :: t := by
    rw [show w₁ ++ ' ' :: (List.replicate c ' ' ++ x :: t)
        = (w₁ ++ [' ']) ++ (List.replicate c ' ' ++ x :: t) by simp]
    exact List.drop_left' (by simp)
  rw [e2, removeInnerSpace_loop_run c x t hx]
  have e3 : (w₁ ++ ' ' :: (List.replicate c ' ' ++ x :: t)).drop (w₁.length + c)
      = ' ' :: x :: t := by
    rw [show w₁ ++ ' ' :: (List.replicate c ' ' ++ x :: t)
        = (w₁ ++ List.replicate c ' ') ++ (' ' :: x :: t) by
          rw [List.append_assoc]
          congr 1
          have e4 : ' ' :: List.replicate c ' ' = List.replicate c ' ' ++ [' '] := by
            rw [← List.replicate_succ, List.replicate_succ']
          calc ' ' :: (List.replicate c ' ' ++ x :: t)
              = (' ' :: List.replicate c ' ') ++ x :: t := rfl
            _ = List.replicate c ' ' ++ ' ' :: x :: t := by rw [e4]; simp]
    exact List.drop_left' (by simp)
  rw [e3, List.take_left' rfl]

theorem splitKey_padded (a b d : Nat) (field rest : List Char) (val : Any)
    (hf1 : field ≠ []) (hf2 : ' ' ∉ field) (hr1 : HeadOk rest) (hr2 : HeadOk rest.reverse) :
    splitKey (String.mk (List.replicate a ' ' ++ (field ++ List.replicate (b + 1) ' ' ++ rest)
        ++ List.replicate d ' ')) val
      = .ok (String.mk field, removeInnerSpace (String.mk rest)) := by
  have hb1 : HeadOk (field ++ List.replicate (b + 1) ' ' ++ rest) := by
    rw [List.append_assoc]
    exact HeadOk_append (HeadOk_of_noSpace hf1 hf2) _
  have hb2 : HeadOk (field ++ List.replicate (b + 1) ' ' ++ rest).reverse := by
    rw [List.reverse_append]
    exact HeadOk_append hr2 _
  unfold splitKey
  simp only [Trim_pad a d _ hb1 hb2, Trim_ne_empty hb1, if_false]
  have e1 : field ++ List.replicate (b + 1) ' ' ++ rest
      = field ++ ' ' :: (List.replicate b ' ' ++ rest) := by
    simp [List.replicate_succ]
  simp only [e1, IndexByte_append field _ hf2, List.take_left' rfl]
  have e2 : (field ++ ' ' :: (List.replicate b ' ' ++ rest)).drop (field.length + 1)
      = List.replicate b ' ' ++ rest := by
    rw [show field ++ ' ' :: (List.replicate b ' ' ++ rest)
        = (field ++ [' ']) ++ (List.replicate b ' ' ++ rest) by simp]
    exact List.drop_left' (by simp)
  rw [e2]
  have e3 := Trim_pad b 0 rest hr1 hr2
  simp only [List.replicate_zero, List.append_nil] at e3
  rw [e3]

end Builder

namespace Builder

theorem toLowerRune_space (U : Char → Char) : toLowerRune U ' ' = ' ' := rfl

theorem ToLower_append (U : Char → Char) (a b : String) :
    ToLower U (a ++ b) = ToLower U a ++ ToLower U b := by
  apply String.ext
  simp [ToLower, String.data_append]

theorem noSpace_of_ToLower {U : Char → Char} {s : String} (h : ' ' ∉ (ToLower U s).data) :
    ' ' ∉ s.data := by
  intro hs
  apply h
  simp only [ToLower, List.mem_map]
  exact ⟨' ', hs, toLowerRune_space U⟩

theorem ne_nil_of_ToLower {U : Char → Char} {s : String} (h : (ToLower U s).data ≠ []) :
    s.data ≠ [] := by
  intro hs
  apply h
  simp [ToLower, hs]

theorem lookup_replace_key {α : Type} (d k₁ k₂ : String) (v : α) (h₁ : k₁ ≠ d) (h₂ : k₂ ≠ d)
    (post : List (String × α)) :
    ∀ pre : List (String × α),
      lookup d (pre ++ (k₁, v) :: post) = lookup d (pre ++ (k₂, v) :: post)
  | [] => by simp [lookup, h₁, h₂]
  | (a, b) :: pre => by
    have ih := lookup_replace_key d k₁ k₂ v h₁ h₂ post pre
    show lookup d ((a, b) :: (pre ++ (k₁, v) :: post)) = lookup d ((a, b) :: (pre ++ (k₂, v) :: post))
    simp only [lookup, ih]

theorem BuildSelect_congr (U : Char → Char) (table : String) (selectField : List String)
    {wh₁ wh₂ : WhereMap} (hl : ∀ d ∈ defaultIgnoreKeys, lookup d wh₁ = lookup d wh₂)
    (hg : getWhereConditions U wh₁ defaultIgnoreKeys
      = getWhereConditions U wh₂ defaultIgnoreKeys) :
    BuildSelect U table wh₁ selectField = BuildSelect U table wh₂ selectField := by
  have e1 : BuildSelect.orderBy wh₁ = BuildSelect.orderBy wh₂ := by
    unfold BuildSelect.orderBy; rw [hl "_orderby" (by decide)]
  have e2 : BuildSelect.groupBy wh₁ = BuildSelect.groupBy wh₂ := by
    unfold BuildSelect.groupBy; rw [hl "_groupby" (by decide)]
  have e3 : BuildSelect.limit wh₁ = BuildSelect.limit wh₂ := by
    unfold BuildSelect.limit; rw [hl "_limit" (by decide)]
  have e4 : BuildSelect.sLimit wh₁ = BuildSelect.sLimit wh₂ := by
    unfold BuildSelect.sLimit; rw [hl "_slimit" (by decide)]
  have e5 : BuildSelect.interval wh₁ = BuildSelect.interval wh₂ := by
    unfold BuildSelect.interval; rw [hl "_interval" (by decide)]
  have e6 : BuildSelect.fill wh₁ = BuildSelect.fill wh₂ := by
    unfold BuildSelect.fill; rw [hl "_fill" (by decide), hl "_fillvalue" (by decide)]
  unfold BuildSelect
  rw [e1, e2, e3, e4, e5, e6, hg]

theorem not_ignored_of_space {key : String} (h : ' ' ∈ key.data) :
    key ∉ defaultIgnoreKeys ∧ key ≠ "_or" := by
  constructor
  · intro hk
    simp only [defaultIgnoreKeys, List.mem_cons, List.mem_singleton, List.not_mem_nil,
      or_false] at hk
    rcases hk with e | e | e | e | e | e | e <;> subst e <;> revert h <;> decide
  · intro e
    subst e
    revert h
    decide

theorem loop_replace_entry (U : Char → Char) (ign : List String) (e₁ e₂ : String × Any)
    (post : List (String × Any))
    (h : ∀ wms cs, getWhereConditions.loop U ign (e₁ :: post) wms cs
      = getWhereConditions.loop U ign (e₂ :: post) wms cs) :
    ∀ (pre : List (String × Any)) (wms : whereMapSet) (cs : List Comparable),
      getWhereConditions.loop U ign (pre ++ e₁ :: post) wms cs
        = getWhereConditions.loop U ign (pre ++ e₂ :: post) wms cs
  | [], wms, cs => h wms cs
  | (key, val) :: pre, wms, cs => by
    simp only [List.cons_append]
    rw [getWhereConditions.loop, getWhereConditions.loop]
    simp only [loop_replace_entry U ign e₁ e₂ post h pre]

theorem BuildSelect_key_congr (U : Char → Char) (table : String) (selectField : List String)
    (pre post : WhereMap) (val : Any) {k₁ k₂ field o₁ o₂ : String}
    (hk₁ : ' ' ∈ k₁.data) (hk₂ : ' ' ∈ k₂.data)
    (h₁ : splitKey k₁ val = .ok (field, o₁)) (h₂ : splitKey k₂ val = .ok (field, o₂))
    (ho : ToLower U o₁ = ToLower U o₂) :
    BuildSelect U table (pre ++ (k₁, val) :: post) selectField
      = BuildSelect U table (pre ++ (k₂, val) :: post) selectField := by
  have n₁ := not_ignored_of_space hk₁
  have n₂ := not_ignored_of_space hk₂
  apply BuildSelect_congr
  · intro d hd
    apply lookup_replace_key
    · intro e; exact n₁.1 (e ▸ hd)
    · intro e; exact n₂.1 (e ▸ hd)
  · unfold getWhereConditions
    have hlen : (pre ++ (k₁, val) :: post).length = (pre ++ (k₂, val) :: post).length := by
      simp
    rw [hlen]
    congr 2
    apply loop_replace_entry
    intro wms cs
    rw [loop_cons_field _ _ _ _ _ _ _ n₁.1 n₁.2, loop_cons_field _ _ _ _ _ _ _ n₂.1 n₂.2,
      h₁, h₂]
    simp only [ho]

end Builder

namespace Builder

theorem splitKey_one (a b d : Nat) (field w : String) (val : Any)
    (hf1 : field ≠ "") (hf2 : ' ' ∉ field.data) (hw1 : w.data ≠ []) (hw2 : ' ' ∉ w.data) :
    splitKey (spaces a ++ field ++ spaces (b + 1) ++ w ++ spaces d) val = .ok (field, w) := by
  have hf1' : field.data ≠ [] := fun h => hf1 (String.ext h)
  have e : spaces a ++ field ++ spaces (b + 1) ++ w ++ spaces d
      = String.mk (List.replicate a ' ' ++ (field.data ++ List.replicate (b + 1) ' ' ++ w.data)
          ++ List.replicate d ' ') := by
    apply String.ext
    simp [spaces, String.data_append]
  rw [e, splitKey_padded a b d field.data w.data val hf1' hf2 (HeadOk_of_noSpace hw1 hw2)
    (HeadOk_reverse_of_noSpace hw1 hw2), removeInnerSpace_word hw2]

theorem splitKey_two (a b c d : Nat) (field w₁ w₂ : String) (val : Any)
    (hf1 : field ≠ "") (hf2 : ' ' ∉ field.data) (h1 : w₁.data ≠ []) (h2 : ' ' ∉ w₁.data)
    (h3 : w₂.data ≠ []) (h4 : ' ' ∉ w₂.data) :
    splitKey (spaces a ++ field ++ spaces (b + 1) ++ w₁ ++ spaces (c + 1) ++ w₂ ++ spaces d) val
      = .ok (field, w₁ ++ " " ++ w₂) := by
  have hf1' : field.data ≠ [] := fun h => hf1 (String.ext h)
  have e : spaces a ++ field ++ spaces (b + 1) ++ w₁ ++ spaces (c + 1) ++ w₂ ++ spaces d
      = String.mk (List.replicate a ' '
          ++ (field.data ++ List.replicate (b + 1) ' '
            ++ (w₁.data ++ List.replicate (c + 1) ' ' ++ w₂.data))
          ++ List.replicate d ' ') := by
    apply String.ext
    simp [spaces, String.data_append]
  have hr1 : HeadOk (w₁.data ++ List.replicate (c + 1) ' ' ++ w₂.data) := by
    rw [List.append_assoc]
    exact HeadOk_append (HeadOk_of_noSpace h1 h2) _
  have hr2 : HeadOk (w₁.data ++ List.replicate (c + 1) ' ' ++ w₂.data).reverse := by
    rw [List.reverse_append]
    exact HeadOk_append (HeadOk_reverse_of_noSpace h3 h4) _
  rw [e, splitKey_padded a b d field.data _ val hf1' hf2 hr1 hr2,
    removeInnerSpace_two w₁.data w₂.data c h2 (HeadOk_of_noSpace h3 h4)]
  have e' : String.mk (w₁.data ++ ' ' :: w₂.data) = w₁ ++ " " ++ w₂ := by
    apply String.ext
    simp [String.data_append]
  rw [e']

theorem spaces_zero_key (field : String) (rest : String) :
    field ++ " " ++ rest = spaces 0 ++ field ++ spaces (0 + 1) ++ rest ++ spaces 0 := by
  apply String.ext
  simp [spaces, String.data_append]

theorem oneWord_facts (U : Char → Char) {op : String} (h : op ∈ oneWordOperators) :
    op.data ≠ [] ∧ ' ' ∉ op.data ∧ ToLower U op = op := by
  simp only [oneWordOperators, List.mem_cons, List.mem_singleton, List.not_mem_nil,
    or_false] at h
  rcases h with e | e | e | e | e | e | e | e | e | e <;> subst e <;>
    exact ⟨by decide, by decide, rfl⟩

theorem secondWord_facts (U : Char → Char) {w : String} (h : w ∈ secondWords) :
    w.data ≠ [] ∧ ' ' ∉ w.data ∧ ToLower U w = w := by
  simp only [secondWords, List.mem_cons, List.mem_singleton, List.not_mem_nil,
    or_false] at h
  rcases h with e | e | e <;> subst e <;> exact ⟨by decide, by decide, rfl⟩

theorem mem_data_spaces_succ (x : String) (n : Nat) (y : String) :
    ' ' ∈ (x ++ spaces (n + 1) ++ y).data := by
  simp [spaces, String.data_append, List.replicate_succ]

/-- C9: operator matching ignores letter case and extra spaces.  For every
field name (non-empty, without a space), every value and every context of
other entries: a key that pads the field with `a` leading spaces, separates
field and operator by `b+1` spaces, writes a one-word supported operator in
any letter case and appends `d` spaces makes `BuildSelect` return what it
returns for the canonical key `field operator`; the same holds for the
operators `not in`, `not like`, `not between` with the two words in any letter
case and `c+1` spaces between them. -/
theorem BuildSelect_operator_case_and_spaces (U : Char → Char) (table : String)
    (selectField : List String) (pre post : WhereMap) (val : Any) (field : String)
    (a b c d : Nat) (hf1 : field ≠ "") (hf2 : ' ' ∉ field.data) :
    (∀ op ∈ oneWordOperators, ∀ op', ToLower U op' = op →
      BuildSelect U table
          (pre ++ (spaces a ++ field ++ spaces (b + 1) ++ op' ++ spaces d, val) :: post)
          selectField
        = BuildSelect U table (pre ++ (field ++ " " ++ op, val) :: post) selectField)
    ∧ (∀ w ∈ secondWords, ∀ n' w', ToLower U n' = "not" → ToLower U w' = w →
      BuildSelect U table
          (pre ++ (spaces a ++ field ++ spaces (b + 1) ++ n' ++ spaces (c + 1) ++ w'
            ++ spaces d, val) :: post) selectField
        = BuildSelect U table (pre ++ (field ++ " " ++ ("not" ++ " " ++ w), val) :: post)
            selectField) := by
  constructor
  · intro op hop op' hop'
    obtain ⟨o1, o2, o3⟩ := oneWord_facts U hop
    have p1 : op'.data ≠ [] := ne_nil_of_ToLower (by rw [hop']; exact o1)
    have p2 : ' ' ∉ op'.data := noSpace_of_ToLower (by rw [hop']; exact o2)
    refine BuildSelect_key_congr U table selectField pre post val ?_ ?_
      (splitKey_one a b d field op' val hf1 hf2 p1 p2) ?_ (hop'.trans o3.symm)
    · have := mem_data_spaces_succ (spaces a ++ field) b (op' ++ spaces d)
      simpa [String.append_assoc] using this
    · exact mem_data_spaces_succ field 0 op
    · rw [spaces_zero_key]
      exact splitKey_one 0 0 0 field op val hf1 hf2 o1 o2
  · intro w hw n' w' hn' hw'
    obtain ⟨o1, o2, o3⟩ := secondWord_facts U hw
    have p1 : n'.data ≠ [] := ne_nil_of_ToLower (by rw [hn']; decide)
    have p2 : ' ' ∉ n'.data := noSpace_of_ToLower (by rw [hn']; decide)
    have p3 : w'.data ≠ [] := ne_nil_of_ToLower (by rw [hw']; exact o1)
    have p4 : ' ' ∉ w'.data := noSpace_of_ToLower (by rw [hw']; exact o2)
    refine @BuildSelect_key_congr U table selectField pre post val _ _ field _
      ("not" ++ " " ++ w) ?_ ?_ (splitKey_two a b c d field n' w' val hf1 hf2 p1 p2 p3 p4) ?_ ?_
    · have := mem_data_spaces_succ (spaces a ++ field) b
        (n' ++ spaces (c + 1) ++ w' ++ spaces d)
      simpa [String.append_assoc] using this
    · exact mem_data_spaces_succ field 0 ("not" ++ " " ++ w)
    · have e : field ++ " " ++ ("not" ++ " " ++ w)
          = spaces 0 ++ field ++ spaces (0 + 1) ++ "not" ++ spaces (0 + 1) ++ w ++ spaces 0 := by
        apply String.ext
        simp [spaces, String.data_append]
      rw [e]
      exact splitKey_two 0 0 0 0 field "not" w val hf1 hf2 (by decide) (by decide) o1 o2
    · rw [ToLower_append, ToLower_append, ToLower_append, ToLower_append, hn', hw', o3]
      rfl

/-- C9, at the keys of the spec: `age IN` against `age in`, and
` hobbies not IN   ` against `hobbies not in`. -/
theorem BuildSelect_operator_case_and_spaces_witness :
    BuildSelect id "tb" [("age IN", .slice [.int 1, .int 2])] []
      = BuildSelect id "tb" [("age in", .slice [.int 1, .int 2])] []
    ∧ BuildSelect id "tb" [(" hobbies not IN   ", .slice [.str "a"])] []
      = BuildSelect id "tb" [("hobbies not in", .slice [.str "a"])] []
    ∧ BuildSelect id "tb" [("hobbies not in", .slice [.str "a"])] []
      = ("select * from tb where (hobbies not in (?))", [.str "a"], none) :=
  ⟨(BuildSelect_operator_case_and_spaces id "tb" [] [] [] (.slice [.int 1, .int 2]) "age"
      0 0 0 0 (by decide) (by decide)).1 "in" (by decide) "IN" rfl,
   (BuildSelect_operator_case_and_spaces id "tb" [] [] [] (.slice [.str "a"]) "hobbies"
      1 0 0 3 (by decide) (by decide)).2 "in" (by decide) "not" "IN" rfl rfl,
   rfl⟩

end Builder

namespace Builder

/-! ### C2: the text depends on the shape of the values only -/

theorem ARel_keys_eq {α β : Type} {R : α → β → Prop} {m : List (String × α)}
    {m' : List (String × β)} (h : ARel R m m') : keys m = keys m' := by
  induction h with
  | nil => rfl
  | cons h₁ _ ih => simp only [keys, List.map_cons] at ih ⊢; rw [h₁.1, ih]

theorem ARel_length_eq {α β : Type} {R : α → β → Prop} {m : List (String × α)}
    {m' : List (String × β)} (h : ARel R m m') : m.length = m'.length :=
  List.Forall₂.length_eq h

theorem ARel_lookup {α β : Type} {R : α → β → Prop} {m : List (String × α)}
    {m' : List (String × β)} (h : ARel R m m') (k : String) :
    Option.Rel R (Builder.lookup k m) (Builder.lookup k m') := by
  induction h with
  | nil => exact Option.Rel.none
  | @cons e e' l l' h₁ _ ih =>
    obtain ⟨a, v⟩ := e
    obtain ⟨a', v'⟩ := e'
    obtain ⟨h₁a, h₁b⟩ := h₁
    simp only at h₁a h₁b
    subst h₁a
    simp only [Builder.lookup]
    by_cases hk : a = k
    · simp only [hk, if_true]; exact Option.Rel.some h₁b
    · simp only [hk, if_false]; exact ih

theorem ARel_insert {α β : Type} {R : α → β → Prop} {m : List (String × α)}
    {m' : List (String × β)} (h : ARel R m m') (k : String) {v : α} {v' : β} (hv : R v v') :
    ARel R (Builder.insert k v m) (Builder.insert k v' m') := by
  induction h with
  | nil => exact List.Forall₂.cons ⟨rfl, hv⟩ List.Forall₂.nil
  | @cons e e' l l' h₁ h₂ ih =>
    obtain ⟨a, w⟩ := e
    obtain ⟨a', w'⟩ := e'
    obtain ⟨h₁a, h₁b⟩ := h₁
    simp only at h₁a h₁b
    subst h₁a
    simp only [Builder.insert]
    by_cases hk : a = k
    · simp only [hk, if_true]; exact List.Forall₂.cons ⟨rfl, hv⟩ h₂
    · simp only [hk, if_false]; exact List.Forall₂.cons ⟨rfl, h₁b⟩ ih

theorem optRel_cases {α β : Type} {R : α → β → Prop} {x : Option α} {y : Option β}
    (h : Option.Rel R x y) :
    (x = none ∧ y = none) ∨ ∃ a b, x = some a ∧ y = some b ∧ R a b := by
  cases h with
  | none => exact Or.inl ⟨rfl, rfl⟩
  | some hr => exact Or.inr ⟨_, _, rfl, rfl, hr⟩

theorem getD_lookup_length {l l' : List (String × List Any)}
    (h : ARel (fun a b => a.length = b.length) l l') (k : String) :
    ((lookup k l).getD []).length = ((lookup k l').getD []).length := by
  rcases optRel_cases (ARel_lookup h k) with ⟨e₁, e₂⟩ | ⟨a, b, e₁, e₂, hr⟩
  · rw [e₁, e₂]
  · rw [e₁, e₂]; exact hr

theorem build_text {m m' : List (String × Any)} (h : BRel m m') (op : String) :
    (build m op).1 = (build m' op).1 := by
  unfold build
  rw [ARel_keys_eq h, ARel_length_eq h]
  split <;> rfl

theorem Like_text {m m' : List (String × Any)} (h : BRel m m') :
    (Like.Build m).1 = (Like.Build m').1 := by
  unfold Like.Build
  rw [ARel_keys_eq h, ARel_length_eq h]
  split <;> rfl

theorem NotLike_text {m m' : List (String × Any)} (h : BRel m m') :
    (NotLike.Build m).1 = (NotLike.Build m').1 := by
  unfold NotLike.Build
  rw [ARel_keys_eq h, ARel_length_eq h]
  split <;> rfl

theorem shape_nullType {v v' : Any} (h : v.shape = v'.shape) (rv : Nat)
    (hv : v = Any.nullType rv) : v' = Any.nullType rv := by
  subst hv
  cases v' <;> simp [Any.shape] at h
  rw [h]

theorem null_text {m m' : List (String × Any)} (h : BRel m m') :
    (nullCompareble.Build m).1 = (nullCompareble.Build m').1 := by
  unfold nullCompareble.Build
  rw [ARel_keys_eq h, ARel_length_eq h]
  split
  · rfl
  · simp only
    apply List.filterMap_congr
    intro field _
    rcases optRel_cases (ARel_lookup h field) with ⟨e₁, e₂⟩ | ⟨v, v', e₁, e₂, hr⟩
    · rw [e₁, e₂]
    · rw [e₁, e₂]
      cases v with
      | nullType rv => rw [shape_nullType hr rv rfl]
      | _ =>
        cases v' with
        | nullType rv' => simp [Any.shape] at hr
        | _ => rfl

theorem In_text {l l' : List (String × List Any)}
    (h : ARel (fun a b => a.length = b.length) l l') : (In.Build l).1 = (In.Build l').1 := by
  unfold In.Build
  rw [ARel_keys_eq h, ARel_length_eq h]
  split
  · rfl
  · simp only [buildIn, getD_lookup_length h]

theorem NotIn_text {l l' : List (String × List Any)}
    (h : ARel (fun a b => a.length = b.length) l l') :
    (NotIn.Build l).1 = (NotIn.Build l').1 := by
  unfold NotIn.Build
  rw [ARel_keys_eq h, ARel_length_eq h]
  split
  · rfl
  · simp only [buildNotIn, getD_lookup_length h]

theorem betweenLoop_text {l l' : List (String × List Any)}
    (h : ARel (fun a b => a.length = b.length) l l') (nb : Bool) :
    ∀ ks : List String, (betweenBuilder.loop l nb ks).1 = (betweenBuilder.loop l' nb ks).1
  | [] => rfl
  | k :: ks => by
    have ih := betweenLoop_text h nb ks
    have hk := getD_lookup_length h k
    simp only [betweenBuilder.loop, buildBetween, hk]
    split <;> simp [ih]

theorem between_text {l l' : List (String × List Any)}
    (h : ARel (fun a b => a.length = b.length) l l') (nb : Bool) :
    (betweenBuilder l nb).1 = (betweenBuilder l' nb).1 := by
  unfold betweenBuilder
  rw [ARel_keys_eq h, ARel_length_eq h]
  split
  · rfl
  · exact betweenLoop_text h nb _

theorem convertInterfaceToMap_shape {v v' : Any} (h : v.shape = v'.shape) :
    Option.Rel (fun a b => a.length = b.length)
      (convertInterfaceToMap v) (convertInterfaceToMap v') := by
  cases v <;> cases v' <;> simp [Any.shape] at h <;>
    first
    | exact Option.Rel.none
    | (apply Option.Rel.some; simpa using h)

theorem convert_loop_rel (op : String) :
    ∀ {m m' : List (String × Any)}, BRel m m' →
      ∀ {acc acc' : List (String × List Any)},
        ARel (fun a b => a.length = b.length) acc acc' →
        ERel (ARel (fun a b => a.length = b.length))
          (convertWhereMapToWhereMapSlice.loop op m acc)
          (convertWhereMapToWhereMapSlice.loop op m' acc') := by
  intro m m' h
  induction h with
  | nil =>
    intro acc acc' ha
    simpa [convertWhereMapToWhereMapSlice.loop, ERel] using ha
  | @cons e e' l l' h₁ _ ih =>
    intro acc acc' ha
    obtain ⟨k, v⟩ := e
    obtain ⟨k', v'⟩ := e'
    obtain ⟨h₁a, h₁b⟩ := h₁
    simp only at h₁a h₁b
    subst h₁a
    simp only [convertWhereMapToWhereMapSlice.loop]
    rcases optRel_cases (convertInterfaceToMap_shape h₁b) with
      ⟨e₁, e₂⟩ | ⟨vals, vals', e₁, e₂, hlen⟩
    · simp [e₁, e₂, ERel]
    · simp only [e₁, e₂, hlen]
      split
      · simp [ERel]
      · exact ih (ARel_insert ha k hlen)

theorem convert_rel {m m' : List (String × Any)} (h : BRel m m') (op : String) :
    ERel (ARel (fun a b => a.length = b.length))
      (convertWhereMapToWhereMapSlice m op) (convertWhereMapToWhereMapSlice m' op) :=
  convert_loop_rel op h List.Forall₂.nil

theorem ERel_map {α β : Type} {R : α → β → Prop} {x : Except Err α} {y : Except Err β}
    (h : ERel R x y) {γ δ : Type} {S : γ → δ → Prop} (f : α → γ) (g : β → δ)
    (hfg : ∀ a b, R a b → S (f a) (g b)) : ERel S (x.map f) (y.map g) := by
  cases x <;> cases y <;> simp only [ERel] at h
  · exact h
  · exact hfg _ _ h

theorem op2Comparable_rel {op : String} {f : List (String × Any) → Except Err Comparable}
    (hf : op2Comparable op = some f) {m m' : List (String × Any)} (h : BRel m m') :
    ERel (fun c c' => c.Build.1 = c'.Build.1) (f m) (f m') := by
  rcases op2Comparable_cases hf with
    ⟨_, e⟩ | ⟨_, e⟩ | ⟨_, e⟩ | ⟨_, e⟩ | ⟨_, e⟩ | ⟨_, e⟩ | ⟨_, e⟩ | ⟨_, e⟩ | ⟨_, e⟩ | ⟨_, e⟩
    | ⟨_, e⟩ | ⟨_, e⟩ | ⟨_, e⟩ | ⟨_, e⟩ <;> subst e
  · simpa [ERel, Comparable.Build] using build_text h _
  · simpa [ERel, Comparable.Build] using build_text h _
  · simpa [ERel, Comparable.Build] using build_text h _
  · exact ERel_map (convert_rel h _) _ _ (fun a b r => by
      simpa [Comparable.Build] using In_text r)
  · exact ERel_map (convert_rel h _) _ _ (fun a b r => by
      simpa [Comparable.Build] using NotIn_text r)
  · exact ERel_map (convert_rel h _) _ _ (fun a b r => by
      simpa [Comparable.Build] using between_text r false)
  · exact ERel_map (convert_rel h _) _ _ (fun a b r => by
      simpa [Comparable.Build] using between_text r true)
  · simpa [ERel, Comparable.Build] using build_text h _
  · simpa [ERel, Comparable.Build] using build_text h _
  · simpa [ERel, Comparable.Build] using build_text h _
  · simpa [ERel, Comparable.Build] using build_text h _
  · simpa [ERel, Comparable.Build] using Like_text h
  · simpa [ERel, Comparable.Build] using NotLike_text h
  · simpa [ERel, Comparable.Build] using null_text h

end Builder

namespace Builder

theorem TRel_append {a a' b b' : List Comparable} (h₁ : TRel a a') (h₂ : TRel b b') :
    TRel (a ++ b) (a' ++ b') :=
  List.rel_append h₁ h₂

theorem TRel_loop_text {cs cs' : List Comparable} (h : TRel cs cs') :
    (whereConnector.loop cs).1 = (whereConnector.loop cs').1 := by
  induction h with
  | nil => rfl
  | cons h₁ _ ih =>
    rw [whereConnector.loop, whereConnector.loop]
    simp only [h₁, ih]

theorem finish_text (andOr : String) {r r' : List String × List Any} (h : r.1 = r'.1) :
    (whereConnector.finish andOr r).1 = (whereConnector.finish andOr r').1 := by
  unfold whereConnector.finish
  rw [h]
  split <;> rfl

theorem TRel_NestWhere {cs cs' : List Comparable} (h : TRel cs cs') :
    (Comparable.NestWhere cs).Build.1 = (Comparable.NestWhere cs').Build.1 := by
  rw [Comparable.Build, Comparable.Build]
  simp only [finish_text "and" (TRel_loop_text h)]

theorem TRel_OrWhere {cs cs' : List Comparable} (h : TRel cs cs') :
    (Comparable.OrWhere cs).Build.1 = (Comparable.OrWhere cs').Build.1 := by
  rw [Comparable.Build, Comparable.Build]
  simp only [finish_text "or" (TRel_loop_text h)]

theorem TRel_whereConnector_text {cs cs' : List Comparable} (h : TRel cs cs') (andOr : String) :
    (whereConnector andOr cs).1 = (whereConnector andOr cs').1 := by
  rw [whereConnector_eq, whereConnector_eq]
  exact finish_text andOr (TRel_loop_text h)

theorem WRel_add {w w' : whereMapSet} (h : WRel w w') (op field : String) {v v' : Any}
    (hv : v.shape = v'.shape) : WRel (w.add op field v) (w'.add op field v') := by
  unfold WRel whereMapSet.add
  apply ARel_insert h
  have hb : BRel ((lookup op w.set).getD []) ((lookup op w'.set).getD []) := by
    rcases optRel_cases (ARel_lookup h op) with ⟨e₁, e₂⟩ | ⟨a, b, e₁, e₂, hr⟩
    · rw [e₁, e₂]; exact List.Forall₂.nil
    · rw [e₁, e₂]; exact hr
  exact ARel_insert hb field hv

theorem bwc_loop_rel {w w' : whereMapSet} (h : WRel w w') :
    ∀ (ops : List String) {acc acc' : List Comparable}, TRel acc acc' →
      ERel TRel (buildWhereCondition.loop w ops acc) (buildWhereCondition.loop w' ops acc')
  | [], acc, acc', ha => by simpa [buildWhereCondition.loop, ERel] using ha
  | op :: ops, acc, acc', ha => by
    simp only [buildWhereCondition.loop]
    rcases optRel_cases (ARel_lookup h op) with ⟨e₁, e₂⟩ | ⟨m, m', e₁, e₂, hr⟩
    · simp only [e₁, e₂]
      exact bwc_loop_rel h ops ha
    · simp only [e₁, e₂]
      cases hf : op2Comparable op with
      | none => simp [ERel]
      | some f =>
        simp only
        have hrel := op2Comparable_rel hf hr
        cases h1 : f m with
        | error e =>
          cases h2 : f m' with
          | error e' => rw [h1, h2] at hrel; simpa [ERel] using hrel
          | ok c' => rw [h1, h2] at hrel; simp [ERel] at hrel
        | ok c =>
          cases h2 : f m' with
          | error e' => rw [h1, h2] at hrel; simp [ERel] at hrel
          | ok c' =>
            rw [h1, h2] at hrel
            simp only [ERel] at hrel
            exact bwc_loop_rel h ops
              (TRel_append ha (List.Forall₂.cons hrel List.Forall₂.nil))

/-- Two states of the loop of `getWhereConditions` that are related. -/
theorem gwc_finish_rel {r r' : Except Err (whereMapSet × List Comparable)}
    (h : ERel (fun p p' => WRel p.1 p'.1 ∧ TRel p.2 p'.2) r r') :
    ERel TRel (getWhereConditions.finish r) (getWhereConditions.finish r') := by
  unfold getWhereConditions.finish
  cases r with
  | error e =>
    cases r' with
    | error e' => simpa [ERel] using h
    | ok p' => simp [ERel] at h
  | ok p =>
    cases r' with
    | error e' => simp [ERel] at h
    | ok p' =>
      obtain ⟨wms, cs⟩ := p
      obtain ⟨wms', cs'⟩ := p'
      simp only [ERel] at h
      simp only
      have hb := bwc_loop_rel h.1 opOrder (List.Forall₂.nil : TRel [] [])
      unfold buildWhereCondition
      cases h1 : buildWhereCondition.loop wms opOrder [] with
      | error e =>
        cases h2 : buildWhereCondition.loop wms' opOrder [] with
        | error e' => rw [h1, h2] at hb; simpa [ERel] using hb
        | ok c' => rw [h1, h2] at hb; simp [ERel] at hb
      | ok c =>
        cases h2 : buildWhereCondition.loop wms' opOrder [] with
        | error e' => rw [h1, h2] at hb; simp [ERel] at hb
        | ok c' =>
          rw [h1, h2] at hb
          simp only [ERel] at hb ⊢
          exact TRel_append h.2 hb

theorem SameShape_length_eq : ∀ {wh wh' : List (String × Any)}, SameShape wh wh' →
    wh.length = wh'.length
  | [], [], _ => rfl
  | [], _ :: _, h => by simp [SameShape] at h
  | _ :: _, [], h => by simp [SameShape] at h
  | (k, v) :: r, (k', v') :: r', h => by
    rw [SameShape] at h
    simp [SameShape_length_eq h.2.2]

theorem isSlice_shape {v v' : Any} (h : v.shape = v'.shape) : isSlice v = isSlice v' := by
  cases v <;> cases v' <;> simp [Any.shape] at h <;> rfl

theorem isNullType_shape {v v' : Any} (h : v.shape = v'.shape) :
    isNullType v = isNullType v' := by
  cases v <;> cases v' <;> simp [Any.shape] at h <;> rfl

theorem splitKey_shape (key : String) {v v' : Any} (h : v.shape = v'.shape) :
    splitKey key v = splitKey key v' := by
  unfold splitKey
  rw [isSlice_shape h]

end Builder

namespace Builder

theorem gwc_rel_of_loop {U : Char → Char} {m m' : List (String × Any)} (hP : LoopRel U m)
    (h : SameShape m m') :
    ERel TRel (getWhereConditions U m defaultIgnoreKeys)
      (getWhereConditions U m' defaultIgnoreKeys) := by
  unfold getWhereConditions
  rw [← SameShape_length_eq h]
  split
  · exact (List.Forall₂.nil : TRel [] [])
  · exact gwc_finish_rel (hP m' h _ _ _ _ List.Forall₂.nil List.Forall₂.nil)

theorem orLoop_rel (U : Char → Char) :
    ∀ (ms ms' : List (Option (List (String × Any)))) (acc acc' : List Comparable),
      (∀ m, some m ∈ ms → LoopRel U m) → ListSameShape ms ms' → TRel acc acc' →
      ERel TRel (getWhereConditions.orLoop U defaultIgnoreKeys ms acc)
        (getWhereConditions.orLoop U defaultIgnoreKeys ms' acc')
  | [], [], acc, acc', _, _, ha => by
    rw [orLoop_nil, orLoop_nil]
    exact ha
  | [], _ :: _, _, _, _, h, _ => by simp [ListSameShape] at h
  | x :: _, [], _, _, _, h, _ => by
    cases x <;> simp [ListSameShape] at h
  | none :: r, none :: r', acc, acc', hP, h, ha => by
    rw [orLoop_none, orLoop_none]
    rw [ListSameShape] at h
    exact orLoop_rel U r r' acc acc' (fun m hm => hP m (List.mem_cons_of_mem _ hm)) h ha
  | none :: _, some _ :: _, _, _, _, h, _ => by simp [ListSameShape] at h
  | some _ :: _, none :: _, _, _, _, h, _ => by simp [ListSameShape] at h
  | some m :: r, some m' :: r', acc, acc', hP, h, ha => by
    rw [orLoop_some, orLoop_some]
    rw [ListSameShape] at h
    have hg := gwc_rel_of_loop (hP m (List.mem_cons_self _ _)) h.1
    cases h1 : getWhereConditions U m defaultIgnoreKeys with
    | error e =>
      cases h2 : getWhereConditions U m' defaultIgnoreKeys with
      | error e' => rw [h1, h2] at hg; simpa [ERel] using hg
      | ok c' => rw [h1, h2] at hg; simp [ERel] at hg
    | ok c =>
      cases h2 : getWhereConditions U m' defaultIgnoreKeys with
      | error e' => rw [h1, h2] at hg; simp [ERel] at hg
      | ok c' =>
        rw [h1, h2] at hg
        simp only [ERel] at hg
        simp only
        exact orLoop_rel U r r' _ _ (fun m hm => hP m (List.mem_cons_of_mem _ hm)) h.2
          (TRel_append ha (List.Forall₂.cons (TRel_NestWhere hg) List.Forall₂.nil))

theorem orWheres_rel (U : Char → Char) {v v' : Any}
    (hP : ∀ ms, v = Any.mapSlice ms → ∀ m, some m ∈ ms → LoopRel U m)
    (h : OrSameShape v v') :
    ERel TRel (getWhereConditions.orWheres U defaultIgnoreKeys v)
      (getWhereConditions.orWheres U defaultIgnoreKeys v') := by
  by_cases hv : isMapSlice v = true
  · cases v with
    | mapSlice ms =>
      cases v' with
      | mapSlice ms' =>
        rw [OrSameShape] at h
        rw [orWheres_mapSlice, orWheres_mapSlice]
        exact orLoop_rel U ms ms' [] [] (hP ms rfl) h List.Forall₂.nil
      | _ => simp [OrSameShape, isMapSlice] at h
    | _ => simp [isMapSlice] at hv
  · have h' : isMapSlice v = false ∧ isMapSlice v' = false := by
      cases v <;> cases v' <;> simp_all [OrSameShape, isMapSlice]
    rw [orWheres_other U _ v (by intro ms e; subst e; simp [isMapSlice] at h'),
      orWheres_other U _ v' (by intro ms e; subst e; simp [isMapSlice] at h')]
    simp [ERel]

theorem loop_rel (U : Char → Char) : ∀ wh, LoopRel U wh := by
  apply WhereMap.induct_map
  · intro wh' h wms wms' cs cs' hw hc
    cases wh' with
    | nil =>
      rw [loop_nil, loop_nil]
      exact ⟨hw, hc⟩
    | cons e r => simp [SameShape] at h
  · intro key val rest ihv ihr wh' h wms wms' cs cs' hw hc
    cases wh' with
    | nil => simp [SameShape] at h
    | cons e r' =>
      obtain ⟨key', val'⟩ := e
      rw [SameShape] at h
      obtain ⟨hk, hv, hr⟩ := h
      subst hk
      by_cases hk : key ∈ defaultIgnoreKeys
      · rw [loop_cons_ignored _ _ _ _ _ _ _ hk, loop_cons_ignored _ _ _ _ _ _ _ hk]
        exact ihr r' hr _ _ _ _ hw hc
      · rw [if_neg hk] at hv
        by_cases hk' : key = "_or"
        · subst hk'
          rw [if_pos rfl] at hv
          rw [loop_cons_or _ _ _ _ _ _ hk, loop_cons_or _ _ _ _ _ _ hk]
          have ho := orWheres_rel U ihv hv
          cases h1 : getWhereConditions.orWheres U defaultIgnoreKeys val with
          | error e =>
            cases h2 : getWhereConditions.orWheres U defaultIgnoreKeys val' with
            | error e' => rw [h1, h2] at ho; simpa [ERel] using ho
            | ok c' => rw [h1, h2] at ho; simp [ERel] at ho
          | ok c =>
            cases h2 : getWhereConditions.orWheres U defaultIgnoreKeys val' with
            | error e' => rw [h1, h2] at ho; simp [ERel] at ho
            | ok c' =>
              rw [h1, h2] at ho
              simp only [ERel] at ho
              simp only
              exact ihr r' hr _ _ _ _ hw
                (TRel_append hc (List.Forall₂.cons (TRel_OrWhere ho) List.Forall₂.nil))
        · rw [if_neg hk'] at hv
          rw [loop_cons_field _ _ _ _ _ _ _ hk hk', loop_cons_field _ _ _ _ _ _ _ hk hk',
            splitKey_shape key hv, isNullType_shape hv]
          cases hs : splitKey key val' with
          | error e => simp [ERel]
          | ok p =>
            obtain ⟨field, operator⟩ := p
            simp only
            split
            · simp [ERel]
            · exact ihr r' hr _ _ _ _ (WRel_add hw _ _ hv) hc

theorem SameShape_lookup_directive : ∀ {wh wh' : List (String × Any)}, SameShape wh wh' →
    ∀ d ∈ defaultIgnoreKeys, lookup d wh = lookup d wh'
  | [], [], _, _, _ => rfl
  | [], _ :: _, h, _, _ => by simp [SameShape] at h
  | _ :: _, [], h, _, _ => by simp [SameShape] at h
  | (k, v) :: r, (k', v') :: r', h, d, hd => by
    rw [SameShape] at h
    obtain ⟨hk, hv, hr⟩ := h
    subst hk
    simp only [lookup]
    by_cases e : k = d
    · subst e
      rw [if_pos hd] at hv
      simp [hv]
    · simp only [e, if_false]
      exact SameShape_lookup_directive hr d hd

theorem buildSelect_text_congr (table : String) (uFields : List String)
    (groupBy orderBy : String) (sLimit limit : Option eleLimit) (interval fill : String)
    {cs cs' : List Comparable}
    (h : (whereConnector "and" cs).1 = (whereConnector "and" cs').1) :
    (buildSelect table uFields groupBy orderBy sLimit limit interval fill cs).1
      = (buildSelect table uFields groupBy orderBy sLimit limit interval fill cs').1
    ∧ (buildSelect table uFields groupBy orderBy sLimit limit interval fill cs).2.2
      = (buildSelect table uFields groupBy orderBy sLimit limit interval fill cs').2.2 := by
  unfold buildSelect
  simp only [h]
  cases sLimit <;> cases limit <;> simp

/-- For two predicate maps enumerated in the same order that have the same
keys, identical directive entries and field values of the same shape (both
scalars, both the same null marker or both collections of the same length,
recursively inside `_or`), `BuildSelect` returns the same text and the same
error. -/
theorem BuildSelect_same_shape (U : Char → Char) (table : String)
    (selectField : List String) (wh wh' : WhereMap) (h : SameShape wh wh') :
    (BuildSelect U table wh selectField).1 = (BuildSelect U table wh' selectField).1
    ∧ (BuildSelect U table wh selectField).2.2 = (BuildSelect U table wh' selectField).2.2 := by
  have hl := SameShape_lookup_directive h
  have e1 : BuildSelect.orderBy wh = BuildSelect.orderBy wh' := by
    unfold BuildSelect.orderBy; rw [hl "_orderby" (by decide)]
  have e2 : BuildSelect.groupBy wh = BuildSelect.groupBy wh' := by
    unfold BuildSelect.groupBy; rw [hl "_groupby" (by decide)]
  have e3 : BuildSelect.limit wh = BuildSelect.limit wh' := by
    unfold BuildSelect.limit; rw [hl "_limit" (by decide)]
  have e4 : BuildSelect.sLimit wh = BuildSelect.sLimit wh' := by
    unfold BuildSelect.sLimit; rw [hl "_slimit" (by decide)]
  have e5 : BuildSelect.interval wh = BuildSelect.interval wh' := by
    unfold BuildSelect.interval; rw [hl "_interval" (by decide)]
  have e6 : BuildSelect.fill wh = BuildSelect.fill wh' := by
    unfold BuildSelect.fill; rw [hl "_fill" (by decide), hl "_fillvalue" (by decide)]
  have hg := gwc_rel_of_loop (loop_rel U wh) h
  unfold BuildSelect
  rw [e1, e2, e3, e4, e5, e6]
  cases BuildSelect.orderBy wh' with
  | error e => exact ⟨rfl, rfl⟩
  | ok orderBy =>
  cases BuildSelect.groupBy wh' with
  | error e => exact ⟨rfl, rfl⟩
  | ok groupBy =>
  cases BuildSelect.limit wh' with
  | error e => exact ⟨rfl, rfl⟩
  | ok limit =>
  cases BuildSelect.sLimit wh' with
  | error e => exact ⟨rfl, rfl⟩
  | ok sLimit =>
  cases BuildSelect.interval wh' with
  | error e => exact ⟨rfl, rfl⟩
  | ok interval =>
  cases BuildSelect.fill wh' with
  | error e => exact ⟨rfl, rfl⟩
  | ok fill =>
  cases h1 : getWhereConditions U wh defaultIgnoreKeys with
  | error e =>
    cases h2 : getWhereConditions U wh' defaultIgnoreKeys with
    | error e' =>
      rw [h1, h2] at hg
      simp only [ERel] at hg
      subst hg
      exact ⟨rfl, rfl⟩
    | ok c' => rw [h1, h2] at hg; simp [ERel] at hg
  | ok c =>
    cases h2 : getWhereConditions U wh' defaultIgnoreKeys with
    | error e' => rw [h1, h2] at hg; simp [ERel] at hg
    | ok c' =>
      rw [h1, h2] at hg
      simp only [ERel] at hg
      exact buildSelect_text_congr table selectField groupBy orderBy sLimit limit interval
        fill (TRel_whereConnector_text hg "and")

end Builder

namespace Builder

/-! ### C5: the order of enumeration -/

theorem loop_all_ok (U : Char → Char) :
    ∀ (wh : List (String × Any)) (wms : whereMapSet) (cs : List Comparable),
      (∀ e ∈ wh, entryFails U e = false) →
      getWhereConditions.loop U defaultIgnoreKeys wh wms cs
        = .ok (addAll (wh.filterMap (slotOf U)) wms, cs ++ wh.filterMap (orGroupOf U))
  | [], wms, cs, _ => by
    rw [loop_nil]
    simp [addAll]
  | (key, val) :: rest, wms, cs, h => by
    have h0 := h (key, val) (List.mem_cons_self _ _)
    have hr : ∀ e ∈ rest, entryFails U e = false :=
      fun e he => h e (List.mem_cons_of_mem _ he)
    by_cases hk : key ∈ defaultIgnoreKeys
    · rw [loop_cons_ignored _ _ _ _ _ _ _ hk, loop_all_ok U rest wms cs hr]
      simp [List.filterMap_cons, slotOf, orGroupOf, hk]
    · by_cases hk' : key = "_or"
      · subst hk'
        rw [loop_cons_or _ _ _ _ _ _ hk]
        simp only [entryFails, hk, if_false, if_true] at h0
        cases ho : getWhereConditions.orWheres U defaultIgnoreKeys val with
        | error e => rw [ho] at h0; simp at h0
        | ok c =>
          simp only
          rw [loop_all_ok U rest wms _ hr]
          simp [List.filterMap_cons, slotOf, orGroupOf, hk, ho]
      · rw [loop_cons_field _ _ _ _ _ _ _ hk hk']
        simp only [entryFails, hk, hk', if_false] at h0
        cases hs : splitKey key val with
        | error e => rw [hs] at h0; simp at h0
        | ok p =>
          obtain ⟨field, operator⟩ := p
          rw [hs] at h0
          simp only at h0 ⊢
          rw [if_neg (by simpa using h0), loop_all_ok U rest _ cs hr]
          simp [List.filterMap_cons, slotOf, orGroupOf, hk, hk', hs, addAll]

theorem loop_some_fail (U : Char → Char) :
    ∀ (wh : List (String × Any)) (wms : whereMapSet) (cs : List Comparable),
      (∃ e ∈ wh, entryFails U e = true) →
      ∃ err, getWhereConditions.loop U defaultIgnoreKeys wh wms cs = .error err
  | [], _, _, h => by
    obtain ⟨e, he, _⟩ := h
    cases he
  | (key, val) :: rest, wms, cs, h => by
    have ih : ∀ wms cs, (∃ e ∈ rest, entryFails U e = true) →
        ∃ err, getWhereConditions.loop U defaultIgnoreKeys rest wms cs = .error err :=
      fun wms cs h' => loop_some_fail U rest wms cs h'
    have hcase : entryFails U (key, val) = true ∨ ∃ e ∈ rest, entryFails U e = true := by
      obtain ⟨e, he, hf⟩ := h
      rcases List.mem_cons.mp he with e1 | e1
      · left; rw [← e1]; exact hf
      · right; exact ⟨e, e1, hf⟩
    by_cases hk : key ∈ defaultIgnoreKeys
    · rw [loop_cons_ignored _ _ _ _ _ _ _ hk]
      rcases hcase with h1 | h1
      · simp [entryFails, hk] at h1
      · exact ih _ _ h1
    · by_cases hk' : key = "_or"
      · subst hk'
        rw [loop_cons_or _ _ _ _ _ _ hk]
        cases ho : getWhereConditions.orWheres U defaultIgnoreKeys val with
        | error e => exact ⟨e, rfl⟩
        | ok c =>
          simp only
          rcases hcase with h1 | h1
          · simp [entryFails, hk, ho] at h1
          · exact ih _ _ h1
      · rw [loop_cons_field _ _ _ _ _ _ _ hk hk']
        cases hs : splitKey key val with
        | error e => exact ⟨e, rfl⟩
        | ok p =>
          obtain ⟨field, operator⟩ := p
          simp only
          split
          · exact ⟨_, rfl⟩
          · rename_i hop
            rcases hcase with h1 | h1
            · simp only [entryFails, hk, hk', hs, if_false] at h1
              exact absurd h1 hop
            · exact ih _ _ h1

end Builder

namespace Builder

theorem insert_ne_nil {α : Type} (k : String) (v : α) (m : List (String × α)) :
    insert k v m ≠ [] := by
  cases m with
  | nil => simp [insert]
  | cons p m =>
    obtain ⟨a, b⟩ := p
    simp only [insert]
    split <;> simp

theorem keys_insert_nodup {α : Type} (k : String) (v : α) :
    ∀ {m : List (String × α)}, (keys m).Nodup → (keys (insert k v m)).Nodup
  | [], _ => by simp [insert, keys]
  | (a, b) :: m, h => by
    simp only [keys, List.map_cons, List.nodup_cons] at h
    simp only [insert]
    by_cases hak : a = k
    · subst hak
      simpa [keys] using h
    · simp only [hak, if_false, keys, List.map_cons, List.nodup_cons]
      refine ⟨?_, keys_insert_nodup k v h.2⟩
      intro hm
      rcases (mem_keys_insert k a v m).mp hm with e | e
      · exact hak e
      · exact h.1 e

theorem lookupVal_add (w : whereMapSet) (op field : String) (val : Any) (op' k : String) :
    lookupVal (w.add op field val) op' k
      = if op = op' ∧ field = k then some val else lookupVal w op' k := by
  simp only [lookupVal, whereMapSet.add, lookup_insert]
  by_cases h : op = op'
  · subst h
    simp only [if_true, Option.bind_some, lookup_insert, true_and]
    by_cases h' : field = k
    · simp [h', lookup_insert]
    · simp only [h', if_false]
      cases lookup op w.set <;> simp [lookup, lookup_insert, h']
  · simp [h]

theorem WInv_empty : WInv (whereMapSet.mk []) := by
  intro op b h
  simp [lookup] at h

theorem WInv_add {w : whereMapSet} (h : WInv w) (op field : String) (val : Any) :
    WInv (w.add op field val) := by
  intro op' b hb
  simp only [whereMapSet.add, lookup_insert] at hb
  split at hb
  · cases hb
    refine ⟨insert_ne_nil _ _ _, keys_insert_nodup _ _ ?_⟩
    cases hs : lookup op w.set with
    | none => simp [keys]
    | some s => exact (h op s hs).2
  · exact h op' b hb

theorem WInv_addAll : ∀ (slots : List (String × String × Any)) {w : whereMapSet},
    WInv w → WInv (addAll slots w)
  | [], _, h => h
  | s :: rest, _, h => by
    simp only [addAll, List.foldl_cons]
    exact WInv_addAll rest (WInv_add h _ _ _)

theorem lookupVal_addAll_not_mem (op k : String) :
    ∀ (slots : List (String × String × Any)) (w : whereMapSet),
      (∀ v, (op, k, v) ∉ slots) → lookupVal (addAll slots w) op k = lookupVal w op k
  | [], _, _ => rfl
  | (o, f, v) :: rest, w, h => by
    simp only [addAll, List.foldl_cons]
    have ih := lookupVal_addAll_not_mem op k rest (w.add o f v)
      (fun v' hv' => h v' (List.mem_cons_of_mem _ hv'))
    simp only [addAll] at ih
    rw [ih, lookupVal_add]
    have hne : ¬ (o = op ∧ f = k) := by
      rintro ⟨e1, e2⟩
      subst e1; subst e2
      exact h v (List.mem_cons_self _ _)
    simp [hne]

theorem lookupVal_addAll_mem (op k : String) (v : Any) :
    ∀ (slots : List (String × String × Any)) (w : whereMapSet),
      (slots.map (fun s => (s.1, s.2.1))).Nodup → (op, k, v) ∈ slots →
      lookupVal (addAll slots w) op k = some v
  | [], _, _, h => by cases h
  | (o, f, x) :: rest, w, hn, h => by
    simp only [List.map_cons, List.nodup_cons] at hn
    simp only [addAll, List.foldl_cons]
    rcases List.mem_cons.mp h with e | e
    · cases e
      have hnot : ∀ v', (op, k, v') ∉ rest := by
        intro v' hv'
        apply hn.1
        exact List.mem_map.mpr ⟨(op, k, v'), hv', rfl⟩
      have := lookupVal_addAll_not_mem op k rest (w.add op k v) hnot
      simp only [addAll] at this
      rw [this, lookupVal_add]
      simp
    · have := lookupVal_addAll_mem op k v rest (w.add o f x) hn.2 e
      simpa [addAll] using this

theorem lookupVal_addAll_perm {slots slots' : List (String × String × Any)}
    (hp : slots.Perm slots') (hn : (slots.map (fun s => (s.1, s.2.1))).Nodup)
    (w : whereMapSet) (op k : String) :
    lookupVal (addAll slots w) op k = lookupVal (addAll slots' w) op k := by
  have hn' : (slots'.map (fun s => (s.1, s.2.1))).Nodup :=
    (List.Perm.nodup_iff (hp.map _)).mp hn
  by_cases h : ∃ v, (op, k, v) ∈ slots
  · obtain ⟨v, hv⟩ := h
    rw [lookupVal_addAll_mem op k v slots w hn hv,
      lookupVal_addAll_mem op k v slots' w hn' (hp.mem_iff.mp hv)]
  · have h1 : ∀ v, (op, k, v) ∉ slots := fun v hv => h ⟨v, hv⟩
    have h2 : ∀ v, (op, k, v) ∉ slots' := fun v hv => h ⟨v, hp.mem_iff.mpr hv⟩
    rw [lookupVal_addAll_not_mem op k slots w h1, lookupVal_addAll_not_mem op k slots' w h2]

theorem mem_iff_lookup {α : Type} {k : String} {v : α} :
    ∀ {b : List (String × α)}, (keys b).Nodup → ((k, v) ∈ b ↔ lookup k b = some v)
  | [], _ => by simp [lookup]
  | (a, x) :: b, h => by
    simp only [keys, List.map_cons, List.nodup_cons] at h
    simp only [lookup, List.mem_cons]
    by_cases hak : a = k
    · subst hak
      simp only [if_true, Option.some.injEq]
      constructor
      · rintro (e | e)
        · cases e; rfl
        · exact absurd (List.mem_map.mpr ⟨(a, v), e, rfl⟩) h.1
      · intro e
        subst e
        exact Or.inl rfl
    · simp only [hak, if_false]
      rw [← mem_iff_lookup h.2]
      constructor
      · rintro (e | e)
        · cases e; exact absurd rfl hak
        · exact e
      · exact Or.inr

theorem WEq_of_lookupVal {w w' : whereMapSet} (hw : WInv w) (hw' : WInv w')
    (h : ∀ op k, lookupVal w op k = lookupVal w' op k) : WEq w w' := by
  intro op
  have first : ∀ {x x' : whereMapSet} {b : List (String × Any)}, WInv x →
      lookup op x.set = some b → lookup op x'.set = none →
      (∀ k, lookupVal x op k = lookupVal x' op k) → False := by
    intro x x' b hx hb hn hh
    obtain ⟨hne, _⟩ := hx op b hb
    cases b with
    | nil => exact hne rfl
    | cons p t =>
      obtain ⟨k, v⟩ := p
      have := hh k
      simp [lookupVal, hb, hn, lookup] at this
  cases hb : lookup op w.set with
  | none =>
    cases hb' : lookup op w'.set with
    | none => exact Option.Rel.none
    | some b' => exact (first hw' hb' hb (fun k => (h op k).symm)).elim
  | some b =>
    cases hb' : lookup op w'.set with
    | none => exact (first hw hb hb' (h op)).elim
    | some b' =>
      apply Option.Rel.some
      have n1 := (hw op b hb).2
      have n2 := (hw' op b' hb').2
      refine ⟨?_, n1⟩
      rw [List.perm_ext_iff_of_nodup (List.Nodup.of_map _ n1) (List.Nodup.of_map _ n2)]
      rintro ⟨k, v⟩
      rw [mem_iff_lookup n1, mem_iff_lookup n2]
      have e : lookup k b = lookup k b' := by
        simpa [lookupVal, hb, hb'] using h op k
      rw [e]

theorem WEq_addAll_perm {slots slots' : List (String × String × Any)}
    (hp : slots.Perm slots') (hn : (slots.map (fun s => (s.1, s.2.1))).Nodup) :
    WEq (addAll slots (whereMapSet.mk [])) (addAll slots' (whereMapSet.mk [])) :=
  WEq_of_lookupVal (WInv_addAll slots WInv_empty) (WInv_addAll slots' WInv_empty)
    (lookupVal_addAll_perm hp hn _)

end Builder

namespace Builder

theorem lookup_perm {α : Type} {b b' : List (String × α)} (h : BSame b b') (k : String) :
    lookup k b = lookup k b' := by
  have n' : (keys b').Nodup := (List.Perm.nodup_iff (h.1.map _)).mp h.2
  apply Option.ext
  intro v
  simp only [Option.mem_def]
  rw [← mem_iff_lookup h.2, ← mem_iff_lookup n']
  exact h.1.mem_iff

theorem BSame_sort_eq {α : Type} {b b' : List (String × α)} (h : BSame b b') :
    defaultSortAlgorithm (keys b) = defaultSortAlgorithm (keys b') :=
  sort_eq_of_perm (h.1.map _)

theorem BSame_length_eq {α : Type} {b b' : List (String × α)} (h : BSame b b') :
    b.length = b'.length := h.1.length_eq

theorem build_eq {b b' : List (String × Any)} (h : BSame b b') (op : String) :
    build b op = build b' op := by
  unfold build
  rw [BSame_sort_eq h, BSame_length_eq h]
  simp only [lookup_perm h]

theorem Like_eq {b b' : List (String × Any)} (h : BSame b b') :
    Like.Build b = Like.Build b' := by
  unfold Like.Build
  rw [BSame_sort_eq h, BSame_length_eq h]
  simp only [lookup_perm h]

theorem NotLike_eq {b b' : List (String × Any)} (h : BSame b b') :
    NotLike.Build b = NotLike.Build b' := by
  unfold NotLike.Build
  rw [BSame_sort_eq h, BSame_length_eq h]
  simp only [lookup_perm h]

theorem null_eq {b b' : List (String × Any)} (h : BSame b b') :
    nullCompareble.Build b = nullCompareble.Build b' := by
  unfold nullCompareble.Build
  rw [BSame_sort_eq h, BSame_length_eq h]
  simp only [lookup_perm h]

theorem In_eq {b b' : List (String × List Any)} (h : BSame b b') :
    In.Build b = In.Build b' := by
  unfold In.Build
  rw [BSame_sort_eq h, BSame_length_eq h]
  simp only [lookup_perm h]

theorem NotIn_eq {b b' : List (String × List Any)} (h : BSame b b') :
    NotIn.Build b = NotIn.Build b' := by
  unfold NotIn.Build
  rw [BSame_sort_eq h, BSame_length_eq h]
  simp only [lookup_perm h]

theorem betweenLoop_eq {b b' : List (String × List Any)} (h : BSame b b') (nb : Bool) :
    ∀ ks : List String, betweenBuilder.loop b nb ks = betweenBuilder.loop b' nb ks
  | [] => rfl
  | k :: ks => by
    simp only [betweenBuilder.loop, lookup_perm h, betweenLoop_eq h nb ks]

theorem between_eq {b b' : List (String × List Any)} (h : BSame b b') (nb : Bool) :
    betweenBuilder b nb = betweenBuilder b' nb := by
  unfold betweenBuilder
  rw [BSame_sort_eq h, BSame_length_eq h, betweenLoop_eq h nb]

theorem insert_not_mem {α : Type} (k : String) (v : α) :
    ∀ {m : List (String × α)}, k ∉ keys m → insert k v m = m ++ [(k, v)]
  | [], _ => rfl
  | (a, b) :: m, h => by
    simp only [keys, List.map_cons, List.mem_cons, not_or] at h
    simp only [insert, Ne.symm h.1, if_false, List.cons_append]
    rw [insert_not_mem k v h.2]

theorem convert_loop_ok (op : String) :
    ∀ (m : List (String × Any)) (acc : List (String × List Any)),
      (keys m).Nodup → (∀ k ∈ keys m, k ∉ keys acc) → (∀ e ∈ m, convertible e.2 = true) →
      convertWhereMapToWhereMapSlice.loop op m acc = .ok (acc ++ m.map convEntry)
  | [], acc, _, _, _ => by simp [convertWhereMapToWhereMapSlice.loop]
  | (k, v) :: m, acc, hn, hd, hg => by
    simp only [keys, List.map_cons, List.nodup_cons] at hn
    have hv := hg (k, v) (List.mem_cons_self _ _)
    simp only [convertible] at hv
    simp only [convertWhereMapToWhereMapSlice.loop]
    cases hc : convertInterfaceToMap v with
    | none => rw [hc] at hv; simp at hv
    | some vals =>
      rw [hc] at hv
      simp only
      rw [if_neg (by simpa using hv)]
      have hk : k ∉ keys acc := hd k (by simp [keys])
      rw [insert_not_mem k vals hk,
        convert_loop_ok op m _ hn.2 ?_ (fun e he => hg e (List.mem_cons_of_mem _ he))]
      · simp [convEntry, hc]
      · intro a ha hma
        simp only [keys, List.map_append, List.map_cons, List.map_nil, List.mem_append,
          List.mem_singleton] at hma
        rcases hma with e | e
        · exact hd a (by simp only [keys, List.map_cons, List.mem_cons]; exact Or.inr ha) e
        · subst e
          exact hn.1 ha

theorem convert_loop_fail (op : String) :
    ∀ (m : List (String × Any)) (acc : List (String × List Any)),
      (∃ e ∈ m, convertible e.2 = false) →
      ∃ err, convertWhereMapToWhereMapSlice.loop op m acc = .error err
  | [], _, h => by
    obtain ⟨e, he, _⟩ := h
    cases he
  | (k, v) :: m, acc, h => by
    simp only [convertWhereMapToWhereMapSlice.loop]
    cases hc : convertInterfaceToMap v with
    | none => exact ⟨_, rfl⟩
    | some vals =>
      simp only
      split
      · exact ⟨_, rfl⟩
      · rename_i hlen
        apply convert_loop_fail op m
        obtain ⟨e, he, hf⟩ := h
        rcases List.mem_cons.mp he with e1 | e1
        · subst e1
          simp [convertible, hc, hlen] at hf
        · exact ⟨e, e1, hf⟩

theorem keys_map_convEntry (m : List (String × Any)) : keys (m.map convEntry) = keys m := by
  simp [keys, convEntry, Function.comp_def]

theorem convert_same {b b' : List (String × Any)} (h : BSame b b') (op : String) :
    SRel BSame (convertWhereMapToWhereMapSlice b op) (convertWhereMapToWhereMapSlice b' op) := by
  have n' : (keys b').Nodup := (List.Perm.nodup_iff (h.1.map _)).mp h.2
  unfold convertWhereMapToWhereMapSlice
  by_cases hg : ∀ e ∈ b, convertible e.2 = true
  · have hg' : ∀ e ∈ b', convertible e.2 = true := fun e he => hg e (h.1.mem_iff.mpr he)
    rw [convert_loop_ok op b [] h.2 (by simp [keys]) hg,
      convert_loop_ok op b' [] n' (by simp [keys]) hg']
    simp only [SRel, List.nil_append]
    exact ⟨h.1.map _, by rw [keys_map_convEntry]; exact h.2⟩
  · have hf : ∃ e ∈ b, convertible e.2 = false := by
      by_contra hc
      apply hg
      intro e he
      by_contra hne
      exact hc ⟨e, he, by simpa using hne⟩
    obtain ⟨e, he, hef⟩ := hf
    obtain ⟨err, h1⟩ := convert_loop_fail op b [] ⟨e, he, hef⟩
    obtain ⟨err', h2⟩ := convert_loop_fail op b' [] ⟨e, h.1.mem_iff.mp he, hef⟩
    rw [h1, h2]
    trivial

theorem SRel_map {α β : Type} {R : α → β → Prop} {x : Except Err α} {y : Except Err β}
    (h : SRel R x y) {γ δ : Type} {S : γ → δ → Prop} (f : α → γ) (g : β → δ)
    (hfg : ∀ a b, R a b → S (f a) (g b)) : SRel S (x.map f) (y.map g) := by
  cases x <;> cases y <;> simp only [SRel] at h
  · trivial
  · exact hfg _ _ h

theorem op2Comparable_same {op : String} {f : List (String × Any) → Except Err Comparable}
    (hf : op2Comparable op = some f) {m m' : List (String × Any)} (h : BSame m m') :
    SRel (fun c c' => c.Build = c'.Build) (f m) (f m') := by
  rcases op2Comparable_cases hf with
    ⟨_, e⟩ | ⟨_, e⟩ | ⟨_, e⟩ | ⟨_, e⟩ | ⟨_, e⟩ | ⟨_, e⟩ | ⟨_, e⟩ | ⟨_, e⟩ | ⟨_, e⟩ | ⟨_, e⟩
    | ⟨_, e⟩ | ⟨_, e⟩ | ⟨_, e⟩ | ⟨_, e⟩ <;> subst e
  · simpa [SRel, Comparable.Build] using build_eq h _
  · simpa [SRel, Comparable.Build] using build_eq h _
  · simpa [SRel, Comparable.Build] using build_eq h _
  · exact SRel_map (convert_same h _) _ _ (fun a b r => by
      simpa [Comparable.Build] using In_eq r)
  · exact SRel_map (convert_same h _) _ _ (fun a b r => by
      simpa [Comparable.Build] using NotIn_eq r)
  · exact SRel_map (convert_same h _) _ _ (fun a b r => by
      simpa [Comparable.Build] using between_eq r false)
  · exact SRel_map (convert_same h _) _ _ (fun a b r => by
      simpa [Comparable.Build] using between_eq r true)
  · simpa [SRel, Comparable.Build] using build_eq h _
  · simpa [SRel, Comparable.Build] using build_eq h _
  · simpa [SRel, Comparable.Build] using build_eq h _
  · simpa [SRel, Comparable.Build] using build_eq h _
  · simpa [SRel, Comparable.Build] using Like_eq h
  · simpa [SRel, Comparable.Build] using NotLike_eq h
  · simpa [SRel, Comparable.Build] using null_eq h

theorem bwc_loop_same {w w' : whereMapSet} (h : WEq w w') :
    ∀ (ops : List String) {acc acc' : List Comparable}, FRel acc acc' →
      SRel FRel (buildWhereCondition.loop w ops acc) (buildWhereCondition.loop w' ops acc')
  | [], acc, acc', ha => by simpa [buildWhereCondition.loop, SRel] using ha
  | op :: ops, acc, acc', ha => by
    simp only [buildWhereCondition.loop]
    rcases optRel_cases (h op) with ⟨e₁, e₂⟩ | ⟨m, m', e₁, e₂, hr⟩
    · simp only [e₁, e₂]
      exact bwc_loop_same h ops ha
    · simp only [e₁, e₂]
      cases hf : op2Comparable op with
      | none => simp [SRel]
      | some f =>
        simp only
        have hrel := op2Comparable_same hf hr
        cases h1 : f m with
        | error e =>
          cases h2 : f m' with
          | error e' => simp [SRel]
          | ok c' => rw [h1, h2] at hrel; simp [SRel] at hrel
        | ok c =>
          cases h2 : f m' with
          | error e' => rw [h1, h2] at hrel; simp [SRel] at hrel
          | ok c' =>
            rw [h1, h2] at hrel
            simp only [SRel] at hrel
            apply bwc_loop_same h ops
            simp only [FRel, List.map_append, List.map_cons, List.map_nil] at ha ⊢
            rw [ha, hrel]

end Builder

namespace Builder

theorem filter_key_length_le_one (k : String) :
    ∀ {wh : List (String × Any)}, (keys wh).Nodup →
      (wh.filter (fun e => decide (e.1 = k))).length ≤ 1
  | [], _ => by simp
  | (a, v) :: rest, h => by
    simp only [keys, List.map_cons, List.nodup_cons] at h
    by_cases hak : a = k
    · subst hak
      have hnil : rest.filter (fun e => decide (e.1 = a)) = [] := by
        rw [List.filter_eq_nil_iff]
        intro e he
        simp only [decide_eq_true_eq]
        intro e1
        exact h.1 (List.mem_map.mpr ⟨e, he, e1⟩)
      simp [List.filter_cons, hnil]
    · simp only [List.filter_cons, hak, decide_False]
      exact filter_key_length_le_one k h.2

theorem perm_eq_of_length_le_one {α : Type} {l l' : List α} (h : l.Perm l')
    (hl : l.length ≤ 1) : l = l' := by
  cases l with
  | nil => exact (List.nil_perm.mp h).symm
  | cons a t =>
    cases t with
    | nil => exact List.singleton_perm.mp h
    | cons b t => simp at hl

theorem orGroupOf_eq_none {U : Char → Char} {e : String × Any} (h : e.1 ≠ "_or") :
    orGroupOf U e = none := by
  unfold orGroupOf
  rw [if_neg h]
  split <;> rfl

theorem filterMap_orGroupOf_filter (U : Char → Char) (wh : List (String × Any)) :
    wh.filterMap (orGroupOf U)
      = (wh.filter (fun e => decide (e.1 = "_or"))).filterMap (orGroupOf U) := by
  induction wh with
  | nil => rfl
  | cons e rest ih =>
    by_cases h : e.1 = "_or"
    · simp only [List.filter_cons, h, decide_True, if_true, List.filterMap_cons]
      rw [ih]
    · simp only [List.filter_cons, h, decide_False, List.filterMap_cons,
        orGroupOf_eq_none h]
      exact ih

theorem orGroups_perm (U : Char → Char) {wh wh' : List (String × Any)} (hp : wh.Perm wh')
    (hk : (keys wh).Nodup) : wh.filterMap (orGroupOf U) = wh'.filterMap (orGroupOf U) := by
  rw [filterMap_orGroupOf_filter U wh, filterMap_orGroupOf_filter U wh',
    perm_eq_of_length_le_one (hp.filter _) (filter_key_length_le_one "_or" hk)]

theorem FRel_connector_eq {cs cs' : List Comparable} (h : FRel cs cs') (andOr : String) :
    whereConnector andOr cs = whereConnector andOr cs' := by
  rw [whereConnector_eq, whereConnector_eq, whereConnector_loop_eq,
    whereConnector_loop_eq]
  have e1 : cs.map (fun c => c.Build.1) = cs'.map (fun c => c.Build.1) := by
    have := congrArg (List.map Prod.fst) h
    simpa [FRel, List.map_map, Function.comp_def] using this
  have e2 : cs.map (fun c => c.Build.2) = cs'.map (fun c => c.Build.2) := by
    have := congrArg (List.map Prod.snd) h
    simpa [FRel, List.map_map, Function.comp_def] using this
  rw [e1, e2]

theorem gwc_perm (U : Char → Char) {wh wh' : List (String × Any)} (hp : wh.Perm wh')
    (hk : (keys wh).Nodup) (hs : (slotKeys U wh).Nodup) :
    SRel FRel (getWhereConditions U wh defaultIgnoreKeys)
      (getWhereConditions U wh' defaultIgnoreKeys) := by
  unfold getWhereConditions
  rw [hp.length_eq]
  split
  · simp [SRel, FRel]
  · by_cases hg : ∀ e ∈ wh, entryFails U e = false
    · have hg' : ∀ e ∈ wh', entryFails U e = false := fun e he => hg e (hp.mem_iff.mpr he)
      rw [loop_all_ok U wh _ _ hg, loop_all_ok U wh' _ _ hg', orGroups_perm U hp hk]
      have hw := WEq_addAll_perm (hp.filterMap (slotOf U)) hs
      have hb := bwc_loop_same hw opOrder (rfl : FRel [] [])
      simp only [getWhereConditions.finish, buildWhereCondition]
      cases h1 : buildWhereCondition.loop (addAll (wh.filterMap (slotOf U)) (whereMapSet.mk []))
          opOrder [] with
      | error e =>
        cases h2 : buildWhereCondition.loop
            (addAll (wh'.filterMap (slotOf U)) (whereMapSet.mk [])) opOrder [] with
        | error e' => simp [SRel]
        | ok c' => rw [h1, h2] at hb; simp [SRel] at hb
      | ok c =>
        cases h2 : buildWhereCondition.loop
            (addAll (wh'.filterMap (slotOf U)) (whereMapSet.mk [])) opOrder [] with
        | error e' => rw [h1, h2] at hb; simp [SRel] at hb
        | ok c' =>
          rw [h1, h2] at hb
          simp only [SRel, FRel, List.map_append] at hb ⊢
          rw [hb]
    · have hf : ∃ e ∈ wh, entryFails U e = true := by
        by_contra hc
        apply hg
        intro e he
        by_contra hne
        exact hc ⟨e, he, by simpa using hne⟩
      obtain ⟨e, he, hef⟩ := hf
      obtain ⟨err, h1⟩ := loop_some_fail U wh (whereMapSet.mk []) [] ⟨e, he, hef⟩
      obtain ⟨err', h2⟩ := loop_some_fail U wh' (whereMapSet.mk []) []
        ⟨e, hp.mem_iff.mp he, hef⟩
      rw [h1, h2]
      simp [getWhereConditions.finish, SRel]

theorem buildSelect_congr (table : String) (uFields : List String)
    (groupBy orderBy : String) (sLimit limit : Option eleLimit) (interval fill : String)
    {cs cs' : List Comparable} (h : whereConnector "and" cs = whereConnector "and" cs') :
    buildSelect table uFields groupBy orderBy sLimit limit interval fill cs
      = buildSelect table uFields groupBy orderBy sLimit limit interval fill cs' := by
  unfold buildSelect
  simp only [h]

/-- C5 as the spec words it fails twice.  The keys `a` and ` a` are filed under
the same field and operator, and the entry enumerated last wins, so the bound
value depends on the order; and of two malformed keys the one enumerated first
decides which error is returned. -/
theorem BuildSelect_order_dependent :
    List.Perm [("a", Any.int 1), (" a", Any.int 2)] [(" a", Any.int 2), ("a", Any.int 1)]
    ∧ BuildSelect id "t" [("a", Any.int 1), (" a", Any.int 2)] []
        = ("select * from t where (a=?)", [Any.int 2], none)
    ∧ BuildSelect id "t" [(" a", Any.int 2), ("a", Any.int 1)] []
        = ("select * from t where (a=?)", [Any.int 1], none)
    ∧ BuildSelect id "t" [("a", Any.int 1), (" a", Any.int 2)] []
        ≠ BuildSelect id "t" [(" a", Any.int 2), ("a", Any.int 1)] []
    ∧ BuildSelect id "t" [("", Any.int 1), ("a xx", Any.int 2)] []
        = ("", [], some Err.errSplitEmptyKey)
    ∧ BuildSelect id "t" [("a xx", Any.int 2), ("", Any.int 1)] []
        = ("", [], some Err.ErrUnsupportedOperator) := by
  refine ⟨List.Perm.swap _ _ _, rfl, rfl, ?_, rfl, rfl⟩
  intro h
  have h1 : BuildSelect id "t" [("a", Any.int 1), (" a", Any.int 2)] []
      = ("select * from t where (a=?)", [Any.int 2], none) := rfl
  have h2 : BuildSelect id "t" [(" a", Any.int 2), ("a", Any.int 1)] []
      = ("select * from t where (a=?)", [Any.int 1], none) := rfl
  rw [h1, h2] at h
  simp at h

end Builder

namespace Builder

theorem isStringInSlice_eq_false {str : String} :
    ∀ {arr : List String}, str ∉ arr → isStringInSlice str arr = false
  | [], _ => rfl
  | s :: arr, h => by
    simp only [List.mem_cons, not_or] at h
    simp only [isStringInSlice, Ne.symm h.1, if_false]
    exact isStringInSlice_eq_false h.2

/-- Every operator token outside `opOrder` is rejected: a map that holds a key,
other than the directive keys and `_or`, whose operator in lower case is not
in `opOrder` makes `BuildSelect` fail, and when that key is the only entry the
error is `ErrUnsupportedOperator`.  The token `null` is in `opOrder`. -/
theorem BuildSelect_token_outside_opOrder (U : Char → Char) (table : String)
    (selectField : List String) (wh : WhereMap) (key field operator : String) (val : Any)
    (hmem : (key, val) ∈ wh) (hk : key ∉ defaultIgnoreKeys) (hk' : key ≠ "_or")
    (hs : splitKey key val = .ok (field, operator)) (hop : ToLower U operator ∉ opOrder) :
    (∃ err, BuildSelect U table wh selectField = ("", [], some err))
    ∧ BuildSelect U table [(key, val)] selectField
        = ("", [], some Err.ErrUnsupportedOperator) := by
  have hfail : entryFails U (key, val) = true := by
    simp only [entryFails, hk, hk', hs, if_false, isStringInSlice_eq_false hop]
    rfl
  constructor
  · obtain ⟨err, h1⟩ := loop_some_fail U wh (whereMapSet.mk []) [] ⟨(key, val), hmem, hfail⟩
    have hne : ¬ wh.length = 0 := by
      intro h0
      rw [List.length_eq_zero.mp h0] at hmem
      cases hmem
    have hg : getWhereConditions U wh defaultIgnoreKeys = .error err := by
      unfold getWhereConditions
      rw [if_neg hne, h1]
      rfl
    unfold BuildSelect
    rw [hg]
    cases BuildSelect.orderBy wh <;> try exact ⟨_, rfl⟩
    cases BuildSelect.groupBy wh <;> try exact ⟨_, rfl⟩
    cases BuildSelect.limit wh <;> try exact ⟨_, rfl⟩
    cases BuildSelect.sLimit wh <;> try exact ⟨_, rfl⟩
    cases BuildSelect.interval wh <;> try exact ⟨_, rfl⟩
    cases BuildSelect.fill wh <;> exact ⟨_, rfl⟩
  · have hl : ∀ d ∈ defaultIgnoreKeys, lookup d [(key, val)] = none := by
      intro d hd
      have : key ≠ d := fun e => hk (e ▸ hd)
      simp [lookup, this]
    have hg : getWhereConditions U [(key, val)] defaultIgnoreKeys
        = .error .ErrUnsupportedOperator := by
      unfold getWhereConditions
      rw [if_neg (by simp), loop_cons_field _ _ _ _ _ _ _ hk hk', hs]
      simp only [isStringInSlice_eq_false hop]
      rfl
    unfold BuildSelect BuildSelect.orderBy BuildSelect.groupBy BuildSelect.limit
      BuildSelect.sLimit BuildSelect.interval BuildSelect.fill
    rw [hl "_orderby" (by decide), hl "_groupby" (by decide), hl "_limit" (by decide),
      hl "_slimit" (by decide), hl "_interval" (by decide), hl "_fill" (by decide), hg]

end Builder

namespace Builder

/-! ## Errors come with empty results -/

theorem buildSelect_no_error (table : String) (uFields : List String) (groupBy orderBy : String)
    (sLimit limit : Option eleLimit) (interval fill : String) (cs : List Comparable) :
    (buildSelect table uFields groupBy orderBy sLimit limit interval fill cs).2.2 = none := by
  unfold buildSelect
  cases sLimit <;> cases limit <;> rfl

/-- The result of `BuildSelect` is either the triple of an error or the result of
`buildSelect`, which has no error. -/
theorem BuildSelect_error_or_ok (U : Char → Char) (table : String) (wh : WhereMap)
    (selectField : List String) :
    (∃ err, BuildSelect U table wh selectField = ("", [], some err))
      ∨ (BuildSelect U table wh selectField).2.2 = none := by
  unfold BuildSelect
  cases BuildSelect.orderBy wh with
  | error e => exact Or.inl ⟨e, rfl⟩
  | ok orderBy =>
  cases BuildSelect.groupBy wh with
  | error e => exact Or.inl ⟨e, rfl⟩
  | ok groupBy =>
  cases BuildSelect.limit wh with
  | error e => exact Or.inl ⟨e, rfl⟩
  | ok limit =>
  cases BuildSelect.sLimit wh with
  | error e => exact Or.inl ⟨e, rfl⟩
  | ok sLimit =>
  cases BuildSelect.interval wh with
  | error e => exact Or.inl ⟨e, rfl⟩
  | ok interval =>
  cases BuildSelect.fill wh with
  | error e => exact Or.inl ⟨e, rfl⟩
  | ok fill =>
  cases getWhereConditions U wh defaultIgnoreKeys with
  | error e => exact Or.inl ⟨e, rfl⟩
  | ok cs => exact Or.inr (buildSelect_no_error _ _ _ _ _ _ _ _ _)

theorem buildInsert_error_or_ok (table sTable : String) (tags : List Any)
    (setList : List (List Any)) (insertType : String) :
    buildInsert table sTable tags setList insertType = ("", [], some .errInsertNullData)
      ∨ (buildInsert table sTable tags setList insertType).2.2 = none := by
  unfold buildInsert
  by_cases h : setList.length < 1
  · left; rw [if_pos h]
  · right; rw [if_neg h]

theorem NamedQuery_error_or_ok (sql : String) (data : List (String × Any))
    (r : String × List Any × Option Err) (h : NamedQuery sql data = some r) :
    (∃ err, r = ("", [], some err)) ∨ r.2.2 = none := by
  unfold NamedQuery at h
  by_cases h0 : data.length = 0
  · rw [if_pos h0] at h
    cases h
    exact Or.inr rfl
  · rw [if_neg h0] at h
    cases hr : NamedQuery.replaceAll data sql.data 0 "" [] none with
    | none => rw [hr] at h; cases h
    | some t =>
      obtain ⟨cond, vals, err⟩ := t
      rw [hr] at h
      cases err with
      | none => cases h; exact Or.inr rfl
      | some e => cases h; exact Or.inl ⟨e, rfl⟩

/-- Claim C19.  Whenever `BuildSelect`, `BuildInsert`, `BuildInsertStable` or
`NamedQuery` returns an error, the text it returns is the empty string and the list
of values it returns is empty. -/
theorem no_partial_success :
    (∀ (U : Char → Char) (table : String) (wh : WhereMap) (selectField : List String) (e : Err),
      (BuildSelect U table wh selectField).2.2 = some e →
        (BuildSelect U table wh selectField).1 = ""
          ∧ (BuildSelect U table wh selectField).2.1 = [])
    ∧ (∀ (table : String) (data : List (List Any)) (e : Err),
      (BuildInsert table data).2.2 = some e →
        (BuildInsert table data).1 = "" ∧ (BuildInsert table data).2.1 = [])
    ∧ (∀ (table sTable : String) (tags : List Any) (data : List (List Any)) (e : Err),
      (BuildInsertStable table sTable tags data).2.2 = some e →
        (BuildInsertStable table sTable tags data).1 = ""
          ∧ (BuildInsertStable table sTable tags data).2.1 = [])
    ∧ (∀ (sql : String) (data : List (String × Any)) (r : String × List Any × Option Err)
        (e : Err), NamedQuery sql data = some r → r.2.2 = some e → r.1 = "" ∧ r.2.1 = []) := by
  refine ⟨?_, ?_, ?_, ?_⟩
  · intro U table wh selectField e h
    rcases BuildSelect_error_or_ok U table wh selectField with ⟨err, he⟩ | hn
    · rw [he]; exact ⟨rfl, rfl⟩
    · rw [hn] at h; cases h
  · intro table data e h
    rcases buildInsert_error_or_ok table "" [] data commonInsert with he | hn
    · unfold BuildInsert; rw [he]; exact ⟨rfl, rfl⟩
    · unfold BuildInsert at h; rw [hn] at h; cases h
  · intro table sTable tags data e h
    rcases buildInsert_error_or_ok table sTable tags data commonInsert with he | hn
    · unfold BuildInsertStable; rw [he]; exact ⟨rfl, rfl⟩
    · unfold BuildInsertStable at h; rw [hn] at h; cases h
  · intro sql data r e hq h
    rcases NamedQuery_error_or_ok sql data r hq with ⟨err, he⟩ | hn
    · rw [he]; exact ⟨rfl, rfl⟩
    · rw [hn] at h; cases h

/-- The four functions at inputs on which each of them returns an error. -/
theorem no_partial_success_witness :
    ((BuildSelect id "tb" [("_limit", Any.uintSlice [])] []).1 = ""
      ∧ (BuildSelect id "tb" [("_limit", Any.uintSlice [])] []).2.1 = [])
    ∧ ((BuildInsert "tb" []).1 = "" ∧ (BuildInsert "tb" []).2.1 = [])
    ∧ ((BuildInsertStable "tb" "stb" [Any.int 1] []).1 = ""
      ∧ (BuildInsertStable "tb" "stb" [Any.int 1] []).2.1 = [])
    ∧ ((("", [], some (Err.errNotFound "name")) : String × List Any × Option Err).1 = ""
      ∧ (("", [], some (Err.errNotFound "name")) : String × List Any × Option Err).2.1 = []) :=
  ⟨no_partial_success.1 id "tb" [("_limit", Any.uintSlice [])] [] Err.errLimitValueLength rfl,
   no_partial_success.2.1 "tb" [] Err.errInsertNullData rfl,
   no_partial_success.2.2.1 "tb" "stb" [Any.int 1] [] Err.errInsertNullData rfl,
   no_partial_success.2.2.2 "select * from tb where name=\x7b\x7bname\x7d\x7d and age<\x7b\x7bage\x7d\x7d"
     [("age", Any.int 24)] ("", [], some (Err.errNotFound "name")) (Err.errNotFound "name")
     rfl rfl⟩

end Builder

namespace Builder

/-! ## The `_limit` and `_slimit` directives -/

theorem lookup_replace_val {α : Type} (d k : String) (v₁ v₂ : α) (h : k ≠ d)
    (post : List (String × α)) :
    ∀ pre : List (String × α),
      lookup d (pre ++ (k, v₁) :: post) = lookup d (pre ++ (k, v₂) :: post)
  | [] => by simp [lookup, h]
  | (a, b) :: pre => by
    have ih := lookup_replace_val d k v₁ v₂ h post pre
    show lookup d ((a, b) :: (pre ++ (k, v₁) :: post)) = lookup d ((a, b) :: (pre ++ (k, v₂) :: post))
    simp only [lookup, ih]

theorem lookup_append_same {α : Type} (k : String) (v : α) (post : List (String × α)) :
    ∀ pre : List (String × α),
      lookup k (pre ++ (k, v) :: post) = some ((lookup k pre).getD v)
  | [] => by simp [lookup]
  | (a, b) :: pre => by
    have ih := lookup_append_same k v post pre
    show lookup k ((a, b) :: (pre ++ (k, v) :: post)) = some ((lookup k ((a, b) :: pre)).getD v)
    simp only [lookup]
    by_cases hak : a = k
    · rw [if_pos hak, if_pos hak]; rfl
    · rw [if_neg hak, if_neg hak]; exact ih

/-- `BuildSelect` is determined by the results of its directive blocks and by the
fragments of the map. -/
theorem BuildSelect_congr_blocks (U : Char → Char) (table : String) (selectField : List String)
    {wh₁ wh₂ : WhereMap}
    (e1 : BuildSelect.orderBy wh₁ = BuildSelect.orderBy wh₂)
    (e2 : BuildSelect.groupBy wh₁ = BuildSelect.groupBy wh₂)
    (e3 : BuildSelect.limit wh₁ = BuildSelect.limit wh₂)
    (e4 : BuildSelect.sLimit wh₁ = BuildSelect.sLimit wh₂)
    (e5 : BuildSelect.interval wh₁ = BuildSelect.interval wh₂)
    (e6 : BuildSelect.fill wh₁ = BuildSelect.fill wh₂)
    (hg : getWhereConditions U wh₁ defaultIgnoreKeys
      = getWhereConditions U wh₂ defaultIgnoreKeys) :
    BuildSelect U table wh₁ selectField = BuildSelect U table wh₂ selectField := by
  unfold BuildSelect
  rw [e1, e2, e3, e4, e5, e6, hg]

/-- Changing the value of an ignored key does not change the fragments. -/
theorem getWhereConditions_replace_ignored (U : Char → Char) (pre post : WhereMap)
    (k : String) (v₁ v₂ : Any) (hk : k ∈ defaultIgnoreKeys) :
    getWhereConditions U (pre ++ (k, v₁) :: post) defaultIgnoreKeys
      = getWhereConditions U (pre ++ (k, v₂) :: post) defaultIgnoreKeys := by
  unfold getWhereConditions
  have hlen : (pre ++ (k, v₁) :: post).length = (pre ++ (k, v₂) :: post).length := by simp
  rw [hlen]
  congr 2
  apply loop_replace_entry
  intro wms cs
  rw [loop_cons_ignored _ _ _ _ _ _ _ hk, loop_cons_ignored _ _ _ _ _ _ _ hk]

/-- Claim C16.  For every unsigned `n`, in every predicate map, `_limit` = `[n]`
gives the same text, values and error as `_limit` = `[0, n]`, and `_slimit` = `[n]`
the same as `_slimit` = `[0, n]`. -/
theorem BuildSelect_limit_normalised (U : Char → Char) (table : String)
    (selectField : List String) (pre post : WhereMap) (n : Nat) :
    BuildSelect U table (pre ++ ("_limit", Any.uintSlice [n]) :: post) selectField
      = BuildSelect U table (pre ++ ("_limit", Any.uintSlice [0, n]) :: post) selectField
    ∧ BuildSelect U table (pre ++ ("_slimit", Any.uintSlice [n]) :: post) selectField
      = BuildSelect U table (pre ++ ("_slimit", Any.uintSlice [0, n]) :: post) selectField := by
  constructor
  · apply BuildSelect_congr_blocks
    · unfold BuildSelect.orderBy; rw [lookup_replace_val _ _ _ _ (by decide)]
    · unfold BuildSelect.groupBy; rw [lookup_replace_val _ _ _ _ (by decide)]
    · unfold BuildSelect.limit
      rw [lookup_append_same, lookup_append_same]
      cases lookup "_limit" pre <;> rfl
    · unfold BuildSelect.sLimit; rw [lookup_replace_val _ _ _ _ (by decide)]
    · unfold BuildSelect.interval; rw [lookup_replace_val _ _ _ _ (by decide)]
    · unfold BuildSelect.fill
      rw [lookup_replace_val "_fill" _ _ _ (by decide),
        lookup_replace_val "_fillvalue" _ _ _ (by decide)]
    · exact getWhereConditions_replace_ignored U pre post _ _ _ (by decide)
  · apply BuildSelect_congr_blocks
    · unfold BuildSelect.orderBy; rw [lookup_replace_val _ _ _ _ (by decide)]
    · unfold BuildSelect.groupBy; rw [lookup_replace_val _ _ _ _ (by decide)]
    · unfold BuildSelect.limit; rw [lookup_replace_val _ _ _ _ (by decide)]
    · unfold BuildSelect.sLimit
      rw [lookup_append_same, lookup_append_same]
      cases lookup "_slimit" pre <;> rfl
    · unfold BuildSelect.interval; rw [lookup_replace_val _ _ _ _ (by decide)]
    · unfold BuildSelect.fill
      rw [lookup_replace_val "_fill" _ _ _ (by decide),
        lookup_replace_val "_fillvalue" _ _ _ (by decide)]
    · exact getWhereConditions_replace_ignored U pre post _ _ _ (by decide)

end Builder

namespace Builder

/-! ## Where the error of `BuildSelect` comes from -/

theorem passes_iff {α : Type} (r : Except Err α) : passes r = true ↔ ∃ a, r = .ok a := by
  cases r with
  | ok a => simp [passes]
  | error e => simp [passes]

theorem passes_error {α : Type} {r : Except Err α} {e : Err} (h : r = .error e) :
    passes r = false := by
  subst h; rfl

theorem BuildSelect_orderBy_error {U : Char → Char} {table : String} {wh : WhereMap}
    {selectField : List String} {e : Err} (h : BuildSelect.orderBy wh = .error e) :
    BuildSelect U table wh selectField = ("", [], some e) := by
  unfold BuildSelect
  rw [h]

theorem BuildSelect_groupBy_error {U : Char → Char} {table : String} {wh : WhereMap}
    {selectField : List String} {e : Err} (h1 : passes (BuildSelect.orderBy wh) = true)
    (h : BuildSelect.groupBy wh = .error e) :
    BuildSelect U table wh selectField = ("", [], some e) := by
  obtain ⟨a1, h1⟩ := (passes_iff _).mp h1
  unfold BuildSelect
  rw [h1, h]

theorem BuildSelect_limit_error {U : Char → Char} {table : String} {wh : WhereMap}
    {selectField : List String} {e : Err} (h1 : passes (BuildSelect.orderBy wh) = true)
    (h2 : passes (BuildSelect.groupBy wh) = true)
    (h : BuildSelect.limit wh = .error e) :
    BuildSelect U table wh selectField = ("", [], some e) := by
  obtain ⟨a1, h1⟩ := (passes_iff _).mp h1
  obtain ⟨a2, h2⟩ := (passes_iff _).mp h2
  unfold BuildSelect
  rw [h1, h2, h]

theorem BuildSelect_sLimit_error {U : Char → Char} {table : String} {wh : WhereMap}
    {selectField : List String} {e : Err} (h1 : passes (BuildSelect.orderBy wh) = true)
    (h2 : passes (BuildSelect.groupBy wh) = true) (h3 : passes (BuildSelect.limit wh) = true)
    (h : BuildSelect.sLimit wh = .error e) :
    BuildSelect U table wh selectField = ("", [], some e) := by
  obtain ⟨a1, h1⟩ := (passes_iff _).mp h1
  obtain ⟨a2, h2⟩ := (passes_iff _).mp h2
  obtain ⟨a3, h3⟩ := (passes_iff _).mp h3
  unfold BuildSelect
  rw [h1, h2, h3, h]

theorem BuildSelect_interval_error {U : Char → Char} {table : String} {wh : WhereMap}
    {selectField : List String} {e : Err} (h1 : passes (BuildSelect.orderBy wh) = true)
    (h2 : passes (BuildSelect.groupBy wh) = true) (h3 : passes (BuildSelect.limit wh) = true)
    (h4 : passes (BuildSelect.sLimit wh) = true)
    (h : BuildSelect.interval wh = .error e) :
    BuildSelect U table wh selectField = ("", [], some e) := by
  obtain ⟨a1, h1⟩ := (passes_iff _).mp h1
  obtain ⟨a2, h2⟩ := (passes_iff _).mp h2
  obtain ⟨a3, h3⟩ := (passes_iff _).mp h3
  obtain ⟨a4, h4⟩ := (passes_iff _).mp h4
  unfold BuildSelect
  rw [h1, h2, h3, h4, h]

theorem BuildSelect_fill_error {U : Char → Char} {table : String} {wh : WhereMap}
    {selectField : List String} {e : Err} (h1 : passes (BuildSelect.orderBy wh) = true)
    (h2 : passes (BuildSelect.groupBy wh) = true) (h3 : passes (BuildSelect.limit wh) = true)
    (h4 : passes (BuildSelect.sLimit wh) = true) (h5 : passes (BuildSelect.interval wh) = true)
    (h : BuildSelect.fill wh = .error e) :
    BuildSelect U table wh selectField = ("", [], some e) := by
  obtain ⟨a1, h1⟩ := (passes_iff _).mp h1
  obtain ⟨a2, h2⟩ := (passes_iff _).mp h2
  obtain ⟨a3, h3⟩ := (passes_iff _).mp h3
  obtain ⟨a4, h4⟩ := (passes_iff _).mp h4
  obtain ⟨a5, h5⟩ := (passes_iff _).mp h5
  unfold BuildSelect
  rw [h1, h2, h3, h4, h5, h]

theorem directivesOk_iff (wh : WhereMap) :
    directivesOk wh = true ↔
      passes (BuildSelect.orderBy wh) = true ∧ passes (BuildSelect.groupBy wh) = true
      ∧ passes (BuildSelect.limit wh) = true ∧ passes (BuildSelect.sLimit wh) = true
      ∧ passes (BuildSelect.interval wh) = true ∧ passes (BuildSelect.fill wh) = true := by
  simp [directivesOk, and_assoc]

theorem BuildSelect_where_error {U : Char → Char} {table : String} {wh : WhereMap}
    {selectField : List String} {e : Err} (hd : directivesOk wh = true)
    (h : getWhereConditions U wh defaultIgnoreKeys = .error e) :
    BuildSelect U table wh selectField = ("", [], some e) := by
  obtain ⟨h1, h2, h3, h4, h5, h6⟩ := (directivesOk_iff wh).mp hd
  obtain ⟨a1, h1⟩ := (passes_iff _).mp h1
  obtain ⟨a2, h2⟩ := (passes_iff _).mp h2
  obtain ⟨a3, h3⟩ := (passes_iff _).mp h3
  obtain ⟨a4, h4⟩ := (passes_iff _).mp h4
  obtain ⟨a5, h5⟩ := (passes_iff _).mp h5
  obtain ⟨a6, h6⟩ := (passes_iff _).mp h6
  unfold BuildSelect
  rw [h1, h2, h3, h4, h5, h6, h]

/-- The error of `BuildSelect` is the error of the first directive block that
fails or, when all of them pass, the error of `getWhereConditions`. -/
theorem BuildSelect_error_cases {U : Char → Char} {table : String} {wh : WhereMap}
    {selectField : List String} {e : Err}
    (h : (BuildSelect U table wh selectField).2.2 = some e) :
    BuildSelect.orderBy wh = .error e
    ∨ (passes (BuildSelect.orderBy wh) = true ∧ BuildSelect.groupBy wh = .error e)
    ∨ (passes (BuildSelect.orderBy wh) = true ∧ passes (BuildSelect.groupBy wh) = true
        ∧ BuildSelect.limit wh = .error e)
    ∨ (passes (BuildSelect.orderBy wh) = true ∧ passes (BuildSelect.groupBy wh) = true
        ∧ passes (BuildSelect.limit wh) = true ∧ BuildSelect.sLimit wh = .error e)
    ∨ (passes (BuildSelect.limit wh) = true ∧ passes (BuildSelect.sLimit wh) = true
        ∧ BuildSelect.interval wh = .error e)
    ∨ (passes (BuildSelect.limit wh) = true ∧ passes (BuildSelect.sLimit wh) = true
        ∧ BuildSelect.fill wh = .error e)
    ∨ (directivesOk wh = true ∧ getWhereConditions U wh defaultIgnoreKeys = .error e) := by
  unfold BuildSelect at h
  cases h1 : BuildSelect.orderBy wh with
  | error e1 => rw [h1] at h; cases h; exact Or.inl rfl
  | ok a1 =>
  cases h2 : BuildSelect.groupBy wh with
  | error e2 => rw [h1, h2] at h; cases h; exact Or.inr (Or.inl ⟨rfl, rfl⟩)
  | ok a2 =>
  cases h3 : BuildSelect.limit wh with
  | error e3 => rw [h1, h2, h3] at h; cases h; exact Or.inr (Or.inr (Or.inl ⟨rfl, rfl, rfl⟩))
  | ok a3 =>
  cases h4 : BuildSelect.sLimit wh with
  | error e4 =>
    rw [h1, h2, h3, h4] at h; cases h
    exact Or.inr (Or.inr (Or.inr (Or.inl ⟨rfl, rfl, rfl, rfl⟩)))
  | ok a4 =>
  cases h5 : BuildSelect.interval wh with
  | error e5 =>
    rw [h1, h2, h3, h4, h5] at h; cases h
    exact Or.inr (Or.inr (Or.inr (Or.inr (Or.inl ⟨rfl, rfl, rfl⟩))))
  | ok a5 =>
  cases h6 : BuildSelect.fill wh with
  | error e6 =>
    rw [h1, h2, h3, h4, h5, h6] at h; cases h
    exact Or.inr (Or.inr (Or.inr (Or.inr (Or.inr (Or.inl ⟨rfl, rfl, rfl⟩)))))
  | ok a6 =>
  cases h7 : getWhereConditions U wh defaultIgnoreKeys with
  | error e7 =>
    rw [h1, h2, h3, h4, h5, h6, h7] at h; cases h
    refine Or.inr (Or.inr (Or.inr (Or.inr (Or.inr (Or.inr ⟨?_, rfl⟩)))))
    simp [directivesOk, h1, h2, h3, h4, h5, h6, passes]
  | ok cs =>
    rw [h1, h2, h3, h4, h5, h6, h7] at h
    rw [buildSelect_no_error] at h
    cases h

/-! ## The errors of the predicate entries -/

theorem splitKey_error {key : String} {val : Any} {e : Err} (h : splitKey key val = .error e) :
    e = .errSplitEmptyKey ∧ Trim key = "" := by
  unfold splitKey at h
  by_cases hk : Trim key = ""
  · simp only [hk, if_true] at h
    cases h
    exact ⟨rfl, hk⟩
  · simp only [hk, if_false] at h
    cases hi : IndexByte (Trim key).data with
    | none => rw [hi] at h; cases h
    | some idx => rw [hi] at h; cases h

theorem splitKey_of_empty {key : String} (val : Any) (h : Trim key = "") :
    splitKey key val = .error .errSplitEmptyKey := by
  unfold splitKey
  simp only [h, if_true]

theorem convert_loop_error (op : String) :
    ∀ (m : List (String × Any)) (r : List (String × List Any)) (e : Err),
      convertWhereMapToWhereMapSlice.loop op m r = .error e →
        e = .errWhereInterfaceSliceType op ∨ e = .errEmptySliceCondition op
  | [], r, e, h => by simp [convertWhereMapToWhereMapSlice.loop] at h
  | (k, v) :: rest, r, e, h => by
    rw [convertWhereMapToWhereMapSlice.loop] at h
    cases hc : convertInterfaceToMap v with
    | none => rw [hc] at h; cases h; exact Or.inl rfl
    | some vals =>
      rw [hc] at h
      simp only at h
      by_cases hl : vals.length = 0
      · rw [if_pos hl] at h; cases h; exact Or.inr rfl
      · rw [if_neg hl] at h
        exact convert_loop_error op rest _ e h

theorem map_error {α β : Type} {f : α → β} {r : Except Err α} {e : Err}
    (h : r.map f = .error e) : r = .error e := by
  cases r with
  | ok a => cases h
  | error e' => cases h; rfl

theorem op2Comparable_error {op : String} {f : List (String × Any) → Except Err Comparable}
    (hf : op2Comparable op = some f) {m : List (String × Any)} {e : Err}
    (he : f m = .error e) :
    e = .errWhereInterfaceSliceType op ∨ e = .errEmptySliceCondition op := by
  rcases op2Comparable_cases hf with
    ⟨_, e'⟩ | ⟨_, e'⟩ | ⟨_, e'⟩ | ⟨ho, e'⟩ | ⟨ho, e'⟩ | ⟨ho, e'⟩ | ⟨ho, e'⟩ | ⟨_, e'⟩ | ⟨_, e'⟩
    | ⟨_, e'⟩ | ⟨_, e'⟩ | ⟨_, e'⟩ | ⟨_, e'⟩ | ⟨_, e'⟩ <;> subst e'
  all_goals first
    | cases he
    | (subst ho; exact convert_loop_error _ _ _ _ (map_error he))

theorem bwc_loop_error (wms : whereMapSet) :
    ∀ (ops : List String) (acc : List Comparable) (e : Err),
      buildWhereCondition.loop wms ops acc = .error e → e.ofWhere = true
  | [], acc, e, h => by simp [buildWhereCondition.loop] at h
  | op :: rest, acc, e, h => by
    rw [buildWhereCondition.loop] at h
    cases hl : lookup op wms.set with
    | none => rw [hl] at h; exact bwc_loop_error wms rest acc e h
    | some b =>
      rw [hl] at h
      simp only at h
      cases hf : op2Comparable op with
      | none => rw [hf] at h; cases h; rfl
      | some f =>
        rw [hf] at h
        simp only at h
        cases hb : f b with
        | error e' =>
          rw [hb] at h; cases h
          rcases op2Comparable_error hf hb with e1 | e1 <;> subst e1 <;> rfl
        | ok c => rw [hb] at h; exact bwc_loop_error wms rest _ e h

theorem finish_error {r : Except Err (whereMapSet × List Comparable)} {e : Err}
    (h : getWhereConditions.finish r = .error e) :
    r = .error e ∨ ∃ wms cs, r = .ok (wms, cs) ∧ buildWhereCondition wms = .error e := by
  unfold getWhereConditions.finish at h
  cases r with
  | error e' => cases h; exact Or.inl rfl
  | ok p =>
    obtain ⟨wms, cs⟩ := p
    simp only at h
    cases hb : buildWhereCondition wms with
    | error e' => rw [hb] at h; cases h; exact Or.inr ⟨wms, cs, rfl, hb⟩
    | ok c => rw [hb] at h; cases h

theorem orLoop_error (U : Char → Char) (ign : List String) :
    ∀ (ms : List (Option (List (String × Any)))) (acc : List Comparable) (e : Err),
      (∀ m, some m ∈ ms → ∀ wms cs e, getWhereConditions.loop U ign m wms cs = .error e →
        e.ofWhere = true) →
      getWhereConditions.orLoop U ign ms acc = .error e → e.ofWhere = true
  | [], acc, e, _, h => by rw [orLoop_nil] at h; cases h
  | none :: rest, acc, e, ih, h => by
    rw [orLoop_none] at h
    exact orLoop_error U ign rest acc e (fun m hm => ih m (List.mem_cons_of_mem _ hm)) h
  | some m :: rest, acc, e, ih, h => by
    rw [getWhereConditions.orLoop] at h
    by_cases hl : m.length = 0
    · rw [if_pos hl] at h
      exact orLoop_error U ign rest _ e (fun m hm => ih m (List.mem_cons_of_mem _ hm)) h
    · rw [if_neg hl] at h
      cases hf : getWhereConditions.finish
          (getWhereConditions.loop U ign m (whereMapSet.mk []) []) with
      | error e' =>
        rw [hf] at h; cases h
        rcases finish_error hf with h1 | ⟨wms, cs, _, h2⟩
        · exact ih m (List.mem_cons_self _ _) _ _ _ h1
        · exact bwc_loop_error wms _ _ _ h2
      | ok c =>
        rw [hf] at h
        exact orLoop_error U ign rest _ e (fun m hm => ih m (List.mem_cons_of_mem _ hm)) h

theorem loop_error (U : Char → Char) (ign : List String) :
    ∀ (wh : List (String × Any)) (wms : whereMapSet) (cs : List Comparable) (e : Err),
      getWhereConditions.loop U ign wh wms cs = .error e → e.ofWhere = true := by
  intro wh
  induction wh using WhereMap.induct_map with
  | hnil => intro wms cs e h; rw [loop_nil] at h; cases h
  | hcons key val rest ihv ihr =>
    intro wms cs e h
    rw [getWhereConditions.loop] at h
    by_cases hk : key ∈ ign
    · rw [if_pos hk] at h; exact ihr _ _ _ h
    · rw [if_neg hk] at h
      by_cases hk' : key = "_or"
      · rw [if_pos hk'] at h
        cases ho : getWhereConditions.orWheres U ign val with
        | error e' =>
          rw [ho] at h; cases h
          cases val with
          | mapSlice ms =>
            rw [orWheres_mapSlice] at ho
            exact orLoop_error U ign ms [] _ (fun m hm => ihv ms rfl m hm) ho
          | _ =>
            rw [orWheres_other U ign _ (by intro ms hh; cases hh)] at ho
            cases ho; rfl
        | ok c => rw [ho] at h; exact ihr _ _ _ h
      · rw [if_neg hk'] at h
        cases hs : splitKey key val with
        | error e' =>
          rw [hs] at h; cases h
          rw [(splitKey_error hs).1]; rfl
        | ok p =>
          obtain ⟨field, operator⟩ := p
          rw [hs] at h
          simp only at h
          by_cases hu : (!isStringInSlice (ToLower U operator) opOrder) = true
          · rw [if_pos hu] at h; cases h; rfl
          · rw [if_neg hu] at h; exact ihr _ _ _ h

/-- Every error of `getWhereConditions` is one of the errors of the predicate
entries. -/
theorem getWhereConditions_error (U : Char → Char) (ign : List String) (wh : WhereMap)
    (e : Err) (h : getWhereConditions U wh ign = .error e) : e.ofWhere = true := by
  unfold getWhereConditions at h
  by_cases hl : wh.length = 0
  · rw [if_pos hl] at h; cases h
  · rw [if_neg hl] at h
    rcases finish_error h with h1 | ⟨wms, cs, _, h2⟩
    · exact loop_error U ign wh _ _ _ h1
    · exact bwc_loop_error wms _ _ _ h2

end Builder

namespace Builder

/-! ## The errors of the directive blocks -/

theorem orderBy_error {wh : WhereMap} {e : Err} (h : BuildSelect.orderBy wh = .error e) :
    e = .errOrderByValueType := by
  unfold BuildSelect.orderBy at h
  split at h <;> first | (cases h; rfl) | cases h

theorem groupBy_error {wh : WhereMap} {e : Err} (h : BuildSelect.groupBy wh = .error e) :
    e = .errGroupByValueType := by
  unfold BuildSelect.groupBy at h
  split at h <;> first | (cases h; rfl) | cases h

theorem limit_error_iff (wh : WhereMap) (e : Err) :
    BuildSelect.limit wh = .error e ↔
      (e = .errLimitValueLength
        ∧ ∃ arr, lookup "_limit" wh = some (.uintSlice arr) ∧ (arr.length = 0 ∨ 2 < arr.length))
      ∨ (e = .errLimitValueType
        ∧ ∃ v, lookup "_limit" wh = some v ∧ ∀ arr, v ≠ .uintSlice arr) := by
  unfold BuildSelect.limit
  cases lookup "_limit" wh with
  | none => simp
  | some v =>
    cases v with
    | uintSlice arr =>
      rcases arr with _ | ⟨a, _ | ⟨b, _ | ⟨c, r⟩⟩⟩
      · simp; exact eq_comm
      · simp
      · simp
      · simp; exact eq_comm
    | _ => simp; exact eq_comm

theorem sLimit_error_iff (wh : WhereMap) (e : Err) :
    BuildSelect.sLimit wh = .error e ↔
      (e = .errSLimitValueLength
        ∧ ∃ arr, lookup "_slimit" wh = some (.uintSlice arr) ∧ (arr.length = 0 ∨ 2 < arr.length))
      ∨ (e = .errSLimitValueType
        ∧ ∃ v, lookup "_slimit" wh = some v ∧ ∀ arr, v ≠ .uintSlice arr) := by
  unfold BuildSelect.sLimit
  cases lookup "_slimit" wh with
  | none => simp
  | some v =>
    cases v with
    | uintSlice arr =>
      rcases arr with _ | ⟨a, _ | ⟨b, _ | ⟨c, r⟩⟩⟩
      · simp; exact eq_comm
      · simp
      · simp
      · simp; exact eq_comm
    | _ => simp; exact eq_comm

theorem interval_error {wh : WhereMap} {e : Err} (h : BuildSelect.interval wh = .error e) :
    e = .errIntervalValueType ∨ e = .errIntervalValueError := by
  unfold BuildSelect.interval at h
  generalize lookup "_interval" wh = o at h
  cases o with
  | none => cases h
  | some v =>
    cases v with
    | interval value =>
      cases value with
      | none => cases h; exact Or.inr rfl
      | some i =>
        simp only at h
        split at h
        · cases h; exact Or.inr rfl
        · cases h
    | _ => cases h; exact Or.inl rfl

theorem fill_error {wh : WhereMap} {e : Err} (h : BuildSelect.fill wh = .error e) :
    e = .errNeedFillType ∨ e = .errFillValue ∨ e = .errFillMissValue
      ∨ e = .errFillValueTypeError := by
  unfold BuildSelect.fill at h
  generalize lookup "_fill" wh = o at h
  generalize lookup "_fillvalue" wh = o' at h
  cases o with
  | none => cases h
  | some v =>
    cases v with
    | fillType value =>
      simp only at h
      split at h
      · cases h; exact Or.inr (Or.inl rfl)
      · split at h
        · cases o' with
          | none => cases h; exact Or.inr (Or.inr (Or.inl rfl))
          | some w =>
            cases w with
            | float64 x => cases h
            | _ => cases h; exact Or.inr (Or.inr (Or.inr rfl))
        · cases h
    | _ => cases h; exact Or.inl rfl

/-- Claim C17, as the code has it.  When `_orderby` and `_groupby` pass their
checks, `BuildSelect` fails with the length error of `_limit` exactly when `_limit`
is a list of unsigned integers with zero or more than two elements; when `_limit`
passes as well, it fails with the length error of `_slimit` exactly when `_slimit`
is such a list. -/
theorem BuildSelect_limit_length_error (U : Char → Char) (table : String) (wh : WhereMap)
    (selectField : List String)
    (ho : passes (BuildSelect.orderBy wh) = true) (hg : passes (BuildSelect.groupBy wh) = true) :
    ((BuildSelect U table wh selectField).2.2 = some .errLimitValueLength ↔
        ∃ arr, lookup "_limit" wh = some (.uintSlice arr) ∧ (arr.length = 0 ∨ 2 < arr.length))
    ∧ (passes (BuildSelect.limit wh) = true →
      ((BuildSelect U table wh selectField).2.2 = some .errSLimitValueLength ↔
        ∃ arr, lookup "_slimit" wh = some (.uintSlice arr)
          ∧ (arr.length = 0 ∨ 2 < arr.length))) := by
  constructor
  · constructor
    · intro h
      rcases BuildSelect_error_cases h with h1 | ⟨_, h1⟩ | ⟨_, _, h1⟩ | ⟨_, _, _, h1⟩
        | ⟨_, _, h1⟩ | ⟨_, _, h1⟩ | ⟨_, h1⟩
      · rw [passes_error h1] at ho; cases ho
      · rw [passes_error h1] at hg; cases hg
      · rcases (limit_error_iff wh _).mp h1 with ⟨_, h2⟩ | ⟨h2, _⟩
        · exact h2
        · cases h2
      · rcases (sLimit_error_iff wh _).mp h1 with ⟨h2, _⟩ | ⟨h2, _⟩ <;> cases h2
      · rcases interval_error h1 with h2 | h2 <;> cases h2
      · rcases fill_error h1 with h2 | h2 | h2 | h2 <;> cases h2
      · have := getWhereConditions_error U _ wh _ h1
        cases this
    · intro h
      have h1 := (limit_error_iff wh .errLimitValueLength).mpr (Or.inl ⟨rfl, h⟩)
      rw [BuildSelect_limit_error ho hg h1]
  · intro hl
    constructor
    · intro h
      rcases BuildSelect_error_cases h with h1 | ⟨_, h1⟩ | ⟨_, _, h1⟩ | ⟨_, _, _, h1⟩
        | ⟨_, _, h1⟩ | ⟨_, _, h1⟩ | ⟨_, h1⟩
      · rw [passes_error h1] at ho; cases ho
      · rw [passes_error h1] at hg; cases hg
      · rw [passes_error h1] at hl; cases hl
      · rcases (sLimit_error_iff wh _).mp h1 with ⟨_, h2⟩ | ⟨h2, _⟩
        · exact h2
        · cases h2
      · rcases interval_error h1 with h2 | h2 <;> cases h2
      · rcases fill_error h1 with h2 | h2 | h2 | h2 <;> cases h2
      · have := getWhereConditions_error U _ wh _ h1
        cases this
    · intro h
      have h1 := (sLimit_error_iff wh .errSLimitValueLength).mpr (Or.inl ⟨rfl, h⟩)
      rw [BuildSelect_sLimit_error ho hg hl h1]

/-- The statement of C17 at the map of the test `TestBuildSelect_Limit` with the
empty `_limit`. -/
theorem BuildSelect_limit_length_error_witness :
    ((BuildSelect id "tb" [("_limit", Any.uintSlice [])] []).2.2 = some .errLimitValueLength ↔
        ∃ arr, lookup "_limit" [("_limit", Any.uintSlice [])] = some (.uintSlice arr)
          ∧ (arr.length = 0 ∨ 2 < arr.length))
    ∧ (passes (BuildSelect.limit [("_limit", Any.uintSlice [])]) = true →
      ((BuildSelect id "tb" [("_limit", Any.uintSlice [])] []).2.2
          = some .errSLimitValueLength ↔
        ∃ arr, lookup "_slimit" [("_limit", Any.uintSlice [])] = some (.uintSlice arr)
          ∧ (arr.length = 0 ∨ 2 < arr.length))) :=
  BuildSelect_limit_length_error id "tb" [("_limit", Any.uintSlice [])] [] rfl rfl

/-- Claim C17 as it is written fails: with a `_limit` list of no elements and an
`_orderby` that is not a string, `BuildSelect` fails with the type error of
`_orderby`, not with the length error of `_limit`. -/
theorem BuildSelect_limit_length_error_preempted :
    BuildSelect id "tb" [("_orderby", Any.int 5), ("_limit", Any.uintSlice [])] []
      = ("", [], some .errOrderByValueType)
    ∧ (∃ arr, lookup "_limit" [("_orderby", Any.int 5), ("_limit", Any.uintSlice [])]
          = some (.uintSlice arr) ∧ (arr.length = 0 ∨ 2 < arr.length))
    ∧ Err.errOrderByValueType ≠ Err.errLimitValueLength :=
  ⟨rfl, ⟨[], rfl, Or.inl rfl⟩, by decide⟩

end Builder

namespace Builder

/-! ## The values bound for `_limit` and `_slimit` -/

theorem buildSelect_vals (table : String) (uFields : List String) (groupBy orderBy : String)
    (sLimit limit : Option eleLimit) (interval fill : String) (cs : List Comparable) :
    (buildSelect table uFields groupBy orderBy sLimit limit interval fill cs).2.1
      = (whereConnector "and" cs).2 ++ limitVals sLimit ++ limitVals limit := by
  unfold buildSelect
  cases sLimit <;> cases limit <;> simp [limitVals]

theorem uintToInt_small {u : Nat} (h : u < 2 ^ 63) : uintToInt u = Int.ofNat u := by
  unfold uintToInt
  have h1 : u % 2 ^ 64 = u := Nat.mod_eq_of_lt (by omega)
  rw [h1, if_pos h]

/-- When `BuildSelect` succeeds, its values are those of the where-expression,
then those of `_slimit`, then those of `_limit`; for `_limit` = `[b, s]` (and
likewise `_slimit`) with `b` and `s` below `2^63`, the two values bound for it are
the integers `b` and `s`. -/
theorem BuildSelect_limit_values (U : Char → Char) (table : String) (wh : WhereMap)
    (selectField : List String) (b s : Nat) (hb : b < 2 ^ 63) (hs : s < 2 ^ 63)
    (hok : (BuildSelect U table wh selectField).2.2 = none) :
    ∃ cs sl l, getWhereConditions U wh defaultIgnoreKeys = .ok cs
      ∧ (BuildSelect U table wh selectField).2.1 = (whereConnector "and" cs).2 ++ sl ++ l
      ∧ (lookup "_limit" wh = some (.uintSlice [b, s]) →
          l = [Any.int (Int.ofNat b), Any.int (Int.ofNat s)])
      ∧ (lookup "_slimit" wh = some (.uintSlice [b, s]) →
          sl = [Any.int (Int.ofNat b), Any.int (Int.ofNat s)]) := by
  obtain ⟨orderBy, groupBy, limit, sLimit, interval, fill, cs, h1, h2, h3, h4, h5, h6, h7⟩ :=
    BuildSelect_ok_inv hok
  refine ⟨cs, limitVals sLimit, limitVals limit, h7, ?_, ?_, ?_⟩
  · rw [BuildSelect_eq_of_ok h1 h2 h3 h4 h5 h6 h7, buildSelect_vals]
  · intro hl
    unfold BuildSelect.limit at h3
    rw [hl] at h3
    cases h3
    simp only [limitVals, uintToInt_small hb, uintToInt_small hs]
  · intro hl
    unfold BuildSelect.sLimit at h4
    rw [hl] at h4
    cases h4
    simp only [limitVals, uintToInt_small hb, uintToInt_small hs]

/-- The values bound for the first map of the test `TestBuildSelect_Limit`. -/
theorem BuildSelect_limit_values_witness :
    ∃ cs sl l, getWhereConditions id [("_limit", Any.uintSlice [10, 20])] defaultIgnoreKeys
        = .ok cs
      ∧ (BuildSelect id "tb" [("_limit", Any.uintSlice [10, 20])] []).2.1
          = (whereConnector "and" cs).2 ++ sl ++ l
      ∧ (lookup "_limit" [("_limit", Any.uintSlice [10, 20])] = some (.uintSlice [10, 20]) →
          l = [Any.int (Int.ofNat 10), Any.int (Int.ofNat 20)])
      ∧ (lookup "_slimit" [("_limit", Any.uintSlice [10, 20])] = some (.uintSlice [10, 20]) →
          sl = [Any.int (Int.ofNat 10), Any.int (Int.ofNat 20)]) :=
  BuildSelect_limit_values id "tb" [("_limit", Any.uintSlice [10, 20])] [] 10 20
    (by decide) (by decide) rfl

/-- Claim C18 at `_limit` = `[2^63, 1]`, a list of two machine unsigned integers:
the values are bound through the conversion `int(...)`, and the first value bound
is `-2^63`, which is not numerically equal to `2^63`. -/
theorem BuildSelect_limit_value_wraps :
    BuildSelect id "tb" [("_limit", Any.uintSlice [9223372036854775808, 1])] []
      = ("select * from tb limit ?,?", [Any.int (-9223372036854775808), Any.int 1], none)
    ∧ (9223372036854775808 : Nat) < 2 ^ 64
    ∧ (-9223372036854775808 : Int) ≠ Int.ofNat 9223372036854775808 :=
  ⟨rfl, by decide, by decide⟩

end Builder

namespace Builder

/-! ## Keys that are empty after trimming -/

theorem loop_empty_keys (U : Char → Char) :
    ∀ (wh : List (String × Any)) (wms : whereMapSet) (cs : List Comparable),
      (∀ e ∈ wh, e.1 ∈ defaultIgnoreKeys ∨ Trim e.1 = "") →
      (∃ e ∈ wh, e.1 ∉ defaultIgnoreKeys) →
      getWhereConditions.loop U defaultIgnoreKeys wh wms cs = .error .errSplitEmptyKey
  | [], _, _, _, h => by
    obtain ⟨e, he, _⟩ := h
    cases he
  | (key, val) :: rest, wms, cs, hall, hex => by
    by_cases hk : key ∈ defaultIgnoreKeys
    · rw [loop_cons_ignored _ _ _ _ _ _ _ hk]
      apply loop_empty_keys U rest wms cs (fun e he => hall e (List.mem_cons_of_mem _ he))
      obtain ⟨e, he, hne⟩ := hex
      rcases List.mem_cons.mp he with h1 | h1
      · subst h1; exact absurd hk hne
      · exact ⟨e, h1, hne⟩
    · have ht : Trim key = "" := by
        rcases hall (key, val) (List.mem_cons_self _ _) with h1 | h1
        · exact absurd h1 hk
        · exact h1
      have hor : key ≠ "_or" := by
        intro h; subst h; revert ht; decide
      rw [loop_cons_field _ _ _ _ _ _ _ hk hor, splitKey_of_empty val ht]

/-- Claim C11, as the code has it.  `splitKey` fails exactly when the key is the
empty string after trimming the spaces around it, and then with the empty-key
error; `BuildSelect` fails with that error for every predicate map with
well-formed directives whose other keys, of which there is one at least, are all
such keys. -/
theorem empty_key_rejected :
    (∀ (key : String) (val : Any),
      (splitKey key val = .error .errSplitEmptyKey ↔ Trim key = "")
      ∧ ((∃ e, splitKey key val = .error e) ↔ Trim key = ""))
    ∧ (∀ (U : Char → Char) (table : String) (wh : WhereMap) (selectField : List String),
      directivesOk wh = true →
      (∀ e ∈ wh, e.1 ∈ defaultIgnoreKeys ∨ Trim e.1 = "") →
      (∃ e ∈ wh, e.1 ∉ defaultIgnoreKeys) →
      BuildSelect U table wh selectField = ("", [], some .errSplitEmptyKey)) := by
  constructor
  · intro key val
    constructor
    · exact ⟨fun h => (splitKey_error h).2, fun h => splitKey_of_empty val h⟩
    · exact ⟨fun ⟨e, h⟩ => (splitKey_error h).2, fun h => ⟨_, splitKey_of_empty val h⟩⟩
  · intro U table wh selectField hd hall hex
    apply BuildSelect_where_error hd
    unfold getWhereConditions
    have hl : wh.length ≠ 0 := by
      obtain ⟨e, he, _⟩ := hex
      intro h0
      rw [List.length_eq_zero] at h0
      subst h0
      cases he
    rw [if_neg hl, loop_empty_keys U wh _ _ hall hex]
    rfl

/-- The statement of C11 at the key of two spaces, next to a well-formed
`_limit`. -/
theorem empty_key_rejected_witness :
    BuildSelect id "tb" [("_limit", Any.uintSlice [1]), ("  ", Any.int 1)] ["a"]
      = ("", [], some .errSplitEmptyKey) :=
  empty_key_rejected.2 id "tb" [("_limit", Any.uintSlice [1]), ("  ", Any.int 1)] ["a"]
    rfl (by decide) (by decide)

/-- Claim C11 as it is written fails: the only key of this map that is not a
directive is the empty key, and `BuildSelect` fails with the type error of
`_orderby`, which is checked before the keys are split. -/
theorem empty_key_preempted :
    BuildSelect id "tb" [("", Any.int 1), ("_orderby", Any.int 5)] []
      = ("", [], some .errOrderByValueType)
    ∧ (∀ e ∈ [("", Any.int 1), ("_orderby", Any.int 5)],
        e.1 ∈ defaultIgnoreKeys ∨ Trim e.1 = "")
    ∧ Err.errOrderByValueType ≠ Err.errSplitEmptyKey :=
  ⟨rfl, by decide, by decide⟩

end Builder

namespace Builder

/-! ## A `between` with a wrong number of bounds, an empty map in `_or` -/

/-- Claim C14 at the map `{"age between": [1]}`: `BuildSelect` succeeds and binds
no value for the entry, but the entry leaves the bare field name in the
where-expression; without the entry there is no where-expression at all.  The same
happens next to another entry and for three bounds under `not between`. -/
theorem BuildSelect_malformed_between_keeps_field :
    BuildSelect id "tb" [("age between", Any.slice [Any.int 1])] []
      = ("select * from tb where (age)", [], none)
    ∧ BuildSelect id "tb" [] [] = ("select * from tb", [], none)
    ∧ BuildSelect id "tb"
        [("name", Any.str "x"), ("age not between", Any.slice [Any.int 1, Any.int 2, Any.int 3])] []
      = ("select * from tb where (name=? and age)", [Any.str "x"], none)
    ∧ BuildSelect id "tb" [("name", Any.str "x")] []
      = ("select * from tb where (name=?)", [Any.str "x"], none) :=
  ⟨rfl, rfl, rfl, rfl⟩

/-- Claim C15 at the map `{"_or": [{"a": 1}]}`: with an empty map put after or
before the nested map the values are the same, but the text has one more, empty,
alternative of the `or`. -/
theorem BuildSelect_empty_map_in_or_changes_text :
    BuildSelect id "tb" [("_or", Any.mapSlice [some [("a", Any.int 1)]])] []
      = ("select * from tb where (((a=?)))", [Any.int 1], none)
    ∧ BuildSelect id "tb" [("_or", Any.mapSlice [some [("a", Any.int 1)], some []])] []
      = ("select * from tb where (((a=?) or ))", [Any.int 1], none)
    ∧ BuildSelect id "tb" [("_or", Any.mapSlice [some [], some [("a", Any.int 1)]])] []
      = ("select * from tb where (( or (a=?)))", [Any.int 1], none)
    ∧ BuildSelect id "tb" [("_or", Any.mapSlice [none, some [("a", Any.int 1)]])] []
      = ("select * from tb where (((a=?)))", [Any.int 1], none) :=
  ⟨rfl, rfl, rfl, rfl⟩

end Builder

namespace Builder

/-! ## Reserved keys of the wrong type -/

theorem loop_append (U : Char → Char) (ign : List String) (rest : List (String × Any)) :
    ∀ (pre : List (String × Any)) (wms : whereMapSet) (cs : List Comparable),
      getWhereConditions.loop U ign (pre ++ rest) wms cs
        = match getWhereConditions.loop U ign pre wms cs with
          | .error e => .error e
          | .ok p => getWhereConditions.loop U ign rest p.1 p.2
  | [], wms, cs => by rw [loop_nil]; rfl
  | (key, val) :: pre, wms, cs => by
    simp only [List.cons_append]
    by_cases hk : key ∈ ign
    · rw [loop_cons_ignored _ _ _ _ (pre ++ rest) _ _ hk, loop_cons_ignored _ _ _ _ pre _ _ hk]
      exact loop_append U ign rest pre wms cs
    · by_cases hk' : key = "_or"
      · subst hk'
        rw [loop_cons_or _ _ _ (pre ++ rest) _ _ hk, loop_cons_or _ _ _ pre _ _ hk]
        cases getWhereConditions.orWheres U ign val with
        | error e => rfl
        | ok c => exact loop_append U ign rest pre wms _
      · rw [loop_cons_field _ _ _ _ (pre ++ rest) _ _ hk hk',
          loop_cons_field _ _ _ _ pre _ _ hk hk']
        cases splitKey key val with
        | error e => rfl
        | ok p =>
          obtain ⟨field, operator⟩ := p
          simp only
          by_cases hu : (!isStringInSlice (ToLower U operator) opOrder) = true
          · rw [if_pos hu, if_pos hu]
          · rw [if_neg hu, if_neg hu]
            exact loop_append U ign rest pre _ cs

/-- The loop passes a prefix of entries none of which is rejected. -/
theorem loop_append_ok (U : Char → Char) (pre rest : List (String × Any)) (wms : whereMapSet)
    (cs : List Comparable) (h : ∀ e ∈ pre, entryFails U e = false) :
    getWhereConditions.loop U defaultIgnoreKeys (pre ++ rest) wms cs
      = getWhereConditions.loop U defaultIgnoreKeys rest
          (addAll (pre.filterMap (slotOf U)) wms) (cs ++ pre.filterMap (orGroupOf U)) := by
  rw [loop_append, loop_all_ok U pre wms cs h]

theorem getWhereConditions_of_loop_error {U : Char → Char} {wh : WhereMap} {e : Err}
    (h : getWhereConditions.loop U defaultIgnoreKeys wh (whereMapSet.mk []) [] = .error e) :
    getWhereConditions U wh defaultIgnoreKeys = .error e := by
  unfold getWhereConditions
  by_cases hl : wh.length = 0
  · rw [List.length_eq_zero] at hl
    subst hl
    rw [loop_nil] at h
    cases h
  · rw [if_neg hl, h]
    rfl

/-- Claim C20, amended.  Each reserved key of the wrong type makes `BuildSelect`
fail with an error of its own when it is the first thing wrong with the map:
`_orderby` and `_groupby` that are not strings, `_limit` and `_slimit` that are not
lists of unsigned integers, an `_interval` that is not an `Interval` reference, a
`_fill` that is not a `FillType`, a `_fillvalue` that is not a float64 while `_fill`
is `VALUE`, and an `_or` that is not a list of predicate maps.  First means: the
directives checked before it (in the order `_orderby`, `_groupby`, `_limit`,
`_slimit`, `_interval`, `_fill`) pass and, for `_or`, all directives pass and no
entry enumerated before it is rejected.  The eight errors and their messages are
pairwise distinct. -/
theorem wrongly_typed_reserved_keys (U : Char → Char) (table : String) (wh : WhereMap)
    (selectField : List String) :
    (∀ v, lookup "_orderby" wh = some v → (∀ s, v ≠ .str s) →
      BuildSelect U table wh selectField = ("", [], some .errOrderByValueType))
    ∧ (passes (BuildSelect.orderBy wh) = true →
      ∀ v, lookup "_groupby" wh = some v → (∀ s, v ≠ .str s) →
      BuildSelect U table wh selectField = ("", [], some .errGroupByValueType))
    ∧ (passes (BuildSelect.orderBy wh) = true → passes (BuildSelect.groupBy wh) = true →
      ∀ v, lookup "_limit" wh = some v → (∀ arr, v ≠ .uintSlice arr) →
      BuildSelect U table wh selectField = ("", [], some .errLimitValueType))
    ∧ (passes (BuildSelect.orderBy wh) = true → passes (BuildSelect.groupBy wh) = true →
      passes (BuildSelect.limit wh) = true →
      ∀ v, lookup "_slimit" wh = some v → (∀ arr, v ≠ .uintSlice arr) →
      BuildSelect U table wh selectField = ("", [], some .errSLimitValueType))
    ∧ (passes (BuildSelect.orderBy wh) = true → passes (BuildSelect.groupBy wh) = true →
      passes (BuildSelect.limit wh) = true → passes (BuildSelect.sLimit wh) = true →
      ∀ v, lookup "_interval" wh = some v → (∀ i, v ≠ .interval i) →
      BuildSelect U table wh selectField = ("", [], some .errIntervalValueType))
    ∧ (passes (BuildSelect.orderBy wh) = true → passes (BuildSelect.groupBy wh) = true →
      passes (BuildSelect.limit wh) = true → passes (BuildSelect.sLimit wh) = true →
      passes (BuildSelect.interval wh) = true →
      ∀ v, lookup "_fill" wh = some v → (∀ s, v ≠ .fillType s) →
      BuildSelect U table wh selectField = ("", [], some .errNeedFillType))
    ∧ (passes (BuildSelect.orderBy wh) = true → passes (BuildSelect.groupBy wh) = true →
      passes (BuildSelect.limit wh) = true → passes (BuildSelect.sLimit wh) = true →
      passes (BuildSelect.interval wh) = true →
      lookup "_fill" wh = some (.fillType FillValue) →
      ∀ v, lookup "_fillvalue" wh = some v → (∀ x, v ≠ .float64 x) →
      BuildSelect U table wh selectField = ("", [], some .errFillValueTypeError))
    ∧ (directivesOk wh = true →
      ∀ pre v post, wh = pre ++ ("_or", v) :: post → (∀ ms, v ≠ .mapSlice ms) →
      (∀ e ∈ pre, entryFails U e = false) →
      BuildSelect U table wh selectField = ("", [], some .errOrValueType))
    ∧ [Err.errOrderByValueType, .errGroupByValueType, .errLimitValueType, .errSLimitValueType,
        .errIntervalValueType, .errNeedFillType, .errFillValueTypeError, .errOrValueType].Nodup
    ∧ ([Err.errOrderByValueType, .errGroupByValueType, .errLimitValueType, .errSLimitValueType,
        .errIntervalValueType, .errNeedFillType, .errFillValueTypeError,
        .errOrValueType].map Err.Error).Nodup := by
  refine ⟨?_, ?_, ?_, ?_, ?_, ?_, ?_, ?_, by decide, by decide⟩
  · intro v hv hs
    apply BuildSelect_orderBy_error
    unfold BuildSelect.orderBy
    rw [hv]
    cases v <;> first | rfl | exact absurd rfl (hs _)
  · intro h1 v hv hs
    apply BuildSelect_groupBy_error h1
    unfold BuildSelect.groupBy
    rw [hv]
    cases v <;> first | rfl | exact absurd rfl (hs _)
  · intro h1 h2 v hv hs
    apply BuildSelect_limit_error h1 h2
    unfold BuildSelect.limit
    rw [hv]
    cases v <;> first | rfl | exact absurd rfl (hs _)
  · intro h1 h2 h3 v hv hs
    apply BuildSelect_sLimit_error h1 h2 h3
    unfold BuildSelect.sLimit
    rw [hv]
    cases v <;> first | rfl | exact absurd rfl (hs _)
  · intro h1 h2 h3 h4 v hv hs
    apply BuildSelect_interval_error h1 h2 h3 h4
    unfold BuildSelect.interval
    rw [hv]
    cases v <;> first | rfl | exact absurd rfl (hs _)
  · intro h1 h2 h3 h4 h5 v hv hs
    apply BuildSelect_fill_error h1 h2 h3 h4 h5
    unfold BuildSelect.fill
    rw [hv]
    cases v <;> first | rfl | exact absurd rfl (hs _)
  · intro h1 h2 h3 h4 h5 hf v hv hs
    apply BuildSelect_fill_error h1 h2 h3 h4 h5
    unfold BuildSelect.fill
    rw [hf, hv]
    cases v <;> first | rfl | exact absurd rfl (hs _)
  · intro hd pre v post hw hv hpre
    apply BuildSelect_where_error hd
    apply getWhereConditions_of_loop_error
    rw [hw, loop_append_ok U pre _ _ _ hpre, loop_cons_or _ _ _ _ _ _ (by decide),
      orWheres_other U _ v hv]

/-- The statement of C20 at a map whose `_groupby` is a number. -/
theorem wrongly_typed_reserved_keys_witness :
    BuildSelect id "tb" [("_orderby", Any.str "a"), ("_groupby", Any.int 5)] []
      = ("", [], some .errGroupByValueType) :=
  (wrongly_typed_reserved_keys id "tb" [("_orderby", Any.str "a"), ("_groupby", Any.int 5)]
    []).2.1 rfl (Any.int 5) rfl (fun s h => by cases h)

end Builder

namespace Builder

/-! ## The collection an operator asks for -/

theorem entryFails_ignored (U : Char → Char) {e : String × Any}
    (h : e.1 ∈ defaultIgnoreKeys) : entryFails U e = false := by
  simp [entryFails, h]

theorem filterMap_slotOf_ignored (U : Char → Char) :
    ∀ (l : List (String × Any)), (∀ e ∈ l, e.1 ∈ defaultIgnoreKeys) →
      l.filterMap (slotOf U) = []
  | [], _ => rfl
  | e :: l, h => by
    rw [List.filterMap_cons]
    have h0 : slotOf U e = none := by simp [slotOf, h e (List.mem_cons_self _ _)]
    rw [h0]
    exact filterMap_slotOf_ignored U l (fun e he => h e (List.mem_cons_of_mem _ he))

theorem filterMap_orGroupOf_ignored (U : Char → Char) :
    ∀ (l : List (String × Any)), (∀ e ∈ l, e.1 ∈ defaultIgnoreKeys) →
      l.filterMap (orGroupOf U) = []
  | [], _ => rfl
  | e :: l, h => by
    rw [List.filterMap_cons]
    have h0 : orGroupOf U e = none := by simp [orGroupOf, h e (List.mem_cons_self _ _)]
    rw [h0]
    exact filterMap_orGroupOf_ignored U l (fun e he => h e (List.mem_cons_of_mem _ he))

/-- The loop over a map whose only entry that is not a directive is `(key, val)`. -/
theorem loop_sole_entry (U : Char → Char) (pre post : WhereMap) (key : String) (val : Any)
    (hpre : ∀ e ∈ pre, e.1 ∈ defaultIgnoreKeys) (hpost : ∀ e ∈ post, e.1 ∈ defaultIgnoreKeys)
    (wms : whereMapSet) (cs : List Comparable) :
    getWhereConditions.loop U defaultIgnoreKeys (pre ++ (key, val) :: post) wms cs
      = match getWhereConditions.loop U defaultIgnoreKeys [(key, val)] wms cs with
        | .error e => .error e
        | .ok p => .ok p := by
  rw [loop_append_ok U pre _ _ _ (fun e he => entryFails_ignored U (hpre e he)),
    filterMap_slotOf_ignored U pre hpre, filterMap_orGroupOf_ignored U pre hpre]
  have h1 : (key, val) :: post = [(key, val)] ++ post := rfl
  rw [h1, loop_append]
  simp only [addAll, List.foldl_nil, List.append_nil]
  cases getWhereConditions.loop U defaultIgnoreKeys [(key, val)] wms cs with
  | error e => rfl
  | ok p =>
    simp only
    rw [loop_all_ok U post _ _ (fun e he => entryFails_ignored U (hpost e he)),
      filterMap_slotOf_ignored U post hpost, filterMap_orGroupOf_ignored U post hpost]
    simp [addAll]

theorem mem_setOperators_opOrder {op : String} (h : op ∈ setOperators) :
    isStringInSlice op opOrder = true := by
  simp only [setOperators, List.mem_cons, List.mem_singleton, List.not_mem_nil, or_false] at h
  rcases h with h | h | h | h <;> subst h <;> decide

theorem isNullType_of_convert {val : Any} {l : List Any}
    (h : convertInterfaceToMap val = some l) : isNullType val = false := by
  cases val <;> first | rfl | cases h

theorem convert_none_of_not_slice {val : Any} (h : isSlice val = false) :
    convertInterfaceToMap val = none := by
  cases val <;> first | rfl | cases h

/-- The fragments of a bucket set that holds one field under one of the
operators that ask for a collection. -/
theorem bwc_single_set {op : String} (h : op ∈ setOperators) (field : String) (val : Any) :
    buildWhereCondition (whereMapSet.mk [(op, [(field, val)])])
      = match convertWhereMapToWhereMapSlice [(field, val)] op with
        | .error e => .error e
        | .ok r => .ok [if op = opIn then Comparable.In r
            else if op = opNotIn then Comparable.NotIn r
            else if op = opBetween then Comparable.Between r else Comparable.NotBetween r] := by
  simp only [setOperators, List.mem_cons, List.mem_singleton, List.not_mem_nil, or_false] at h
  rcases h with h | h | h | h <;> subst h
  all_goals
    cases hc : convertWhereMapToWhereMapSlice [(field, val)] _ with
    | error e =>
      simp [buildWhereCondition, buildWhereCondition.loop, opOrder, lookup, op2Comparable,
        opEq, opNe1, opNe2, opIn, opNotIn, opGt, opGte, opLt, opLte, opLike, opNotLike,
        opBetween, opNotBetween, opNull, Except.map] at hc ⊢
      simp [hc]
    | ok r =>
      simp [buildWhereCondition, buildWhereCondition.loop, opOrder, lookup, op2Comparable,
        opEq, opNe1, opNe2, opIn, opNotIn, opGt, opGte, opLt, opLte, opLike, opNotLike,
        opBetween, opNotBetween, opNull, Except.map] at hc ⊢
      simp [hc]

end Builder

namespace Builder

theorem getWhereConditions_sole_set_entry (U : Char → Char) (pre post : WhereMap)
    (key : String) (val : Any) {field operator : String}
    (hpre : ∀ e ∈ pre, e.1 ∈ defaultIgnoreKeys) (hpost : ∀ e ∈ post, e.1 ∈ defaultIgnoreKeys)
    (hk : key ∉ defaultIgnoreKeys) (hk' : key ≠ "_or")
    (hs : splitKey key val = .ok (field, operator)) (hop : ToLower U operator ∈ setOperators)
    (hn : isNullType val = false) :
    getWhereConditions U (pre ++ (key, val) :: post) defaultIgnoreKeys
      = match convertWhereMapToWhereMapSlice [(field, val)] (ToLower U operator) with
        | .error e => .error e
        | .ok r => .ok [if ToLower U operator = opIn then Comparable.In r
            else if ToLower U operator = opNotIn then Comparable.NotIn r
            else if ToLower U operator = opBetween then Comparable.Between r
            else Comparable.NotBetween r] := by
  unfold getWhereConditions
  rw [if_neg (by simp), loop_sole_entry U pre post key val hpre hpost,
    loop_cons_field _ _ _ _ _ _ _ hk hk', hs]
  simp only
  rw [if_neg (by simp [mem_setOperators_opOrder hop]), loop_nil, hn]
  simp only [Bool.false_eq_true, if_false]
  have hw : (whereMapSet.mk []).add (ToLower U operator) field val
      = whereMapSet.mk [(ToLower U operator, [(field, val)])] := by
    simp [whereMapSet.add, lookup, insert]
  rw [hw]
  unfold getWhereConditions.finish
  simp only
  rw [bwc_single_set hop]
  cases convertWhereMapToWhereMapSlice [(field, val)] (ToLower U operator) with
  | error e => rfl
  | ok r => simp

theorem bwc_loop_fail (wms : whereMapSet) {op : String} {b : List (String × Any)}
    (hb : lookup op wms.set = some b)
    (hf : ∀ f, op2Comparable op = some f → ∃ e, f b = .error e) :
    ∀ (ops : List String) (acc : List Comparable), op ∈ ops →
      ∃ e, buildWhereCondition.loop wms ops acc = .error e
  | [], _, h => by cases h
  | op' :: rest, acc, h => by
    rw [buildWhereCondition.loop]
    by_cases ho : op' = op
    · subst ho
      rw [hb]
      simp only
      cases hf' : op2Comparable op' with
      | none => exact ⟨_, rfl⟩
      | some f =>
        obtain ⟨e, he⟩ := hf f hf'
        simp only [he]
        exact ⟨e, rfl⟩
    · have hr : op ∈ rest := by
        rcases List.mem_cons.mp h with h1 | h1
        · exact absurd h1.symm ho
        · exact h1
      cases lookup op' wms.set with
      | none => exact bwc_loop_fail wms hb hf rest acc hr
      | some b' =>
        simp only
        cases op2Comparable op' with
        | none => exact ⟨_, rfl⟩
        | some f =>
          simp only
          cases f b' with
          | error e => exact ⟨e, rfl⟩
          | ok c => exact bwc_loop_fail wms hb hf rest _ hr

theorem mem_opOrder_of_setOperators {op : String} (h : op ∈ setOperators) : op ∈ opOrder := by
  simp only [setOperators, List.mem_cons, List.mem_singleton, List.not_mem_nil, or_false] at h
  rcases h with h | h | h | h <;> subst h <;> decide

theorem op2Comparable_set_fail {op : String} (h : op ∈ setOperators) {b : List (String × Any)}
    (hb : ∃ e ∈ b, convertible e.2 = false) :
    ∀ f, op2Comparable op = some f → ∃ e, f b = .error e := by
  intro f hf
  obtain ⟨err, he⟩ := convert_loop_fail op b [] hb
  simp only [setOperators, List.mem_cons, List.mem_singleton, List.not_mem_nil, or_false] at h
  rcases op2Comparable_cases hf with
    ⟨ho, e'⟩ | ⟨ho, e'⟩ | ⟨ho, e'⟩ | ⟨ho, e'⟩ | ⟨ho, e'⟩ | ⟨ho, e'⟩ | ⟨ho, e'⟩ | ⟨ho, e'⟩
    | ⟨ho, e'⟩ | ⟨ho, e'⟩ | ⟨ho, e'⟩ | ⟨ho, e'⟩ | ⟨ho, e'⟩ | ⟨ho, e'⟩ <;> subst e' <;> subst ho
  all_goals first
    | (exfalso; revert h; decide)
    | exact ⟨err, by simp only [convertWhereMapToWhereMapSlice, he]; rfl⟩

/-- A map with an entry under a collection operator whose value cannot be
converted, and which no other key overwrites, is rejected. -/
theorem getWhereConditions_set_fail (U : Char → Char) (wh : WhereMap) (key : String) (val : Any)
    {field operator : String} (hmem : (key, val) ∈ wh)
    (hk : key ∉ defaultIgnoreKeys) (hk' : key ≠ "_or")
    (hs : splitKey key val = .ok (field, operator)) (hop : ToLower U operator ∈ setOperators)
    (hn : isNullType val = false) (hc : convertible val = false)
    (hnd : (slotKeys U wh).Nodup) :
    ∃ e, getWhereConditions U wh defaultIgnoreKeys = .error e := by
  unfold getWhereConditions
  have hl : wh.length ≠ 0 := by
    intro h0
    rw [List.length_eq_zero] at h0
    subst h0
    cases hmem
  rw [if_neg hl]
  by_cases hfail : ∃ e ∈ wh, entryFails U e = true
  · obtain ⟨err, he⟩ := loop_some_fail U wh (whereMapSet.mk []) [] hfail
    exact ⟨err, by rw [he]; rfl⟩
  · have hall : ∀ e ∈ wh, entryFails U e = false := by
      intro e he
      by_contra hne
      exact hfail ⟨e, he, by simpa using hne⟩
    rw [loop_all_ok U wh _ _ hall]
    have hslot : slotOf U (key, val) = some (ToLower U operator, field, val) := by
      simp [slotOf, hk, hk', hs, hn]
    have hin : (ToLower U operator, field, val) ∈ wh.filterMap (slotOf U) :=
      List.mem_filterMap.mpr ⟨(key, val), hmem, hslot⟩
    have hv := lookupVal_addAll_mem (ToLower U operator) field val (wh.filterMap (slotOf U))
      (whereMapSet.mk []) hnd hin
    unfold lookupVal at hv
    cases hb : lookup (ToLower U operator)
        (addAll (wh.filterMap (slotOf U)) (whereMapSet.mk [])).set with
    | none => rw [hb] at hv; cases hv
    | some b =>
      rw [hb] at hv
      have hfb : (field, val) ∈ b := lookup_mem hv
      obtain ⟨err, he⟩ := bwc_loop_fail _ hb
        (op2Comparable_set_fail hop ⟨(field, val), hfb, hc⟩) opOrder []
        (mem_opOrder_of_setOperators hop)
      refine ⟨err, ?_⟩
      unfold getWhereConditions.finish
      simp only
      unfold buildWhereCondition
      rw [he]

/-- Claim C13, as the code has it.  A key that is not reserved, with operator `in`,
`not in`, `between` or `not between` and a value that is not a null marker:
in every predicate map that contains it and in which no other key is filed under
the same operator and field, `BuildSelect` fails when the value is an empty
collection or no collection; when the key is the only entry besides well-formed
directives, the error is `the value of "<op>" must contain at least one element`
for an empty collection and `the value of "xxx <op>" must be of []interface{} type`
for a value that is no collection. -/
theorem set_operator_argument_errors (U : Char → Char) (table : String)
    (selectField : List String) (key : String) (val : Any) (field operator : String)
    (hk : key ∉ defaultIgnoreKeys) (hk' : key ≠ "_or")
    (hs : splitKey key val = .ok (field, operator)) (hop : ToLower U operator ∈ setOperators)
    (hn : isNullType val = false) :
    (∀ wh : WhereMap, (key, val) ∈ wh → (slotKeys U wh).Nodup →
      (convertInterfaceToMap val = some [] ∨ isSlice val = false) →
      ∃ e, BuildSelect U table wh selectField = ("", [], some e))
    ∧ (∀ pre post : WhereMap, directivesOk (pre ++ (key, val) :: post) = true →
      (∀ e ∈ pre, e.1 ∈ defaultIgnoreKeys) → (∀ e ∈ post, e.1 ∈ defaultIgnoreKeys) →
      (convertInterfaceToMap val = some [] →
        BuildSelect U table (pre ++ (key, val) :: post) selectField
          = ("", [], some (.errEmptySliceCondition (ToLower U operator))))
      ∧ (isSlice val = false →
        BuildSelect U table (pre ++ (key, val) :: post) selectField
          = ("", [], some (.errWhereInterfaceSliceType (ToLower U operator)))))
    ∧ (Err.errEmptySliceCondition (ToLower U operator)).Error
        = "[builder] the value of \"" ++ ToLower U operator
          ++ "\" must contain at least one element"
    ∧ (Err.errWhereInterfaceSliceType (ToLower U operator)).Error
        = "[builder] the value of \"xxx " ++ ToLower U operator
          ++ "\" must be of []interface\x7b\x7d type" := by
  refine ⟨?_, ?_, rfl, rfl⟩
  · intro wh hmem hnd hval
    have hc : convertible val = false := by
      rcases hval with h | h
      · simp [convertible, h]
      · simp [convertible, convert_none_of_not_slice h]
    rcases BuildSelect_error_or_ok U table wh selectField with h | h
    · exact h
    · obtain ⟨_, _, _, _, _, _, cs, _, _, _, _, _, _, h7⟩ := BuildSelect_ok_inv h
      obtain ⟨e, he⟩ := getWhereConditions_set_fail U wh key val hmem hk hk' hs hop hn hc hnd
      rw [he] at h7
      cases h7
  · intro pre post hd hpre hpost
    have hg := getWhereConditions_sole_set_entry U pre post key val hpre hpost hk hk' hs hop hn
    constructor
    · intro hv
      apply BuildSelect_where_error hd
      rw [hg]
      simp [convertWhereMapToWhereMapSlice, convertWhereMapToWhereMapSlice.loop, hv]
    · intro hv
      apply BuildSelect_where_error hd
      rw [hg]
      simp [convertWhereMapToWhereMapSlice, convertWhereMapToWhereMapSlice.loop,
        convert_none_of_not_slice hv]

/-- The statement of C13 at the key `age in` with the empty list, next to a
`_limit`. -/
theorem set_operator_argument_errors_witness :
    BuildSelect id "tb" ([("_limit", Any.uintSlice [1])] ++ ("age in", Any.slice []) :: []) []
      = ("", [], some (.errEmptySliceCondition (ToLower id "in"))) :=
  (set_operator_argument_errors id "tb" [] "age in" (Any.slice []) "age" "in"
    (by decide) (by decide) rfl (by decide) rfl).2.1 [("_limit", Any.uintSlice [1])] []
    rfl (by decide) (by decide) |>.1 rfl

/-- Claim C13 as it is written fails: a null marker under `in` is not a
collection, and `BuildSelect` succeeds with a null check; and next to a key that
is empty, enumerated first, the error is the one of the empty key. -/
theorem set_operator_null_marker_accepted :
    BuildSelect id "tb" [("a in", Any.nullType 1)] []
      = ("select * from tb where (a is null)", [], none)
    ∧ isSlice (Any.nullType 1) = false
    ∧ BuildSelect id "tb" [("", Any.int 1), ("a in", Any.slice [])] []
      = ("", [], some .errSplitEmptyKey) :=
  ⟨rfl, rfl, rfl⟩

end Builder

namespace Builder

/-! ## Null markers -/

theorem bwc_loop_append (wms : whereMapSet) (ops₂ : List String) :
    ∀ (ops₁ : List String) (acc : List Comparable),
      buildWhereCondition.loop wms (ops₁ ++ ops₂) acc
        = match buildWhereCondition.loop wms ops₁ acc with
          | .error e => .error e
          | .ok r => buildWhereCondition.loop wms ops₂ r
  | [], acc => by simp [buildWhereCondition.loop]
  | op :: ops₁, acc => by
    simp only [List.cons_append, buildWhereCondition.loop]
    cases lookup op wms.set with
    | none => exact bwc_loop_append wms ops₂ ops₁ acc
    | some b =>
      simp only
      cases op2Comparable op with
      | none => rfl
      | some f =>
        simp only
        cases f b with
        | error e => rfl
        | ok c => exact bwc_loop_append wms ops₂ ops₁ _

theorem bwc_loop_no_null (wms : whereMapSet) :
    ∀ (ops : List String) (acc r : List Comparable), opNull ∉ ops →
      (∀ c ∈ acc, c.isNull = false) →
      buildWhereCondition.loop wms ops acc = .ok r → ∀ c ∈ r, c.isNull = false
  | [], acc, r, _, ha, h => by
    simp only [buildWhereCondition.loop] at h
    cases h
    exact ha
  | op :: ops, acc, r, hn, ha, h => by
    simp only [List.mem_cons, not_or] at hn
    simp only [buildWhereCondition.loop] at h
    cases hl : lookup op wms.set with
    | none =>
      rw [hl] at h
      exact bwc_loop_no_null wms ops acc r hn.2 ha h
    | some b =>
      rw [hl] at h
      simp only at h
      cases hf : op2Comparable op with
      | none => rw [hf] at h; cases h
      | some f =>
        rw [hf] at h
        simp only at h
        cases hb : f b with
        | error e => rw [hb] at h; cases h
        | ok c =>
          rw [hb] at h
          apply bwc_loop_no_null wms ops _ r hn.2 _ h
          intro c' hc'
          rcases List.mem_append.mp hc' with h1 | h1
          · exact ha c' h1
          · simp only [List.mem_singleton] at h1
            subst h1
            have hop := op2Comparable_operators hf hb
            cases c' with
            | nullCompareble n =>
              simp only [Comparable.operators, List.mem_singleton] at hop
              exact absurd hop.symm hn.1
            | _ => rfl

theorem filterMap_fst_sublist (n : List (String × Any)) :
    ∀ l : List String, ((l.filterMap (nullEntry n)).map Prod.fst).Sublist l
  | [] => List.Sublist.slnil
  | f :: l => by
    rw [List.filterMap_cons]
    cases h : nullEntry n f with
    | none => exact List.Sublist.cons _ (filterMap_fst_sublist n l)
    | some p =>
      have hp : p.1 = f := by
        unfold nullEntry at h
        split at h
        · cases h; rfl
        · cases h
      simp only [List.map_cons, hp]
      exact List.Sublist.cons₂ _ (filterMap_fst_sublist n l)

/-- The texts of the group of the null checks: one per field whose value is a
null marker, in ascending order of the fields, and no values. -/
theorem nullCompareble_Build_eq (n : List (String × Any)) :
    ∃ fs : List (String × Nat),
      nullCompareble.Build n = (fs.map nullText, [])
      ∧ (fs.map Prod.fst).Sorted StrLE
      ∧ (∀ p ∈ fs, lookup p.1 n = some (Any.nullType p.2))
      ∧ (∀ field b, lookup field n = some (Any.nullType b) → (field, b) ∈ fs) := by
  by_cases h0 : n.length = 0
  · refine ⟨[], ?_, List.sorted_nil, fun p hp => (by cases hp), ?_⟩
    · unfold nullCompareble.Build
      rw [if_pos h0]
      rfl
    · intro field b hl
      rw [List.length_eq_zero] at h0
      subst h0
      cases hl
  · refine ⟨(defaultSortAlgorithm (keys n)).filterMap (nullEntry n), ?_, ?_, ?_, ?_⟩
    · unfold nullCompareble.Build
      rw [if_neg h0, List.map_filterMap]
      simp only [Prod.mk.injEq, and_true]
      apply congrArg (fun g => List.filterMap g (defaultSortAlgorithm (keys n)))
      funext field
      unfold nullEntry
      cases lookup field n with
      | none => rfl
      | some v => cases v <;> rfl
    · exact List.Pairwise.sublist (filterMap_fst_sublist n _) (sort_sorted (keys n))
    · intro p hp
      obtain ⟨f, _, hf⟩ := List.mem_filterMap.mp hp
      unfold nullEntry at hf
      split at hf
      · rename_i rv hl
        cases hf
        exact hl
      · cases hf
    · intro field b hl
      apply List.mem_filterMap.mpr
      refine ⟨field, ?_, by simp [nullEntry, hl]⟩
      apply (sort_perm (keys n)).mem_iff.mpr
      exact List.mem_map.mpr ⟨(field, Any.nullType b), lookup_mem hl, rfl⟩

end Builder

namespace Builder

theorem bwc_null_last (wms : whereMapSet) (g : List Comparable)
    (h : buildWhereCondition wms = .ok g) :
    ∃ g₁, (∀ c ∈ g₁, c.isNull = false) ∧ g = g₁ ++ nullGroup wms := by
  unfold buildWhereCondition at h
  have ho : opOrder = valueOperators ++ [opNull] := rfl
  rw [ho, bwc_loop_append] at h
  cases h1 : buildWhereCondition.loop wms valueOperators [] with
  | error e => rw [h1] at h; cases h
  | ok g₁ =>
    rw [h1] at h
    refine ⟨g₁, bwc_loop_no_null wms _ _ _ (by decide) (fun c hc => by cases hc) h1, ?_⟩
    simp only [buildWhereCondition.loop] at h
    unfold nullGroup
    cases hl : lookup opNull wms.set with
    | none => rw [hl] at h; cases h; simp
    | some n =>
      rw [hl] at h
      have hf : op2Comparable opNull = some (fun m => .ok (.nullCompareble m)) := by
        simp [op2Comparable, opEq, opNe1, opNe2, opIn, opNotIn, opGt, opGte, opLt, opLte,
          opLike, opNotLike, opBetween, opNotBetween, opNull]
      rw [hf] at h
      cases h
      rfl

theorem orGroupOf_not_null (U : Char → Char) (wh : List (String × Any)) :
    ∀ c ∈ wh.filterMap (orGroupOf U), c.isNull = false := by
  intro c hc
  obtain ⟨e, _, he⟩ := List.mem_filterMap.mp hc
  unfold orGroupOf at he
  split at he
  · cases he
  · split at he
    · split at he
      · cases he; rfl
      · cases he
    · cases he

/-- The fragments of a map: the `_or` groups and the groups of the operators
that take values, then the group of the null checks. -/
theorem getWhereConditions_null_last (U : Char → Char) (wh : WhereMap) (cs : List Comparable)
    (h : getWhereConditions U wh defaultIgnoreKeys = .ok cs) :
    ∃ front, (∀ c ∈ front, c.isNull = false)
      ∧ cs = front ++ nullGroup (addAll (wh.filterMap (slotOf U)) (whereMapSet.mk [])) := by
  unfold getWhereConditions at h
  by_cases hl : wh.length = 0
  · rw [if_pos hl] at h
    cases h
    rw [List.length_eq_zero] at hl
    subst hl
    exact ⟨[], fun c hc => (by cases hc), rfl⟩
  · rw [if_neg hl] at h
    by_cases hfail : ∃ e ∈ wh, entryFails U e = true
    · obtain ⟨err, he⟩ := loop_some_fail U wh (whereMapSet.mk []) [] hfail
      rw [he] at h
      cases h
    · have hall : ∀ e ∈ wh, entryFails U e = false := by
        intro e he
        by_contra hne
        exact hfail ⟨e, he, by simpa using hne⟩
      rw [loop_all_ok U wh _ _ hall] at h
      unfold getWhereConditions.finish at h
      simp only [List.nil_append] at h
      cases hb : buildWhereCondition (addAll (wh.filterMap (slotOf U)) (whereMapSet.mk [])) with
      | error e => rw [hb] at h; cases h
      | ok g =>
        rw [hb] at h
        cases h
        obtain ⟨g₁, hg₁, hg⟩ := bwc_null_last _ g hb
        refine ⟨wh.filterMap (orGroupOf U) ++ g₁, ?_, ?_⟩
        · intro c hc
          rcases List.mem_append.mp hc with h1 | h1
          · exact orGroupOf_not_null U wh c h1
          · exact hg₁ c h1
        · rw [hg, List.append_assoc]

/-- The texts and values of the fragments, with the null checks last. -/
theorem nullGroup_texts (U : Char → Char) (wh : WhereMap) (front : List Comparable) :
    ∃ fs : List (String × Nat),
      (whereConnector.loop
          (front ++ nullGroup (addAll (wh.filterMap (slotOf U)) (whereMapSet.mk [])))).1
        = (whereConnector.loop front).1 ++ fs.map nullText
      ∧ (whereConnector.loop
          (front ++ nullGroup (addAll (wh.filterMap (slotOf U)) (whereMapSet.mk [])))).2
        = (whereConnector.loop front).2
      ∧ (fs.map Prod.fst).Sorted StrLE
      ∧ (∀ key b field operator, (key, Any.nullType b) ∈ wh → key ∉ defaultIgnoreKeys →
          key ≠ "_or" → splitKey key (Any.nullType b) = .ok (field, operator) →
          (slotKeys U wh).Nodup → (field, b) ∈ fs) := by
  have hrender : ∀ key b field operator, (key, Any.nullType b) ∈ wh →
      key ∉ defaultIgnoreKeys → key ≠ "_or" →
      splitKey key (Any.nullType b) = .ok (field, operator) → (slotKeys U wh).Nodup →
      lookupVal (addAll (wh.filterMap (slotOf U)) (whereMapSet.mk [])) opNull field
        = some (Any.nullType b) := by
    intro key b field operator hmem hk hk' hs hnd
    have hslot : slotOf U (key, Any.nullType b) = some (opNull, field, Any.nullType b) := by
      simp [slotOf, hk, hk', hs, isNullType]
    exact lookupVal_addAll_mem opNull field _ _ _ hnd
      (List.mem_filterMap.mpr ⟨(key, Any.nullType b), hmem, hslot⟩)
  unfold nullGroup
  unfold lookupVal at hrender
  cases hb : lookup opNull (addAll (wh.filterMap (slotOf U)) (whereMapSet.mk [])).set with
  | none =>
    refine ⟨[], by simp, by simp, List.sorted_nil, ?_⟩
    intro key b field operator hmem hk hk' hs hnd
    have := hrender key b field operator hmem hk hk' hs hnd
    rw [hb] at this
    cases this
  | some n =>
    obtain ⟨fs, hB, hS, _, hM⟩ := nullCompareble_Build_eq n
    refine ⟨fs, ?_, ?_, hS, ?_⟩
    · simp only [whereConnector_loop_eq, List.map_append, List.flatten_append, List.map_cons,
        List.map_nil, List.flatten_cons, List.flatten_nil, List.append_nil]
      rw [Comparable.Build, hB]
    · simp only [whereConnector_loop_eq, List.map_append, List.flatten_append, List.map_cons,
        List.map_nil, List.flatten_cons, List.flatten_nil, List.append_nil]
      rw [Comparable.Build, hB]
      simp
    · intro key b field operator hmem hk hk' hs hnd
      have := hrender key b field operator hmem hk hk' hs hnd
      rw [hb] at this
      exact hM field b this

end Builder

namespace Builder

theorem lookup_single_ne {α : Type} {k d : String} (v : α) (h : k ≠ d) :
    lookup d [(k, v)] = none := by
  simp [lookup, h]

/-- The directive blocks of a map with one entry that is no directive. -/
theorem directives_single (key : String) (val : Any) (hk : key ∉ defaultIgnoreKeys) :
    BuildSelect.orderBy [(key, val)] = .ok "" ∧ BuildSelect.groupBy [(key, val)] = .ok ""
    ∧ BuildSelect.limit [(key, val)] = .ok none ∧ BuildSelect.sLimit [(key, val)] = .ok none
    ∧ BuildSelect.interval [(key, val)] = .ok "" ∧ BuildSelect.fill [(key, val)] = .ok "" := by
  simp only [defaultIgnoreKeys, List.mem_cons, List.mem_singleton, List.not_mem_nil, or_false,
    not_or] at hk
  obtain ⟨h1, h2, h3, h4, h5, h6, _⟩ := hk
  refine ⟨?_, ?_, ?_, ?_, ?_, ?_⟩
  · unfold BuildSelect.orderBy; rw [lookup_single_ne val h1]
  · unfold BuildSelect.groupBy; rw [lookup_single_ne val h2]
  · unfold BuildSelect.limit; rw [lookup_single_ne val h3]
  · unfold BuildSelect.sLimit; rw [lookup_single_ne val h4]
  · unfold BuildSelect.interval; rw [lookup_single_ne val h5]
  · unfold BuildSelect.fill; rw [lookup_single_ne val h6]

theorem getWhereConditions_single_null (U : Char → Char) (key : String) (b : Nat)
    {field operator : String} (hk : key ∉ defaultIgnoreKeys) (hk' : key ≠ "_or")
    (hs : splitKey key (Any.nullType b) = .ok (field, operator))
    (hop : isStringInSlice (ToLower U operator) opOrder = true) :
    getWhereConditions U [(key, Any.nullType b)] defaultIgnoreKeys
      = .ok [Comparable.nullCompareble [(field, Any.nullType b)]] := by
  unfold getWhereConditions
  rw [if_neg (by simp), loop_cons_field _ _ _ _ _ _ _ hk hk', hs]
  simp only
  rw [if_neg (by simp [hop]), loop_nil]
  simp [getWhereConditions.finish, isNullType, whereMapSet.add, lookup, insert,
    buildWhereCondition, buildWhereCondition.loop, opOrder, op2Comparable,
    opEq, opNe1, opNe2, opIn, opNotIn, opGt, opGte, opLt, opLte, opLike, opNotLike,
    opBetween, opNotBetween, opNull]

theorem whereConnector_single_null (field : String) (b : Nat) :
    whereConnector "and" [Comparable.nullCompareble [(field, Any.nullType b)]]
      = ("(" ++ field ++ " " ++ NullType.String b ++ ")", []) := by
  rw [whereConnector_eq, whereConnector.loop, whereConnector.loop, Comparable.Build]
  simp [nullCompareble.Build, keys, defaultSortAlgorithm, lookup, whereConnector.finish, Join,
    String.append_assoc]

theorem paren_ne_empty (s : String) : "(" ++ s ≠ "" := by
  intro h
  have := congrArg String.length h
  simp only [String.length_append] at this
  have h1 : "(".length = 1 := rfl
  have h2 : "".length = 0 := rfl
  omega

theorem where_paren (s : String) : " where " ++ ("(" ++ s) = " where (" ++ s := by
  rw [← String.append_assoc]
  rfl

theorem BuildSelect_single_null (U : Char → Char) (table : String) (selectField : List String)
    (key : String) (b : Nat) {field operator : String}
    (hk : key ∉ defaultIgnoreKeys) (hk' : key ≠ "_or")
    (hs : splitKey key (Any.nullType b) = .ok (field, operator))
    (hop : isStringInSlice (ToLower U operator) opOrder = true) :
    BuildSelect U table [(key, Any.nullType b)] selectField
      = ("select " ++ (if 0 < selectField.length then Join selectField "," else "*")
          ++ " from " ++ table ++ " where (" ++ field ++ " " ++ NullType.String b ++ ")",
         [], none) := by
  obtain ⟨h1, h2, h3, h4, h5, h6⟩ := directives_single key (Any.nullType b) hk
  rw [BuildSelect_eq_of_ok h1 h2 h3 h4 h5 h6
    (getWhereConditions_single_null U key b hk hk' hs hop)]
  unfold buildSelect
  simp only [whereConnector_single_null, String.append_assoc, ne_eq, paren_ne_empty,
    not_false_eq_true, if_true, if_false, where_paren, not_true_eq_false]

end Builder

namespace Builder

/-- Claim C12.  An entry whose value is a null marker, under a key that splits
into a field and any supported operator (or none), is rendered by `BuildSelect` as
`field is null` for `IsNull` and `field is not null` for `IsNotNull`, with no
value.  In every map that `BuildSelect` accepts, the null checks are the last
texts of the where-expression, after those of all other groups, in ascending order
of the fields, they bind no value, and each such entry that no other key
overwrites has its text among them.  The map `{"aa": IsNull}` gives
`select * from tb where (aa is null)` and no values. -/
theorem null_markers (U : Char → Char) (table : String) (selectField : List String) :
    (∀ (key field operator : String) (b : Nat), key ∉ defaultIgnoreKeys → key ≠ "_or" →
      splitKey key (Any.nullType b) = .ok (field, operator) →
      isStringInSlice (ToLower U operator) opOrder = true →
      BuildSelect U table [(key, Any.nullType b)] selectField
        = ("select " ++ (if 0 < selectField.length then Join selectField "," else "*")
            ++ " from " ++ table ++ " where (" ++ field ++ " " ++ NullType.String b ++ ")",
           [], none))
    ∧ NullType.String 1 = "is null" ∧ NullType.String 2 = "is not null"
    ∧ (∀ wh : WhereMap, (BuildSelect U table wh selectField).2.2 = none →
      ∃ (front nulls : List Comparable) (fs : List (String × Nat))
        (groupBy orderBy : String) (sLimit limit : Option eleLimit) (interval fill : String),
        BuildSelect U table wh selectField
          = buildSelect table selectField groupBy orderBy sLimit limit interval fill
              (front ++ nulls)
        ∧ (∀ c ∈ front, c.isNull = false)
        ∧ (whereConnector.loop (front ++ nulls)).1
            = (whereConnector.loop front).1 ++ fs.map nullText
        ∧ (whereConnector.loop (front ++ nulls)).2 = (whereConnector.loop front).2
        ∧ (fs.map Prod.fst).Sorted StrLE
        ∧ (∀ key b field operator, (key, Any.nullType b) ∈ wh → key ∉ defaultIgnoreKeys →
            key ≠ "_or" → splitKey key (Any.nullType b) = .ok (field, operator) →
            (slotKeys U wh).Nodup → (field, b) ∈ fs))
    ∧ BuildSelect U "tb" [("aa", Any.nullType 1)] []
        = ("select * from tb where (aa is null)", [], none) := by
  refine ⟨?_, rfl, rfl, ?_, rfl⟩
  · intro key field operator b hk hk' hs hop
    exact BuildSelect_single_null U table selectField key b hk hk' hs hop
  · intro wh hok
    obtain ⟨orderBy, groupBy, limit, sLimit, interval, fill, cs, h1, h2, h3, h4, h5, h6, h7⟩ :=
      BuildSelect_ok_inv hok
    obtain ⟨front, hfront, hcs⟩ := getWhereConditions_null_last U wh cs h7
    obtain ⟨fs, ht, hv, hsorted, hmem⟩ := nullGroup_texts U wh front
    refine ⟨front, _, fs, groupBy, orderBy, sLimit, limit, interval, fill, ?_, hfront, ht, hv,
      hsorted, hmem⟩
    rw [BuildSelect_eq_of_ok h1 h2 h3 h4 h5 h6 h7, hcs]

/-- The statement of C12 at the keys `aa >=` with `IsNotNull` and, from the test
`Test_Where_Null`, at the map of `aa` with `IsNull`, `foo` with a string and `bb`
with `IsNotNull`. -/
theorem null_markers_witness :
    BuildSelect id "tb" [("aa >=", Any.nullType 2)] ["id", "name"]
      = ("select " ++ (if 0 < ["id", "name"].length then Join ["id", "name"] "," else "*")
          ++ " from " ++ "tb" ++ " where (" ++ "aa" ++ " " ++ NullType.String 2 ++ ")",
         [], none)
    ∧ ∃ (front nulls : List Comparable) (fs : List (String × Nat))
        (groupBy orderBy : String) (sLimit limit : Option eleLimit) (interval fill : String),
        BuildSelect id "tb"
            [("aa", Any.nullType 1), ("foo", Any.str "bar"), ("bb", Any.nullType 2)]
            ["id", "name"]
          = buildSelect "tb" ["id", "name"] groupBy orderBy sLimit limit interval fill
              (front ++ nulls)
        ∧ (∀ c ∈ front, c.isNull = false)
        ∧ (whereConnector.loop (front ++ nulls)).1
            = (whereConnector.loop front).1 ++ fs.map nullText
        ∧ (whereConnector.loop (front ++ nulls)).2 = (whereConnector.loop front).2
        ∧ (fs.map Prod.fst).Sorted StrLE
        ∧ (∀ key b field operator,
            (key, Any.nullType b)
              ∈ [("aa", Any.nullType 1), ("foo", Any.str "bar"), ("bb", Any.nullType 2)] →
            key ∉ defaultIgnoreKeys →
            key ≠ "_or" → splitKey key (Any.nullType b) = .ok (field, operator) →
            (slotKeys id [("aa", Any.nullType 1), ("foo", Any.str "bar"),
              ("bb", Any.nullType 2)]).Nodup → (field, b) ∈ fs) :=
  ⟨(null_markers id "tb" ["id", "name"]).1 "aa >=" "aa" ">=" 2 (by decide) (by decide) rfl rfl,
   (null_markers id "tb" ["id", "name"]).2.2.2.1
     [("aa", Any.nullType 1), ("foo", Any.str "bar"), ("bb", Any.nullType 2)] rfl⟩

end Builder

namespace Builder

/-! ## Insert statements -/

theorem Join_replicate_data :
    ∀ k, (Join (List.replicate (k + 1) "?") ",").data
      = (List.replicate k ['?', ',']).flatten ++ ['?']
  | 0 => rfl
  | k + 1 => by
    have ih := Join_replicate_data k
    show (Join ("?" :: "?" :: List.replicate k "?") ",").data = _
    rw [Join]
    have e : "?" :: List.replicate k "?" = List.replicate (k + 1) "?" := rfl
    rw [e, String.data_append, String.data_append, ih]
    simp [List.replicate_succ]

theorem Repeat_data : ∀ k, (Repeat "?," k).data = (List.replicate k ['?', ',']).flatten
  | 0 => rfl
  | k + 1 => by
    rw [Repeat, String.data_append, Repeat_data k]
    simp [List.replicate_succ]

theorem replicate_flatten_snoc (k : Nat) :
    (List.replicate (k + 1) ['?', ',']).flatten
      = (List.replicate k ['?', ',']).flatten ++ ['?', ','] := by
  rw [List.replicate_succ', List.flatten_append]
  simp

/-- The placeholders of `buildInsert`: `strings.Repeat("?,", k)` without its last
comma is `k` marks joined by commas. -/
theorem TrimRight_Repeat (k : Nat) :
    TrimRight (Repeat "?," k) ',' = Join (List.replicate k "?") "," := by
  cases k with
  | zero => rfl
  | succ k =>
    apply String.ext
    rw [Join_replicate_data]
    unfold TrimRight
    rw [Repeat_data, replicate_flatten_snoc]
    simp [List.reverse_append, List.dropWhile]

theorem buildInsert_loop_eq (placeholder : String) :
    ∀ (rows : List (List Any)) (b : String) (vals : List Any), rows ≠ [] →
      buildInsert.loop placeholder rows b vals
        = (b ++ Join (rows.map (fun _ => placeholder)) ",", vals ++ rows.flatten)
  | [], _, _, h => absurd rfl h
  | [row], b, vals, _ => by simp [buildInsert.loop, Join]
  | row :: next :: rest, b, vals, _ => by
    rw [buildInsert.loop, buildInsert_loop_eq placeholder (next :: rest) _ _ (by simp)]
    simp [Join, String.append_assoc]

/-- The closed form of `buildInsert` for a list of rows that is not empty. -/
theorem buildInsert_eq (table sTable : String) (tags : List Any) (rows : List (List Any))
    (insertType : String) (hne : rows ≠ []) :
    buildInsert table sTable tags rows insertType
      = (insertType ++ " " ++ table
          ++ (if sTable ≠ "" then
                " using " ++ sTable ++ " tags(" ++ Join (List.replicate tags.length "?") "," ++ ")"
              else "")
          ++ " values "
          ++ Join (rows.map (fun _ => placeholderGroup (rows.headD []).length)) ",",
         (if sTable ≠ "" then tags else []) ++ rows.flatten, none) := by
  unfold buildInsert
  have hl : ¬ rows.length < 1 := by
    cases rows with
    | nil => exact absurd rfl hne
    | cons r rs => simp
  rw [if_neg hl]
  by_cases hs : sTable = ""
  · simp [hs, buildInsert_loop_eq _ rows _ _ hne, TrimRight_Repeat, placeholderGroup,
      String.append_assoc]
  · simp [hs, buildInsert_loop_eq _ rows _ _ hne, TrimRight_Repeat, placeholderGroup,
      String.append_assoc]

theorem buildInsert_error_iff (table sTable : String) (tags : List Any)
    (rows : List (List Any)) (insertType : String) (e : Err) :
    (buildInsert table sTable tags rows insertType).2.2 = some e
      ↔ rows = [] ∧ e = .errInsertNullData := by
  cases rows with
  | nil =>
    unfold buildInsert
    simp [eq_comm]
  | cons r rs =>
    rw [buildInsert_eq _ _ _ _ _ (by simp)]
    simp

theorem countQ_placeholderGroup (k : Nat) : countQ (placeholderGroup k) = k := by
  unfold placeholderGroup
  rw [countQ_append, countQ_append, countQ_Join "," rfl]
  have h1 : sumQ (List.replicate k "?") = k := by
    induction k with
    | zero => rfl
    | succ k ih => rw [List.replicate_succ, sumQ_cons, ih]; show 1 + k = k + 1; omega
  rw [h1]
  show 0 + k + 0 = k
  omega

theorem countQ_groups (k : Nat) (rows : List (List Any)) (hk : ∀ r ∈ rows, r.length = k) :
    countQ (Join (rows.map (fun _ => placeholderGroup k)) ",") = rows.flatten.length := by
  rw [countQ_Join "," rfl]
  induction rows with
  | nil => rfl
  | cons r rs ih =>
    rw [List.map_cons, sumQ_cons, countQ_placeholderGroup,
      ih (fun r hr => hk r (List.mem_cons_of_mem _ hr)), List.flatten_cons, List.length_append,
      hk r (List.mem_cons_self _ _)]

/-- Claim C23.  For every table and every list of rows that is not empty and
whose rows all have `k` elements, `BuildInsert` returns `insert into <table> values `
followed by one group `(?,...,?)` of `k` placeholders per row, joined by commas;
the values are the rows one after the other, there are as many placeholders in the
groups as values, and no error.  The rows `[[1,2],[3,4]]` give
`insert into t values (?,?),(?,?)` and `[1,2,3,4]`. -/
theorem BuildInsert_rendering (table : String) (rows : List (List Any)) (k : Nat)
    (hne : rows ≠ []) (hk : ∀ r ∈ rows, r.length = k) :
    BuildInsert table rows
      = ("insert into " ++ table ++ " values "
          ++ Join (rows.map (fun _ => placeholderGroup k)) ",", rows.flatten, none)
    ∧ countQ (Join (rows.map (fun _ => placeholderGroup k)) ",") = rows.flatten.length
    ∧ countQ (BuildInsert table rows).1 = countQ table + (BuildInsert table rows).2.1.length
    ∧ BuildInsert "t" [[Any.int 1, Any.int 2], [Any.int 3, Any.int 4]]
      = ("insert into t values (?,?),(?,?)", [Any.int 1, Any.int 2, Any.int 3, Any.int 4],
          none) := by
  have hh : (rows.headD []).length = k := by
    cases rows with
    | nil => exact absurd rfl hne
    | cons r rs => exact hk r (List.mem_cons_self _ _)
  have h1 : BuildInsert table rows
      = ("insert into " ++ table ++ " values "
          ++ Join (rows.map (fun _ => placeholderGroup k)) ",", rows.flatten, none) := by
    unfold BuildInsert
    rw [buildInsert_eq _ _ _ _ _ hne, hh]
    simp [commonInsert, String.append_assoc]
  refine ⟨h1, countQ_groups k rows hk, ?_, rfl⟩
  rw [h1]
  simp only [countQ_append, countQ_groups k rows hk]
  show 0 + countQ table + 0 + _ = _
  omega

/-- The statement of C23 at the rows of the test `Test_BuildInsert`. -/
theorem BuildInsert_rendering_witness :
    BuildInsert "tb" [[Any.int 23, Any.str "bar"]]
      = ("insert into " ++ "tb" ++ " values "
          ++ Join ([[Any.int 23, Any.str "bar"]].map (fun _ => placeholderGroup 2)) ",",
         [[Any.int 23, Any.str "bar"]].flatten, none) :=
  (BuildInsert_rendering "tb" [[Any.int 23, Any.str "bar"]] 2 (by simp) (by simp)).1

/-- Claim C24.  For every table, supertable name that is not empty, list of tags
and list of rows that is not empty, `BuildInsertStable` returns
`insert into <table> using <supertable> tags(` + one placeholder per tag, joined
by commas, + `) values ` + one group per row, each with as many placeholders as the
first row has elements (as its own row has, when all rows have the same number);
the values are the tags in order, then the rows in order. -/
theorem BuildInsertStable_rendering (table sTable : String) (tags : List Any)
    (rows : List (List Any)) (hs : sTable ≠ "") (hne : rows ≠ []) :
    BuildInsertStable table sTable tags rows
      = ("insert into " ++ table ++ " using " ++ sTable ++ " tags("
          ++ Join (List.replicate tags.length "?") "," ++ ") values "
          ++ Join (rows.map (fun _ => placeholderGroup (rows.headD []).length)) ",",
         tags ++ rows.flatten, none)
    ∧ ((∀ r ∈ rows, r.length = (rows.headD []).length) →
        rows.map (fun _ => placeholderGroup (rows.headD []).length)
          = rows.map (fun r => placeholderGroup r.length)) := by
  constructor
  · unfold BuildInsertStable
    rw [buildInsert_eq _ _ _ _ _ hne]
    simp [hs, commonInsert, String.append_assoc]
  · intro h
    apply List.map_congr_left
    intro r hr
    rw [h r hr]

/-- The statement of C24 at the input of the test `TestBuildInsert`. -/
theorem BuildInsertStable_rendering_witness :
    BuildInsertStable "tb1" "stable1" [Any.int 1, Any.str "2"]
        [[Any.int 1, Any.int 2], [Any.int 3, Any.int 4], [Any.int 5, Any.int 6]]
      = ("insert into tb1 using stable1 tags(?,?) values (?,?),(?,?),(?,?)",
         [Any.int 1, Any.str "2", Any.int 1, Any.int 2, Any.int 3, Any.int 4, Any.int 5,
          Any.int 6], none) :=
  (BuildInsertStable_rendering "tb1" "stable1" [Any.int 1, Any.str "2"]
    [[Any.int 1, Any.int 2], [Any.int 3, Any.int 4], [Any.int 5, Any.int 6]]
    (by decide) (by simp)).1

/-- Claim C25.  `BuildInsert` and `BuildInsertStable` return the insert-null-data
error exactly when the list of rows is empty, whatever the table, the supertable
and the tags; they return no other error. -/
theorem insert_zero_rows (table sTable : String) (tags : List Any) (rows : List (List Any)) :
    ((BuildInsert table rows).2.2 = some .errInsertNullData ↔ rows = [])
    ∧ ((BuildInsertStable table sTable tags rows).2.2 = some .errInsertNullData ↔ rows = [])
    ∧ (∀ e, (BuildInsert table rows).2.2 = some e → e = .errInsertNullData)
    ∧ (∀ e, (BuildInsertStable table sTable tags rows).2.2 = some e
        → e = .errInsertNullData) := by
  unfold BuildInsert BuildInsertStable
  simp only [buildInsert_error_iff]
  simp

/-- The statement of C25 at the empty list of rows and at a list of one row. -/
theorem insert_zero_rows_witness :
    (BuildInsert "tb" []).2.2 = some .errInsertNullData
    ∧ (BuildInsertStable "tb" "stb" [Any.int 1] []).2.2 = some .errInsertNullData
    ∧ (BuildInsert "tb" [[Any.int 1]]).2.2 ≠ some .errInsertNullData :=
  ⟨(insert_zero_rows "tb" "" [] []).1.mpr rfl,
   (insert_zero_rows "tb" "stb" [Any.int 1] []).2.1.mpr rfl,
   fun h => by cases (insert_zero_rows "tb" "" [] [[Any.int 1]]).1.mp h⟩

end Builder

namespace Builder

/-! ## The `_interval` and `_fill` directives -/

/-- The text of `buildSelect`, clause by clause. -/
theorem buildSelect_text_eq (table : String) (uFields : List String)
    (groupBy orderBy : String) (sLimit limit : Option eleLimit) (interval fill : String)
    (conditions : List Comparable) :
    (buildSelect table uFields groupBy orderBy sLimit limit interval fill conditions).1
      = "select " ++ (if 0 < uFields.length then Join uFields "," else "*") ++ " from " ++ table
          ++ clause " where " (whereConnector "and" conditions).1 ""
          ++ clause " interval(" interval ")"
          ++ clause " fill " fill ""
          ++ clause " group by " groupBy ""
          ++ clause " order by " orderBy ""
          ++ (if sLimit.isSome then " slimit ?,?" else "")
          ++ (if limit.isSome then " limit ?,?" else "") := by
  unfold buildSelect
  simp only [append_clause, append_clause']
  cases sLimit <;> cases limit <;> simp

theorem clause_of_ne {pre body post : String} (h : body ≠ "") :
    clause pre body post = pre ++ body ++ post := by
  unfold clause
  rw [if_neg h]

theorem lookup_remove {α : Type} (d k : String) (v : α) (h : k ≠ d)
    (post : List (String × α)) :
    ∀ pre : List (String × α), lookup d (pre ++ (k, v) :: post) = lookup d (pre ++ post)
  | [] => by simp [lookup, h]
  | (a, b) :: pre => by
    have ih := lookup_remove d k v h post pre
    show lookup d ((a, b) :: (pre ++ (k, v) :: post)) = lookup d ((a, b) :: (pre ++ post))
    simp only [lookup, ih]

theorem getWhereConditions_eq_finish (U : Char → Char) (ign : List String) (wh : WhereMap) :
    getWhereConditions U wh ign
      = getWhereConditions.finish (getWhereConditions.loop U ign wh (whereMapSet.mk []) []) := by
  unfold getWhereConditions
  by_cases hl : wh.length = 0
  · rw [if_pos hl]
    rw [List.length_eq_zero] at hl
    subst hl
    rw [loop_nil]
    rfl
  · rw [if_neg hl]

/-- An entry with an ignored key does not change the fragments. -/
theorem getWhereConditions_remove_ignored (U : Char → Char) (pre post : WhereMap)
    (k : String) (v : Any) (hk : k ∈ defaultIgnoreKeys) :
    getWhereConditions U (pre ++ (k, v) :: post) defaultIgnoreKeys
      = getWhereConditions U (pre ++ post) defaultIgnoreKeys := by
  rw [getWhereConditions_eq_finish, getWhereConditions_eq_finish, loop_append,
    loop_append U _ post pre]
  cases getWhereConditions.loop U defaultIgnoreKeys pre (whereMapSet.mk []) [] with
  | error e => rfl
  | ok p => simp only [loop_cons_ignored _ _ _ _ _ _ _ hk]

theorem interval_ok_iff (wh : WhereMap) (r : Option Interval)
    (hl : lookup "_interval" wh = some (.interval r)) :
    BuildSelect.interval wh = .error .errIntervalValueError
      ↔ (r = none ∨ ∃ i, r = some i ∧ (i.Value = 0 ∨ i.Unit = "")) := by
  unfold BuildSelect.interval
  rw [hl]
  cases r with
  | none => simp
  | some i =>
    simp only
    by_cases hc : i.Value = 0 ∨ i.Unit = ""
    · rw [if_pos hc]
      simp [hc]
    · rw [if_neg hc]
      simp [hc]

/-- Claim C22, as the code has it.  For an `_interval` of `Interval` type in a map
whose `_orderby`, `_groupby`, `_limit` and `_slimit` pass their checks,
`BuildSelect` fails with the interval-value error exactly when the reference is
nil, the magnitude is 0 or the unit is empty; otherwise, when `BuildSelect`
succeeds, its text has ` interval(<magnitude><unit>)`, the magnitude in decimal,
after the where-expression.  Magnitude 1 and unit `d` give
`select avg(t1) from tb interval(1d)`. -/
theorem interval_validation (U : Char → Char) (table : String) (wh : WhereMap)
    (selectField : List String) (r : Option Interval)
    (h1 : passes (BuildSelect.orderBy wh) = true) (h2 : passes (BuildSelect.groupBy wh) = true)
    (h3 : passes (BuildSelect.limit wh) = true) (h4 : passes (BuildSelect.sLimit wh) = true)
    (hl : lookup "_interval" wh = some (.interval r)) :
    ((BuildSelect U table wh selectField).2.2 = some .errIntervalValueError
      ↔ (r = none ∨ ∃ i, r = some i ∧ (i.Value = 0 ∨ i.Unit = "")))
    ∧ (∀ i, r = some i → i.Value ≠ 0 → i.Unit ≠ "" →
        (BuildSelect U table wh selectField).2.2 = none →
        ∃ (groupBy orderBy fill : String) (sLimit limit : Option eleLimit)
          (cs : List Comparable),
          (BuildSelect U table wh selectField).1
            = "select " ++ (if 0 < selectField.length then Join selectField "," else "*")
                ++ " from " ++ table
                ++ clause " where " (whereConnector "and" cs).1 ""
                ++ (" interval(" ++ (Nat.repr i.Value ++ i.Unit) ++ ")")
                ++ clause " fill " fill ""
                ++ clause " group by " groupBy ""
                ++ clause " order by " orderBy ""
                ++ (if sLimit.isSome then " slimit ?,?" else "")
                ++ (if limit.isSome then " limit ?,?" else ""))
    ∧ BuildSelect U "tb" [("_interval", Any.interval (some (Interval.mk 1 "d")))] ["avg(t1)"]
        = ("select avg(t1) from tb interval(1d)", [], none) := by
  refine ⟨⟨?_, ?_⟩, ?_, rfl⟩
  · intro h
    rcases BuildSelect_error_cases h with e1 | ⟨_, e1⟩ | ⟨_, _, e1⟩ | ⟨_, _, _, e1⟩
      | ⟨_, _, e1⟩ | ⟨_, _, e1⟩ | ⟨_, e1⟩
    · rw [passes_error e1] at h1; cases h1
    · rw [passes_error e1] at h2; cases h2
    · rw [passes_error e1] at h3; cases h3
    · rw [passes_error e1] at h4; cases h4
    · exact (interval_ok_iff wh r hl).mp e1
    · rcases fill_error e1 with e2 | e2 | e2 | e2 <;> cases e2
    · have := getWhereConditions_error U _ wh _ e1
      cases this
  · intro h
    rw [BuildSelect_interval_error h1 h2 h3 h4 ((interval_ok_iff wh r hl).mpr h)]
  · intro i hr hv hu hok
    obtain ⟨orderBy, groupBy, limit, sLimit, interval, fill, cs, e1, e2, e3, e4, e5, e6, e7⟩ :=
      BuildSelect_ok_inv hok
    refine ⟨groupBy, orderBy, fill, sLimit, limit, cs, ?_⟩
    rw [BuildSelect_eq_of_ok e1 e2 e3 e4 e5 e6 e7, buildSelect_text_eq]
    have hi : interval = Nat.repr i.Value ++ i.Unit := by
      unfold BuildSelect.interval at e5
      rw [hl, hr] at e5
      simp only at e5
      rw [if_neg (by simp [hv, hu])] at e5
      cases e5
      rfl
    have hne : interval ≠ "" := by
      rw [hi]
      intro h0
      have := congrArg String.length h0
      simp only [String.length_append] at this
      have hlen : i.Unit.length ≠ 0 := by
        intro hz
        apply hu
        apply String.ext
        exact List.length_eq_zero.mp hz
      have h00 : "".length = 0 := rfl
      omega
    rw [clause_of_ne hne, hi]

/-- The statement of C22 at the map of the test `Test_BuildSelect` with an
interval of one day. -/
theorem interval_validation_witness :
    (BuildSelect id "tb" [("_interval", Any.interval (some (Interval.mk 1 "d")))]
        ["avg(t1)"]).2.2 = some .errIntervalValueError
      ↔ (some (Interval.mk 1 "d") = none
          ∨ ∃ i, some (Interval.mk 1 "d") = some i ∧ (i.Value = 0 ∨ i.Unit = "")) :=
  (interval_validation id "tb" [("_interval", Any.interval (some (Interval.mk 1 "d")))]
    ["avg(t1)"] (some (Interval.mk 1 "d")) rfl rfl rfl rfl rfl).1

/-- Claim C22 as it is written fails: with a nil `_interval` and an `_orderby` that
is not a string, `BuildSelect` fails with the type error of `_orderby`; and with a
well-formed `_interval` next to a `_fill` that is not a `FillType` it fails, so
that no text is returned. -/
theorem interval_error_preempted :
    BuildSelect id "tb" [("_orderby", Any.int 5), ("_interval", Any.interval none)] []
      = ("", [], some .errOrderByValueType)
    ∧ BuildSelect id "tb"
        [("_interval", Any.interval (some (Interval.mk 1 "d"))), ("_fill", Any.int 1)] []
      = ("", [], some .errNeedFillType) :=
  ⟨rfl, rfl⟩

end Builder

namespace Builder

theorem fill_of_plain {wh : WhereMap} {p : String}
    (hl : lookup "_fill" wh = some (.fillType p)) (hp : p ∈ plainFillPolicies) :
    BuildSelect.fill wh = .ok p := by
  unfold BuildSelect.fill
  rw [hl]
  simp only [plainFillPolicies, List.mem_cons, List.mem_singleton, List.not_mem_nil,
    or_false] at hp
  rcases hp with h | h | h | h | h <;> subst h <;> rfl

theorem plain_ne_empty {p : String} (hp : p ∈ plainFillPolicies) : p ≠ "" := by
  simp only [plainFillPolicies, List.mem_cons, List.mem_singleton, List.not_mem_nil,
    or_false] at hp
  rcases hp with h | h | h | h | h <;> subst h <;> decide

/-- Claim C21, as the code has it.  For a `_fill` of `FillType` in a map whose
`_orderby`, `_groupby`, `_limit`, `_slimit` and `_interval` pass their checks,
`BuildSelect` fails with the fill-value error when the policy is none of `NONE`,
`VALUE`, `PREV`, `NULL`, `LINEAR`, `NEXT`, and with the missing-fillvalue error
when the policy is `VALUE` and there is no `_fillvalue`; for each of the other five
policies the text of a successful `BuildSelect` has ` fill <POLICY>` after the
where-expression and the interval, and an entry `_fillvalue`, whatever its value,
changes nothing of the result. -/
theorem fill_policy_validation (U : Char → Char) (table : String) (wh : WhereMap)
    (selectField : List String) (p : String)
    (hl : lookup "_fill" wh = some (.fillType p)) :
    (passes (BuildSelect.orderBy wh) = true → passes (BuildSelect.groupBy wh) = true →
      passes (BuildSelect.limit wh) = true → passes (BuildSelect.sLimit wh) = true →
      passes (BuildSelect.interval wh) = true →
        (p ∉ FillTypeMap →
          BuildSelect U table wh selectField = ("", [], some .errFillValue))
        ∧ (p = FillValue → lookup "_fillvalue" wh = none →
          BuildSelect U table wh selectField = ("", [], some .errFillMissValue)))
    ∧ (p ∈ plainFillPolicies → (BuildSelect U table wh selectField).2.2 = none →
        ∃ (groupBy orderBy interval : String) (sLimit limit : Option eleLimit)
          (cs : List Comparable),
          (BuildSelect U table wh selectField).1
            = "select " ++ (if 0 < selectField.length then Join selectField "," else "*")
                ++ " from " ++ table
                ++ clause " where " (whereConnector "and" cs).1 ""
                ++ clause " interval(" interval ")"
                ++ (" fill " ++ p)
                ++ clause " group by " groupBy ""
                ++ clause " order by " orderBy ""
                ++ (if sLimit.isSome then " slimit ?,?" else "")
                ++ (if limit.isSome then " limit ?,?" else ""))
    ∧ (p ∈ plainFillPolicies → ∀ (pre post : WhereMap) (v : Any), wh = pre ++ post →
        BuildSelect U table (pre ++ ("_fillvalue", v) :: post) selectField
          = BuildSelect U table wh selectField) := by
  refine ⟨?_, ?_, ?_⟩
  · intro h1 h2 h3 h4 h5
    constructor
    · intro hp
      apply BuildSelect_fill_error h1 h2 h3 h4 h5
      unfold BuildSelect.fill
      rw [hl]
      simp only
      rw [if_pos hp]
    · intro hp hv
      apply BuildSelect_fill_error h1 h2 h3 h4 h5
      unfold BuildSelect.fill
      rw [hl, hv, hp]
      rfl
  · intro hp hok
    obtain ⟨orderBy, groupBy, limit, sLimit, interval, fill, cs, e1, e2, e3, e4, e5, e6, e7⟩ :=
      BuildSelect_ok_inv hok
    refine ⟨groupBy, orderBy, interval, sLimit, limit, cs, ?_⟩
    rw [BuildSelect_eq_of_ok e1 e2 e3 e4 e5 e6 e7, buildSelect_text_eq]
    rw [fill_of_plain hl hp] at e6
    cases e6
    rw [clause_of_ne (plain_ne_empty hp), String.append_empty]
  · intro hp pre post v hw
    subst hw
    apply BuildSelect_congr_blocks
    · unfold BuildSelect.orderBy; rw [lookup_remove _ _ _ (by decide)]
    · unfold BuildSelect.groupBy; rw [lookup_remove _ _ _ (by decide)]
    · unfold BuildSelect.limit; rw [lookup_remove _ _ _ (by decide)]
    · unfold BuildSelect.sLimit; rw [lookup_remove _ _ _ (by decide)]
    · unfold BuildSelect.interval; rw [lookup_remove _ _ _ (by decide)]
    · have hl' : lookup "_fill" (pre ++ ("_fillvalue", v) :: post) = some (.fillType p) := by
        rw [lookup_remove _ _ _ (by decide)]
        exact hl
      rw [fill_of_plain hl hp, fill_of_plain hl' hp]
    · exact getWhereConditions_remove_ignored U pre post _ v (by decide)

/-- The statement of C21 at a map with the policy `PREV` and a `_fillvalue`. -/
theorem fill_policy_validation_witness :
    BuildSelect id "tb"
        ([("_fill", Any.fillType "PREV")] ++ ("_fillvalue", Any.str "x") :: []) ["a"]
      = BuildSelect id "tb" [("_fill", Any.fillType "PREV")] ["a"] :=
  (fill_policy_validation id "tb" [("_fill", Any.fillType "PREV")] ["a"] "PREV" rfl).2.2
    (by decide) [("_fill", Any.fillType "PREV")] [] (Any.str "x") rfl

/-- Claim C21 as it is written fails: with a policy that is none of the six and an
`_orderby` that is not a string, `BuildSelect` fails with the type error of
`_orderby`; and with the policy `PREV` next to a key with an unknown operator it
fails, so that no ` fill PREV` is returned. -/
theorem fill_error_preempted :
    BuildSelect id "tb" [("_orderby", Any.int 5), ("_fill", Any.fillType "BAD")] []
      = ("", [], some .errOrderByValueType)
    ∧ "BAD" ∉ FillTypeMap
    ∧ BuildSelect id "tb" [("_fill", Any.fillType "PREV"), ("a ~", Any.int 1)] []
      = ("", [], some .ErrUnsupportedOperator) :=
  ⟨rfl, by decide, rfl⟩

end Builder

namespace Builder

/-! ## `NamedQuery`: the loop over the template and its pieces -/

theorem repl_absent (data : List (String × Any)) (m : String) (vals : List Any)
    (err : Option Err) (h : lookup (markerName m) data = none) :
    NamedQuery.repl data m vals err = some ("", vals, some (.errNotFound (markerName m))) := by
  unfold NamedQuery.repl
  simp only
  unfold markerName at h
  rw [h]
  rfl

theorem repl_present (data : List (String × Any)) (m : String) (vals : List Any)
    (err : Option Err) {v : Any} (h : lookup (markerName m) data = some v)
    (hn : isNil v = false) :
    NamedQuery.repl data m vals err = some (replText v, vals ++ boundOf v, err) := by
  unfold NamedQuery.repl
  simp only
  unfold markerName at h
  rw [h]
  cases v <;> first | (cases hn; done) | rfl

theorem repl_nil (data : List (String × Any)) (m : String) (vals : List Any)
    (err : Option Err) (h : lookup (markerName m) data = some Any.nil) :
    NamedQuery.repl data m vals err = none := by
  unfold NamedQuery.repl
  simp only
  unfold markerName at h
  rw [h]

/-- The loop of `ReplaceAllStringFunc` as a fold over the pieces of the template,
when no marker is bound to nil. -/
theorem replaceAll_eq (data : List (String × Any)) :
    ∀ (s : List Char) (skip : Nat) (out : String) (vals : List Any) (err : Option Err),
      (∀ m, Piece.marker m ∈ pieces s skip → ∀ v, lookup (markerName m) data = some v →
        isNil v = false) →
      NamedQuery.replaceAll data s skip out vals err
        = some ((pieces s skip).foldl (fun o p => o ++ p.render data) out,
                (pieces s skip).foldl (fun vs p => vs ++ p.bound data) vals,
                (pieces s skip).foldl (errStep data) err)
  | [], skip, out, vals, err, _ => by
    rw [NamedQuery.replaceAll, pieces]
    rfl
  | c :: rest, skip + 1, out, vals, err, h => by
    rw [NamedQuery.replaceAll, pieces]
    apply replaceAll_eq data rest skip out vals err
    intro m hm
    apply h m
    rw [pieces]
    exact hm
  | c :: rest, 0, out, vals, err, h => by
    rw [NamedQuery.replaceAll, pieces]
    rw [pieces] at h
    cases hm : searchHandle.matchAt (c :: rest) with
    | none =>
      rw [hm] at h
      simp only at h ⊢
      rw [replaceAll_eq data rest 0 _ vals err
        (fun m hmem => h m (List.mem_cons_of_mem _ hmem))]
      simp [List.foldl_cons, Piece.render, Piece.bound, errStep, String.push]
      rfl
    | some m =>
      rw [hm] at h
      simp only at h ⊢
      cases hl : lookup (markerName (String.mk m)) data with
      | none =>
        rw [repl_absent data _ vals err hl]
        simp only
        rw [replaceAll_eq data rest (m.length - 1) _ vals _
          (fun m' hmem => h m' (List.mem_cons_of_mem _ hmem))]
        simp [List.foldl_cons, Piece.render, Piece.bound, errStep, hl]
      | some v =>
        have hn := h (String.mk m) (List.mem_cons_self _ _) v hl
        rw [repl_present data _ vals err hl hn]
        simp only
        rw [replaceAll_eq data rest (m.length - 1) _ _ err
          (fun m' hmem => h m' (List.mem_cons_of_mem _ hmem))]
        simp [List.foldl_cons, Piece.render, Piece.bound, errStep, hl]

theorem foldl_texts {α : Type} (f : α → String) :
    ∀ (l : List α) (out : String),
      l.foldl (fun o p => o ++ f p) out = out ++ concatTexts (l.map f)
  | [], out => by simp [concatTexts]
  | a :: l, out => by
    rw [List.foldl_cons, foldl_texts f l, List.map_cons, concatTexts, String.append_assoc]

theorem foldl_vals {α β : Type} (g : α → List β) :
    ∀ (l : List α) (vals : List β),
      l.foldl (fun vs p => vs ++ g p) vals = vals ++ (l.map g).flatten
  | [], vals => by simp
  | a :: l, vals => by
    rw [List.foldl_cons, foldl_vals g l, List.map_cons, List.flatten_cons, List.append_assoc]

/-- The name of a piece that is a marker without an entry in the map. -/
theorem foldl_errStep (data : List (String × Any)) :
    ∀ (ps : List Piece) (err : Option Err),
      ps.foldl (errStep data) err
        = match ((ps.filterMap (fun p =>
              match p with
              | .marker m => some (markerName m)
              | .text _ => none)).filter (fun n => (lookup n data).isNone)).getLast? with
          | some n => some (.errNotFound n)
          | none => err
  | [], err => rfl
  | .text c :: ps, err => by
    rw [List.foldl_cons, foldl_errStep data ps]
    rfl
  | .marker m :: ps, err => by
    rw [List.foldl_cons, foldl_errStep data ps]
    simp only [List.filterMap_cons]
    cases hl : lookup (markerName m) data with
    | some v => simp [errStep, hl, List.filter_cons]
    | none =>
      simp only [errStep, hl, List.filter_cons, Option.isNone_none, if_true]
      cases hr : (List.filter (fun n => (lookup n data).isNone)
          (List.filterMap (fun p =>
              match p with
              | .marker m => some (markerName m)
              | .text _ => none) ps)) with
      | nil => simp
      | cons a l =>
        have hx : (a :: l).getLast? = some ((a :: l).getLast (by simp)) :=
          List.getLast?_eq_getLast _ _
        simp [hx]

end Builder

namespace Builder

/-! ## The groups of placeholders of `createMultiPlaceholders` -/

theorem map_marks_range' :
    ∀ n, (List.range' 1 (2 * n)).map (fun i => if i % 2 = 1 then '?' else ',')
      = (List.replicate n ['?', ',']).flatten
  | 0 => rfl
  | n + 1 => by
    have e : 2 * (n + 1) = 2 * n + 1 + 1 := by omega
    rw [e, List.range'_concat, List.range'_concat, List.map_append, List.map_append,
      map_marks_range' n, replicate_flatten_snoc]
    have h1 : (1 + 1 * (2 * n)) % 2 = 1 := by omega
    have h2 : ¬ (1 + 1 * (2 * n + 1)) % 2 = 1 := by omega
    simp [h1, h2]
    omega

/-- For one element or more, `createMultiPlaceholders` writes the placeholders
joined by commas, in brackets. -/
theorem createMultiPlaceholders_succ (n : Nat) :
    createMultiPlaceholders (n + 1) = placeholderGroup (n + 1) := by
  unfold createMultiPlaceholders placeholderGroup
  rw [if_neg (by omega)]
  apply String.ext
  simp only [String.data_append, Join_replicate_data]
  have e : 2 * (n + 1) + 1 = (2 * n + 1 + 1) + 1 := by omega
  rw [List.range_eq_range', e, List.range'_concat, List.range'_concat, List.range'_succ]
  simp only [List.map_append, List.map_cons, List.map_nil]
  have hmid : (List.range' (0 + 1) (2 * n)).map (fun i =>
        if i = 0 then '(' else if i = 2 * n + 1 + 1 + 1 - 1 then ')'
        else if i % 2 = 1 then '?' else ',')
      = (List.range' 1 (2 * n)).map (fun i => if i % 2 = 1 then '?' else ',') := by
    apply List.map_congr_left
    intro i hi
    rw [List.mem_range'_1] at hi
    rw [if_neg (by omega), if_neg (by omega)]
  rw [hmid, map_marks_range']
  have h1 : ¬ (0 + 1 * (2 * n + 1)) = 0 := by omega
  have h2 : ¬ (0 + 1 * (2 * n + 1)) = 2 * n + 1 + 1 + 1 - 1 := by omega
  have h3 : (0 + 1 * (2 * n + 1)) % 2 = 1 := by omega
  have h4 : ¬ (0 + 1 * (2 * n + 1 + 1)) = 0 := by omega
  have h5 : (0 + 1 * (2 * n + 1 + 1)) = 2 * n + 1 + 1 + 1 - 1 := by omega
  simp only [if_true, if_neg h1, if_neg h2, if_pos h3, if_neg h4, if_pos h5]
  rfl

theorem replText_eq_textOf {v : Any}
    (h : ∀ elems, convertInterfaceToMap v = some elems → 1 ≤ elems.length) :
    replText v = textOf v := by
  unfold replText textOf
  cases hc : convertInterfaceToMap v with
  | none => rfl
  | some elems =>
    have := h elems hc
    obtain ⟨k, hk⟩ : ∃ k, elems.length = k + 1 := ⟨elems.length - 1, by omega⟩
    simp only [hk, createMultiPlaceholders_succ]

end Builder

namespace Builder

/-! ## The markers of a template -/

theorem close_form :
    ∀ (l mid : List Char), searchHandle.close l = some mid →
      (∃ rest, l = mid ++ '}' :: '}' :: rest) ∧ ∀ x ∈ mid, isReSpace x = false
  | [], mid, h => by simp [searchHandle.close] at h
  | c :: rest, mid, h => by
    rw [searchHandle.close] at h
    by_cases h1 : c = '}' ∧ rest.head? = some '}'
    · rw [if_pos h1] at h
      cases h
      obtain ⟨hc, hr⟩ := h1
      subst hc
      cases rest with
      | nil => cases hr
      | cons d rest' =>
        simp only [List.head?_cons, Option.some.injEq] at hr
        subst hr
        exact ⟨⟨rest', rfl⟩, fun x hx => by cases hx⟩
    · rw [if_neg h1] at h
      by_cases h2 : isReSpace c = true
      · rw [if_pos h2] at h; cases h
      · rw [if_neg h2] at h
        cases hr : searchHandle.close rest with
        | none => rw [hr] at h; cases h
        | some mid' =>
          rw [hr] at h
          cases h
          obtain ⟨⟨rest', e⟩, hm⟩ := close_form rest mid' hr
          refine ⟨⟨rest', by rw [e]; rfl⟩, ?_⟩
          intro x hx
          rcases List.mem_cons.mp hx with e1 | e1
          · subst e1; simpa using h2
          · exact hm x e1

/-- A match of `searchHandle` is `{{`, one character or more that are not white
space, and `}}`, at the head of the text. -/
theorem matchAt_form {s m : List Char} (h : searchHandle.matchAt s = some m) :
    ∃ c mid rest, m = '{' :: '{' :: c :: (mid ++ ['}', '}']) ∧ s = m ++ rest
      ∧ ∀ x ∈ c :: mid, isReSpace x = false := by
  unfold searchHandle.matchAt at h
  rcases s with _ | ⟨a, _ | ⟨b, _ | ⟨c, rest⟩⟩⟩
  · cases h
  · cases h
  · cases h
  · simp only at h
    by_cases hc : a = '{' ∧ b = '{' ∧ isReSpace c = false
    · rw [if_pos hc] at h
      obtain ⟨ha, hb, hc⟩ := hc
      subst ha; subst hb
      cases hr : searchHandle.close rest with
      | none => rw [hr] at h; cases h
      | some mid =>
        rw [hr] at h
        cases h
        obtain ⟨⟨rest', e⟩, hm⟩ := close_form rest mid hr
        refine ⟨c, mid, rest', rfl, by rw [e]; simp, ?_⟩
        intro x hx
        rcases List.mem_cons.mp hx with e1 | e1
        · subst e1; exact hc
        · exact hm x e1
    · rw [if_neg hc] at h; cases h

theorem concatTexts_mk (a b : List Char) : String.mk a ++ String.mk b = String.mk (a ++ b) := by
  apply String.ext
  simp [String.data_append]

/-- The pieces of a template, one after the other, are the template. -/
theorem pieces_source :
    ∀ (s : List Char) (skip : Nat), skip ≤ s.length →
      concatTexts ((pieces s skip).map Piece.source) = String.mk (s.drop skip)
  | [], skip, _ => by simp [pieces, concatTexts]
  | c :: rest, skip + 1, h => by
    rw [pieces, List.drop_succ_cons]
    exact pieces_source rest skip (by simpa using h)
  | c :: rest, 0, _ => by
    rw [pieces]
    cases hm : searchHandle.matchAt (c :: rest) with
    | none =>
      simp only [List.map_cons, concatTexts, Piece.source, List.drop_zero]
      rw [pieces_source rest 0 (Nat.zero_le _), List.drop_zero]
      apply String.ext
      simp [String.data_append, String.singleton]
    | some m =>
      obtain ⟨x, mid, rest', e1, e2, _⟩ := matchAt_form hm
      have hrest : rest = ('{' :: x :: (mid ++ ['}', '}'])) ++ rest' := by
        rw [e1] at e2
        simp only [List.cons_append, List.cons.injEq] at e2
        rw [e2.2]
        simp
      have hlen : m.length - 1 = ('{' :: x :: (mid ++ ['}', '}'])).length := by
        rw [e1]
        simp
      simp only [List.map_cons, concatTexts, Piece.source, List.drop_zero]
      rw [pieces_source rest (m.length - 1) (by rw [hlen, hrest]; simp), hlen, hrest,
        List.drop_left, concatTexts_mk, ← e2]
      rw [hrest]

theorem marker_mem_names {sql : String} {m : String}
    (h : Piece.marker m ∈ pieces sql.data 0) : markerName m ∈ markerNames sql := by
  unfold markerNames
  exact List.mem_filterMap.mpr ⟨_, h, rfl⟩

/-- The result of `NamedQuery` for a map that is not empty and binds no name of a
marker to nil: the error of the last marker without an entry or, when there is
none, the pieces with their replacements and the values they bind. -/
theorem NamedQuery_eq (sql : String) (data : List (String × Any)) (hne : data ≠ [])
    (hnil : noNilBound sql data) :
    NamedQuery sql data
      = some (match (absentNames sql data).getLast? with
          | some n => ("", [], some (.errNotFound n))
          | none => (concatTexts ((pieces sql.data 0).map (Piece.render data)),
                     ((pieces sql.data 0).map (Piece.bound data)).flatten, none)) := by
  unfold NamedQuery
  have hl : data.length ≠ 0 := fun h => hne (List.length_eq_zero.mp h)
  rw [if_neg hl, replaceAll_eq data sql.data 0 "" [] none
    (fun m hm v hv => hnil _ (marker_mem_names hm) v hv)]
  simp only
  have hE : (pieces sql.data 0).foldl (errStep data) none
      = match (absentNames sql data).getLast? with
        | some n => some (.errNotFound n)
        | none => none := foldl_errStep data _ none
  rw [hE, foldl_texts, foldl_vals]
  cases (absentNames sql data).getLast? with
  | none => simp
  | some n => rfl

end Builder

namespace Builder

/-! ## `NamedQuery`: expansion, missing names, repeated names -/

theorem pieces_marker :
    ∀ (s : List Char) (skip : Nat) (m : String), Piece.marker m ∈ pieces s skip →
      ∃ s', searchHandle.matchAt s' = some m.data
  | [], _, _, h => by simp [pieces] at h
  | c :: rest, skip + 1, m, h => by
    rw [pieces] at h
    exact pieces_marker rest skip m h
  | c :: rest, 0, m, h => by
    rw [pieces] at h
    cases hm : searchHandle.matchAt (c :: rest) with
    | none =>
      rw [hm] at h
      simp only [List.mem_cons] at h
      rcases h with h | h
      · cases h
      · exact pieces_marker rest 0 m h
    | some m' =>
      rw [hm] at h
      simp only [List.mem_cons] at h
      rcases h with h | h
      · cases h
        exact ⟨c :: rest, hm⟩
      · exact pieces_marker rest _ m h

/-- Every marker of a template is `{{`, a text of one character or more without
white space, and `}}`. -/
theorem marker_form {sql : String} {m : String} (h : Piece.marker m ∈ pieces sql.data 0) :
    ∃ name : List Char, m = "\x7b\x7b" ++ String.mk name ++ "\x7d\x7d" ∧ name ≠ []
      ∧ ∀ x ∈ name, isReSpace x = false := by
  obtain ⟨s', hs'⟩ := pieces_marker _ _ _ h
  obtain ⟨c, mid, rest, e1, _, e3⟩ := matchAt_form hs'
  refine ⟨c :: mid, ?_, by simp, e3⟩
  apply String.ext
  rw [e1]
  simp [String.data_append]

theorem render_eq_expand (data : List (String × Any)) (p : Piece)
    (h : ∀ m, p = .marker m → ∃ v, lookup (markerName m) data = some v
      ∧ ∀ elems, convertInterfaceToMap v = some elems → 1 ≤ elems.length) :
    p.render data = p.expand data := by
  cases p with
  | text c => rfl
  | marker m =>
    obtain ⟨v, hv, he⟩ := h m rfl
    simp only [Piece.render, Piece.expand, hv, replText_eq_textOf he]

theorem absentNames_eq_nil {sql : String} {data : List (String × Any)}
    (h : ∀ n ∈ markerNames sql, ∃ v, lookup n data = some v) : absentNames sql data = [] := by
  unfold absentNames
  rw [List.filter_eq_nil_iff]
  intro n hn
  obtain ⟨v, hv⟩ := h n hn
  simp [hv]

/-- Claim C26.  For every template and every map that is not empty and has, for
every marker of the template, an entry whose value is a scalar or a collection
of one element or more, `NamedQuery` returns the template with each marker
replaced by `?` for a scalar and by `(?,...,?)` with one placeholder per element
for a collection, all other text unchanged; the values are, marker by marker from
left to right, the scalar itself or the elements of the collection in order.  The
markers are the texts `{{name}}`, the name without white space. -/
theorem NamedQuery_expansion (sql : String) (data : List (String × Any)) (hne : data ≠ [])
    (hall : ∀ n ∈ markerNames sql, ∃ v, lookup n data = some v ∧ isNil v = false
      ∧ ∀ elems, convertInterfaceToMap v = some elems → 1 ≤ elems.length) :
    NamedQuery sql data
      = some (concatTexts ((pieces sql.data 0).map (Piece.expand data)),
              ((pieces sql.data 0).map (Piece.bound data)).flatten, none)
    ∧ concatTexts ((pieces sql.data 0).map Piece.source) = sql
    ∧ (∀ m, Piece.marker m ∈ pieces sql.data 0 →
        ∃ name : List Char, m = "\x7b\x7b" ++ String.mk name ++ "\x7d\x7d" ∧ name ≠ []
          ∧ ∀ x ∈ name, isReSpace x = false)
    ∧ (∀ c, (Piece.text c).expand data = (Piece.text c).source
        ∧ (Piece.text c).bound data = [])
    ∧ (∀ m v, lookup (markerName m) data = some v → convertInterfaceToMap v = none →
        (Piece.marker m).expand data = "?" ∧ (Piece.marker m).bound data = [v])
    ∧ (∀ m v elems, lookup (markerName m) data = some v →
        convertInterfaceToMap v = some elems →
        (Piece.marker m).expand data = placeholderGroup elems.length
          ∧ (Piece.marker m).bound data = elems) := by
  refine ⟨?_, ?_, fun m hm => marker_form hm, fun c => ⟨rfl, rfl⟩, ?_, ?_⟩
  · have hnil : noNilBound sql data := by
      intro n hn v hv
      obtain ⟨v', hv', hn', _⟩ := hall n hn
      rw [hv] at hv'
      cases hv'
      exact hn'
    rw [NamedQuery_eq sql data hne hnil,
      absentNames_eq_nil (fun n hn => (hall n hn).imp (fun v hv => hv.1))]
    simp only [List.getLast?_nil]
    have hmap : (pieces sql.data 0).map (Piece.render data)
        = (pieces sql.data 0).map (Piece.expand data) := by
      apply List.map_congr_left
      intro p hp
      apply render_eq_expand
      intro m hm
      subst hm
      obtain ⟨v, hv, _, he⟩ := hall _ (marker_mem_names hp)
      exact ⟨v, hv, he⟩
    rw [hmap]
  · have := pieces_source sql.data 0 (Nat.zero_le _)
    rw [this, List.drop_zero]
  · intro m v hv hc
    simp [Piece.expand, Piece.bound, hv, textOf, boundOf, hc]
  · intro m v elems hv hc
    simp [Piece.expand, Piece.bound, hv, textOf, boundOf, hc]

/-- The statement of C26 at a template and a map of the test `TestNamedQuery`. -/
theorem NamedQuery_expansion_witness :
    NamedQuery "select * from tb where name=\x7b\x7bname\x7d\x7d and age in \x7b\x7bage\x7d\x7d"
        [("name", Any.str "caibirdme"), ("age", Any.slice [Any.int 1, Any.int 2, Any.int 3])]
      = some ("select * from tb where name=? and age in (?,?,?)",
          [Any.str "caibirdme", Any.int 1, Any.int 2, Any.int 3], none) :=
  (NamedQuery_expansion
    "select * from tb where name=\x7b\x7bname\x7d\x7d and age in \x7b\x7bage\x7d\x7d"
    [("name", Any.str "caibirdme"), ("age", Any.slice [Any.int 1, Any.int 2, Any.int 3])]
    (by simp)
    (by
      intro n hn
      have hn' : n ∈ ["name", "age"] := hn
      simp only [List.mem_cons, List.mem_singleton, List.not_mem_nil, or_false] at hn'
      rcases hn' with h | h <;> subst h
      · exact ⟨_, rfl, rfl, fun elems h => by cases h⟩
      · exact ⟨_, rfl, rfl, fun elems h => by cases h; decide⟩)).1

end Builder

namespace Builder

/-- Claim C27, as the code has it.  For every template and every map that is not
empty, binds no name of a marker to nil and has an entry for every marker,
`NamedQuery` returns the pieces of the template with their replacements, and a
marker whose value is a collection of no elements is replaced by the empty text
and binds no value. -/
theorem NamedQuery_empty_collection (sql : String) (data : List (String × Any))
    (hne : data ≠ []) (hnil : noNilBound sql data) (hpres : absentNames sql data = []) :
    NamedQuery sql data
      = some (concatTexts ((pieces sql.data 0).map (Piece.render data)),
              ((pieces sql.data 0).map (Piece.bound data)).flatten, none)
    ∧ (∀ m v, lookup (markerName m) data = some v → convertInterfaceToMap v = some [] →
        (Piece.marker m).render data = "" ∧ (Piece.marker m).bound data = []) := by
  constructor
  · rw [NamedQuery_eq sql data hne hnil, hpres]
    rfl
  · intro m v hv hc
    simp [Piece.render, Piece.bound, hv, replText, boundOf, hc, createMultiPlaceholders]

/-- The statement of C27 at a template with one marker, bound to the empty
list. -/
theorem NamedQuery_empty_collection_witness :
    NamedQuery "select * from tb where age in \x7b\x7bage\x7d\x7d" [("age", Any.slice [])]
      = some ("select * from tb where age in ", [], none) :=
  (NamedQuery_empty_collection "select * from tb where age in \x7b\x7bage\x7d\x7d"
    [("age", Any.slice [])] (by simp)
    (by
      intro n hn v hv
      have hn' : n ∈ ["age"] := hn
      simp only [List.mem_singleton] at hn'
      subst hn'
      cases hv
      rfl)
    rfl).1

/-- Claim C27 as it is written fails: the marker bound to the empty list is
replaced by the empty text, not by `()`. -/
theorem NamedQuery_empty_collection_no_brackets :
    NamedQuery "select * from tb where age in \x7b\x7bage\x7d\x7d" [("age", Any.slice [])]
      = some ("select * from tb where age in ", [], none)
    ∧ "select * from tb where age in " ≠ "select * from tb where age in ()"
    ∧ createMultiPlaceholders 0 = "" :=
  ⟨rfl, by decide, rfl⟩

theorem getLast?_mem {α : Type} {l : List α} {a : α} (h : l.getLast? = some a) : a ∈ l := by
  rw [List.getLast?_eq_some_iff] at h
  obtain ⟨ys, e⟩ := h
  rw [e]
  simp

/-- Claim C28, as the code has it.  For every template that contains a marker of
a name and every map that is not empty, has no entry for that name and binds no
name of a marker to nil, `NamedQuery` fails with the error `<n> not found` for a
name `n` of a marker without an entry, which is that name when no other name is
missing, and returns the empty text and no values. -/
theorem NamedQuery_missing_name (sql : String) (data : List (String × Any)) (name : String)
    (hne : data ≠ []) (hnil : noNilBound sql data)
    (hm : name ∈ markerNames sql) (ha : lookup name data = none) :
    ∃ n, NamedQuery sql data = some ("", [], some (.errNotFound n))
      ∧ n ∈ markerNames sql ∧ lookup n data = none
      ∧ ((∀ n' ∈ markerNames sql, lookup n' data = none → n' = name) → n = name)
      ∧ (Err.errNotFound n).Error = n ++ " not found" := by
  have hmem : name ∈ absentNames sql data := by
    unfold absentNames
    exact List.mem_filter.mpr ⟨hm, by simp [ha]⟩
  cases hl : (absentNames sql data).getLast? with
  | none =>
    rw [List.getLast?_eq_none_iff] at hl
    rw [hl] at hmem
    cases hmem
  | some n =>
    have hn := getLast?_mem hl
    unfold absentNames at hn
    obtain ⟨hn1, hn2⟩ := List.mem_filter.mp hn
    have hn3 : lookup n data = none := by
      cases h : lookup n data with
      | none => rfl
      | some v => rw [h] at hn2; cases hn2
    refine ⟨n, ?_, hn1, hn3, fun h => h n hn1 hn3, rfl⟩
    rw [NamedQuery_eq sql data hne hnil, hl]

/-- The statement of C28 at the first case of the test `TestNamedQuery`. -/
theorem NamedQuery_missing_name_witness :
    ∃ n, NamedQuery "select * from tb where name=\x7b\x7bname\x7d\x7d" [("age", Any.int 24)]
        = some ("", [], some (.errNotFound n))
      ∧ n ∈ markerNames "select * from tb where name=\x7b\x7bname\x7d\x7d"
      ∧ lookup n [("age", Any.int 24)] = none
      ∧ ((∀ n' ∈ markerNames "select * from tb where name=\x7b\x7bname\x7d\x7d",
          lookup n' [("age", Any.int 24)] = none → n' = "name") → n = "name")
      ∧ (Err.errNotFound n).Error = n ++ " not found" :=
  NamedQuery_missing_name "select * from tb where name=\x7b\x7bname\x7d\x7d"
    [("age", Any.int 24)] "name" (by simp)
    (by
      intro n hn v hv
      have hn' : n ∈ ["name"] := hn
      simp only [List.mem_singleton] at hn'
      subst hn'
      cases hv)
    (by decide) rfl

/-- Claim C28 as it is written fails: with the empty map `NamedQuery` returns the
template as it is and no error, although the name of its marker has no entry. -/
theorem NamedQuery_empty_map_no_error :
    NamedQuery "select * from tb where name=\x7b\x7bname\x7d\x7d" []
      = some ("select * from tb where name=\x7b\x7bname\x7d\x7d", [], none)
    ∧ "name" ∈ markerNames "select * from tb where name=\x7b\x7bname\x7d\x7d" :=
  ⟨rfl, by decide⟩

/-- Claim C29, as the code has it.  For every template and every map that is not
empty and binds no name of a marker to nil, when one marker or more refer to names
without an entry, the error `NamedQuery` returns names the rightmost of them. -/
theorem NamedQuery_last_missing_name (sql : String) (data : List (String × Any))
    (front : List String) (last : String)
    (hne : data ≠ []) (hnil : noNilBound sql data)
    (h : absentNames sql data = front ++ [last]) :
    NamedQuery sql data = some ("", [], some (.errNotFound last)) := by
  rw [NamedQuery_eq sql data hne hnil, h, List.getLast?_append, List.getLast?_singleton]
  rfl

/-- The statement of C29 at a template with two markers without an entry. -/
theorem NamedQuery_last_missing_name_witness :
    NamedQuery "\x7b\x7ba\x7d\x7d \x7b\x7bb\x7d\x7d" [("x", Any.int 1)]
      = some ("", [], some (.errNotFound "b")) :=
  NamedQuery_last_missing_name "\x7b\x7ba\x7d\x7d \x7b\x7bb\x7d\x7d" [("x", Any.int 1)]
    ["a"] "b" (by simp)
    (by
      intro n hn v hv
      have hn' : n ∈ ["a", "b"] := hn
      simp only [List.mem_cons, List.mem_singleton, List.not_mem_nil, or_false] at hn'
      rcases hn' with h | h <;> subst h <;> cases hv)
    rfl

/-- Claim C29 as it is written fails: the names `a` and `b`, in this order, have
no entry, and the error names `b`, not the leftmost `a`. -/
theorem NamedQuery_first_missing_name_lost :
    NamedQuery "\x7b\x7ba\x7d\x7d \x7b\x7bb\x7d\x7d" [("x", Any.int 1)]
      = some ("", [], some (.errNotFound "b"))
    ∧ absentNames "\x7b\x7ba\x7d\x7d \x7b\x7bb\x7d\x7d" [("x", Any.int 1)] = ["a", "b"]
    ∧ Err.errNotFound "b" ≠ Err.errNotFound "a" :=
  ⟨rfl, by decide, by decide⟩

theorem bound_flatten (data : List (String × Any)) :
    ∀ ps : List Piece,
      (ps.map (Piece.bound data)).flatten
        = ((ps.filterMap (fun p =>
            match p with
            | .marker m => some (markerName m)
            | .text _ => none)).map (boundFor data)).flatten
  | [] => rfl
  | .text c :: ps => by
    rw [List.map_cons, List.flatten_cons, List.filterMap_cons, bound_flatten data ps]
    rfl
  | .marker m :: ps => by
    rw [List.map_cons, List.flatten_cons, List.filterMap_cons, bound_flatten data ps]
    simp only [List.map_cons, List.flatten_cons]
    rfl

theorem map_filter_eq_replicate {β : Type} (f : String → β) (name : String) :
    ∀ l : List String,
      (l.filter (fun n => n = name)).map f = List.replicate (l.count name) (f name)
  | [] => rfl
  | a :: l => by
    by_cases h : a = name
    · subst h
      simp [List.filter_cons, List.replicate_succ, map_filter_eq_replicate f a l]
    · have h' : (a == name) = false := by simpa using h
      simp [List.filter_cons, h, List.count_cons, h', map_filter_eq_replicate f name l]

/-- Claim C30.  For every template and every map with which `NamedQuery` succeeds
(the map is not empty, has an entry for every marker and binds none of them to
nil), the values are those of the markers from left to right, each occurrence of a
name resolved on its own: a name that occurs in `k` markers has its values
appended `k` times.  The template `age in {{some}} and other in {{some}}` with
`some` = `[24.0, 28.7]` gives the values `[24.0, 28.7, 24.0, 28.7]`. -/
theorem NamedQuery_repeated_name (sql : String) (data : List (String × Any))
    (hne : data ≠ []) (hnil : noNilBound sql data) (hpres : absentNames sql data = []) :
    (∃ text, NamedQuery sql data
        = some (text, ((markerNames sql).map (boundFor data)).flatten, none))
    ∧ (∀ name, ((markerNames sql).filter (fun n => n = name)).map (boundFor data)
        = List.replicate ((markerNames sql).count name) (boundFor data name))
    ∧ NamedQuery
        "select * from tb where age in \x7b\x7bsome\x7d\x7d and other in \x7b\x7bsome\x7d\x7d"
        [("some", Any.slice [Any.float64 (F64.fin false 24 0),
          Any.float64 (F64.fin false 8078331831595827 (-48))])]
      = some ("select * from tb where age in (?,?) and other in (?,?)",
          [Any.float64 (F64.fin false 24 0), Any.float64 (F64.fin false 8078331831595827 (-48)),
           Any.float64 (F64.fin false 24 0), Any.float64 (F64.fin false 8078331831595827 (-48))], none) := by
  refine ⟨⟨concatTexts ((pieces sql.data 0).map (Piece.render data)), ?_⟩,
    fun name => map_filter_eq_replicate _ name _, rfl⟩
  rw [NamedQuery_eq sql data hne hnil, hpres, bound_flatten]
  rfl

/-- The statement of C30 at the template of the test `TestNamedQuery` with the
name `some` twice. -/
theorem NamedQuery_repeated_name_witness :
    ∃ text, NamedQuery
        "select * from tb where age in \x7b\x7bsome\x7d\x7d and other in \x7b\x7bsome\x7d\x7d"
        [("some", Any.slice [Any.int 24, Any.int 28])]
      = some (text, ((markerNames
          "select * from tb where age in \x7b\x7bsome\x7d\x7d and other in \x7b\x7bsome\x7d\x7d").map
            (boundFor [("some", Any.slice [Any.int 24, Any.int 28])])).flatten, none) :=
  (NamedQuery_repeated_name
    "select * from tb where age in \x7b\x7bsome\x7d\x7d and other in \x7b\x7bsome\x7d\x7d"
    [("some", Any.slice [Any.int 24, Any.int 28])] (by simp)
    (by
      intro n hn v hv
      have hn' : n ∈ ["some", "some"] := hn
      simp only [List.mem_cons, List.mem_singleton, List.not_mem_nil, or_false, or_self] at hn'
      subst hn'
      cases hv
      rfl)
    rfl).1

end Builder

namespace Builder

/-! ## Tags without a supertable, nil values in a template, empty groups -/

/-- Claim C40.  For every table, list of tags and list of rows, `BuildInsertStable`
with the empty supertable name returns exactly what `BuildInsert` returns for the
table and the rows; its values are the rows one after the other, without any of the
tags. -/
theorem BuildInsertStable_without_supertable (table : String) (tags : List Any)
    (rows : List (List Any)) :
    BuildInsertStable table "" tags rows = BuildInsert table rows
    ∧ (BuildInsertStable table "" tags rows).2.1 = rows.flatten := by
  have h : BuildInsertStable table "" tags rows = BuildInsert table rows := by
    unfold BuildInsertStable BuildInsert buildInsert
    simp
  refine ⟨h, ?_⟩
  rw [h]
  cases rows with
  | nil => rfl
  | cons r rs =>
    unfold BuildInsert
    rw [buildInsert_eq _ _ _ _ _ (by simp)]
    simp

theorem isNil_eq_true {v : Any} (h : isNil v = true) : v = Any.nil := by
  cases v <;> first | rfl | cases h

/-- The loop of `ReplaceAllStringFunc` does not return when a marker is bound to
nil. -/
theorem replaceAll_panic (data : List (String × Any)) :
    ∀ (s : List Char) (skip : Nat) (out : String) (vals : List Any) (err : Option Err),
      (∃ m, Piece.marker m ∈ pieces s skip ∧ lookup (markerName m) data = some Any.nil) →
      NamedQuery.replaceAll data s skip out vals err = none
  | [], skip, out, vals, err, h => by
    obtain ⟨m, hm, _⟩ := h
    simp [pieces] at hm
  | c :: rest, skip + 1, out, vals, err, h => by
    rw [NamedQuery.replaceAll]
    apply replaceAll_panic data rest skip out vals err
    obtain ⟨m, hm, hl⟩ := h
    rw [pieces] at hm
    exact ⟨m, hm, hl⟩
  | c :: rest, 0, out, vals, err, h => by
    rw [NamedQuery.replaceAll]
    obtain ⟨m, hm, hl⟩ := h
    rw [pieces] at hm
    cases hma : searchHandle.matchAt (c :: rest) with
    | none =>
      rw [hma] at hm
      simp only [List.mem_cons] at hm
      rcases hm with hm | hm
      · cases hm
      · exact replaceAll_panic data rest 0 _ vals err ⟨m, hm, hl⟩
    | some m' =>
      rw [hma] at hm
      simp only [List.mem_cons] at hm
      simp only
      rcases hm with hm | hm
      · cases hm
        rw [repl_nil data _ vals err hl]
      · cases hl' : lookup (markerName (String.mk m')) data with
        | none =>
          rw [repl_absent data _ vals err hl']
          exact replaceAll_panic data rest _ _ vals _ ⟨m, hm, hl⟩
        | some v =>
          by_cases hn : isNil v = true
          · rw [isNil_eq_true hn] at hl'
            rw [repl_nil data _ vals err hl']
          · rw [repl_present data _ vals err hl' (by simpa using hn)]
            exact replaceAll_panic data rest _ _ _ err ⟨m, hm, hl⟩

theorem mem_names_marker {sql : String} {n : String} (h : n ∈ markerNames sql) :
    ∃ m, Piece.marker m ∈ pieces sql.data 0 ∧ markerName m = n := by
  unfold markerNames at h
  obtain ⟨p, hp, he⟩ := List.mem_filterMap.mp h
  cases p with
  | text c => cases he
  | marker m =>
    simp only [Option.some.injEq] at he
    exact ⟨m, hp, he⟩

/-- Claim C31 at the template `select {{a}}` with `a` bound to nil: `NamedQuery`
does not return (the model has `none` for the panic of `reflect.Value.Type`); in
general it does not return exactly when the map is not empty and binds the name of
a marker of the template to nil. -/
theorem NamedQuery_panics_on_nil :
    NamedQuery "select \x7b\x7ba\x7d\x7d" [("a", Any.nil)] = none
    ∧ ∀ (sql : String) (data : List (String × Any)),
        NamedQuery sql data = none
          ↔ (data ≠ [] ∧ ∃ n ∈ markerNames sql, lookup n data = some Any.nil) := by
  refine ⟨rfl, ?_⟩
  intro sql data
  constructor
  · intro h
    by_cases hne : data = []
    · subst hne
      simp [NamedQuery] at h
    · refine ⟨hne, ?_⟩
      by_contra hcon
      have hnil : noNilBound sql data := by
        intro n hn v hv
        by_contra hv'
        apply hcon
        refine ⟨n, hn, ?_⟩
        have hnv : v = Any.nil := isNil_eq_true (by simpa using hv')
        rw [hv, hnv]
      rw [NamedQuery_eq sql data hne hnil] at h
      cases h
  · rintro ⟨hne, n, hn, hl⟩
    obtain ⟨m, hm, he⟩ := mem_names_marker hn
    unfold NamedQuery
    have hlen : data.length ≠ 0 := fun h => hne (List.length_eq_zero.mp h)
    rw [if_neg hlen, replaceAll_panic data sql.data 0 "" [] none ⟨m, hm, by rw [he]; exact hl⟩]

/-- Claim C36 at fragments without children: `whereConnector` returns `()` for one
`OrWhere` or `NestWhere` group with no children, a fragment whose text is empty
still gets a connective, and `BuildSelect` on the map `{"_or": []}` returns
`select * from tb where ()`. -/
theorem whereConnector_empty_parentheses :
    whereConnector "and" [Comparable.OrWhere []] = ("()", [])
    ∧ whereConnector "or" [Comparable.NestWhere []] = ("()", [])
    ∧ whereConnector "and" [Comparable.Eq [("a", Any.int 1)], Comparable.OrWhere []]
        = ("(a=? and )", [Any.int 1])
    ∧ BuildSelect id "tb" [("_or", Any.mapSlice [])] [] = ("select * from tb where ()", [], none)
    ∧ BuildSelect id "tb" [("_or", Any.mapSlice [some []])] []
        = ("select * from tb where (())", [], none) :=
  ⟨rfl, rfl, rfl, rfl, rfl⟩

end Builder

namespace Builder

/-! ## Membership and range fragments -/

theorem writePlaceholders_eq : ∀ n, writePlaceholders n = Join (List.replicate n "?") ","
  | 0 => rfl
  | 1 => rfl
  | n + 2 => by
    rw [writePlaceholders, writePlaceholders_eq (n + 1)]
    show _ = Join ("?" :: "?" :: List.replicate n "?") ","
    rw [Join]
    rfl

theorem buildIn_eq (field : String) (vals : List Any) :
    buildIn field vals = field ++ " in " ++ placeholderGroup vals.length := by
  unfold buildIn placeholderGroup
  rw [writePlaceholders_eq]
  apply String.ext
  simp [String.data_append]

theorem buildNotIn_eq (field : String) (vals : List Any) :
    buildNotIn field vals = field ++ " not in " ++ placeholderGroup vals.length := by
  unfold buildNotIn placeholderGroup
  rw [writePlaceholders_eq]
  apply String.ext
  simp [String.data_append]

theorem lookup_of_mem_nodup {α : Type} {b : List (String × α)} (h : (keys b).Nodup)
    {k : String} {v : α} (hm : (k, v) ∈ b) : lookup k b = some v :=
  (mem_iff_lookup h).mp hm

/-- Claim C33.  For every map from fields to lists of values, `In.Build` returns
one text `field in (?,...,?)` per field, in ascending order of the fields, with one
placeholder per element of the list of the field, and the values are the lists one
after the other in that order of the fields, each in its own order; `NotIn.Build`
does the same with `field not in (?,...,?)`. -/
theorem In_Build_rendering (i : List (String × List Any)) :
    In.Build i
      = ((defaultSortAlgorithm (keys i)).map
            (fun k => k ++ " in " ++ placeholderGroup ((lookup k i).getD []).length),
         ((defaultSortAlgorithm (keys i)).map (fun k => (lookup k i).getD [])).flatten)
    ∧ NotIn.Build i
      = ((defaultSortAlgorithm (keys i)).map
            (fun k => k ++ " not in " ++ placeholderGroup ((lookup k i).getD []).length),
         ((defaultSortAlgorithm (keys i)).map (fun k => (lookup k i).getD [])).flatten)
    ∧ (defaultSortAlgorithm (keys i)).Sorted StrLE
    ∧ (defaultSortAlgorithm (keys i)).Perm (keys i)
    ∧ (∀ n, countQ (placeholderGroup n) = n)
    ∧ ((keys i).Nodup → ∀ k v, (k, v) ∈ i → (lookup k i).getD [] = v)
    ∧ In.Build [("foo", [Any.str "bar", Any.str "baz"]),
          ("age", [Any.int 5, Any.int 7, Any.int 9, Any.int 11])]
      = (["age in (?,?,?,?)", "foo in (?,?)"],
         [Any.int 5, Any.int 7, Any.int 9, Any.int 11, Any.str "bar", Any.str "baz"]) := by
  refine ⟨?_, ?_, sort_sorted _, sort_perm _, countQ_placeholderGroup, ?_, rfl⟩
  · unfold In.Build
    by_cases h : i.length = 0
    · rw [List.length_eq_zero] at h
      subst h
      rfl
    · rw [if_neg h]
      simp only [buildIn_eq]
  · unfold NotIn.Build
    by_cases h : i.length = 0
    · rw [List.length_eq_zero] at h
      subst h
      rfl
    · rw [if_neg h]
      simp only [buildNotIn_eq]
  · intro hn k v hm
    rw [lookup_of_mem_nodup hn hm]
    rfl

/-- The statement of C33 at the map of the test `TestIn`, for `NotIn.Build`. -/
theorem In_Build_rendering_witness :
    (lookup "foo" [("foo", [Any.str "bar", Any.str "baz"]),
        ("age", [Any.int 5, Any.int 7, Any.int 9, Any.int 11])]).getD []
      = [Any.str "bar", Any.str "baz"] :=
  (In_Build_rendering [("foo", [Any.str "bar", Any.str "baz"]),
      ("age", [Any.int 5, Any.int 7, Any.int 9, Any.int 11])]).2.2.2.2.2.1
    (by decide) "foo" [Any.str "bar", Any.str "baz"] (List.mem_cons_self _ _)

theorem betweenBuilder_loop_eq (bt : List (String × List Any)) (notBetween : Bool)
    (h : ∀ e ∈ bt, e.2.length = 2) :
    ∀ l : List String, (∀ k ∈ l, k ∈ keys bt) →
      betweenBuilder.loop bt notBetween l
        = (l.map (fun k =>
              "(" ++ k ++ " " ++ (if notBetween then "not between" else "between")
                ++ " ? and ?)"),
           (l.map (fun k => (lookup k bt).getD [])).flatten)
  | [], _ => rfl
  | k :: rest, hk => by
    rw [betweenBuilder.loop,
      betweenBuilder_loop_eq bt notBetween h rest (fun k' hk' => hk k' (List.mem_cons_of_mem _ hk'))]
    obtain ⟨v, hv⟩ := lookup_isSome_of_mem_keys (hk k (List.mem_cons_self _ _))
    have hlen : v.length = 2 := h (k, v) (lookup_mem hv)
    simp [hv, buildBetween, hlen]

/-- The texts and values of a range fragment whose lists all have two elements. -/
theorem betweenBuilder_eq (bt : List (String × List Any)) (notBetween : Bool)
    (h : ∀ e ∈ bt, e.2.length = 2) :
    betweenBuilder bt notBetween
      = ((defaultSortAlgorithm (keys bt)).map (fun k =>
            "(" ++ k ++ " " ++ (if notBetween then "not between" else "between")
              ++ " ? and ?)"),
         ((defaultSortAlgorithm (keys bt)).map (fun k => (lookup k bt).getD [])).flatten) := by
  unfold betweenBuilder
  by_cases h0 : bt.length = 0
  · rw [List.length_eq_zero] at h0
    subst h0
    rfl
  · rw [if_neg h0]
    exact betweenBuilder_loop_eq bt notBetween h _
      (fun k hk => (sort_perm (keys bt)).mem_iff.mp hk)

end Builder

namespace Builder

theorem getWhereConditions_ok_form (U : Char → Char) (wh : WhereMap) (cs : List Comparable)
    (h : getWhereConditions U wh defaultIgnoreKeys = .ok cs) :
    ∃ g, buildWhereCondition (addAll (wh.filterMap (slotOf U)) (whereMapSet.mk [])) = .ok g
      ∧ cs = wh.filterMap (orGroupOf U) ++ g := by
  rw [getWhereConditions_eq_finish] at h
  by_cases hfail : ∃ e ∈ wh, entryFails U e = true
  · obtain ⟨err, he⟩ := loop_some_fail U wh (whereMapSet.mk []) [] hfail
    rw [he] at h
    cases h
  · have hall : ∀ e ∈ wh, entryFails U e = false := by
      intro e he
      by_contra hne
      exact hfail ⟨e, he, by simpa using hne⟩
    rw [loop_all_ok U wh _ _ hall] at h
    unfold getWhereConditions.finish at h
    simp only [List.nil_append] at h
    cases hb : buildWhereCondition (addAll (wh.filterMap (slotOf U)) (whereMapSet.mk [])) with
    | error e => rw [hb] at h; cases h
    | ok g =>
      rw [hb] at h
      cases h
      exact ⟨g, rfl, rfl⟩

theorem bwc_loop_split (wms : whereMapSet) (ops₁ ops₂ : List String)
    (acc r : List Comparable)
    (h : buildWhereCondition.loop wms (ops₁ ++ ops₂) acc = .ok r) :
    ∃ r₁, buildWhereCondition.loop wms ops₁ acc = .ok r₁
      ∧ buildWhereCondition.loop wms ops₂ r₁ = .ok r := by
  rw [bwc_loop_append] at h
  cases h1 : buildWhereCondition.loop wms ops₁ acc with
  | error e => rw [h1] at h; cases h
  | ok r₁ => rw [h1] at h; exact ⟨r₁, rfl, h⟩

/-- The fragments the loop of `buildWhereCondition` adds are groups of the
operators it visits. -/
theorem bwc_loop_groups (wms : whereMapSet) :
    ∀ (ops : List String) (acc r : List Comparable),
      buildWhereCondition.loop wms ops acc = .ok r →
      ∃ g, r = acc ++ g ∧ g.length ≤ ops.length ∧ ∀ c ∈ g, ∃ op ∈ ops, op ∈ c.operators
  | [], acc, r, h => by
    simp only [buildWhereCondition.loop] at h
    cases h
    exact ⟨[], by simp, by simp, fun c hc => by cases hc⟩
  | op :: ops, acc, r, h => by
    simp only [buildWhereCondition.loop] at h
    cases hl : lookup op wms.set with
    | none =>
      rw [hl] at h
      obtain ⟨g, e, hlen, hg⟩ := bwc_loop_groups wms ops acc r h
      refine ⟨g, e, by simp; omega, ?_⟩
      intro c hc
      obtain ⟨o, ho, hoc⟩ := hg c hc
      exact ⟨o, List.mem_cons_of_mem _ ho, hoc⟩
    | some b =>
      rw [hl] at h
      simp only at h
      cases hf : op2Comparable op with
      | none => rw [hf] at h; cases h
      | some f =>
        rw [hf] at h
        simp only at h
        cases hb : f b with
        | error e => rw [hb] at h; cases h
        | ok c₀ =>
          rw [hb] at h
          obtain ⟨g, e, hlen, hg⟩ := bwc_loop_groups wms ops _ r h
          refine ⟨c₀ :: g, by rw [e]; simp, by simp; omega, ?_⟩
          intro c hc
          rcases List.mem_cons.mp hc with h1 | h1
          · subst h1
            exact ⟨op, List.mem_cons_self _ _, op2Comparable_operators hf hb⟩
          · obtain ⟨o, ho, hoc⟩ := hg c h1
            exact ⟨o, List.mem_cons_of_mem _ ho, hoc⟩

theorem isBetween_of_operators {c : Comparable} (h : opBetween ∈ c.operators) :
    c.isBetween = true := by
  cases c <;> first
    | rfl
    | (simp [Comparable.operators, opBetween, opEq, opNe1, opNe2, opIn, opNotIn, opGt, opGte,
        opLt, opLte, opLike, opNotLike, opNotBetween, opNull] at h)

theorem isNotBetween_of_operators {c : Comparable} (h : opNotBetween ∈ c.operators) :
    c.isNotBetween = true := by
  cases c <;> first
    | rfl
    | (simp [Comparable.operators, opBetween, opEq, opNe1, opNe2, opIn, opNotIn, opGt, opGte,
        opLt, opLte, opLike, opNotLike, opNotBetween, opNull] at h)

theorem not_range_of_operators {c : Comparable} {op : String} (h : op ∈ c.operators)
    (h1 : op ≠ opBetween) (h2 : op ≠ opNotBetween) :
    c.isBetween = false ∧ c.isNotBetween = false := by
  cases c <;> first
    | exact ⟨rfl, rfl⟩
    | (simp only [Comparable.operators, List.mem_singleton] at h; exact absurd h h1)
    | (simp only [Comparable.operators, List.mem_singleton] at h; exact absurd h h2)

theorem orGroupOf_not_range (U : Char → Char) (wh : List (String × Any)) :
    ∀ c ∈ wh.filterMap (orGroupOf U), c.isBetween = false ∧ c.isNotBetween = false := by
  intro c hc
  obtain ⟨e, _, he⟩ := List.mem_filterMap.mp hc
  unfold orGroupOf at he
  split at he
  · cases he
  · split at he
    · split at he
      · cases he; exact ⟨rfl, rfl⟩
      · cases he
    · cases he

/-- In the fragments of a map the `between` group comes before the `not between`
group, and there is one of each at most. -/
theorem getWhereConditions_between_order (U : Char → Char) (wh : WhereMap)
    (cs : List Comparable) (h : getWhereConditions U wh defaultIgnoreKeys = .ok cs) :
    ∃ front bs nbs rest, cs = front ++ bs ++ nbs ++ rest
      ∧ (∀ c ∈ front ++ rest, c.isBetween = false ∧ c.isNotBetween = false)
      ∧ (∀ c ∈ bs, c.isBetween = true) ∧ bs.length ≤ 1
      ∧ (∀ c ∈ nbs, c.isNotBetween = true) ∧ nbs.length ≤ 1 := by
  obtain ⟨g, hg, hcs⟩ := getWhereConditions_ok_form U wh cs h
  unfold buildWhereCondition at hg
  have ho : opOrder = operatorsBeforeBetween ++ ([opBetween] ++ ([opNotBetween] ++ [opNull])) :=
    rfl
  rw [ho] at hg
  obtain ⟨r₁, h1, hg⟩ := bwc_loop_split _ _ _ _ _ hg
  obtain ⟨r₂, h2, hg⟩ := bwc_loop_split _ _ _ _ _ hg
  obtain ⟨r₃, h3, h4⟩ := bwc_loop_split _ _ _ _ _ hg
  obtain ⟨g₁, e1, _, p1⟩ := bwc_loop_groups _ _ _ _ h1
  obtain ⟨g₂, e2, l2, p2⟩ := bwc_loop_groups _ _ _ _ h2
  obtain ⟨g₃, e3, l3, p3⟩ := bwc_loop_groups _ _ _ _ h3
  obtain ⟨g₄, e4, _, p4⟩ := bwc_loop_groups _ _ _ _ h4
  refine ⟨wh.filterMap (orGroupOf U) ++ g₁, g₂, g₃, g₄, ?_, ?_, ?_, l2, ?_, l3⟩
  · rw [hcs, e4, e3, e2, e1]
    simp
  · intro c hc
    rcases List.mem_append.mp hc with hc | hc
    · rcases List.mem_append.mp hc with hc | hc
      · exact orGroupOf_not_range U wh c hc
      · obtain ⟨op, hop, hoc⟩ := p1 c hc
        apply not_range_of_operators hoc
        · intro e; subst e; revert hop; decide
        · intro e; subst e; revert hop; decide
    · obtain ⟨op, hop, hoc⟩ := p4 c hc
      simp only [List.mem_singleton] at hop
      subst hop
      apply not_range_of_operators hoc <;> decide
  · intro c hc
    obtain ⟨op, hop, hoc⟩ := p2 c hc
    simp only [List.mem_singleton] at hop
    subst hop
    exact isBetween_of_operators hoc
  · intro c hc
    obtain ⟨op, hop, hoc⟩ := p3 c hc
    simp only [List.mem_singleton] at hop
    subst hop
    exact isNotBetween_of_operators hoc

/-- Claim C34.  For every map from fields to lists of two elements, `Between.Build`
(`NotBetween.Build`) returns one text `(field between ? and ?)`
(`(field not between ? and ?)`) per field, in ascending order of the fields, and
the values are the two bounds of each field, in that order of the fields, the
lower bound first; among the fragments `BuildSelect` renders, the `between` group
comes before the `not between` group. -/
theorem range_fragments :
    (∀ bt : List (String × List Any), (∀ e ∈ bt, e.2.length = 2) →
      (Comparable.Between bt).Build
        = ((defaultSortAlgorithm (keys bt)).map (fun k => "(" ++ k ++ " between ? and ?)"),
           ((defaultSortAlgorithm (keys bt)).map (fun k => (lookup k bt).getD [])).flatten)
      ∧ (Comparable.NotBetween bt).Build
        = ((defaultSortAlgorithm (keys bt)).map (fun k => "(" ++ k ++ " not between ? and ?)"),
           ((defaultSortAlgorithm (keys bt)).map (fun k => (lookup k bt).getD [])).flatten)
      ∧ (defaultSortAlgorithm (keys bt)).Sorted StrLE
      ∧ (defaultSortAlgorithm (keys bt)).Perm (keys bt))
    ∧ (∀ (U : Char → Char) (table : String) (wh : WhereMap) (selectField : List String),
      (BuildSelect U table wh selectField).2.2 = none →
      ∃ (front bs nbs rest : List Comparable) (groupBy orderBy interval fill : String)
        (sLimit limit : Option eleLimit),
        BuildSelect U table wh selectField
          = buildSelect table selectField groupBy orderBy sLimit limit interval fill
              (front ++ bs ++ nbs ++ rest)
        ∧ (∀ c ∈ front ++ rest, c.isBetween = false ∧ c.isNotBetween = false)
        ∧ (∀ c ∈ bs, c.isBetween = true) ∧ bs.length ≤ 1
        ∧ (∀ c ∈ nbs, c.isNotBetween = true) ∧ nbs.length ≤ 1)
    ∧ BuildSelect id "tb"
        [("age not between", Any.slice [Any.int 10, Any.int 30]),
         ("name", Any.str "caibirdme"),
         ("score between", Any.slice [Any.int 3, Any.int 7]),
         ("_limit", Any.uintSlice [10, 20])] ["foo", "bar"]
      = ("select foo,bar from tb where (name=? and (score between ? and ?) "
          ++ "and (age not between ? and ?)) limit ?,?",
         [Any.str "caibirdme", Any.int 3, Any.int 7, Any.int 10, Any.int 30,
          Any.int 10, Any.int 20], none) := by
  refine ⟨?_, ?_, rfl⟩
  · intro bt h
    refine ⟨?_, ?_, sort_sorted _, sort_perm _⟩
    · rw [Comparable.Build, betweenBuilder_eq bt false h]
      simp only [Bool.false_eq_true, if_false]
      congr 1
      apply List.map_congr_left
      intro a _
      rw [String.append_assoc, String.append_assoc]
      rfl
    · rw [Comparable.Build, betweenBuilder_eq bt true h]
      simp only [if_true]
      congr 1
      apply List.map_congr_left
      intro a _
      rw [String.append_assoc, String.append_assoc]
      rfl
  · intro U table wh selectField hok
    obtain ⟨orderBy, groupBy, limit, sLimit, interval, fill, cs, e1, e2, e3, e4, e5, e6, e7⟩ :=
      BuildSelect_ok_inv hok
    obtain ⟨front, bs, nbs, rest, hcs, h1, h2, h3, h4, h5⟩ :=
      getWhereConditions_between_order U wh cs e7
    refine ⟨front, bs, nbs, rest, groupBy, orderBy, interval, fill, sLimit, limit, ?_, h1, h2,
      h3, h4, h5⟩
    rw [BuildSelect_eq_of_ok e1 e2 e3 e4 e5 e6 e7, hcs]

/-- The statement of C34 at a fragment with two fields. -/
theorem range_fragments_witness :
    (Comparable.Between [("score", [Any.int 3, Any.int 7]), ("age", [Any.int 10, Any.int 30])]).Build
      = ((defaultSortAlgorithm
            (keys [("score", [Any.int 3, Any.int 7]), ("age", [Any.int 10, Any.int 30])])).map
              (fun k => "(" ++ k ++ " between ? and ?)"),
         ((defaultSortAlgorithm
            (keys [("score", [Any.int 3, Any.int 7]), ("age", [Any.int 10, Any.int 30])])).map
              (fun k => (lookup k [("score", [Any.int 3, Any.int 7]),
                ("age", [Any.int 10, Any.int 30])]).getD [])).flatten) :=
  (range_fragments.1 [("score", [Any.int 3, Any.int 7]), ("age", [Any.int 10, Any.int 30])]
    (by simp)).1

end Builder

namespace Builder

/-- With one text at least among the children, `whereConnector` joins all the
texts of the children and concatenates their values. -/
theorem whereConnector_of_texts (andOr : String) (cs : List Comparable)
    (h : (cs.map (fun c => c.Build.1)).flatten ≠ []) :
    whereConnector andOr cs
      = ("(" ++ Join (cs.map (fun c => c.Build.1)).flatten (" " ++ andOr ++ " ") ++ ")",
         (cs.map (fun c => c.Build.2)).flatten) := by
  rw [whereConnector_eq, whereConnector_loop_eq, whereConnector.finish]
  have hl : ¬ (cs.map (fun c => c.Build.1)).flatten.length = 0 := by
    intro e
    exact h (List.length_eq_zero.mp e)
  simp only [hl, if_false]

theorem texts_ne_nil (cs : List Comparable) (hne : cs ≠ [])
    (h : ∀ c ∈ cs, ∃ t ∈ c.Build.1, t ≠ "") :
    (cs.map (fun c => c.Build.1)).flatten ≠ [] := by
  cases cs with
  | nil => exact absurd rfl hne
  | cons c rest =>
    obtain ⟨t, ht, _⟩ := h c (List.mem_cons_self _ _)
    intro e
    have hm : t ∈ ((c :: rest).map (fun c => c.Build.1)).flatten := by
      rw [List.map_cons, List.flatten_cons]
      exact List.mem_append_left _ ht
    rw [e] at hm
    cases hm

/-- Claim C35, on the lists the claim leaves out: the list without fragments.
`NestWhere.Build` and `OrWhere.Build` return the single empty text, not `()`, and
`whereConnector` returns the empty text. -/
theorem grouping_of_no_fragments :
    (Comparable.NestWhere []).Build = ([""], [])
    ∧ (Comparable.OrWhere []).Build = ([""], [])
    ∧ (∀ andOr, whereConnector andOr [] = ("", []))
    ∧ (∀ c ∈ ([] : List Comparable), ∃ t ∈ c.Build.1, t ≠ "")
    ∧ (Comparable.NestWhere []).Build.1
        ≠ ["(" ++ Join (([] : List Comparable).map (fun c => c.Build.1)).flatten " and " ++ ")"]
    ∧ (Comparable.OrWhere []).Build.1
        ≠ ["(" ++ Join (([] : List Comparable).map (fun c => c.Build.1)).flatten " or " ++ ")"] := by
  refine ⟨rfl, rfl, fun _ => rfl, ?_, by decide, by decide⟩
  intro c hc
  cases hc

/-- Claim C35, amended.  For every list of one fragment at least in which every
fragment renders to at least one non-empty text, `NestWhere.Build` returns the
single text made of `(`, the texts of the fragments joined by ` and `, and `)`,
`OrWhere.Build` the same with ` or `, the values are those of the children
concatenated in the order of the children, and `whereConnector` with the
connective `andOr` returns that text with the separator ` andOr `. -/
theorem boolean_grouping (cs : List Comparable) (hne : cs ≠ [])
    (h : ∀ c ∈ cs, ∃ t ∈ c.Build.1, t ≠ "") :
    (Comparable.NestWhere cs).Build
      = (["(" ++ Join (cs.map (fun c => c.Build.1)).flatten " and " ++ ")"],
         (cs.map (fun c => c.Build.2)).flatten)
    ∧ (Comparable.OrWhere cs).Build
      = (["(" ++ Join (cs.map (fun c => c.Build.1)).flatten " or " ++ ")"],
         (cs.map (fun c => c.Build.2)).flatten)
    ∧ ∀ andOr, whereConnector andOr cs
      = ("(" ++ Join (cs.map (fun c => c.Build.1)).flatten (" " ++ andOr ++ " ") ++ ")",
         (cs.map (fun c => c.Build.2)).flatten) := by
  have ht := texts_ne_nil cs hne h
  have hc := fun andOr => whereConnector_of_texts andOr cs ht
  refine ⟨?_, ?_, hc⟩
  · have e := hc "and"
    rw [whereConnector_eq] at e
    rw [Comparable.Build]
    simp only [e]
    rfl
  · have e := hc "or"
    rw [whereConnector_eq] at e
    rw [Comparable.Build]
    simp only [e]
    rfl

/-- The statement of C35 at the fragments of `TestNestWhere`. -/
theorem boolean_grouping_witness :
    (Comparable.NestWhere
        [Comparable.Eq [("aa", Any.int 3)], Comparable.Eq [("bb", Any.int 4)]]).Build
      = (["(aa=? and bb=?)"], [Any.int 3, Any.int 4]) :=
  (boolean_grouping [Comparable.Eq [("aa", Any.int 3)], Comparable.Eq [("bb", Any.int 4)]]
    (by simp)
    (by
      intro c hc
      simp only [List.mem_cons, List.mem_singleton, List.not_mem_nil, or_false] at hc
      rcases hc with e | e
      · subst e; exact ⟨"aa=?", List.mem_singleton.mpr rfl, by decide⟩
      · subst e; exact ⟨"bb=?", List.mem_singleton.mpr rfl, by decide⟩)).1

end Builder

namespace Builder

/-- Two maps with the same directive entries and the same fragments give the
same result. -/
theorem BuildSelect_congr_lookup (U : Char → Char) (table : String) (selectField : List String)
    {wh₁ wh₂ : WhereMap} (hl : ∀ d ∈ defaultIgnoreKeys, lookup d wh₁ = lookup d wh₂)
    (hg : getWhereConditions U wh₁ defaultIgnoreKeys
      = getWhereConditions U wh₂ defaultIgnoreKeys) :
    BuildSelect U table wh₁ selectField = BuildSelect U table wh₂ selectField := by
  apply BuildSelect_congr_blocks
  · unfold BuildSelect.orderBy; rw [hl "_orderby" (by decide)]
  · unfold BuildSelect.groupBy; rw [hl "_groupby" (by decide)]
  · unfold BuildSelect.limit; rw [hl "_limit" (by decide)]
  · unfold BuildSelect.sLimit; rw [hl "_slimit" (by decide)]
  · unfold BuildSelect.interval; rw [hl "_interval" (by decide)]
  · unfold BuildSelect.fill; rw [hl "_fill" (by decide), hl "_fillvalue" (by decide)]
  · exact hg

theorem spaced_key_not_reserved (field op : String) :
    field ++ " " ++ op ∉ defaultIgnoreKeys ∧ field ++ " " ++ op ≠ "_or" := by
  have hsp : ' ' ∈ (field ++ " " ++ op).data := by
    simp [String.data_append]
  constructor
  · intro h
    simp only [defaultIgnoreKeys, List.mem_cons, List.mem_singleton, List.not_mem_nil,
      or_false] at h
    rcases h with e | e | e | e | e | e | e <;> (rw [e] at hsp; revert hsp; decide)
  · intro e
    rw [e] at hsp
    revert hsp
    decide

/-- The fragments of a map whose only predicate key is `field !=` or
`field <>`. -/
theorem getWhereConditions_sole_ne (U : Char → Char) (pre post : WhereMap)
    (field op : String) (val : Any)
    (hpre : ∀ e ∈ pre, e.1 ∈ defaultIgnoreKeys) (hpost : ∀ e ∈ post, e.1 ∈ defaultIgnoreKeys)
    (hf1 : field ≠ "") (hf2 : ' ' ∉ field.data) (hop : op = opNe1 ∨ op = opNe2) :
    getWhereConditions U (pre ++ (field ++ " " ++ op, val) :: post) defaultIgnoreKeys
      = .ok [if isNullType val then Comparable.nullCompareble [(field, val)]
             else Comparable.Ne [(field, val)]] := by
  obtain ⟨hk, hk'⟩ := spaced_key_not_reserved field op
  have hs : splitKey (field ++ " " ++ op) val = .ok (field, op) := by
    rw [spaces_zero_key]
    apply splitKey_one 0 0 0 field op val hf1 hf2
    · rcases hop with e | e <;> subst e <;> decide
    · rcases hop with e | e <;> subst e <;> decide
  have hl : ToLower U op = op := by
    rcases hop with e | e <;> subst e <;> rfl
  unfold getWhereConditions
  rw [if_neg (by simp), loop_sole_entry U pre post _ val hpre hpost,
    loop_cons_field _ _ _ _ _ _ _ hk hk', hs]
  simp only
  rw [hl, if_neg (by rcases hop with e | e <;> subst e <;> decide), loop_nil]
  cases hn : isNullType val
  · rcases hop with e | e <;> subst e <;>
      simp [getWhereConditions.finish, whereMapSet.add, lookup, insert,
        buildWhereCondition, buildWhereCondition.loop, opOrder, op2Comparable,
        opEq, opNe1, opNe2, opIn, opNotIn, opGt, opGte, opLt, opLte, opLike, opNotLike,
        opBetween, opNotBetween, opNull]
  · rcases hop with e | e <;> subst e <;>
      simp [getWhereConditions.finish, whereMapSet.add, lookup, insert,
        buildWhereCondition, buildWhereCondition.loop, opOrder, op2Comparable,
        opEq, opNe1, opNe2, opIn, opNotIn, opGt, opGte, opLt, opLte, opLike, opNotLike,
        opBetween, opNotBetween, opNull]

theorem whereConnector_single_ne (field : String) (val : Any) :
    whereConnector "and" [Comparable.Ne [(field, val)]] = ("(" ++ field ++ "!=?)", [val]) := by
  rw [whereConnector_eq, whereConnector.loop, whereConnector.loop, Comparable.Build]
  have e : "(" ++ (field ++ "!=" ++ "?") ++ ")" = "(" ++ field ++ "!=?)" := by
    apply String.ext
    simp [String.data_append]
  simp [build, keys, defaultSortAlgorithm, lookup, whereConnector.finish, Join,
    assembleExpression, e]

/-- Claim C37.  Both spellings of the inequality operator are built into the
same fragment `Ne`; for every field (not empty, without a space) and every value,
`BuildSelect` returns for the key `field <>` exactly what it returns for the key
`field !=` (the other entries of the map being directives), and for a value that
is no null marker the where-expression is `(field!=?)` with the value bound;
`faith <>` gives `faith!=?`. -/
theorem inequality_spellings (U : Char → Char) (table : String) (selectField : List String)
    (pre post : WhereMap) (field : String) (val : Any)
    (hpre : ∀ e ∈ pre, e.1 ∈ defaultIgnoreKeys) (hpost : ∀ e ∈ post, e.1 ∈ defaultIgnoreKeys)
    (hf1 : field ≠ "") (hf2 : ' ' ∉ field.data) :
    BuildSelect U table (pre ++ (field ++ " " ++ "<>", val) :: post) selectField
      = BuildSelect U table (pre ++ (field ++ " " ++ "!=", val) :: post) selectField
    ∧ (isNullType val = false →
        getWhereConditions U (pre ++ (field ++ " " ++ "<>", val) :: post) defaultIgnoreKeys
          = .ok [Comparable.Ne [(field, val)]]
        ∧ getWhereConditions U (pre ++ (field ++ " " ++ "!=", val) :: post) defaultIgnoreKeys
          = .ok [Comparable.Ne [(field, val)]]
        ∧ whereConnector "and" [Comparable.Ne [(field, val)]]
          = ("(" ++ field ++ "!=?)", [val]))
    ∧ (∀ m, (op2Comparable opNe2).map (fun f => f m) = some (.ok (Comparable.Ne m))
        ∧ (op2Comparable opNe1).map (fun f => f m) = some (.ok (Comparable.Ne m)))
    ∧ BuildSelect id "tb" [("faith <>", Any.str "Muslim")] []
      = ("select * from tb where (faith!=?)", [Any.str "Muslim"], none)
    ∧ BuildSelect id "tb" [("faith !=", Any.str "Muslim")] []
      = ("select * from tb where (faith!=?)", [Any.str "Muslim"], none) := by
  have h1 := getWhereConditions_sole_ne U pre post field opNe2 val hpre hpost hf1 hf2
    (Or.inr rfl)
  have h2 := getWhereConditions_sole_ne U pre post field opNe1 val hpre hpost hf1 hf2
    (Or.inl rfl)
  refine ⟨?_, ?_, fun m => ⟨rfl, rfl⟩, rfl, rfl⟩
  · apply BuildSelect_congr_lookup
    · intro d hd
      apply lookup_replace_key
      · intro e; rw [← e] at hd; exact (spaced_key_not_reserved field "<>").1 hd
      · intro e; rw [← e] at hd; exact (spaced_key_not_reserved field "!=").1 hd
    · exact h1.trans h2.symm
  · intro hn
    rw [hn] at h1 h2
    exact ⟨h1, h2, whereConnector_single_ne field val⟩

/-- The statement of C37 at the key of `Test_BuildSelect`, next to a limit. -/
theorem inequality_spellings_witness :
    BuildSelect id "tb"
        ([("_limit", Any.uintSlice [0, 100])] ++ ("faith" ++ " " ++ "<>", Any.str "Muslim") :: [])
        ["id"]
      = BuildSelect id "tb"
        ([("_limit", Any.uintSlice [0, 100])] ++ ("faith" ++ " " ++ "!=", Any.str "Muslim") :: [])
        ["id"] :=
  (inequality_spellings id "tb" ["id"] [("_limit", Any.uintSlice [0, 100])] [] "faith"
    (Any.str "Muslim")
    (by intro e he; simp only [List.mem_singleton] at he; subst he; decide)
    (by intro e he; cases he) (by decide) (by decide)).1

end Builder

namespace Builder

theorem buildSelect_snd (table : String) (uFields : List String) (groupBy orderBy : String)
    (sLimit limit : Option eleLimit) (interval fill : String) (cs : List Comparable) :
    (buildSelect table uFields groupBy orderBy sLimit limit interval fill cs).2
      = ((whereConnector "and" cs).2 ++ limitVals sLimit ++ limitVals limit, none) := by
  apply Prod.ext
  · exact buildSelect_vals _ _ _ _ _ _ _ _ _
  · exact buildSelect_no_error _ _ _ _ _ _ _ _ _

/-- The values and the error of `BuildSelect` do not depend on the texts of
`_orderby` and `_groupby`, only on whether their blocks fail. -/
theorem BuildSelect_snd_congr (U : Char → Char) (table : String) (selectField : List String)
    {wh₁ wh₂ : WhereMap}
    (e1 : (BuildSelect.orderBy wh₁).map (fun _ => ()) = (BuildSelect.orderBy wh₂).map (fun _ => ()))
    (e2 : (BuildSelect.groupBy wh₁).map (fun _ => ()) = (BuildSelect.groupBy wh₂).map (fun _ => ()))
    (e3 : BuildSelect.limit wh₁ = BuildSelect.limit wh₂)
    (e4 : BuildSelect.sLimit wh₁ = BuildSelect.sLimit wh₂)
    (e5 : BuildSelect.interval wh₁ = BuildSelect.interval wh₂)
    (e6 : BuildSelect.fill wh₁ = BuildSelect.fill wh₂)
    (hg : getWhereConditions U wh₁ defaultIgnoreKeys
      = getWhereConditions U wh₂ defaultIgnoreKeys) :
    (BuildSelect U table wh₁ selectField).2 = (BuildSelect U table wh₂ selectField).2 := by
  unfold BuildSelect
  rw [e3, e4, e5, e6, hg]
  cases h1 : BuildSelect.orderBy wh₁ with
  | error a =>
    cases h2 : BuildSelect.orderBy wh₂ with
    | error b =>
      rw [h1, h2] at e1
      simp only [Except.map] at e1
      cases e1
      rfl
    | ok b => rw [h1, h2] at e1; simp only [Except.map] at e1; cases e1
  | ok o₁ =>
  cases h2 : BuildSelect.orderBy wh₂ with
  | error b => rw [h1, h2] at e1; simp only [Except.map] at e1; cases e1
  | ok o₂ =>
  cases h3 : BuildSelect.groupBy wh₁ with
  | error a =>
    cases h4 : BuildSelect.groupBy wh₂ with
    | error b =>
      rw [h3, h4] at e2
      simp only [Except.map] at e2
      cases e2
      rfl
    | ok b => rw [h3, h4] at e2; simp only [Except.map] at e2; cases e2
  | ok g₁ =>
  cases h4 : BuildSelect.groupBy wh₂ with
  | error b => rw [h3, h4] at e2; simp only [Except.map] at e2; cases e2
  | ok g₂ =>
  simp only
  cases BuildSelect.limit wh₂ with
  | error e => rfl
  | ok limit =>
  cases BuildSelect.sLimit wh₂ with
  | error e => rfl
  | ok sLimit =>
  cases BuildSelect.interval wh₂ with
  | error e => rfl
  | ok interval =>
  cases BuildSelect.fill wh₂ with
  | error e => rfl
  | ok fill =>
  cases getWhereConditions U wh₂ defaultIgnoreKeys with
  | error e => rfl
  | ok cs =>
    simp only
    rw [buildSelect_snd, buildSelect_snd]

theorem TrimSpace_eq_empty_iff (s : String) :
    TrimSpace s = "" ↔ ∀ c ∈ s.data, isSpace c = true := by
  unfold TrimSpace
  constructor
  · intro h
    have h1 : ((s.data.dropWhile isSpace).reverse.dropWhile isSpace).reverse = [] :=
      congrArg String.data h
    rw [List.reverse_eq_nil_iff, List.dropWhile_eq_nil_iff] at h1
    have h2 : s.data.dropWhile isSpace = [] := by
      cases hd : s.data.dropWhile isSpace with
      | nil => rfl
      | cons a l =>
        have ha : isSpace a = true := h1 a (by rw [hd]; simp)
        have hna := List.head_dropWhile_not isSpace s.data (by rw [hd]; exact List.cons_ne_nil _ _)
        simp only [hd, List.head_cons] at hna
        rw [ha] at hna
        cases hna
    exact List.dropWhile_eq_nil_iff.mp h2
  · intro h
    have h2 : s.data.dropWhile isSpace = [] := List.dropWhile_eq_nil_iff.mpr h
    rw [h2]
    rfl

theorem lookup_append_eq_none {α : Type} (k : String) (post : List (String × α)) :
    ∀ pre : List (String × α), lookup k (pre ++ post) = none →
      lookup k pre = none ∧ lookup k post = none
  | [], h => ⟨rfl, h⟩
  | (a, b) :: pre, h => by
    have h' : lookup k ((a, b) :: (pre ++ post)) = none := h
    by_cases e : a = k
    · simp [lookup, e] at h'
    · simp only [lookup, if_neg e] at h' ⊢
      exact lookup_append_eq_none k post pre h'

theorem orderBy_of_entry (pre post : WhereMap) (s : String)
    (h : lookup "_orderby" pre = none) :
    BuildSelect.orderBy (pre ++ ("_orderby", Any.str s) :: post) = .ok (TrimSpace s) := by
  unfold BuildSelect.orderBy
  rw [lookup_append_same, h]
  rfl

theorem groupBy_of_entry (pre post : WhereMap) (s : String)
    (h : lookup "_groupby" pre = none) :
    BuildSelect.groupBy (pre ++ ("_groupby", Any.str s) :: post) = .ok (TrimSpace s) := by
  unfold BuildSelect.groupBy
  rw [lookup_append_same, h]
  rfl

theorem lookup_append_none {α : Type} (k : String) (post : List (String × α)) :
    ∀ pre : List (String × α), lookup k pre = none → lookup k (pre ++ post) = lookup k post
  | [], _ => rfl
  | (a, b) :: pre, h => by
    by_cases e : a = k
    · simp [lookup, e] at h
    · simp only [lookup, if_neg e] at h
      show lookup k ((a, b) :: (pre ++ post)) = lookup k post
      simp only [lookup, if_neg e]
      exact lookup_append_none k post pre h

end Builder

namespace Builder

theorem clause_eq_ite (pre body : String) :
    clause pre body "" = if body = "" then "" else pre ++ body := by
  unfold clause
  split
  · rfl
  · exact String.append_empty _

theorem orderBy_entry_facts (U : Char → Char) (table : String) (selectField : List String)
    (pre post : WhereMap) (s : String) (h : lookup "_orderby" (pre ++ post) = none) :
    (BuildSelect U table (pre ++ ("_orderby", Any.str s) :: post) selectField).2
        = (BuildSelect U table (pre ++ post) selectField).2
    ∧ (TrimSpace s = "" →
        BuildSelect U table (pre ++ ("_orderby", Any.str s) :: post) selectField
          = BuildSelect U table (pre ++ post) selectField)
    ∧ ((BuildSelect U table (pre ++ ("_orderby", Any.str s) :: post) selectField).2.2 = none →
        ∃ (cs : List Comparable) (groupBy interval fill : String) (sLimit limit : Option eleLimit),
          (BuildSelect U table (pre ++ ("_orderby", Any.str s) :: post) selectField).1
            = "select " ++ (if 0 < selectField.length then Join selectField "," else "*")
              ++ " from " ++ table
              ++ clause " where " (whereConnector "and" cs).1 ""
              ++ clause " interval(" interval ")"
              ++ clause " fill " fill ""
              ++ clause " group by " groupBy ""
              ++ (if TrimSpace s = "" then "" else " order by " ++ TrimSpace s)
              ++ (if sLimit.isSome then " slimit ?,?" else "")
              ++ (if limit.isSome then " limit ?,?" else "")) := by
  obtain ⟨hp, hq⟩ := lookup_append_eq_none "_orderby" post pre h
  have ho := orderBy_of_entry pre post s hp
  have ho₀ : BuildSelect.orderBy (pre ++ post) = .ok "" := by
    unfold BuildSelect.orderBy
    rw [h]
  have e2 : BuildSelect.groupBy (pre ++ ("_orderby", Any.str s) :: post)
      = BuildSelect.groupBy (pre ++ post) := by
    unfold BuildSelect.groupBy; rw [lookup_remove _ _ _ (by decide)]
  have e3 : BuildSelect.limit (pre ++ ("_orderby", Any.str s) :: post)
      = BuildSelect.limit (pre ++ post) := by
    unfold BuildSelect.limit; rw [lookup_remove _ _ _ (by decide)]
  have e4 : BuildSelect.sLimit (pre ++ ("_orderby", Any.str s) :: post)
      = BuildSelect.sLimit (pre ++ post) := by
    unfold BuildSelect.sLimit; rw [lookup_remove _ _ _ (by decide)]
  have e5 : BuildSelect.interval (pre ++ ("_orderby", Any.str s) :: post)
      = BuildSelect.interval (pre ++ post) := by
    unfold BuildSelect.interval; rw [lookup_remove _ _ _ (by decide)]
  have e6 : BuildSelect.fill (pre ++ ("_orderby", Any.str s) :: post)
      = BuildSelect.fill (pre ++ post) := by
    unfold BuildSelect.fill
    rw [lookup_remove "_fill" _ _ (by decide), lookup_remove "_fillvalue" _ _ (by decide)]
  have hg := getWhereConditions_remove_ignored U pre post "_orderby" (Any.str s) (by decide)
  refine ⟨?_, ?_, ?_⟩
  · apply BuildSelect_snd_congr U table selectField _ _ e3 e4 e5 e6 hg
    · rw [ho, ho₀]; rfl
    · rw [e2]
  · intro ht
    apply BuildSelect_congr_blocks U table selectField _ e2 e3 e4 e5 e6 hg
    rw [ho, ho₀, ht]
  · intro hok
    obtain ⟨orderBy, groupBy, limit, sLimit, interval, fill, cs, h1, h2, h3, h4, h5, h6, h7⟩ :=
      BuildSelect_ok_inv hok
    rw [ho] at h1
    cases h1
    refine ⟨cs, groupBy, interval, fill, sLimit, limit, ?_⟩
    rw [BuildSelect_eq_of_ok ho h2 h3 h4 h5 h6 h7, buildSelect_text_eq,
      clause_eq_ite " order by "]

theorem groupBy_entry_facts (U : Char → Char) (table : String) (selectField : List String)
    (pre post : WhereMap) (s : String) (h : lookup "_groupby" (pre ++ post) = none) :
    (BuildSelect U table (pre ++ ("_groupby", Any.str s) :: post) selectField).2
        = (BuildSelect U table (pre ++ post) selectField).2
    ∧ (TrimSpace s = "" →
        BuildSelect U table (pre ++ ("_groupby", Any.str s) :: post) selectField
          = BuildSelect U table (pre ++ post) selectField)
    ∧ ((BuildSelect U table (pre ++ ("_groupby", Any.str s) :: post) selectField).2.2 = none →
        ∃ (cs : List Comparable) (orderBy interval fill : String) (sLimit limit : Option eleLimit),
          (BuildSelect U table (pre ++ ("_groupby", Any.str s) :: post) selectField).1
            = "select " ++ (if 0 < selectField.length then Join selectField "," else "*")
              ++ " from " ++ table
              ++ clause " where " (whereConnector "and" cs).1 ""
              ++ clause " interval(" interval ")"
              ++ clause " fill " fill ""
              ++ (if TrimSpace s = "" then "" else " group by " ++ TrimSpace s)
              ++ clause " order by " orderBy ""
              ++ (if sLimit.isSome then " slimit ?,?" else "")
              ++ (if limit.isSome then " limit ?,?" else "")) := by
  obtain ⟨hp, hq⟩ := lookup_append_eq_none "_groupby" post pre h
  have ho := groupBy_of_entry pre post s hp
  have ho₀ : BuildSelect.groupBy (pre ++ post) = .ok "" := by
    unfold BuildSelect.groupBy
    rw [h]
  have e2 : BuildSelect.orderBy (pre ++ ("_groupby", Any.str s) :: post)
      = BuildSelect.orderBy (pre ++ post) := by
    unfold BuildSelect.orderBy; rw [lookup_remove _ _ _ (by decide)]
  have e3 : BuildSelect.limit (pre ++ ("_groupby", Any.str s) :: post)
      = BuildSelect.limit (pre ++ post) := by
    unfold BuildSelect.limit; rw [lookup_remove _ _ _ (by decide)]
  have e4 : BuildSelect.sLimit (pre ++ ("_groupby", Any.str s) :: post)
      = BuildSelect.sLimit (pre ++ post) := by
    unfold BuildSelect.sLimit; rw [lookup_remove _ _ _ (by decide)]
  have e5 : BuildSelect.interval (pre ++ ("_groupby", Any.str s) :: post)
      = BuildSelect.interval (pre ++ post) := by
    unfold BuildSelect.interval; rw [lookup_remove _ _ _ (by decide)]
  have e6 : BuildSelect.fill (pre ++ ("_groupby", Any.str s) :: post)
      = BuildSelect.fill (pre ++ post) := by
    unfold BuildSelect.fill
    rw [lookup_remove "_fill" _ _ (by decide), lookup_remove "_fillvalue" _ _ (by decide)]
  have hg := getWhereConditions_remove_ignored U pre post "_groupby" (Any.str s) (by decide)
  refine ⟨?_, ?_, ?_⟩
  · apply BuildSelect_snd_congr U table selectField _ _ e3 e4 e5 e6 hg
    · rw [e2]
    · rw [ho, ho₀]; rfl
  · intro ht
    apply BuildSelect_congr_blocks U table selectField e2 _ e3 e4 e5 e6 hg
    rw [ho, ho₀, ht]
  · intro hok
    obtain ⟨orderBy, groupBy, limit, sLimit, interval, fill, cs, h1, h2, h3, h4, h5, h6, h7⟩ :=
      BuildSelect_ok_inv hok
    rw [ho] at h2
    cases h2
    refine ⟨cs, orderBy, interval, fill, sLimit, limit, ?_⟩
    rw [BuildSelect_eq_of_ok h1 ho h3 h4 h5 h6 h7, buildSelect_text_eq,
      clause_eq_ite " group by "]

/-- Claim C38.  For every string `s` and every map with `_orderby` = `s` (the map
has the key once): when `BuildSelect` succeeds its text has, between the
group-by clause and the limits, ` order by ` followed by `s` with the
surrounding white space trimmed, and nothing there when the trimmed `s` is
empty, which is when `s` is empty or white space only, and the result is then
that of the map without the key; the values and the error are those of the map
without the key, so `_orderby` adds no value.  The same holds for `_groupby`
with ` group by `. -/
theorem ordering_and_grouping_text (U : Char → Char) (table : String)
    (selectField : List String) (pre post : WhereMap) (s : String) :
    (lookup "_orderby" (pre ++ post) = none →
      (BuildSelect U table (pre ++ ("_orderby", Any.str s) :: post) selectField).2
          = (BuildSelect U table (pre ++ post) selectField).2
      ∧ (TrimSpace s = "" →
          BuildSelect U table (pre ++ ("_orderby", Any.str s) :: post) selectField
            = BuildSelect U table (pre ++ post) selectField)
      ∧ ((BuildSelect U table (pre ++ ("_orderby", Any.str s) :: post) selectField).2.2 = none →
          ∃ (cs : List Comparable) (groupBy interval fill : String)
            (sLimit limit : Option eleLimit),
            (BuildSelect U table (pre ++ ("_orderby", Any.str s) :: post) selectField).1
              = "select " ++ (if 0 < selectField.length then Join selectField "," else "*")
                ++ " from " ++ table
                ++ clause " where " (whereConnector "and" cs).1 ""
                ++ clause " interval(" interval ")"
                ++ clause " fill " fill ""
                ++ clause " group by " groupBy ""
                ++ (if TrimSpace s = "" then "" else " order by " ++ TrimSpace s)
                ++ (if sLimit.isSome then " slimit ?,?" else "")
                ++ (if limit.isSome then " limit ?,?" else "")))
    ∧ (lookup "_groupby" (pre ++ post) = none →
      (BuildSelect U table (pre ++ ("_groupby", Any.str s) :: post) selectField).2
          = (BuildSelect U table (pre ++ post) selectField).2
      ∧ (TrimSpace s = "" →
          BuildSelect U table (pre ++ ("_groupby", Any.str s) :: post) selectField
            = BuildSelect U table (pre ++ post) selectField)
      ∧ ((BuildSelect U table (pre ++ ("_groupby", Any.str s) :: post) selectField).2.2 = none →
          ∃ (cs : List Comparable) (orderBy interval fill : String)
            (sLimit limit : Option eleLimit),
            (BuildSelect U table (pre ++ ("_groupby", Any.str s) :: post) selectField).1
              = "select " ++ (if 0 < selectField.length then Join selectField "," else "*")
                ++ " from " ++ table
                ++ clause " where " (whereConnector "and" cs).1 ""
                ++ clause " interval(" interval ")"
                ++ clause " fill " fill ""
                ++ (if TrimSpace s = "" then "" else " group by " ++ TrimSpace s)
                ++ clause " order by " orderBy ""
                ++ (if sLimit.isSome then " slimit ?,?" else "")
                ++ (if limit.isSome then " limit ?,?" else "")))
    ∧ (TrimSpace s = "" ↔ ∀ c ∈ s.data, isSpace c = true)
    ∧ BuildSelect id "tb" [("foo", Any.str "bar"), ("_orderby", Any.str "age DESC,id ASC")]
        ["id", "name", "age"]
      = ("select id,name,age from tb where (foo=?) order by age DESC,id ASC",
         [Any.str "bar"], none)
    ∧ BuildSelect id "tb" [("foo", Any.str "bar"), ("_orderby", Any.str "  ")] []
      = ("select * from tb where (foo=?)", [Any.str "bar"], none)
    ∧ BuildSelect id "tb" [("foo", Any.str "bar"), ("_groupby", Any.str " department ")] []
      = ("select * from tb where (foo=?) group by department", [Any.str "bar"], none) :=
  ⟨orderBy_entry_facts U table selectField pre post s,
   groupBy_entry_facts U table selectField pre post s,
   TrimSpace_eq_empty_iff s, rfl, rfl, rfl⟩

/-- The statement of C38 at the first map of `Test_BuildOrderBy`. -/
theorem ordering_and_grouping_text_witness :
    (BuildSelect id "tb"
        ([("foo", Any.str "bar")] ++ ("_orderby", Any.str "age DESC,id ASC") :: [])
        ["id", "name", "age"]).2
      = (BuildSelect id "tb" ([("foo", Any.str "bar")] ++ []) ["id", "name", "age"]).2 :=
  ((ordering_and_grouping_text id "tb" ["id", "name", "age"] [("foo", Any.str "bar")] []
    "age DESC,id ASC").1 rfl).1

end Builder

namespace Builder

theorem orLoop_append (U : Char → Char) (ign : List String)
    (rest : List (Option (List (String × Any)))) :
    ∀ (ms : List (Option (List (String × Any)))) (acc : List Comparable),
      getWhereConditions.orLoop U ign (ms ++ rest) acc
        = match getWhereConditions.orLoop U ign ms acc with
          | .error e => .error e
          | .ok r => getWhereConditions.orLoop U ign rest r
  | [], acc => by rw [orLoop_nil]; rfl
  | none :: ms, acc => by
    simp only [List.cons_append]
    rw [orLoop_none, orLoop_none]
    exact orLoop_append U ign rest ms acc
  | some m :: ms, acc => by
    simp only [List.cons_append]
    rw [orLoop_some, orLoop_some]
    cases getWhereConditions U m ign with
    | error e => rfl
    | ok r => exact orLoop_append U ign rest ms _

/-- Replacing a map of an `_or` list by one with the same fragments does not
change the fragments of the list. -/
theorem orWheres_replace (U : Char → Char) (ign : List String)
    (before after : List (Option (List (String × Any)))) (m m' : List (String × Any))
    (h : getWhereConditions U m ign = getWhereConditions U m' ign) :
    getWhereConditions.orWheres U ign (Any.mapSlice (before ++ some m :: after))
      = getWhereConditions.orWheres U ign (Any.mapSlice (before ++ some m' :: after)) := by
  rw [orWheres_mapSlice, orWheres_mapSlice, orLoop_append, orLoop_append]
  cases getWhereConditions.orLoop U ign before [] with
  | error e => rfl
  | ok r =>
    simp only
    rw [orLoop_some, orLoop_some, h]

theorem loop_replace_or (U : Char → Char) (pre post : WhereMap) (v v' : Any)
    (h : getWhereConditions.orWheres U defaultIgnoreKeys v
      = getWhereConditions.orWheres U defaultIgnoreKeys v')
    (wms : whereMapSet) (cs : List Comparable) :
    getWhereConditions.loop U defaultIgnoreKeys (pre ++ ("_or", v) :: post) wms cs
      = getWhereConditions.loop U defaultIgnoreKeys (pre ++ ("_or", v') :: post) wms cs := by
  apply loop_replace_entry
  intro w c
  rw [loop_cons_or _ _ _ _ _ _ (by decide), loop_cons_or _ _ _ _ _ _ (by decide), h]

theorem getWhereConditions_replace_or (U : Char → Char) (pre post : WhereMap) (v v' : Any)
    (h : getWhereConditions.orWheres U defaultIgnoreKeys v
      = getWhereConditions.orWheres U defaultIgnoreKeys v') :
    getWhereConditions U (pre ++ ("_or", v) :: post) defaultIgnoreKeys
      = getWhereConditions U (pre ++ ("_or", v') :: post) defaultIgnoreKeys := by
  rw [getWhereConditions_eq_finish, getWhereConditions_eq_finish,
    loop_replace_or U pre post v v' h]

theorem NestedRemoval_fragments (U : Char → Char) {wh wh' : WhereMap}
    (h : NestedRemoval wh wh') :
    getWhereConditions U wh defaultIgnoreKeys = getWhereConditions U wh' defaultIgnoreKeys := by
  induction h with
  | here pre post before after p q k v hk =>
    apply getWhereConditions_replace_or
    apply orWheres_replace
    exact getWhereConditions_remove_ignored U p q k v hk
  | deeper pre post before after m m' _ ih =>
    apply getWhereConditions_replace_or
    apply orWheres_replace
    exact ih

theorem NestedRemoval_lookup {wh wh' : WhereMap} (h : NestedRemoval wh wh') :
    ∀ d ∈ defaultIgnoreKeys, lookup d wh = lookup d wh' := by
  intro d hd
  have hne : "_or" ≠ d := by
    intro e
    rw [← e] at hd
    revert hd
    decide
  cases h with
  | here pre post before after p q k v hk => exact lookup_replace_val d "_or" _ _ hne post pre
  | deeper pre post before after m m' _ => exact lookup_replace_val d "_or" _ _ hne post pre

/-- Claim C39.  For every predicate map, removing an entry whose key is one of
`_orderby`, `_groupby`, `_limit`, `_slimit`, `_interval`, `_fill`, `_fillvalue`
from a map nested in an `_or` list, at any depth and whatever the value of the
entry, leaves the text, the values and the error of `BuildSelect` unchanged. -/
theorem nested_directives_ignored (U : Char → Char) (table : String)
    (selectField : List String) (wh wh' : WhereMap) (h : NestedRemoval wh wh') :
    BuildSelect U table wh selectField = BuildSelect U table wh' selectField :=
  BuildSelect_congr_lookup U table selectField (NestedRemoval_lookup h)
    (NestedRemoval_fragments U h)

/-- The statement of C39 at a `_limit` of the wrong type, two levels down. -/
theorem nested_directives_ignored_witness :
    BuildSelect id "tb"
        ([("a", Any.int 1)]
          ++ ("_or", Any.mapSlice ([] ++ some
              ([] ++ ("_or", Any.mapSlice ([some [("b", Any.int 2)]]
                  ++ some ([("c", Any.int 3)] ++ ("_limit", Any.str "x") :: []) :: [])) :: [])
              :: [])) :: []) ["id"]
      = BuildSelect id "tb"
        ([("a", Any.int 1)]
          ++ ("_or", Any.mapSlice ([] ++ some
              ([] ++ ("_or", Any.mapSlice ([some [("b", Any.int 2)]]
                  ++ some ([("c", Any.int 3)] ++ []) :: [])) :: [])
              :: [])) :: []) ["id"] :=
  nested_directives_ignored id "tb" ["id"] _ _
    (NestedRemoval.deeper [("a", Any.int 1)] [] [] [] _ _
      (NestedRemoval.here [] [] [some [("b", Any.int 2)]] [] [("c", Any.int 3)] [] "_limit"
        (Any.str "x") (by decide)))

end Builder

namespace Builder

/-- The fragments of a map whose only entry is an `_or` list of one map. -/
theorem getWhereConditions_or_single (U : Char → Char) (m : WhereMap) :
    getWhereConditions U [("_or", Any.mapSlice [some m])] defaultIgnoreKeys
      = match getWhereConditions U m defaultIgnoreKeys with
        | .error e => .error e
        | .ok cs => .ok [Comparable.OrWhere [Comparable.NestWhere cs]] := by
  rw [getWhereConditions_eq_finish, loop_cons_or _ _ _ _ _ _ (by decide), orWheres_mapSlice,
    orLoop_some]
  cases getWhereConditions U m defaultIgnoreKeys with
  | error e => rfl
  | ok cs =>
    simp only
    rw [orLoop_nil]
    simp only
    rw [loop_nil]
    rfl

theorem whereConnector_or_single (cs : List Comparable) :
    whereConnector "and" [Comparable.OrWhere [Comparable.NestWhere cs]]
      = ("((" ++ (whereConnector "and" cs).1 ++ "))", (whereConnector "and" cs).2) := by
  have e : "(" ++ ("(" ++ (whereConnector "and" cs).1 ++ ")") ++ ")"
      = "((" ++ (whereConnector "and" cs).1 ++ "))" := by
    apply String.ext
    simp [String.data_append]
  rw [← e, whereConnector_eq "and" cs, whereConnector_eq, whereConnector.loop,
    whereConnector.loop, Comparable.Build, whereConnector.loop, whereConnector.loop,
    Comparable.Build]
  simp [whereConnector.finish, Join]

theorem nestedText_ne (depth : Nat) : nestedText depth ≠ "" := by
  intro h
  have hl := congrArg String.length h
  cases depth with
  | zero => revert hl; decide
  | succ k =>
    rw [nestedText] at hl
    simp only [String.length_append] at hl
    have h1 : "((".length = 2 := rfl
    have h2 : "".length = 0 := rfl
    omega

theorem nestOr_fragments :
    ∀ depth, ∃ cs, getWhereConditions id (nestOr depth [("a", Any.int 1)]) defaultIgnoreKeys
        = .ok cs ∧ whereConnector "and" cs = (nestedText depth, [Any.int 1])
  | 0 => ⟨[Comparable.Eq [("a", Any.int 1)]], rfl, rfl⟩
  | depth + 1 => by
    obtain ⟨cs, h1, h2⟩ := nestOr_fragments depth
    refine ⟨[Comparable.OrWhere [Comparable.NestWhere cs]], ?_, ?_⟩
    · rw [nestOr, getWhereConditions_or_single, h1]
    · rw [whereConnector_or_single, h2, nestedText]

theorem nestOr_single (depth : Nat) (k : String) (v : Any) (hk : k ∉ defaultIgnoreKeys) :
    ∃ key val, nestOr depth [(k, v)] = [(key, val)] ∧ key ∉ defaultIgnoreKeys := by
  cases depth with
  | zero => exact ⟨k, v, rfl, hk⟩
  | succ n => exact ⟨"_or", _, rfl, by decide⟩

theorem BuildSelect_nestOr (depth : Nat) :
    BuildSelect id "tb" (nestOr depth [("a", Any.int 1)]) []
      = ("select * from tb where " ++ nestedText depth, [Any.int 1], none) := by
  obtain ⟨cs, h1, h2⟩ := nestOr_fragments depth
  obtain ⟨key, val, hk, hn⟩ := nestOr_single depth "a" (Any.int 1) (by decide)
  rw [hk] at h1 ⊢
  obtain ⟨e1, e2, e3, e4, e5, e6⟩ := directives_single key val hn
  rw [BuildSelect_eq_of_ok e1 e2 e3 e4 e5 e6 h1]
  unfold buildSelect
  simp only [h2, ne_eq, nestedText_ne, not_false_eq_true, if_true, not_true_eq_false, if_false]
  rfl

/-- An error inside the innermost map is the error of every nesting of it. -/
theorem getWhereConditions_nestOr_error :
    ∀ depth, getWhereConditions id (nestOr depth [("a b", Any.int 1)]) defaultIgnoreKeys
        = .error .ErrUnsupportedOperator
  | 0 => rfl
  | depth + 1 => by
    rw [nestOr, getWhereConditions_or_single, getWhereConditions_nestOr_error depth]

theorem BuildSelect_nestOr_error (depth : Nat) :
    BuildSelect id "tb" (nestOr depth [("a b", Any.int 1)]) []
      = ("", [], some .ErrUnsupportedOperator) := by
  have h1 := getWhereConditions_nestOr_error depth
  obtain ⟨key, val, hk, hn⟩ := nestOr_single depth "a b" (Any.int 1) (by decide)
  rw [hk] at h1 ⊢
  obtain ⟨e1, e2, e3, e4, e5, e6⟩ := directives_single key val hn
  unfold BuildSelect
  rw [e1, e2, e3, e4, e5, e6, h1]

theorem IndexByte_lt : ∀ (l : List Char) (i : Nat), IndexByte l = some i → i < l.length
  | [], i, h => by simp [IndexByte] at h
  | c :: cs, i, h => by
    rw [IndexByte] at h
    split at h
    · cases h
      simp
    · cases hi : IndexByte cs with
      | none => rw [hi] at h; cases h
      | some j =>
        rw [hi] at h
        cases h
        have := IndexByte_lt cs j hi
        simp
        omega

theorem removeInnerSpace_loop_bounds :
    ∀ (rest : List Char) (i lastSpace : Nat),
      lastSpace ≤ removeInnerSpace.loop rest i lastSpace
        ∨ i ≤ removeInnerSpace.loop rest i lastSpace
  | [], _, _ => by rw [removeInnerSpace.loop]; exact Or.inl (Nat.le_refl _)
  | c :: rest, i, lastSpace => by
    rw [removeInnerSpace.loop]
    split
    · rcases removeInnerSpace_loop_bounds rest (i + 1) i with h | h
      · exact Or.inr h
      · exact Or.inr (by omega)
    · exact Or.inl (Nat.le_refl _)

theorem removeInnerSpace_loop_lt :
    ∀ (rest : List Char) (i lastSpace : Nat), lastSpace < i →
      removeInnerSpace.loop rest i lastSpace < i + rest.length ∨
        removeInnerSpace.loop rest i lastSpace = lastSpace
  | [], _, _, _ => by rw [removeInnerSpace.loop]; exact Or.inr rfl
  | c :: rest, i, lastSpace, hlt => by
    rw [removeInnerSpace.loop]
    split
    · rcases removeInnerSpace_loop_lt rest (i + 1) i (by omega) with h | h
      · left
        simp only [List.length_cons]
        omega
      · left
        rw [h]
        simp only [List.length_cons]
        omega
    · exact Or.inr rfl

theorem removeInnerSpace_bounds (l : List Char) (firstSpace : Nat)
    (h : IndexByte l = some firstSpace) :
    firstSpace ≤ removeInnerSpace.loop (l.drop (firstSpace + 1)) (firstSpace + 1) firstSpace
    ∧ removeInnerSpace.loop (l.drop (firstSpace + 1)) (firstSpace + 1) firstSpace < l.length := by
  have hf := IndexByte_lt l firstSpace h
  constructor
  · rcases removeInnerSpace_loop_bounds (l.drop (firstSpace + 1)) (firstSpace + 1) firstSpace
      with h1 | h1
    · exact h1
    · omega
  · rcases removeInnerSpace_loop_lt (l.drop (firstSpace + 1)) (firstSpace + 1) firstSpace
      (by omega) with h1 | h1
    · rw [List.length_drop] at h1
      omega
    · rw [h1]
      exact hf

/-- Claim C32.  `getWhereConditions` and `BuildSelect` are total on the
predicate maps, whose `_or` lists are nested to any finite depth: each returns
either a result or an error; at every depth of nesting of a map with the one key
`a` the result is the text with two more brackets per level, and at every depth
the error of the innermost map is returned; the indexes the code takes are in
range: the index of the first space of a key is below its length, and the index
`removeInnerSpace` cuts at is between the first space and the length. -/
theorem BuildSelect_total_on_nesting :
    (∀ (U : Char → Char) (table : String) (wh : WhereMap) (selectField : List String),
      (∃ err, BuildSelect U table wh selectField = ("", [], some err))
        ∨ (∃ text vals, BuildSelect U table wh selectField = (text, vals, none)))
    ∧ (∀ (U : Char → Char) (wh : WhereMap),
      (∃ cs, getWhereConditions U wh defaultIgnoreKeys = .ok cs)
        ∨ (∃ err, getWhereConditions U wh defaultIgnoreKeys = .error err))
    ∧ (∀ depth, BuildSelect id "tb" (nestOr depth [("a", Any.int 1)]) []
        = ("select * from tb where " ++ nestedText depth, [Any.int 1], none))
    ∧ (∀ depth, BuildSelect id "tb" (nestOr depth [("a b", Any.int 1)]) []
        = ("", [], some .ErrUnsupportedOperator))
    ∧ (∀ (key : List Char) (idx : Nat), IndexByte key = some idx → idx < key.length)
    ∧ (∀ (operator : List Char) (firstSpace : Nat), IndexByte operator = some firstSpace →
        firstSpace
            ≤ removeInnerSpace.loop (operator.drop (firstSpace + 1)) (firstSpace + 1) firstSpace
          ∧ removeInnerSpace.loop (operator.drop (firstSpace + 1)) (firstSpace + 1) firstSpace
            < operator.length) := by
  refine ⟨?_, ?_, BuildSelect_nestOr, BuildSelect_nestOr_error, IndexByte_lt,
    removeInnerSpace_bounds⟩
  · intro U table wh selectField
    rcases BuildSelect_error_or_ok U table wh selectField with h | h
    · exact Or.inl h
    · right
      refine ⟨(BuildSelect U table wh selectField).1, (BuildSelect U table wh selectField).2.1, ?_⟩
      rw [← h]
  · intro U wh
    cases getWhereConditions U wh defaultIgnoreKeys with
    | error e => exact Or.inr ⟨e, rfl⟩
    | ok cs => exact Or.inl ⟨cs, rfl⟩

/-- The statement of C32 at the key `a b` and at three levels of `_or`. -/
theorem BuildSelect_total_on_nesting_witness :
    IndexByte "a b".data = some 1 ∧ 1 < "a b".data.length
    ∧ BuildSelect id "tb" (nestOr 3 [("a", Any.int 1)]) []
      = ("select * from tb where (((((((a=?)))))))", [Any.int 1], none) :=
  ⟨rfl, BuildSelect_total_on_nesting.2.2.2.2.1 "a b".data 1 rfl,
   BuildSelect_total_on_nesting.2.2.1 3⟩

end Builder

namespace Builder

theorem nestedDistinct_iff (U : Char → Char) :
    ∀ wh : List (String × Any),
      nestedDistinct U wh = true ↔ ∀ e ∈ wh, e.1 = "_or" → orDistinct U e.2 = true
  | [] => by simp [nestedDistinct]
  | (k, v) :: rest => by
    rw [nestedDistinct, Bool.and_eq_true, nestedDistinct_iff U rest]
    constructor
    · rintro ⟨h1, h2⟩ e he hk
      rcases List.mem_cons.mp he with e1 | e1
      · subst e1
        simp only at hk
        simpa [hk] using h1
      · exact h2 e e1 hk
    · intro h
      refine ⟨?_, fun e he hk => h e (List.mem_cons_of_mem _ he) hk⟩
      by_cases hk : k = "_or"
      · simpa [hk] using h (k, v) (List.mem_cons_self _ _) hk
      · simp [hk]

theorem listDistinct_iff (U : Char → Char) :
    ∀ ms : List (Option (List (String × Any))),
      listDistinct U ms = true ↔ ∀ m, some m ∈ ms → noCollision U m = true
  | [] => by simp [listDistinct]
  | none :: rest => by
    rw [listDistinct, listDistinct_iff U rest]
    constructor
    · intro h m hm
      rcases List.mem_cons.mp hm with e1 | e1
      · cases e1
      · exact h m e1
    · intro h m hm
      exact h m (List.mem_cons_of_mem _ hm)
  | some m₀ :: rest => by
    rw [listDistinct, Bool.and_eq_true, listDistinct_iff U rest]
    constructor
    · rintro ⟨h1, h2⟩ m hm
      rcases List.mem_cons.mp hm with e1 | e1
      · cases e1
        exact h1
      · exact h2 m e1
    · intro h
      exact ⟨h m₀ (List.mem_cons_self _ _), fun m hm => h m (List.mem_cons_of_mem _ hm)⟩

theorem orDistinct_mapSlice (U : Char → Char) (ms : List (Option (List (String × Any)))) :
    orDistinct U (Any.mapSlice ms) = listDistinct U ms := by
  rw [orDistinct]

theorem noCollision_iff (U : Char → Char) (wh : WhereMap) :
    noCollision U wh = true
      ↔ (keys wh).Nodup ∧ (slotKeys U wh).Nodup ∧ nestedDistinct U wh = true := by
  simp [noCollision, and_assoc]

end Builder

namespace Builder

theorem FRel_append {a a' b b' : List Comparable} (h₁ : FRel a a') (h₂ : FRel b b') :
    FRel (a ++ b) (a' ++ b') := by
  simp only [FRel, List.map_append] at *
  rw [h₁, h₂]

theorem FRel_loop_eq {cs cs' : List Comparable} (h : FRel cs cs') :
    whereConnector.loop cs = whereConnector.loop cs' := by
  rw [whereConnector_loop_eq, whereConnector_loop_eq]
  have e1 : cs.map (fun c => c.Build.1) = cs'.map (fun c => c.Build.1) := by
    have := congrArg (List.map Prod.fst) h
    simpa [FRel, List.map_map, Function.comp_def] using this
  have e2 : cs.map (fun c => c.Build.2) = cs'.map (fun c => c.Build.2) := by
    have := congrArg (List.map Prod.snd) h
    simpa [FRel, List.map_map, Function.comp_def] using this
  rw [e1, e2]

theorem Build_NestWhere_congr {cs cs' : List Comparable} (h : FRel cs cs') :
    (Comparable.NestWhere cs).Build = (Comparable.NestWhere cs').Build := by
  rw [Comparable.Build, Comparable.Build, FRel_loop_eq h]

theorem Build_OrWhere_congr {cs cs' : List Comparable} (h : FRel cs cs') :
    (Comparable.OrWhere cs).Build = (Comparable.OrWhere cs').Build := by
  rw [Comparable.Build, Comparable.Build, FRel_loop_eq h]

theorem SRel_FRel_trans {x y z : Except Err (List Comparable)} (h₁ : SRel FRel x y)
    (h₂ : SRel FRel y z) : SRel FRel x z := by
  cases x <;> cases y <;> cases z <;> simp only [SRel] at h₁ h₂ ⊢
  exact h₁.trans h₂

theorem SRel_FRel_refl (x : Except Err (List Comparable)) : SRel FRel x x := by
  cases x <;> simp [SRel, FRel]

/-- The fragments `orLoop` has collected so far stay in front of those it adds. -/
theorem orLoop_acc (U : Char → Char) (ign : List String) :
    ∀ (ms : List (Option (List (String × Any)))) (acc : List Comparable),
      getWhereConditions.orLoop U ign ms acc
        = match getWhereConditions.orLoop U ign ms [] with
          | .error e => .error e
          | .ok r => .ok (acc ++ r)
  | [], acc => by rw [orLoop_nil, orLoop_nil]; simp
  | none :: rest, acc => by
    rw [orLoop_none, orLoop_none]
    exact orLoop_acc U ign rest acc
  | some m :: rest, acc => by
    rw [orLoop_some, orLoop_some]
    cases getWhereConditions U m ign with
    | error e => rfl
    | ok cs =>
      simp only
      rw [orLoop_acc U ign rest (acc ++ [Comparable.NestWhere cs]),
        orLoop_acc U ign rest ([] ++ [Comparable.NestWhere cs])]
      cases getWhereConditions.orLoop U ign rest [] with
      | error e => rfl
      | ok r => simp

/-- Replacing a map of an `_or` list by one whose fragments render the same
gives an `_or` group that renders the same. -/
theorem orWheres_replace_rel (U : Char → Char) (ign : List String)
    (before after : List (Option (List (String × Any)))) (m m' : List (String × Any))
    (h : SRel FRel (getWhereConditions U m ign) (getWhereConditions U m' ign)) :
    SRel FRel (getWhereConditions.orWheres U ign (Any.mapSlice (before ++ some m :: after)))
      (getWhereConditions.orWheres U ign (Any.mapSlice (before ++ some m' :: after))) := by
  rw [orWheres_mapSlice, orWheres_mapSlice, orLoop_append, orLoop_append]
  cases getWhereConditions.orLoop U ign before [] with
  | error e => simp [SRel]
  | ok r =>
    simp only
    rw [orLoop_some, orLoop_some]
    cases h1 : getWhereConditions U m ign with
    | error e =>
      cases h2 : getWhereConditions U m' ign with
      | error e' => simp [SRel]
      | ok c' => rw [h1, h2] at h; simp [SRel] at h
    | ok c =>
      cases h2 : getWhereConditions U m' ign with
      | error e' => rw [h1, h2] at h; simp [SRel] at h
      | ok c' =>
        rw [h1, h2] at h
        simp only [SRel] at h
        simp only
        rw [orLoop_acc U ign after (r ++ [Comparable.NestWhere c]),
          orLoop_acc U ign after (r ++ [Comparable.NestWhere c'])]
        cases getWhereConditions.orLoop U ign after [] with
        | error e => simp [SRel]
        | ok t =>
          simp only [SRel]
          apply FRel_append _ rfl
          apply FRel_append rfl
          simp only [FRel, List.map_cons, List.map_nil]
          rw [Build_NestWhere_congr h]

end Builder

namespace Builder

theorem finish_loop_acc_rel (U : Char → Char) (wh : List (String × Any)) (wms : whereMapSet)
    {cs cs' : List Comparable} (h : FRel cs cs') :
    SRel FRel
      (getWhereConditions.finish (getWhereConditions.loop U defaultIgnoreKeys wh wms cs))
      (getWhereConditions.finish (getWhereConditions.loop U defaultIgnoreKeys wh wms cs')) := by
  by_cases hg : ∀ e ∈ wh, entryFails U e = false
  · rw [loop_all_ok U wh _ _ hg, loop_all_ok U wh _ _ hg]
    simp only [getWhereConditions.finish]
    cases buildWhereCondition (addAll (wh.filterMap (slotOf U)) wms) with
    | error e => simp [SRel]
    | ok g =>
      simp only [SRel]
      exact FRel_append (FRel_append h rfl) rfl
  · have hf : ∃ e ∈ wh, entryFails U e = true := by
      by_contra hc
      apply hg
      intro e he
      by_contra hne
      exact hc ⟨e, he, by simpa using hne⟩
    obtain ⟨err, h1⟩ := loop_some_fail U wh wms cs hf
    obtain ⟨err', h2⟩ := loop_some_fail U wh wms cs' hf
    rw [h1, h2]
    simp [getWhereConditions.finish, SRel]

/-- Replacing the value of an `_or` entry by one whose group renders the same
gives fragments that render the same. -/
theorem getWhereConditions_replace_or_rel (U : Char → Char) (pre post : WhereMap) (v v' : Any)
    (h : SRel FRel (getWhereConditions.orWheres U defaultIgnoreKeys v)
      (getWhereConditions.orWheres U defaultIgnoreKeys v')) :
    SRel FRel (getWhereConditions U (pre ++ ("_or", v) :: post) defaultIgnoreKeys)
      (getWhereConditions U (pre ++ ("_or", v') :: post) defaultIgnoreKeys) := by
  rw [getWhereConditions_eq_finish, getWhereConditions_eq_finish, loop_append, loop_append]
  cases getWhereConditions.loop U defaultIgnoreKeys pre (whereMapSet.mk []) [] with
  | error e => simp [getWhereConditions.finish, SRel]
  | ok p =>
    simp only
    rw [loop_cons_or _ _ _ _ _ _ (by decide), loop_cons_or _ _ _ _ _ _ (by decide)]
    cases h1 : getWhereConditions.orWheres U defaultIgnoreKeys v with
    | error e =>
      cases h2 : getWhereConditions.orWheres U defaultIgnoreKeys v' with
      | error e' => simp [getWhereConditions.finish, SRel]
      | ok c' => rw [h1, h2] at h; simp [SRel] at h
    | ok c =>
      cases h2 : getWhereConditions.orWheres U defaultIgnoreKeys v' with
      | error e' => rw [h1, h2] at h; simp [SRel] at h
      | ok c' =>
        rw [h1, h2] at h
        simp only [SRel] at h
        simp only
        apply finish_loop_acc_rel
        apply FRel_append rfl
        simp only [FRel, List.map_cons, List.map_nil]
        rw [Build_OrWhere_congr h]

theorem slotOf_or (U : Char → Char) (v : Any) : slotOf U ("_or", v) = none := by
  simp [slotOf, defaultIgnoreKeys]

theorem slotKeys_replace_or (U : Char → Char) (pre post : WhereMap) (v v' : Any) :
    slotKeys U (pre ++ ("_or", v) :: post) = slotKeys U (pre ++ ("_or", v') :: post) := by
  simp [slotKeys, List.filterMap_append, List.filterMap_cons, slotOf_or]

theorem keys_replace_val (pre post : WhereMap) (k : String) (v v' : Any) :
    keys (pre ++ (k, v) :: post) = keys (pre ++ (k, v') :: post) := by
  simp [keys]

theorem nestedDistinct_perm (U : Char → Char) {wh wh' : WhereMap} (hp : wh.Perm wh')
    (h : nestedDistinct U wh = true) : nestedDistinct U wh' = true := by
  rw [nestedDistinct_iff] at h ⊢
  intro e he hk
  exact h e (hp.mem_iff.mpr he) hk

theorem noCollision_perm (U : Char → Char) {wh wh' : WhereMap} (hp : wh.Perm wh')
    (h : noCollision U wh = true) : noCollision U wh' = true := by
  rw [noCollision_iff] at h ⊢
  obtain ⟨h1, h2, h3⟩ := h
  refine ⟨?_, ?_, nestedDistinct_perm U hp h3⟩
  · exact (List.Perm.nodup_iff (hp.map Prod.fst)).mp h1
  · exact (List.Perm.nodup_iff ((hp.filterMap (slotOf U)).map _)).mp h2

/-- A map of an `_or` list of a map without collisions has none. -/
theorem noCollision_inside (U : Char → Char) {pre post : WhereMap}
    {before after : List (Option WhereMap)} {m : WhereMap}
    (h : noCollision U (pre ++ ("_or", Any.mapSlice (before ++ some m :: after)) :: post)
      = true) : noCollision U m = true := by
  rw [noCollision_iff] at h
  have h3 := (nestedDistinct_iff U _).mp h.2.2
    ("_or", Any.mapSlice (before ++ some m :: after)) (by simp) rfl
  rw [orDistinct_mapSlice, listDistinct_iff] at h3
  exact h3 m (by simp)

theorem noCollision_replace_inside (U : Char → Char) {pre post : WhereMap}
    {before after : List (Option WhereMap)} {m m' : WhereMap}
    (h : noCollision U (pre ++ ("_or", Any.mapSlice (before ++ some m :: after)) :: post)
      = true) (hm : noCollision U m' = true) :
    noCollision U (pre ++ ("_or", Any.mapSlice (before ++ some m' :: after)) :: post)
      = true := by
  rw [noCollision_iff] at h ⊢
  obtain ⟨h1, h2, h3⟩ := h
  refine ⟨?_, ?_, ?_⟩
  · rw [keys_replace_val pre post "_or" _ (Any.mapSlice (before ++ some m :: after))]
    exact h1
  · rw [slotKeys_replace_or U pre post _ (Any.mapSlice (before ++ some m :: after))]
    exact h2
  · rw [nestedDistinct_iff] at h3 ⊢
    intro e he hk
    rcases List.mem_append.mp he with h4 | h4
    · exact h3 e (List.mem_append_left _ h4) hk
    · rcases List.mem_cons.mp h4 with h5 | h5
      · subst h5
        have h6 := h3 ("_or", Any.mapSlice (before ++ some m :: after)) (by simp) rfl
        simp only at h6 ⊢
        rw [orDistinct_mapSlice, listDistinct_iff] at h6 ⊢
        intro x hx
        rcases List.mem_append.mp hx with h7 | h7
        · exact h6 x (List.mem_append_left _ h7)
        · rcases List.mem_cons.mp h7 with h8 | h8
          · cases h8
            exact hm
          · exact h6 x (List.mem_append_right _ (List.mem_cons_of_mem _ h8))
      · exact h3 e (List.mem_append_right _ (List.mem_cons_of_mem _ h5)) hk

/-- Enumerated in another order, at any depth, a map without collisions has the
same directive entries and fragments that render the same, and it is still
without collisions. -/
theorem Reordered_rel (U : Char → Char) {wh wh' : WhereMap} (h : Reordered wh wh') :
    noCollision U wh = true →
      noCollision U wh' = true
      ∧ SRel FRel (getWhereConditions U wh defaultIgnoreKeys)
          (getWhereConditions U wh' defaultIgnoreKeys)
      ∧ ∀ d ∈ defaultIgnoreKeys, lookup d wh = lookup d wh' := by
  induction h with
  | top wh wh' hp =>
    intro hn
    have hn' := (noCollision_iff U wh).mp hn
    exact ⟨noCollision_perm U hp hn, gwc_perm U hp hn'.1 hn'.2.1,
      fun d _ => lookup_perm ⟨hp, hn'.1⟩ d⟩
  | inside pre post before after m m' _ ih =>
    intro hn
    obtain ⟨i1, i2, _⟩ := ih (noCollision_inside U hn)
    refine ⟨noCollision_replace_inside U hn i1, ?_, ?_⟩
    · apply getWhereConditions_replace_or_rel
      exact orWheres_replace_rel U _ before after m m' i2
    · intro d hd
      apply lookup_replace_val
      intro e
      rw [← e] at hd
      revert hd
      decide
  | trans a b c _ _ ih₁ ih₂ =>
    intro hn
    obtain ⟨i1, i2, i3⟩ := ih₁ hn
    obtain ⟨j1, j2, j3⟩ := ih₂ i1
    exact ⟨j1, SRel_FRel_trans i2 j2, fun d hd => (i3 d hd).trans (j3 d hd)⟩

end Builder

namespace Builder

/-- Two maps with the same directive entries and fragments that render the same
give the same text and values, and fail together. -/
theorem BuildSelect_of_rel (U : Char → Char) (table : String) (selectField : List String)
    {wh wh' : WhereMap} (hl : ∀ d ∈ defaultIgnoreKeys, lookup d wh = lookup d wh')
    (hg : SRel FRel (getWhereConditions U wh defaultIgnoreKeys)
      (getWhereConditions U wh' defaultIgnoreKeys)) :
    (BuildSelect U table wh selectField).1 = (BuildSelect U table wh' selectField).1
    ∧ (BuildSelect U table wh selectField).2.1 = (BuildSelect U table wh' selectField).2.1
    ∧ ((BuildSelect U table wh selectField).2.2 = none
        ↔ (BuildSelect U table wh' selectField).2.2 = none) := by
  have e1 : BuildSelect.orderBy wh = BuildSelect.orderBy wh' := by
    unfold BuildSelect.orderBy; rw [hl "_orderby" (by decide)]
  have e2 : BuildSelect.groupBy wh = BuildSelect.groupBy wh' := by
    unfold BuildSelect.groupBy; rw [hl "_groupby" (by decide)]
  have e3 : BuildSelect.limit wh = BuildSelect.limit wh' := by
    unfold BuildSelect.limit; rw [hl "_limit" (by decide)]
  have e4 : BuildSelect.sLimit wh = BuildSelect.sLimit wh' := by
    unfold BuildSelect.sLimit; rw [hl "_slimit" (by decide)]
  have e5 : BuildSelect.interval wh = BuildSelect.interval wh' := by
    unfold BuildSelect.interval; rw [hl "_interval" (by decide)]
  have e6 : BuildSelect.fill wh = BuildSelect.fill wh' := by
    unfold BuildSelect.fill; rw [hl "_fill" (by decide), hl "_fillvalue" (by decide)]
  unfold BuildSelect
  rw [e1, e2, e3, e4, e5, e6]
  cases BuildSelect.orderBy wh' with
  | error e => simp
  | ok orderBy =>
  cases BuildSelect.groupBy wh' with
  | error e => simp
  | ok groupBy =>
  cases BuildSelect.limit wh' with
  | error e => simp
  | ok limit =>
  cases BuildSelect.sLimit wh' with
  | error e => simp
  | ok sLimit =>
  cases BuildSelect.interval wh' with
  | error e => simp
  | ok interval =>
  cases BuildSelect.fill wh' with
  | error e => simp
  | ok fill =>
  cases h1 : getWhereConditions U wh defaultIgnoreKeys with
  | error e =>
    cases h2 : getWhereConditions U wh' defaultIgnoreKeys with
    | error e' => simp
    | ok c' => rw [h1, h2] at hg; simp [SRel] at hg
  | ok c =>
    cases h2 : getWhereConditions U wh' defaultIgnoreKeys with
    | error e' => rw [h1, h2] at hg; simp [SRel] at hg
    | ok c' =>
      rw [h1, h2] at hg
      simp only [SRel] at hg
      simp only
      rw [buildSelect_congr table selectField groupBy orderBy sLimit limit interval fill
        (FRel_connector_eq hg "and")]
      simp

/-- Enumerated in another order, at any depth, a map without collisions gives
the same text and values, and fails in one order exactly when it fails in the
other. -/
theorem BuildSelect_reordered (U : Char → Char) (table : String) (selectField : List String)
    {wh wh' : WhereMap} (h : Reordered wh wh') (hn : noCollision U wh = true) :
    (BuildSelect U table wh selectField).1 = (BuildSelect U table wh' selectField).1
    ∧ (BuildSelect U table wh selectField).2.1 = (BuildSelect U table wh' selectField).2.1
    ∧ ((BuildSelect U table wh selectField).2.2 = none
        ↔ (BuildSelect U table wh' selectField).2.2 = none) := by
  obtain ⟨_, h2, h3⟩ := Reordered_rel U h hn
  exact BuildSelect_of_rel U table selectField h3 h2

/-- C5, amended: for every predicate map in which, at every level of nesting
(the map itself and every map nested in an `_or` list, at any depth), the keys
are pairwise distinct and no two keys are filed under the same field and
operator group, any two enumeration orders of the entries of the map and of its
nested maps make `BuildSelect` return the same text and the same values, and it
fails for one order exactly when it fails for the other. -/
theorem BuildSelect_order_independent (U : Char → Char) (table : String)
    (selectField : List String) (wh wh' : WhereMap) (h : Reordered wh wh')
    (hn : noCollision U wh = true) :
    (BuildSelect U table wh selectField).1 = (BuildSelect U table wh' selectField).1
    ∧ (BuildSelect U table wh selectField).2.1 = (BuildSelect U table wh' selectField).2.1
    ∧ ((BuildSelect U table wh selectField).2.2 = none
        ↔ (BuildSelect U table wh' selectField).2.2 = none) :=
  BuildSelect_reordered U table selectField h hn

/-- C5 amended, at a map with three operator groups, a limit and an `_or` entry
whose nested map has two keys: the nested map and then the map itself are
enumerated in another order. -/
theorem BuildSelect_order_independent_witness :
    noCollision id
        ([("b", Any.int 1), ("a in", Any.slice [Any.int 2, Any.int 3]), ("_limit", Any.uintSlice [5])]
          ++ ("_or", Any.mapSlice ([] ++ some [("c <", Any.int 4), ("d", Any.int 6)] :: []))
            :: []) = true
    ∧ BuildSelect id "tb"
        ([("b", Any.int 1), ("a in", Any.slice [Any.int 2, Any.int 3]), ("_limit", Any.uintSlice [5])]
          ++ ("_or", Any.mapSlice ([] ++ some [("c <", Any.int 4), ("d", Any.int 6)] :: []))
            :: []) []
      = ("select * from tb where (((d=? and c<?)) and b=? and a in (?,?)) limit ?,?",
         [Any.int 6, Any.int 4, Any.int 1, Any.int 2, Any.int 3, Any.int 0, Any.int 5], none)
    ∧ (BuildSelect id "tb"
        ([("b", Any.int 1), ("a in", Any.slice [Any.int 2, Any.int 3]), ("_limit", Any.uintSlice [5])]
          ++ ("_or", Any.mapSlice ([] ++ some [("c <", Any.int 4), ("d", Any.int 6)] :: []))
            :: []) []).2.1
      = (BuildSelect id "tb"
        [("_or", Any.mapSlice [some [("d", Any.int 6), ("c <", Any.int 4)]]),
         ("b", Any.int 1), ("a in", Any.slice [Any.int 2, Any.int 3]),
         ("_limit", Any.uintSlice [5])] []).2.1 :=
  ⟨by decide, rfl,
   (BuildSelect_order_independent id "tb" [] _ _
    (Reordered.trans _ _ _
      (Reordered.inside
        [("b", Any.int 1), ("a in", Any.slice [Any.int 2, Any.int 3]),
          ("_limit", Any.uintSlice [5])] [] [] []
        [("c <", Any.int 4), ("d", Any.int 6)] [("d", Any.int 6), ("c <", Any.int 4)]
        (Reordered.top _ _ (List.Perm.swap _ _ _)))
      (Reordered.top _ _ List.perm_append_comm))
    (by decide)).2.1⟩

/-- Two keys of a nested map that are filed under the same field and operator
are a collision too: `noCollision` rejects the map, and the value bound follows
the order in which the nested map is enumerated. -/
theorem BuildSelect_nested_order_dependent :
    noCollision id [("_or", Any.mapSlice [some [("a", Any.int 1), (" a", Any.int 2)]])] = false
    ∧ Reordered [("_or", Any.mapSlice [some [("a", Any.int 1), (" a", Any.int 2)]])]
        [("_or", Any.mapSlice [some [(" a", Any.int 2), ("a", Any.int 1)]])]
    ∧ BuildSelect id "t" [("_or", Any.mapSlice [some [("a", Any.int 1), (" a", Any.int 2)]])] []
        = ("select * from t where (((a=?)))", [Any.int 2], none)
    ∧ BuildSelect id "t" [("_or", Any.mapSlice [some [(" a", Any.int 2), ("a", Any.int 1)]])] []
        = ("select * from t where (((a=?)))", [Any.int 1], none) :=
  ⟨by decide,
   Reordered.inside [] [] [] [] _ _ (Reordered.top _ _ (List.Perm.swap _ _ _)), rfl, rfl⟩

end Builder

namespace Builder

/-- C2 as the spec words it fails: the two maps have the same keys (`a in` and
` a in`) and values of the same shape under each key, but both keys are filed
under the field `a` of the group `in`, the entry enumerated last wins, and the
two maps are enumerated in different orders: the texts differ. -/
theorem BuildSelect_text_depends_on_order :
    Reordered [(" a in", Any.slice [Any.int 8, Any.int 7]), ("a in", Any.slice [Any.int 9])]
        [("a in", Any.slice [Any.int 9]), (" a in", Any.slice [Any.int 8, Any.int 7])]
    ∧ SameShape [("a in", Any.slice [Any.int 1]), (" a in", Any.slice [Any.int 1, Any.int 2])]
        [("a in", Any.slice [Any.int 9]), (" a in", Any.slice [Any.int 8, Any.int 7])]
    ∧ BuildSelect id "t" [("a in", Any.slice [Any.int 1]),
          (" a in", Any.slice [Any.int 1, Any.int 2])] []
        = ("select * from t where (a in (?,?))", [Any.int 1, Any.int 2], none)
    ∧ BuildSelect id "t" [(" a in", Any.slice [Any.int 8, Any.int 7]),
          ("a in", Any.slice [Any.int 9])] []
        = ("select * from t where (a in (?))", [Any.int 9], none)
    ∧ (BuildSelect id "t" [("a in", Any.slice [Any.int 1]),
          (" a in", Any.slice [Any.int 1, Any.int 2])] []).1
        ≠ (BuildSelect id "t" [(" a in", Any.slice [Any.int 8, Any.int 7]),
          ("a in", Any.slice [Any.int 9])] []).1 := by
  refine ⟨Reordered.top _ _ (List.Perm.swap _ _ _), ?_, rfl, rfl, by decide⟩
  simp [SameShape, Any.shape, defaultIgnoreKeys]

/-- C2, amended: bound values never reach the query text.  For every two
predicate maps that have the same keys and identical directive entries and whose
field values agree in shape (both scalars, both the same null marker or both
collections of the same length, recursively inside `_or`): when both are
enumerated in the same order, at every level of nesting, `BuildSelect` returns
the same text and the same error for both; and when, at every level of nesting,
no two keys are filed under the same field and operator group, then in whatever
orders the two maps and their nested maps are enumerated (`wh'` is a map that,
enumerated as `wh₀`, has the keys and shapes of `wh` entry by entry),
`BuildSelect` returns the same text for both and fails for both or for
neither. -/
theorem BuildSelect_text_independent_of_values (U : Char → Char) (table : String)
    (selectField : List String) (wh wh' : WhereMap) :
    (SameShape wh wh' →
      (BuildSelect U table wh selectField).1 = (BuildSelect U table wh' selectField).1
      ∧ (BuildSelect U table wh selectField).2.2 = (BuildSelect U table wh' selectField).2.2)
    ∧ (∀ wh₀, Reordered wh' wh₀ → SameShape wh wh₀ → noCollision U wh' = true →
      (BuildSelect U table wh selectField).1 = (BuildSelect U table wh' selectField).1
      ∧ ((BuildSelect U table wh selectField).2.2 = none
          ↔ (BuildSelect U table wh' selectField).2.2 = none)) := by
  refine ⟨BuildSelect_same_shape U table selectField wh wh', ?_⟩
  intro wh₀ hr hs hn
  obtain ⟨h1, h2⟩ := BuildSelect_same_shape U table selectField wh wh₀ hs
  obtain ⟨h3, _, h5⟩ := BuildSelect_reordered U table selectField hr hn
  refine ⟨h1.trans h3.symm, ?_⟩
  rw [h2]
  exact h5.symm

/-- C2 amended, at two maps that differ in every bound value, one of them
holding the text of an injection attempt, and that are enumerated in different
orders, also inside `_or`. -/
theorem BuildSelect_text_independent_of_values_witness :
    (BuildSelect id "tb"
        [("_or", Any.mapSlice [some [("a >", Any.int 3), ("b", Any.int 4)], none]),
         ("name", Any.str "alice"), ("age in", Any.slice [Any.int 1, Any.int 2]),
         ("x", Any.nullType 1), ("_limit", Any.uintSlice [10])] []).1
      = "select * from tb where (((b=? and a>?)) and name=? and age in (?,?) and x is null) limit ?,?"
    ∧ (BuildSelect id "tb"
        [("_or", Any.mapSlice [some [("a >", Any.int 3), ("b", Any.int 4)], none]),
         ("name", Any.str "alice"), ("age in", Any.slice [Any.int 1, Any.int 2]),
         ("x", Any.nullType 1), ("_limit", Any.uintSlice [10])] []).1
      = (BuildSelect id "tb"
        ([("_limit", Any.uintSlice [10])]
          ++ ("_or", Any.mapSlice ([] ++ some [("b", Any.str "?"),
              ("a >", Any.str "0); drop table tb")] :: [none]))
            :: [("name", Any.str "x or 1=1 --"), ("age in", Any.slice [Any.str "a", Any.str "?"]),
                ("x", Any.nullType 1)]) []).1 :=
  ⟨by decide,
   ((BuildSelect_text_independent_of_values id "tb" [] _ _).2
    ((("_or", Any.mapSlice ([] ++ some [("a >", Any.str "0); drop table tb"),
          ("b", Any.str "?")] :: [none]))
        :: [("name", Any.str "x or 1=1 --"), ("age in", Any.slice [Any.str "a", Any.str "?"]),
            ("x", Any.nullType 1)]) ++ [("_limit", Any.uintSlice [10])])
    (Reordered.trans _ _ _
      (Reordered.inside [("_limit", Any.uintSlice [10])]
        [("name", Any.str "x or 1=1 --"), ("age in", Any.slice [Any.str "a", Any.str "?"]),
          ("x", Any.nullType 1)] [] [none]
        [("b", Any.str "?"), ("a >", Any.str "0); drop table tb")]
        [("a >", Any.str "0); drop table tb"), ("b", Any.str "?")]
        (Reordered.top _ _ (List.Perm.swap _ _ _)))
      (Reordered.top _ _ List.perm_append_comm))
    (by simp [SameShape, OrSameShape, ListSameShape, Any.shape, defaultIgnoreKeys])
    (by decide)).1⟩

/-- C20 as the spec words it fails: a `_slimit` that is not a list of unsigned
integers next to a `_limit` of the wrong length gives the length error of
`_limit`, and an `_or` that is not a list of maps enumerated after an empty key
gives the error of the empty key: the first check that fails decides the
error. -/
theorem wrongly_typed_key_preempted :
    BuildSelect id "tb" [("_limit", Any.uintSlice []), ("_slimit", Any.str "x")] []
      = ("", [], some Err.errLimitValueLength)
    ∧ Err.errLimitValueLength ≠ Err.errSLimitValueType
    ∧ BuildSelect id "tb" [("", Any.int 1), ("_or", Any.int 1)] []
      = ("", [], some Err.errSplitEmptyKey)
    ∧ Err.errSplitEmptyKey ≠ Err.errOrValueType
    ∧ BuildSelect id "tb" [("_orderby", Any.int 5), ("_groupby", Any.int 5)] []
      = ("", [], some Err.errOrderByValueType)
    ∧ Err.errOrderByValueType ≠ Err.errGroupByValueType :=
  ⟨rfl, by decide, rfl, by decide, rfl, by decide⟩

/-- C7 at a limit whose begin is `2^63`: `buildSelect` binds `int(limit.begin)`,
which is `-2^63`, not the begin the claim names; the same for a slimit.  The text
is the one the claim gives, and values below `2^63` are bound as they are (the
case of `TestBuildSelect`). -/
theorem buildSelect_limit_values_wrap :
    buildSelect "tb" [] "" "" none (some (eleLimit.mk 9223372036854775808 1)) "" "" []
      = ("select * from tb limit ?,?", [Any.int (-9223372036854775808), Any.int 1], none)
    ∧ buildSelect "tb" [] "" "" (some (eleLimit.mk 1 18446744073709551615)) none "" "" []
      = ("select * from tb slimit ?,?", [Any.int 1, Any.int (-1)], none)
    ∧ (-9223372036854775808 : Int) ≠ Int.ofNat 9223372036854775808
    ∧ (-1 : Int) ≠ Int.ofNat 18446744073709551615
    ∧ (9223372036854775808 : Nat) < 2 ^ 64 ∧ (18446744073709551615 : Nat) < 2 ^ 64
    ∧ buildSelect "tb" ["foo", "bar"] "" "foo DESC,baz ASC" none (some (eleLimit.mk 10 20)) "" ""
        [Comparable.Eq [("foo", Any.int 1), ("bar", Any.int 2)]]
      = ("select foo,bar from tb where (bar=? and foo=?) order by foo DESC,baz ASC limit ?,?",
         [Any.int 2, Any.int 1, Any.int 10, Any.int 20], none) :=
  ⟨rfl, rfl, by decide, by decide, by decide, by decide, rfl⟩

end Builder
